import Mathlib

/-! lwe_proto: a verification development of the protocol compiler.

A shallow embedding of the Go sources `protoc/lexer.go`, `protoc/parser.go`,
`protoc/ast.go`, `protoc/semantic.go`, `protoc/interpreter.go` and `protoc/interp_go.go`.

Conventions of the embedding.

* A Go `panic` (through `doPanic`, `hskParser.panic`, or a Go runtime error such as
  a failed type assertion) is a value `Except.error p` where `p : Panic` names the
  place that panicked.  `DoAnalyze` recovers every panic and returns it as a Go
  `error`, so "DoAnalyze returns an error" is `DoAnalyze .. = .error _`.
* Go `int` is a 64 bit two's complement integer.  Values are kept in `Int` and
  every operation that can overflow goes through `wrap64`.
* The Go AST is a graph of pointers.  The embedding uses trees: an
  `AstUndefType` placeholder carries the value of its `resolved` field as it is
  once parsing has finished (`AstType.nil` is the Go `nil` interface value), and a
  struct type carries the names and types of its fields.  Self-referential
  typedefs (a cyclic pointer graph) have no counterpart in the embedding.
* Go maps are association lists; the code never depends on map iteration order
  in the functions embedded here.
* `addLine(format, args...)` is recorded as the pair of its format and its
  arguments, together with the indentation depth, instead of a rendered string.
* The lexer works on the runes of the text (`List Char`). Its loops that end at the end
  of the text at the latest carry their own bound; `getNextToken` takes a bound `fuel`
  for the loop of `getString`, which need not end, and for its own loop.
* The parser reads the sequence of tokens that `hskLexer.getNextToken` returns. Its
  recursive functions take a bound `fuel` on the depth of the recursion and on the
  length of the loops; `Panic.outOfFuel` says that the bound was reached and is no
  outcome of the Go code.
-/

namespace Protoc

/-! ## Constants of `parser.go` -/

def symTypeVoid : String := "void"
def symTypeInt : String := "int"
def symTypeU1 : String := "u1"
def symTypeU2 : String := "u2"
def symTypeU3 : String := "u3"
def symTypeU4 : String := "u4"
def symTypeU5 : String := "u5"
def symTypeU6 : String := "u6"
def symTypeU7 : String := "u7"
def symTypeU8 : String := "u8"
def symTypeChar : String := "char"
def symTypeU16 : String := "u16"
def symTypeU32 : String := "u32"
def symTypeU64 : String := "u64"
def symTypeV32 : String := "v32"
def symTypeV64 : String := "v64"
def symTypeString : String := "string"
def symTypeArray : String := "array"
def symTypeAny : String := "any"
def symTypeStruct : String := "struct"

/-- The list `builtinTypeArr` of `parser.go`. -/
def builtinTypeArr : List String :=
  [symTypeAny, symTypeInt, symTypeString, symTypeVoid,
   symTypeU1, symTypeU2, symTypeU3, symTypeU4, symTypeU5, symTypeU6, symTypeU7,
   symTypeU8, symTypeChar, symTypeU16, symTypeU32, symTypeU64, symTypeV32, symTypeV64]

/-! ## Token kinds of `lexer.go` -/

/-- The token type constants of `lexer.go` (Go strings used as tags). -/
inductive TokenType where
  | INT_CONST | STRING_CONST
  | TYPE_INT | TYPE_U1 | TYPE_U2 | TYPE_U3 | TYPE_U4 | TYPE_U5 | TYPE_U6 | TYPE_U7
  | TYPE_U8 | TYPE_U16 | TYPE_U32 | TYPE_U64 | TYPE_V32 | TYPE_V64 | TYPE_CHAR
  | TYPE_STRING | TYPE_ANY
  | LPAREN | RPAREN | LBRACE | RBRACE | LBRACKET | RBRACKET | COLON | COMMA | SEMI
  | DOT | LF | TYPE | STRUCT
  | LIMIT | BY | MAX | NEW | DEFMSG | DEFID | SCOMMENT | DEFMID | DEFBIND | NIL
  | OR | XOR | MEND | MSPACE | AND | DESC | EQU | NEQ | LT | LTE | GT | GTE
  | LSHIFT | RSHIFT | BIT_AND | BIT_OR | PLUS | MINUS | MUL | DIV | NOT
  | ID | VAR | CONST | ASSIGN | DEC_ASSIGN | NONE | RETURN
  | IF | EXIST | THIS | ELIF | ELSE | WHILE | BREAK | EXTERN | FOLLOW | ABOVE
  | EOF
  deriving DecidableEq, Repr

/-- The record `Token` of `lexer.go`. -/
structure Token where
  type_ : TokenType
  value : String
  line : Nat
  column : Nat
  deriving DecidableEq, Repr

/-! ## The AST of `ast.go` -/

/-- The interface `AstType` with its four implementations; `nil` is the Go nil
interface value. `AstUndefType` carries its `resolved` field. -/
inductive AstType where
  | nil
  | AstPrimType (name : String)
  | AstArrayType (elemType : AstType)
  | AstStructType (name : String) (fields : List (String × AstType))
  | AstUndefType (name : String) (resolved : AstType)
  deriving Repr

/-- Expression nodes: the implementations of `AstNode` that the parser's `expr`
builds. -/
inductive AstNode where
  | AstBinOP (op : TokenType) (left right : AstNode) (line : Nat)
  | AstUnaryOP (op : TokenType) (dst : AstNode) (line : Nat)
  | AstIntConst (value : Int)
  | AstStringConst (value : String)
  | AstVarNameRef (this : Bool) (name : String) (line : Nat)
  | AstIndexedRef (host index : AstNode) (line : Nat)
  | AstDotRef (host : AstNode) (name : String) (line : Nat)
  deriving DecidableEq, Repr

/-- The node `AstSrcComment`. -/
structure AstSrcComment where
  value : String
  line : Nat
  deriving DecidableEq, Repr

/-- The node `AstVarNameRef` where the Go type is `*AstVarNameRef`. -/
structure VarNameRef where
  this : Bool := false
  name : String
  line : Nat := 0
  deriving DecidableEq, Repr

/-- The node `AstVarDecl`: a message field. -/
structure AstVarDecl where
  name : String
  type_ : AstType
  limit : Option VarNameRef := none
  max : Option VarNameRef := none
  min : Option VarNameRef := none
  equ : Option VarNameRef := none
  xor : Option VarNameRef := none
  existIf : Option AstNode := none
  existCondFollow : Bool := false
  comment : Option AstSrcComment := none
  line : Nat := 0
  deriving Repr

/-- The record `idItem`. -/
structure idItem where
  name : String
  bindMsg : String := ""
  isMsgId : Bool := false
  idVal : Int := 0
  base : Bool := false
  line : Nat := 0
  deriving DecidableEq, Repr

/-- The node `AstIdGroupDef`. -/
structure AstIdGroupDef where
  isMsgId : Bool := false
  name : String
  items : List idItem
  notes : List AstSrcComment := []
  line : Nat := 0
  deriving DecidableEq, Repr

/-- The node `AstStructType` as a declaration (`defmsg`). -/
structure AstStructDecl where
  name : String
  fields : List AstVarDecl
  notes : List AstSrcComment := []
  line : Nat := 0
  deriving Repr

/-- The node `AstConstDef`. -/
structure AstConstDef where
  name : String
  val : AstNode
  line : Nat := 0
  deriving DecidableEq, Repr

/-- The node `AstExternVar`. -/
structure AstExternVar where
  name : String
  type_ : AstType
  line : Nat := 0
  deriving Repr

/-- The node `AstTypeDef`. -/
structure AstTypeDef where
  name : String
  impl : AstType
  deriving Repr

/-- The node `AstBindDef`. -/
structure AstBindDef where
  msgName : String
  msgId : String
  line : Nat := 0
  deriving DecidableEq, Repr

/-- The members of `AstProgram.decl_list`: the node kinds that
`semanticAnalyzer.visitProgram` switches on. -/
inductive Decl where
  | varDecl (node : AstVarDecl)
  | idGroupDef (node : AstIdGroupDef)
  | constDef (node : AstConstDef)
  | structType (node : AstStructDecl)
  | externVar (node : AstExternVar)
  | bindDef (node : AstBindDef)
  | srcComment (node : AstSrcComment)
  | typeDef (node : AstTypeDef)
  deriving Repr

/-- The node `AstProgram`. -/
structure AstProgram where
  mspace : String := ""
  decl_list : List Decl := []
  deriving Repr

/-- The type that a struct declaration denotes when it is referenced as a type. -/
def AstStructDecl.toType (node : AstStructDecl) : AstType :=
  .AstStructType node.name (node.fields.map fun f => (f.name, f.type_))

/-! ## Panics -/

/-- The places where the embedded code panics. -/
inductive Panic where
  /-- `mid space not specified` -/
  | noMspace
  /-- `error var symbol defined in level ...` and `error symbol defined in level ...` -/
  | symbolDefined (name : String)
  /-- `variable type not defined in level ...` -/
  | varTypeNotDefined (name : String)
  /-- `duplicate symbol` of `insertSymbol` -/
  | duplicateSymbol (name : String)
  /-- `id already defined` -/
  | idAlreadyDefined (name : String)
  /-- `id -> %d must be great than ...` -/
  | idNotGreater (name : String)
  /-- `fields in aggregate, but follow filed ... is not int` -/
  | aggrNotInt (field : String)
  /-- `fields in aggregate, but field series not fit in 8 bits boundary` -/
  | aggrNotFit (field : String)
  /-- `must limited by one field or const` -/
  | arrayNoLimit (field : String)
  /-- `not allow exist if in bit field` -/
  | existIfInBitField (field : String)
  /-- `visit msg define error, '%s' should be type int` -/
  | shouldBeInt (what : String)
  /-- `var int and xor are exclusive` -/
  | varIntXor (field : String)
  /-- `fields xor not in 8 bit boundary` -/
  | xorNotOnBoundary (field : String)
  /-- `assign with incompatiable type` -/
  | incompatibleType
  /-- `get signature elem error` -/
  | signatureElem
  /-- `error binop on type` -/
  | binopOnType
  /-- `string type only allow add` -/
  | stringOnlyAdd
  /-- `error in unaryop dst, unknown ast type` -/
  | unaryDst
  /-- `error in indexedRef ... index should be int` -/
  | indexNotInt
  /-- `error in indexedRef ... host should be array` -/
  | hostNotArray
  /-- `error in dotRef ... host should be struct` -/
  | hostNotStruct
  /-- `visit dotRef error, struct %s has no field` -/
  | noSuchField (name : String)
  /-- `error in varRef, symbol not found` -/
  | symbolNotFound (name : String)
  /-- `error in varRef, name: ...` for a symbol that is no `varSymbol` -/
  | notVarSymbol (name : String)
  /-- `error bind, msg name: %s not found` -/
  | bindMsgNotFound (name : String)
  /-- `msg bind error ... mid not defined yet` -/
  | bindMidNotDefined (name : String)
  /-- `msg bind error ... mid is not msg id` -/
  | bindNotMsgId (name : String)
  /-- `msg bind error ... already bind to` -/
  | bindAlready (name : String)
  /-- `unknown primitive type` of `AstPrimType.signature` -/
  | unknownPrimType (name : String)
  /-- `doPanic("")` of `sigParser.getNextElem` -/
  | sigParser
  /-- `unknown ast type` of `visitAst` -/
  | unknownAst
  /-- a Go runtime error: type assertion on, or method call through, a nil interface -/
  | nilInterface
  /-- a Go runtime error: index out of range -/
  | indexOutOfRange
  /-- `parse error, expect '%s', find ...` of `eat` -/
  | parseExpect (want found : TokenType) (line : Nat)
  /-- `parse failed ... lexer error` of `eat` -/
  | lexerError
  /-- `missing seperator after` -/
  | missingSeperator (line : Nat)
  /-- `duplicate type define` -/
  | duplicateTypeDefine (name : String)
  /-- `expect desc terms` -/
  | expectDescTerms (line : Nat)
  /-- `error type spec` -/
  | errorTypeSpec (line : Nat)
  /-- `parse factor failed` -/
  | parseFactor (line : Nat)
  /-- the emitter's `doPanic` calls -/
  | emit (what : String)
  /-- a Go runtime error: a failed type assertion `x.(T)` on a value of another type -/
  | typeAssertion
  /-- a Go runtime error: negative shift amount -/
  | negativeShift
  /-- no outcome of the Go code: the bound on the recursion of the embedding was reached -/
  | outOfFuel
  deriving DecidableEq, Repr

/-! ## `isIntType`, `isVarInt` (parser.go) -/

/-- The inner `switch ft.name` of `isIntType`. -/
def primIntWidth (name : String) : Bool × Nat :=
  if name = symTypeU1 then (true, 1)
  else if name = symTypeU2 then (true, 2)
  else if name = symTypeU3 then (true, 3)
  else if name = symTypeU4 then (true, 4)
  else if name = symTypeU5 then (true, 5)
  else if name = symTypeU6 then (true, 6)
  else if name = symTypeU7 then (true, 7)
  else if name = symTypeU8 then (true, 8)
  else if name = symTypeChar then (true, 8)
  else if name = symTypeU16 then (true, 16)
  else if name = symTypeU32 ∨ name = symTypeV32 then (true, 32)
  else if name = symTypeU64 ∨ name = symTypeV64 then (true, 64)
  else (false, 0)

/-- `isIntType` of `parser.go`. -/
def isIntType (tp : AstType) : Bool × Nat :=
  match tp with
  | .AstPrimType name => primIntWidth name
  | _ => (false, 0)

/-- `isVarInt` of `parser.go`. -/
def isVarInt (tp : AstType) : Bool :=
  match tp with
  | .AstPrimType name => decide (name = symTypeV32 ∨ name = symTypeV64)
  | _ => false

/-- `realType` of `ast.go`. -/
def realType (tp : AstType) : AstType :=
  match tp with
  | .AstUndefType _ resolved => resolved
  | t => t

/-! ## The bit aggregation check of `visitMsgDefine` (semantic.go 312-339) -/

/-- The loop variables `inAggr`, `bits` of `visitMsgDefine`. -/
structure AggrState where
  inAggr : Bool
  bits : Nat
  deriving DecidableEq, Repr

/-- The first statement group of the loop body of `visitMsgDefine`: from the
variables `inAggr`, `bits` and the field, the new variables and `xorOk`, `ok`. -/
def aggrStep (st : AggrState) (fname : String) (tp : AstType) :
    Except Panic (AggrState × Bool × Bool) :=
  let (ok, bn) := isIntType tp
  if st.inAggr then
    if !ok then .error (.aggrNotInt fname)
    else
      let bits := st.bits + bn
      if bits < 8 then .ok ({ inAggr := true, bits := bits }, false, ok)
      else if bits = 8 then .ok ({ inAggr := false, bits := 0 }, false, ok)
      else .error (.aggrNotFit fname)
  else if ok then
    if bn % 8 ≠ 0 then .ok ({ inAggr := true, bits := bn }, true, ok)
    else .ok (st, true, ok)
  else .ok ({ inAggr := false, bits := 0 }, false, ok)

/-! ## Signatures (ast.go, signature.go) -/

def AST_TP_Primitive : Nat := 21
def AST_TP_Array : Nat := 22
def AST_TP_Struct : Nat := 23
def AST_TP_UndefType : Nat := 26

/-- The method `astType` of the four implementations of `AstType`; a call through
the nil interface is a runtime error. -/
def AstType.astType : AstType → Except Panic Nat
  | .nil => .error .nilInterface
  | .AstPrimType _ => .ok AST_TP_Primitive
  | .AstArrayType _ => .ok AST_TP_Array
  | .AstStructType _ _ => .ok AST_TP_Struct
  | .AstUndefType _ _ => .ok AST_TP_UndefType

/-- The method `signature` of `AstPrimType`. -/
def primSignature (name : String) : Except Panic String :=
  if name = symTypeAny then .ok "*"
  else if name = symTypeVoid then .ok "V"
  else if name = symTypeInt ∨ name = symTypeU1 ∨ name = symTypeU2 ∨ name = symTypeU4
      ∨ name = symTypeU8 ∨ name = symTypeU16 ∨ name = symTypeU32 ∨ name = symTypeU64
      ∨ name = symTypeV32 ∨ name = symTypeV64 then .ok "I"
  else if name = symTypeString then .ok "S"
  else .error (.unknownPrimType name)

/-- The method `signature` of the implementations of `AstType`. -/
def AstType.signature : AstType → Except Panic String
  | .nil => .error .nilInterface
  | .AstPrimType name => primSignature name
  | .AstArrayType elemType =>
    match elemType.signature with
    | .ok s => .ok ("[" ++ s)
    | .error e => .error e
  | .AstStructType name _ => .ok ("s" ++ name ++ ";")
  | .AstUndefType name .nil => .ok ("?" ++ name ++ ";")
  | .AstUndefType _ resolved => resolved.signature

/-- The `tp` of the first element that `newSigParser(text).getNextElem()` returns;
`none` is the nil result on the empty text. -/
def sigFirstElemTp (text : String) : Except Panic (Option String) :=
  match text.toList with
  | [] => .ok none
  | c :: _ =>
    if c = '*' then .ok (some symTypeAny)
    else if c = 'I' then .ok (some symTypeInt)
    else if c = 'S' then .ok (some symTypeString)
    else if c = '[' then .ok (some symTypeArray)
    else if c = 'V' then .ok (some symTypeArray)
    else if c = 's' then .ok (some symTypeStruct)
    else .error .sigParser

/-! ## Symbol tables (semantic.go) -/

/-- Lookup in a Go map kept as an association list. -/
def mapGet {α : Type} (m : List (String × α)) (k : String) : Option α :=
  match m with
  | [] => none
  | (k', v) :: rest => if k' = k then some v else mapGet rest k

/-- Assignment `m[k] = v` in a Go map kept as an association list. -/
def mapSet {α : Type} (m : List (String × α)) (k : String) (v : α) : List (String × α) :=
  (k, v) :: m

/-- The implementations `builtinSymbol` and `varSymbol` of `symbolClass`. -/
inductive symbolClass where
  | builtinSymbol (name : String)
  | varSymbol (name : String) (type_ : AstType) (lvl : Int) (line : Nat)
  deriving Repr

/-- The method `symName`. -/
def symbolClass.symName : symbolClass → String
  | .builtinSymbol name => name
  | .varSymbol name _ _ _ => name

/-- The record `symbolTable`; `upLevel` is the next table of the analyzer's stack. -/
structure symbolTable where
  table : List (String × symbolClass)
  level : Int
  deriving Repr

/-- `newSymTable`. -/
def newSymTable (level : Int) : symbolTable :=
  { table := builtinTypeArr.foldl (fun tb val => mapSet tb val (.builtinSymbol val)) [],
    level := level }

/-- `newVarSymbol`. -/
def newVarSymbol (name : String) (type_ : AstType) (lvl : Int) (line : Nat) : symbolClass :=
  match type_ with
  | .AstUndefType _ resolved => .varSymbol name resolved lvl line
  | t => .varSymbol name t lvl line

/-- `symbolTable.insertSymbol`. -/
def symbolTable.insertSymbol (tb : symbolTable) (sym : symbolClass) : Except Panic symbolTable :=
  match mapGet tb.table sym.symName with
  | some _ => .error (.duplicateSymbol sym.symName)
  | none => .ok { tb with table := mapSet tb.table sym.symName sym }

/-- `symbolTable.lookup` on the table on top of a stack of tables (the head of the
list); the tail of the list is the chain of `upLevel` pointers. -/
def lookup (stack : List symbolTable) (name : String) (chained : Bool) : Option symbolClass :=
  match stack with
  | [] => none
  | tb :: up =>
    match mapGet tb.table name with
    | some sym => some sym
    | none => if chained then lookup up name chained else none

/-- The record `semanticAnalyzer`. `symbolStack` has the current table
(`curSymbolTable`) at its head. -/
structure semanticAnalyzer where
  symbolStack : List symbolTable
  stackSize : Int
  firstPass : Bool
  midMap : List (String × idItem)
  deriving Repr

/-- `NewSemanticAnalyzer`. -/
def NewSemanticAnalyzer : semanticAnalyzer :=
  { symbolStack := [newSymTable 0], stackSize := 1, firstPass := true, midMap := [] }

/-- The level of `curSymbolTable`. -/
def semanticAnalyzer.curLevel (se : semanticAnalyzer) : Int :=
  match se.symbolStack with
  | [] => 0
  | tb :: _ => tb.level

/-- `se.curSymbolTable.insertSymbol(sym, se.debug)`. -/
def semanticAnalyzer.insertSymbol (se : semanticAnalyzer) (sym : symbolClass) :
    Except Panic semanticAnalyzer :=
  match se.symbolStack with
  | [] => .error .nilInterface
  | tb :: up =>
    match tb.insertSymbol sym with
    | .ok tb' => .ok { se with symbolStack := tb' :: up }
    | .error e => .error e

/-- `pushSymbolTable`. -/
def semanticAnalyzer.pushSymbolTable (se : semanticAnalyzer) : semanticAnalyzer :=
  { se with symbolStack := newSymTable se.stackSize :: se.symbolStack,
            stackSize := se.stackSize + 1 }

/-- `popSymbolTable`. -/
def semanticAnalyzer.popSymbolTable (se : semanticAnalyzer) : Except Panic semanticAnalyzer :=
  match se.symbolStack with
  | _ :: tb :: up => .ok { se with symbolStack := tb :: up, stackSize := se.stackSize - 1 }
  | _ => .error .indexOutOfRange

/-! ## Expression typing (semantic.go) -/

/-- The Go type assertion `x.(AstType)` on an `interface{}` value. -/
def assertAstType (x : AstType) : Except Panic AstType :=
  match x with
  | .nil => .error .nilInterface
  | t => .ok t

/-- `semanticAnalyzer.visitVarRef`. -/
def visitVarRef (se : semanticAnalyzer) (name : String) : Except Panic AstType :=
  match lookup se.symbolStack name true with
  | none => .error (.symbolNotFound name)
  | some (.varSymbol _ type_ _ _) => .ok (realType type_)
  | some (.builtinSymbol _) => .error (.notVarSymbol name)

/-- The field search of `semanticAnalyzer.visitDotRef`. -/
def findField (fields : List (String × AstType)) (name : String) : Option AstType :=
  match fields with
  | [] => none
  | (fname, ftype) :: rest => if fname = name then some (realType ftype) else findField rest name

/-- The switch of `semanticAnalyzer.visitBinOP` on the first signature element. -/
def checkBinOP (op : TokenType) (lhs : AstType) : Except Panic AstType :=
  match lhs.signature with
  | .error e => .error e
  | .ok sig =>
    match sigFirstElemTp sig with
    | .error e => .error e
    | .ok none => .error .signatureElem
    | .ok (some tp) =>
      if tp = symTypeInt then .ok lhs
      else if tp = symTypeVoid ∨ tp = symTypeAny ∨ tp = symTypeArray ∨ tp = symTypeStruct then
        .error .binopOnType
      else if tp = symTypeString then
        if op ≠ .PLUS then .error .stringOnlyAdd else .ok lhs
      else .error .binopOnType

/-- `semanticAnalyzer.visitAst` on expression nodes, with `visitBinOP`, `visitUnaryOP`,
`visitIntConst`, `visitStringConst`, `visitVarRef`, `visitIndexedRef`, `visitDotRef`.
The result is the `interface{}` value returned (`AstType.nil` for nil). -/
def visitAst (se : semanticAnalyzer) : AstNode → Except Panic AstType
  | .AstBinOP op left right _ =>
    match visitAst se left with
    | .error e => .error e
    | .ok l =>
      match assertAstType l with
      | .error e => .error e
      | .ok lhs =>
        match visitAst se right with
        | .error e => .error e
        | .ok r =>
          match assertAstType r with
          | .error e => .error e
          | .ok rhs =>
            match lhs.signature with
            | .error e => .error e
            | .ok sl =>
              match rhs.signature with
              | .error e => .error e
              | .ok sr => if sl ≠ sr then .error .incompatibleType else checkBinOP op lhs
  | .AstUnaryOP _ dst _ =>
    match dst with
    | .AstBinOP _ _ _ _ | .AstUnaryOP _ _ _ | .AstIntConst _ | .AstVarNameRef _ _ _ =>
      match visitAst se dst with
      | .error e => .error e
      | .ok r => assertAstType r
    | _ => .error .unaryDst
  | .AstIntConst _ => .ok (.AstPrimType symTypeInt)
  | .AstStringConst _ => .ok (.AstPrimType symTypeString)
  | .AstVarNameRef _ name _ => visitVarRef se name
  | .AstIndexedRef host index _ =>
    match visitAst se index with
    | .error e => .error e
    | .ok (.AstPrimType name) =>
      if name ≠ symTypeInt then .error .indexNotInt
      else
        match visitAst se host with
        | .error e => .error e
        | .ok (.AstArrayType elemType) => .ok elemType
        | .ok _ => .error .hostNotArray
    | .ok _ => .error .indexNotInt
  | .AstDotRef host name _ =>
    match visitAst se host with
    | .error e => .error e
    | .ok (.AstStructType sname fields) =>
      match findField fields name with
      | some t => .ok t
      | none => .error (.noSuchField sname)
    | .ok _ => .error .hostNotStruct

/-! ## Declarations (semantic.go) -/

/-- `semanticAnalyzer.visitVarDecl`. -/
def visitVarDecl (se : semanticAnalyzer) (node : AstVarDecl) : Except Panic semanticAnalyzer :=
  match lookup se.symbolStack node.name false with
  | some _ => .error (.symbolDefined node.name)
  | none =>
    let typeKnown : Bool :=
      match node.type_ with
      | .AstPrimType pname => (lookup se.symbolStack pname true).isSome
      | _ => true
    if !typeKnown then .error (.varTypeNotDefined node.name)
    else se.insertSymbol (newVarSymbol node.name node.type_ se.curLevel node.line)

/-- `semanticAnalyzer.visitConstDef`. -/
def visitConstDef (se : semanticAnalyzer) (node : AstConstDef) : Except Panic semanticAnalyzer :=
  match lookup se.symbolStack node.name false with
  | some _ => .error (.symbolDefined node.name)
  | none =>
    match visitAst se node.val with
    | .error e => .error e
    | .ok t =>
      match assertAstType t with
      | .error e => .error e
      | .ok tp => se.insertSymbol (newVarSymbol node.name tp se.curLevel node.line)

/-- `semanticAnalyzer.visitExternVar`. -/
def visitExternVar (se : semanticAnalyzer) (node : AstExternVar) : Except Panic semanticAnalyzer :=
  match lookup se.symbolStack node.name false with
  | some _ => .error (.symbolDefined node.name)
  | none => se.insertSymbol (newVarSymbol node.name node.type_ se.curLevel node.line)

/-- Reduction of an arithmetic result to the range of the Go type `int` (64 bit
two's complement). -/
def wrap64 (x : Int) : Int :=
  (x + 9223372036854775808) % 18446744073709551616 - 9223372036854775808

/-- The loop of `semanticAnalyzer.visitIdGroupDefine` from item number `i` on:
`val` is the loop variable, `midMap` the analyzer's map; the result has the items as
the loop leaves them. -/
def visitIdItems (isMsgId : Bool) (midMap : List (String × idItem)) (val : Int) (i : Nat) :
    List idItem → Except Panic (List (String × idItem) × List idItem)
  | [] => .ok (midMap, [])
  | id :: rest =>
    let id1 : idItem := { id with isMsgId := isMsgId }
    match mapGet midMap id1.name with
    | some _ => .error (.idAlreadyDefined id1.name)
    | none =>
      if id1.base then
        if i > 0 ∧ id1.idVal ≤ val then .error (.idNotGreater id1.name)
        else
          match visitIdItems isMsgId (mapSet midMap id1.name id1) id1.idVal (i + 1) rest with
          | .error e => .error e
          | .ok (m, out) => .ok (m, id1 :: out)
      else
        let val1 := wrap64 (val + 1)
        let id2 : idItem := { id1 with idVal := val1 }
        match visitIdItems isMsgId (mapSet midMap id2.name id2) val1 (i + 1) rest with
        | .error e => .error e
        | .ok (m, out) => .ok (m, id2 :: out)

/-- `semanticAnalyzer.visitIdGroupDefine`; the node is returned as the analyzer
leaves it (it writes `isMsgId` and `idVal` into the items). -/
def visitIdGroupDefine (se : semanticAnalyzer) (node : AstIdGroupDef) :
    Except Panic (semanticAnalyzer × AstIdGroupDef) :=
  if node.items.length = 0 then .ok (se, node)
  else
    match lookup se.symbolStack node.name false with
    | some _ => .error (.symbolDefined node.name)
    | none =>
      match se.insertSymbol
          (newVarSymbol node.name (.AstPrimType symTypeInt) se.curLevel node.line) with
      | .error e => .error e
      | .ok se1 =>
        match visitIdItems node.isMsgId se1.midMap 0 0 node.items with
        | .error e => .error e
        | .ok (m, items) => .ok ({ se1 with midMap := m }, { node with items := items })

/-- The closure `visit` of `semanticAnalyzer.visitMsgDefine`. -/
def visitModifier (se : semanticAnalyzer) (ast : Option VarNameRef) (name : String) :
    Except Panic Unit :=
  match ast with
  | none => .ok ()
  | some ref =>
    match visitVarRef se ref.name with
    | .error e => .error e
    | .ok t =>
      match assertAstType t with
      | .error e => .error e
      | .ok tp =>
        match tp.signature with
        | .error e => .error e
        | .ok sig => if sig ≠ "I" then .error (.shouldBeInt name) else .ok ()

/-- The `xor` check at the end of the loop body of `visitMsgDefine`. -/
def visitXor (se : semanticAnalyzer) (f : AstVarDecl) (xorOk : Bool) : Except Panic Unit :=
  match f.xor with
  | none => .ok ()
  | some ref =>
    if isVarInt f.type_ then .error (.varIntXor f.name)
    else if xorOk then visitModifier se (some ref) "xor"
    else .error (.xorNotOnBoundary f.name)

/-- The part of the loop body of `visitMsgDefine` after `se.visitAst(f)`
(semantic.go 342-372). -/
def visitFieldChecks (se : semanticAnalyzer) (f : AstVarDecl) (xorOk ok : Bool) :
    Except Panic Unit :=
  match f.type_.astType with
  | .error e => .error e
  | .ok k =>
    if k = AST_TP_Array ∧ f.limit.isNone then .error (.arrayNoLimit f.name)
    else if f.existIf.isSome ∧ ok ∧ !xorOk then .error (.existIfInBitField f.name)
    else
      match visitModifier se f.equ "equal" with
      | .error e => .error e
      | .ok _ =>
        match visitModifier se f.limit "limit" with
        | .error e => .error e
        | .ok _ =>
          match visitModifier se f.max "max" with
          | .error e => .error e
          | .ok _ =>
            match visitModifier se f.min "min" with
            | .error e => .error e
            | .ok _ => visitXor se f xorOk

/-- One iteration of the field loop of `visitMsgDefine`. -/
def visitField (se : semanticAnalyzer) (st : AggrState) (f : AstVarDecl) :
    Except Panic (semanticAnalyzer × AggrState) :=
  match aggrStep st f.name f.type_ with
  | .error e => .error e
  | .ok (st1, xorOk, ok) =>
    match visitVarDecl se f with
    | .error e => .error e
    | .ok se1 =>
      match visitFieldChecks se1 f xorOk ok with
      | .error e => .error e
      | .ok _ => .ok (se1, st1)

/-- The field loop of `visitMsgDefine`; the result has the loop variables `inAggr`
and `bits` as they are when the loop ends. -/
def visitFields (se : semanticAnalyzer) (st : AggrState) :
    List AstVarDecl → Except Panic (semanticAnalyzer × AggrState)
  | [] => .ok (se, st)
  | f :: rest =>
    match visitField se st f with
    | .error e => .error e
    | .ok (se1, st1) => visitFields se1 st1 rest

/-- `semanticAnalyzer.visitMsgDefine`. -/
def visitMsgDefine (se : semanticAnalyzer) (node : AstStructDecl) :
    Except Panic semanticAnalyzer :=
  match lookup se.symbolStack node.name false with
  | some _ => .error (.symbolDefined node.name)
  | none =>
    match se.insertSymbol (newVarSymbol node.name node.toType se.curLevel node.line) with
    | .error e => .error e
    | .ok se1 =>
      match visitFields se1.pushSymbolTable { inAggr := false, bits := 0 } node.fields with
      | .error e => .error e
      | .ok (se2, _) => se2.popSymbolTable

/-- Replace the value stored under an existing key of a Go map of pointers: the
write `id.bindMsg = ...` through the pointer kept in `midMap`. -/
def mapUpdate {α : Type} (m : List (String × α)) (k : String) (v : α) : List (String × α) :=
  match m with
  | [] => []
  | (k', v') :: rest => if k' = k then (k', v) :: rest else (k', v') :: mapUpdate rest k v

/-- `semanticAnalyzer.visitBindDef`. -/
def visitBindDef (se : semanticAnalyzer) (node : AstBindDef) : Except Panic semanticAnalyzer :=
  if node.msgName.length = 0 then .ok se
  else
    match lookup se.symbolStack node.msgName false with
    | none => .error (.bindMsgNotFound node.msgName)
    | some _ =>
      match mapGet se.midMap node.msgId with
      | none => .error (.bindMidNotDefined node.msgId)
      | some id =>
        if !id.isMsgId then .error (.bindNotMsgId node.msgId)
        else if id.bindMsg.length ≠ 0 then .error (.bindAlready node.msgId)
        else .ok { se with midMap := mapUpdate se.midMap node.msgId { id with bindMsg := node.msgName } }

/-- The body of the loop of `semanticAnalyzer.visitProgram` for one declaration; the
declaration is returned as the analyzer leaves it. -/
def visitDecl (se : semanticAnalyzer) (decl : Decl) : Except Panic (semanticAnalyzer × Decl) :=
  match decl with
  | .varDecl node =>
    if se.firstPass then
      match visitVarDecl se node with
      | .error e => .error e
      | .ok se1 => .ok (se1, decl)
    else .ok (se, decl)
  | .idGroupDef node =>
    if se.firstPass then
      match visitIdGroupDefine se node with
      | .error e => .error e
      | .ok (se1, node1) => .ok (se1, .idGroupDef node1)
    else .ok (se, decl)
  | .constDef node =>
    if se.firstPass then
      match visitConstDef se node with
      | .error e => .error e
      | .ok se1 => .ok (se1, decl)
    else .ok (se, decl)
  | .structType node =>
    if se.firstPass then
      match visitMsgDefine se node with
      | .error e => .error e
      | .ok se1 => .ok (se1, decl)
    else .ok (se, decl)
  | .externVar node =>
    if se.firstPass then
      match visitExternVar se node with
      | .error e => .error e
      | .ok se1 => .ok (se1, decl)
    else .ok (se, decl)
  | .bindDef node =>
    if !se.firstPass then
      match visitBindDef se node with
      | .error e => .error e
      | .ok se1 => .ok (se1, decl)
    else .ok (se, decl)
  | .srcComment _ => .ok (se, decl)
  | .typeDef _ => .ok (se, decl)

/-- The loop of `semanticAnalyzer.visitProgram` over `decl_list`. -/
def visitDecls (se : semanticAnalyzer) : List Decl → Except Panic (semanticAnalyzer × List Decl)
  | [] => .ok (se, [])
  | decl :: rest =>
    match visitDecl se decl with
    | .error e => .error e
    | .ok (se1, decl1) =>
      match visitDecls se1 rest with
      | .error e => .error e
      | .ok (se2, rest1) => .ok (se2, decl1 :: rest1)

/-- `semanticAnalyzer.visitProgram`. -/
def visitProgram (se : semanticAnalyzer) (program : AstProgram) :
    Except Panic (semanticAnalyzer × AstProgram) :=
  if program.mspace = "" then .error .noMspace
  else
    match visitDecls se program.decl_list with
    | .error e => .error e
    | .ok (se1, decls) => .ok ({ se1 with firstPass := false }, { program with decl_list := decls })

/-- `semanticAnalyzer.DoAnalyze` on a root that is an `*AstProgram`: `.error` is the
error returned (every panic is recovered), `.ok` is the nil result together with the
analyzer and the program as the two passes leave them. -/
def DoAnalyze (se : semanticAnalyzer) (root : AstProgram) :
    Except Panic (semanticAnalyzer × AstProgram) :=
  match visitProgram se root with
  | .error e => .error e
  | .ok (se1, root1) => visitProgram se1 root1

/-! ## The bit aggregation state machine as the specification words it -/

/-- The two states of a field run of section 4.4 of the specification. -/
inductive RunState where
  | flat
  | aggregating (bits_so_far : Nat)
  deriving DecidableEq, Repr

/-- The transition of section 4.4 on a field that is an integer of width `bn`
(`isInt`) or not an integer; `none` is the semantic error. -/
def specTransition (s : RunState) (isInt : Bool) (bn : Nat) : Option RunState :=
  match s with
  | .flat =>
    if isInt ∧ bn % 8 ≠ 0 then some (.aggregating bn)
    else some .flat
  | .aggregating k =>
    if !isInt then none
    else if k + bn > 8 then none
    else if k + bn < 8 then some (.aggregating (k + bn))
    else some .flat

/-- The state of section 4.4 after a sequence of fields. -/
def specRun (s : RunState) : List (Bool × Nat) → Option RunState
  | [] => some s
  | p :: rest =>
    match specTransition s p.1 p.2 with
    | none => none
    | some s1 => specRun s1 rest

/-- The state of section 4.4 that the loop variables `inAggr`, `bits` stand for. -/
def AggrState.toRunState (st : AggrState) : RunState :=
  if st.inAggr then .aggregating st.bits else .flat

/-- The loop variables `inAggr`, `bits` of `visitMsgDefine` after the fields, as far
as the aggregation check alone decides them. -/
def aggrRun (st : AggrState) : List AstVarDecl → Except Panic AggrState
  | [] => .ok st
  | f :: rest =>
    match aggrStep st f.name f.type_ with
    | .error e => .error e
    | .ok (st1, _, _) => aggrRun st1 rest

/-- The state of an `Except` result, `none` for a panic. -/
def okState (r : Except Panic AggrState) : Option RunState :=
  match r with
  | .ok st => some st.toRunState
  | .error _ => none

/-- The results that `isIntType` can return. -/
def IsIntResult (r : Bool × Nat) : Prop :=
  r = (false, 0) ∨ ∃ bn, r = (true, bn) ∧
      (bn = 1 ∨ bn = 2 ∨ bn = 3 ∨ bn = 4 ∨ bn = 5 ∨ bn = 6 ∨ bn = 7 ∨ bn = 8 ∨ bn = 16
        ∨ bn = 32 ∨ bn = 64)

/-- The loop variables stand for a state of section 4.4 with `bits_so_far` in 1..7. -/
def AggrState.inRange (st : AggrState) : Prop :=
  st.inAggr = true → 1 ≤ st.bits ∧ st.bits ≤ 7

/-! ## Integer literals (ast.go) -/

/-- The value of a digit for `strconv.ParseUint`: `0-9`, `a-z`, `A-Z`. -/
def digitVal (c : Char) : Option Nat :=
  if '0' ≤ c ∧ c ≤ '9' then some (c.toNat - '0'.toNat)
  else if 'a' ≤ c ∧ c ≤ 'z' then some (c.toNat - 'a'.toNat + 10)
  else if 'A' ≤ c ∧ c ≤ 'Z' then some (c.toNat - 'A'.toNat + 10)
  else none

/-- The loop of `strconv.ParseUint(s, base, 64)` with the error dropped: a syntax
error gives 0, a range error gives `2^64 - 1`. -/
def parseUintLoop (base : Nat) (n : Nat) : List Char → Nat
  | [] => n
  | c :: rest =>
    match digitVal c with
    | none => 0
    | some d =>
      if d ≥ base then 0
      else if n * base + d ≥ 18446744073709551616 then 18446744073709551615
      else parseUintLoop base (n * base + d) rest

/-- The first result of `strconv.ParseUint(s, base, 64)` for base 10 and 16. -/
def parseUint (base : Nat) (s : List Char) : Nat :=
  match s with
  | [] => 0
  | _ => parseUintLoop base 0 s

/-- `intConstVal` of `ast.go`: the conversion `int(val)` of the `uint64` keeps the
bit pattern. -/
def intConstVal (str : String) : Int :=
  let val : Nat :=
    match str.toList with
    | '0' :: 'x' :: rest => parseUint 16 rest
    | cs => parseUint 10 cs
  if val ≥ 9223372036854775808 then (val : Int) - 18446744073709551616 else (val : Int)

/-! ## The parser (parser.go) -/

/-- The record `hskParser`. `lex` is the sequence of results that the following
calls of `lex.getNextToken()` return; when it is used up the lexer returns nil (a
lexer error). The look-ahead buffer is left out: nothing calls `mark_push`, so
`eat` always takes the next token from the lexer. -/
structure hskParser where
  lex : List Token
  prevToken : Option Token
  curToken : Token
  tpMap : List (String × AstType)
  deriving Repr

/-- The Go map read `p.tpMap[name]`: nil when the key is absent. -/
def hskParser.tpGet (p : hskParser) (name : String) : AstType :=
  match mapGet p.tpMap name with
  | some t => t
  | none => .nil

/-- `hskParser.eat`. -/
def eat (p : hskParser) (ttype : TokenType) : Except Panic hskParser :=
  if p.curToken.type_ = ttype then
    match p.lex with
    | [] => .error .lexerError
    | tok :: rest => .ok { p with lex := rest, prevToken := some p.curToken, curToken := tok }
  else .error (.parseExpect ttype p.curToken.type_ p.curToken.line)

/-- `hskParser.eatSeperator`. -/
def eatSeperator (p : hskParser) : Except Panic hskParser :=
  if p.curToken.type_ = .SEMI then eat p .SEMI
  else
    match p.prevToken with
    | some prev =>
      if p.curToken.type_ ≠ .EOF ∧ prev.line = p.curToken.line then
        .error (.missingSeperator p.curToken.line)
      else .ok p
    | none => .ok p

/-- The value and the line of `p.prevToken` after a successful `eat`. -/
def hskParser.prevValue (p : hskParser) : String :=
  match p.prevToken with
  | some t => t.value
  | none => ""

/-- The line of `p.prevToken`. -/
def hskParser.prevLine (p : hskParser) : Nat :=
  match p.prevToken with
  | some t => t.line
  | none => 0

/-- The primitive type that a type keyword token names in `type_spec`. -/
def typeKeyword (t : TokenType) : Option String :=
  if t = .TYPE_INT then some symTypeInt
  else if t = .TYPE_STRING then some symTypeString
  else if t = .TYPE_ANY then some symTypeAny
  else if t = .TYPE_U1 then some symTypeU1
  else if t = .TYPE_U2 then some symTypeU2
  else if t = .TYPE_U3 then some symTypeU3
  else if t = .TYPE_U4 then some symTypeU4
  else if t = .TYPE_U5 then some symTypeU5
  else if t = .TYPE_U6 then some symTypeU6
  else if t = .TYPE_U7 then some symTypeU7
  else if t = .TYPE_U8 then some symTypeU8
  else if t = .TYPE_CHAR then some symTypeChar
  else if t = .TYPE_U16 then some symTypeU16
  else if t = .TYPE_U32 then some symTypeU32
  else if t = .TYPE_U64 then some symTypeU64
  else if t = .TYPE_V32 then some symTypeV32
  else if t = .TYPE_V64 then some symTypeV64
  else none

/-- `hskParser.type_spec`. The first argument bounds the depth of the recursion. -/
def type_spec : Nat → hskParser → Except Panic (AstType × hskParser)
  | 0, _ => .error .outOfFuel
  | fuel + 1, p =>
    match typeKeyword p.curToken.type_ with
    | some name =>
      match eat p p.curToken.type_ with
      | .error e => .error e
      | .ok p1 => .ok (p1.tpGet name, p1)
    | none =>
      if p.curToken.type_ = .LBRACKET then
        match eat p .LBRACKET with
        | .error e => .error e
        | .ok p1 =>
          match eat p1 .RBRACKET with
          | .error e => .error e
          | .ok p2 =>
            match type_spec fuel p2 with
            | .error e => .error e
            | .ok (elemType, p3) => .ok (.AstArrayType elemType, p3)
      else if p.curToken.type_ = .ID then
        match eat p .ID with
        | .error e => .error e
        | .ok p1 =>
          match p1.tpGet p1.prevValue with
          | .nil =>
            let ast := AstType.AstUndefType p1.prevValue .nil
            .ok (ast, { p1 with tpMap := mapSet p1.tpMap p1.prevValue ast })
          | tp => .ok (tp, p1)
      else .error (.errorTypeSpec p.curToken.line)

/-- The result type of the expression parsers. -/
abbrev ExprParser := hskParser → Except Panic (AstNode × hskParser)

/-- The loop `for p.curToken.type_ == OP1 || ... { ... }` shared by the functions
`expr`, `expr_and`, ..., `expr_mul`: `ops` are the operators of the level, `lower`
parses the operand. -/
def binLoop (ops : List TokenType) (lower : ExprParser) :
    Nat → AstNode → hskParser → Except Panic (AstNode × hskParser)
  | 0, _, _ => .error .outOfFuel
  | fuel + 1, node, p =>
    if p.curToken.type_ ∈ ops then
      let token := p.curToken
      match eat p p.curToken.type_ with
      | .error e => .error e
      | .ok p1 =>
        match lower p1 with
        | .error e => .error e
        | .ok (right, p2) => binLoop ops lower fuel (.AstBinOP token.type_ node right token.line) p2
    else .ok (node, p)

/-- One level of the expression ladder: an operand, then `binLoop`. -/
def binLevel (ops : List TokenType) (lower : ExprParser) (fuel : Nat) : ExprParser :=
  fun p =>
    match lower p with
    | .error e => .error e
    | .ok (node, p1) => binLoop ops lower fuel node p1

/-- The loop of `hskParser.var_ref` over `[expr]` and `.ID` suffixes. -/
def varRefLoop (exprRec : ExprParser) :
    Nat → AstNode → hskParser → Except Panic (AstNode × hskParser)
  | 0, _, _ => .error .outOfFuel
  | fuel + 1, ast, p =>
    if p.curToken.type_ = .LBRACKET then
      let line := p.curToken.line
      match eat p .LBRACKET with
      | .error e => .error e
      | .ok p1 =>
        match exprRec p1 with
        | .error e => .error e
        | .ok (index, p2) =>
          match eat p2 .RBRACKET with
          | .error e => .error e
          | .ok p3 => varRefLoop exprRec fuel (.AstIndexedRef ast index line) p3
    else if p.curToken.type_ = .DOT then
      let line := p.curToken.line
      match eat p .DOT with
      | .error e => .error e
      | .ok p1 =>
        let name := p1.curToken.value
        match eat p1 .ID with
        | .error e => .error e
        | .ok p2 => varRefLoop exprRec fuel (.AstDotRef ast name line) p2
    else .ok (ast, p)

/-- `hskParser.var_ref`. -/
def var_ref (exprRec : ExprParser) (fuel : Nat) : ExprParser :=
  fun p =>
    let start : Except Panic (Bool × hskParser) :=
      if p.curToken.type_ = .THIS then
        match eat p .THIS with
        | .error e => .error e
        | .ok p1 =>
          match eat p1 .DOT with
          | .error e => .error e
          | .ok p2 => .ok (true, p2)
      else .ok (false, p)
    match start with
    | .error e => .error e
    | .ok (this, p1) =>
      let ast := AstNode.AstVarNameRef this p1.curToken.value p1.curToken.line
      match eat p1 .ID with
      | .error e => .error e
      | .ok p2 => varRefLoop exprRec fuel ast p2

/-- `hskParser.factor`. -/
def factor (exprRec : ExprParser) : Nat → ExprParser
  | 0, _ => .error .outOfFuel
  | fuel + 1, p =>
    let t := p.curToken.type_
    if t = .PLUS ∨ t = .MINUS ∨ t = .NOT then
      let line := p.curToken.line
      match eat p t with
      | .error e => .error e
      | .ok p1 =>
        match factor exprRec fuel p1 with
        | .error e => .error e
        | .ok (dst, p2) => .ok (.AstUnaryOP t dst line, p2)
    else if t = .INT_CONST then
      match eat p .INT_CONST with
      | .error e => .error e
      | .ok p1 => .ok (.AstIntConst (intConstVal p1.prevValue), p1)
    else if t = .STRING_CONST then
      match eat p .STRING_CONST with
      | .error e => .error e
      | .ok p1 => .ok (.AstStringConst p1.prevValue, p1)
    else if t = .ID ∨ t = .THIS then var_ref exprRec fuel p
    else if t = .LPAREN then
      match eat p .LPAREN with
      | .error e => .error e
      | .ok p1 =>
        match exprRec p1 with
        | .error e => .error e
        | .ok (ast, p2) =>
          match eat p2 .RPAREN with
          | .error e => .error e
          | .ok p3 => .ok (ast, p3)
    else .error (.parseFactor p.curToken.line)

/-- `hskParser.expr_mul`. -/
def expr_mul (exprRec : ExprParser) (fuel : Nat) : ExprParser :=
  binLevel [.MUL, .DIV] (factor exprRec fuel) fuel

/-- `hskParser.expr_add`. -/
def expr_add (exprRec : ExprParser) (fuel : Nat) : ExprParser :=
  binLevel [.PLUS, .MINUS] (expr_mul exprRec fuel) fuel

/-- `hskParser.expr_shift`. -/
def expr_shift (exprRec : ExprParser) (fuel : Nat) : ExprParser :=
  binLevel [.LSHIFT, .RSHIFT] (expr_add exprRec fuel) fuel

/-- `hskParser.expr_comp`. -/
def expr_comp (exprRec : ExprParser) (fuel : Nat) : ExprParser :=
  binLevel [.GT, .GTE, .LT, .LTE] (expr_shift exprRec fuel) fuel

/-- `hskParser.expr_equ`. -/
def expr_equ (exprRec : ExprParser) (fuel : Nat) : ExprParser :=
  binLevel [.EQU, .NEQ] (expr_comp exprRec fuel) fuel

/-- `hskParser.expr_bitAnd`. -/
def expr_bitAnd (exprRec : ExprParser) (fuel : Nat) : ExprParser :=
  binLevel [.BIT_AND] (expr_equ exprRec fuel) fuel

/-- `hskParser.expr_bitOr`. -/
def expr_bitOr (exprRec : ExprParser) (fuel : Nat) : ExprParser :=
  binLevel [.BIT_OR] (expr_bitAnd exprRec fuel) fuel

/-- `hskParser.expr_and`. -/
def expr_and (exprRec : ExprParser) (fuel : Nat) : ExprParser :=
  binLevel [.AND] (expr_bitOr exprRec fuel) fuel

/-- `hskParser.expr`. The first argument bounds the nesting of parentheses and
indices and the length of every loop. -/
def expr : Nat → ExprParser
  | 0, _ => .error .outOfFuel
  | fuel + 1, p => binLevel [.OR] (expr_and (expr fuel) (fuel + 1)) (fuel + 1) p


/-- `hskParser.const_decl`. -/
def const_decl (fuel : Nat) (p : hskParser) : Except Panic (AstConstDef × hskParser) :=
  match eat p .CONST with
  | .error e => .error e
  | .ok p1 =>
    match eat p1 .ID with
    | .error e => .error e
    | .ok p2 =>
      let name := p2.prevValue
      let line := p2.prevLine
      match expr fuel p2 with
      | .error e => .error e
      | .ok (val, p3) => .ok ({ name := name, val := val, line := line }, p3)

/-- `hskParser.msg_bind`. -/
def msg_bind (p : hskParser) : Except Panic (AstBindDef × hskParser) :=
  match eat p .DEFBIND with
  | .error e => .error e
  | .ok p1 =>
    match eat p1 .ID with
    | .error e => .error e
    | .ok p2 =>
      let line := p2.prevLine
      let msgId := p2.prevValue
      if p2.curToken.type_ = .NIL then
        match eat p2 .NIL with
        | .error e => .error e
        | .ok p3 => .ok ({ msgName := "", msgId := msgId, line := line }, p3)
      else
        match eat p2 .ID with
        | .error e => .error e
        | .ok p3 => .ok ({ msgName := p3.prevValue, msgId := msgId, line := line }, p3)

/-- `hskParser.msgidItem_decl`. -/
def msgidItem_decl (p : hskParser) : Except Panic (idItem × hskParser) :=
  let name := p.curToken.value
  let line := p.curToken.line
  match eat p .ID with
  | .error e => .error e
  | .ok p1 =>
    if p1.curToken.type_ = .ASSIGN then
      match eat p1 .ASSIGN with
      | .error e => .error e
      | .ok p2 =>
        match eat p2 .INT_CONST with
        | .error e => .error e
        | .ok p3 =>
          .ok ({ name := name, line := line, base := true, idVal := intConstVal p3.prevValue }, p3)
    else .ok ({ name := name, line := line }, p1)

/-- The loops `for p.curToken.type_ == SCOMMENT { ... }` of `id_decl` and
`msgid_decl`. -/
def idNotes : Nat → List AstSrcComment → hskParser →
    Except Panic (List AstSrcComment × hskParser)
  | 0, _, _ => .error .outOfFuel
  | fuel + 1, notes, p =>
    if p.curToken.type_ = .SCOMMENT then
      match eat p .SCOMMENT with
      | .error e => .error e
      | .ok p1 => idNotes fuel (notes ++ [{ line := p1.prevLine, value := p1.prevValue }]) p1
    else .ok (notes, p)

/-- The inner `for { ... }` of `id_decl` and `msgid_decl` after the first item. -/
def idItemsLoop : Nat → List idItem → List AstSrcComment → hskParser →
    Except Panic (List idItem × List AstSrcComment × hskParser)
  | 0, _, _, _ => .error .outOfFuel
  | fuel + 1, items, notes, p =>
    if p.curToken.type_ = .COMMA then
      match eat p .COMMA with
      | .error e => .error e
      | .ok p1 =>
        if p1.curToken.type_ = .SCOMMENT then
          match eat p1 .SCOMMENT with
          | .error e => .error e
          | .ok p2 =>
            match msgidItem_decl p2 with
            | .error e => .error e
            | .ok (item, p3) =>
              idItemsLoop fuel (items ++ [item])
                (notes ++ [{ line := p2.prevLine, value := p2.prevValue }]) p3
        else if p1.curToken.type_ = .RBRACE then .ok (items, notes, p1)
        else
          match msgidItem_decl p1 with
          | .error e => .error e
          | .ok (item, p2) => idItemsLoop fuel (items ++ [item]) notes p2
    else if p.curToken.type_ = .SCOMMENT then
      match eat p .SCOMMENT with
      | .error e => .error e
      | .ok p1 => idItemsLoop fuel items (notes ++ [{ line := p1.prevLine, value := p1.prevValue }]) p1
    else .ok (items, notes, p)

/-- The common body of `hskParser.id_decl` and `hskParser.msgid_decl` after the
keyword: the two functions differ in the keyword and in `isMsgId` only. -/
def idGroupBody (fuel : Nat) (isMsgId : Bool) (p : hskParser) :
    Except Panic (AstIdGroupDef × hskParser) :=
  let name := p.curToken.value
  let line := p.curToken.line
  match eat p .ID with
  | .error e => .error e
  | .ok p1 =>
    match eat p1 .LBRACE with
    | .error e => .error e
    | .ok p2 =>
      match idNotes fuel [] p2 with
      | .error e => .error e
      | .ok (notes1, p3) =>
        let body : Except Panic (List idItem × List AstSrcComment × hskParser) :=
          if p3.curToken.type_ = .ID then
            match msgidItem_decl p3 with
            | .error e => .error e
            | .ok (item, p4) => idItemsLoop fuel [item] notes1 p4
          else .ok ([], notes1, p3)
        match body with
        | .error e => .error e
        | .ok (items, notes2, p5) =>
          match idNotes fuel notes2 p5 with
          | .error e => .error e
          | .ok (notes3, p6) =>
            match eat p6 .RBRACE with
            | .error e => .error e
            | .ok p7 =>
              .ok ({ isMsgId := isMsgId, name := name, items := items, notes := notes3,
                     line := line }, p7)

/-- `hskParser.id_decl`. -/
def id_decl (fuel : Nat) (p : hskParser) : Except Panic (AstIdGroupDef × hskParser) :=
  match eat p .DEFID with
  | .error e => .error e
  | .ok p1 => idGroupBody fuel false p1

/-- `hskParser.msgid_decl`. -/
def msgid_decl (fuel : Nat) (p : hskParser) : Except Panic (AstIdGroupDef × hskParser) :=
  match eat p .DEFMID with
  | .error e => .error e
  | .ok p1 => idGroupBody fuel true p1

/-- The name reference that the modifiers `limit by`, `max`, `equal`, `xor` of
`field_decl` build: `token := p.curToken; p.eat(ID)`. -/
def modifierRef (p : hskParser) : Except Panic (VarNameRef × hskParser) :=
  let token := p.curToken
  match eat p .ID with
  | .error e => .error e
  | .ok p1 => .ok ({ line := token.line, name := p1.prevValue }, p1)

/-- The loop `for { ... }` of `hskParser.field_decl` over the modifiers after `->`;
the Boolean is the variable `has`. -/
def fieldModifiers : Nat → AstVarDecl → Bool → hskParser →
    Except Panic (AstVarDecl × Bool × hskParser)
  | 0, _, _, _ => .error .outOfFuel
  | fuel + 1, ast, has, p =>
    let t := p.curToken.type_
    if t = .LIMIT then
      match eat p .LIMIT with
      | .error e => .error e
      | .ok p1 =>
        match eat p1 .BY with
        | .error e => .error e
        | .ok p2 =>
          match modifierRef p2 with
          | .error e => .error e
          | .ok (ref, p3) => fieldModifiers fuel { ast with limit := some ref } true p3
    else if t = .MAX then
      match eat p .MAX with
      | .error e => .error e
      | .ok p1 =>
        match modifierRef p1 with
        | .error e => .error e
        | .ok (ref, p2) => fieldModifiers fuel { ast with max := some ref } true p2
    else if t = .EQU then
      match eat p .EQU with
      | .error e => .error e
      | .ok p1 =>
        match modifierRef p1 with
        | .error e => .error e
        | .ok (ref, p2) => fieldModifiers fuel { ast with equ := some ref } true p2
    else if t = .XOR then
      match eat p .XOR with
      | .error e => .error e
      | .ok p1 =>
        match modifierRef p1 with
        | .error e => .error e
        | .ok (ref, p2) => fieldModifiers fuel { ast with xor := some ref } true p2
    else if t = .EXIST then
      match eat p .EXIST with
      | .error e => .error e
      | .ok p1 =>
        if p1.curToken.type_ = .FOLLOW then
          match eat p1 .FOLLOW with
          | .error e => .error e
          | .ok p2 =>
            match eat p2 .ABOVE with
            | .error e => .error e
            | .ok p3 => fieldModifiers fuel { ast with existCondFollow := true } true p3
        else
          match eat p1 .IF with
          | .error e => .error e
          | .ok p2 =>
            match expr fuel p2 with
            | .error e => .error e
            | .ok (cond, p3) => fieldModifiers fuel { ast with existIf := some cond } true p3
    else .ok (ast, has, p)

/-- `hskParser.field_decl`. -/
def field_decl (fuel : Nat) (p : hskParser) : Except Panic (AstVarDecl × hskParser) :=
  let name := p.curToken.value
  let line := p.curToken.line
  match eat p .ID with
  | .error e => .error e
  | .ok p1 =>
    match type_spec fuel p1 with
    | .error e => .error e
    | .ok (tp, p2) =>
      let ast : AstVarDecl := { name := name, type_ := tp, line := line }
      let withDesc : Except Panic (AstVarDecl × hskParser) :=
        if p2.curToken.type_ = .DESC then
          match eat p2 .DESC with
          | .error e => .error e
          | .ok p3 =>
            match fieldModifiers fuel ast false p3 with
            | .error e => .error e
            | .ok (ast1, has, p4) =>
              if !has then .error (.expectDescTerms p4.curToken.line) else .ok (ast1, p4)
        else .ok (ast, p2)
      match withDesc with
      | .error e => .error e
      | .ok (ast1, p5) =>
        if p5.curToken.type_ = .SCOMMENT then
          let cmt : AstSrcComment := { line := p5.curToken.line, value := p5.curToken.value }
          match eat p5 .SCOMMENT with
          | .error e => .error e
          | .ok p6 => .ok ({ ast1 with comment := some cmt }, p6)
        else .ok (ast1, p5)

/-- The loop `for p.curToken.type_ != RBRACE { ... }` of `hskParser.msg_decl`. -/
def msgBody : Nat → AstStructDecl → hskParser → Except Panic (AstStructDecl × hskParser)
  | 0, _, _ => .error .outOfFuel
  | fuel + 1, ast, p =>
    if p.curToken.type_ ≠ .RBRACE then
      if p.curToken.type_ = .SCOMMENT then
        let note : AstSrcComment := { line := p.curToken.line, value := p.curToken.value }
        match eat p .SCOMMENT with
        | .error e => .error e
        | .ok p1 => msgBody fuel { ast with notes := ast.notes ++ [note] } p1
      else
        match field_decl fuel p with
        | .error e => .error e
        | .ok (f, p1) => msgBody fuel { ast with fields := ast.fields ++ [f] } p1
    else .ok (ast, p)

/-- `hskParser.msg_decl`. The map `fmap` of the Go function is never written, so its
duplicate check never fires and is left out. -/
def msg_decl (fuel : Nat) (p : hskParser) : Except Panic (AstStructDecl × hskParser) :=
  match eat p .DEFMSG with
  | .error e => .error e
  | .ok p1 =>
    match eat p1 .ID with
    | .error e => .error e
    | .ok p2 =>
      let ast : AstStructDecl := { name := p2.prevValue, line := p2.prevLine, fields := [] }
      match eat p2 .LBRACE with
      | .error e => .error e
      | .ok p3 =>
        match msgBody fuel ast p3 with
        | .error e => .error e
        | .ok (ast1, p4) =>
          match eat p4 .RBRACE with
          | .error e => .error e
          | .ok p5 => .ok (ast1, p5)


mutual
/-- The effect of the write `oldUndef.resolved = impl` of `type_def` on a type that
may hold the placeholder named `name`: every reference to the placeholder sees the
new value. -/
def resolveType (name : String) (impl : AstType) : AstType → AstType
  | .nil => .nil
  | .AstPrimType n => .AstPrimType n
  | .AstArrayType elemType => .AstArrayType (resolveType name impl elemType)
  | .AstStructType n fields => .AstStructType n (resolveFieldTypes name impl fields)
  | .AstUndefType n resolved =>
    if n = name then .AstUndefType n impl else .AstUndefType n (resolveType name impl resolved)
/-- The function `resolveType` on the field types of a struct type. -/
def resolveFieldTypes (name : String) (impl : AstType) :
    List (String × AstType) → List (String × AstType)
  | [] => []
  | (n, t) :: rest => (n, resolveType name impl t) :: resolveFieldTypes name impl rest
end

/-- The write `oldUndef.resolved = impl` as seen from a declaration parsed before. -/
def resolveDecl (name : String) (impl : AstType) : Decl → Decl
  | .varDecl node => .varDecl { node with type_ := resolveType name impl node.type_ }
  | .structType node =>
    .structType { node with fields := node.fields.map fun f =>
      { f with type_ := resolveType name impl f.type_ } }
  | .externVar node => .externVar { node with type_ := resolveType name impl node.type_ }
  | .typeDef node => .typeDef { node with impl := resolveType name impl node.impl }
  | d => d

/-- The write `oldUndef.resolved = impl` as seen from the values of `tpMap`. -/
def resolveTpMap (name : String) (impl : AstType) (m : List (String × AstType)) :
    List (String × AstType) :=
  m.map fun kv => (kv.1, resolveType name impl kv.2)

/-- `hskParser.type_def`. The third component of the result is the placeholder that
the function resolved, with its new value, if it resolved one. -/
def type_def (fuel : Nat) (p : hskParser) :
    Except Panic (AstTypeDef × hskParser × Option (String × AstType)) :=
  match eat p .TYPE with
  | .error e => .error e
  | .ok p1 =>
    match eat p1 .ID with
    | .error e => .error e
    | .ok p2 =>
      let name := p2.prevValue
      match type_spec fuel p2 with
      | .error e => .error e
      | .ok (impl, p3) =>
        let ast : AstTypeDef := { name := name, impl := impl }
        match mapGet p3.tpMap name with
        | some old =>
          match impl.astType with
          | .error e => .error e
          | .ok k =>
            match old with
            | .AstUndefType oname .nil =>
              if k ≠ AST_TP_UndefType ∧ oname = name then
                .ok (ast, { p3 with tpMap := resolveTpMap oname impl p3.tpMap },
                      some (oname, impl))
              else .error (.duplicateTypeDefine name)
            | _ => .error (.duplicateTypeDefine name)
        | none => .ok (ast, { p3 with tpMap := mapSet p3.tpMap name impl }, none)

/-- The loop `for p.curToken.type_ != EOF { ... }` of `hskParser.declarations`. -/
def declLoop : Nat → AstProgram → hskParser → Except Panic (AstProgram × hskParser)
  | 0, _, _ => .error .outOfFuel
  | fuel + 1, program, p =>
    let t := p.curToken.type_
    if t = .EOF then .ok (program, p)
    else if t = .MSPACE then
      match eat p .MSPACE with
      | .error e => .error e
      | .ok p1 =>
        match eat p1 .ID with
        | .error e => .error e
        | .ok p2 =>
          match eatSeperator p2 with
          | .error e => .error e
          | .ok p3 => declLoop fuel { program with mspace := p2.prevValue } p3
    else if t = .CONST then
      match const_decl fuel p with
      | .error e => .error e
      | .ok (ast, p1) =>
        match eatSeperator p1 with
        | .error e => .error e
        | .ok p2 =>
          declLoop fuel { program with decl_list := program.decl_list ++ [.constDef ast] } p2
    else if t = .SCOMMENT then
      let ast : AstSrcComment := { line := p.curToken.line, value := p.curToken.value }
      match eat p .SCOMMENT with
      | .error e => .error e
      | .ok p1 =>
        declLoop fuel { program with decl_list := program.decl_list ++ [.srcComment ast] } p1
    else if t = .TYPE then
      match type_def fuel p with
      | .error e => .error e
      | .ok (ast, p1, none) =>
        declLoop fuel { program with decl_list := program.decl_list ++ [.typeDef ast] } p1
      | .ok (ast, p1, some (name, impl)) =>
        declLoop fuel
          { program with
            decl_list := program.decl_list.map (resolveDecl name impl) ++ [.typeDef ast] } p1
    else if t = .DEFID then
      match id_decl fuel p with
      | .error e => .error e
      | .ok (ast, p1) =>
        match eatSeperator p1 with
        | .error e => .error e
        | .ok p2 =>
          declLoop fuel { program with decl_list := program.decl_list ++ [.idGroupDef ast] } p2
    else if t = .DEFMID then
      match msgid_decl fuel p with
      | .error e => .error e
      | .ok (ast, p1) =>
        match eatSeperator p1 with
        | .error e => .error e
        | .ok p2 =>
          declLoop fuel { program with decl_list := program.decl_list ++ [.idGroupDef ast] } p2
    else if t = .DEFBIND then
      match msg_bind p with
      | .error e => .error e
      | .ok (ast, p1) =>
        match eatSeperator p1 with
        | .error e => .error e
        | .ok p2 =>
          declLoop fuel { program with decl_list := program.decl_list ++ [.bindDef ast] } p2
    else if t = .EXTERN then
      match eat p .EXTERN with
      | .error e => .error e
      | .ok p1 =>
        match eat p1 .ID with
        | .error e => .error e
        | .ok p2 =>
          let name := p2.prevValue
          match type_spec fuel p2 with
          | .error e => .error e
          | .ok (tp, p3) =>
            let ast : AstExternVar := { line := p3.prevLine, name := name, type_ := tp }
            match eatSeperator p3 with
            | .error e => .error e
            | .ok p4 =>
              declLoop fuel
                { program with decl_list := program.decl_list ++ [.externVar ast] } p4
    else
      match msg_decl fuel p with
      | .error e => .error e
      | .ok (ast, p1) =>
        match eatSeperator p1 with
        | .error e => .error e
        | .ok p2 =>
          match mapGet p2.tpMap ast.name with
          | some _ => .error (.duplicateTypeDefine ast.name)
          | none =>
            declLoop fuel
              { program with decl_list := program.decl_list ++ [.structType ast] }
              { p2 with tpMap := mapSet p2.tpMap ast.name ast.toType }

/-- `hskParser.declarations` (and `hskParser.Program`, which only calls it). -/
def declarations (fuel : Nat) (p : hskParser) : Except Panic AstProgram :=
  match declLoop fuel {} p with
  | .error e => .error e
  | .ok (program, _) => .ok program

/-- The loop `for p.curToken.type_ == LF { p.eat(LF) }` of `NewParser`. -/
def skipLF : Nat → hskParser → Except Panic hskParser
  | 0, _ => .error .outOfFuel
  | fuel + 1, p =>
    if p.curToken.type_ = .LF then
      match eat p .LF with
      | .error e => .error e
      | .ok p1 => skipLF fuel p1
    else .ok p

/-- `NewParser` on the sequence of tokens that the lexer returns for the text; on the
empty sequence the first `getNextToken` returns nil and the first use of `p.curToken`
is a nil dereference. -/
def NewParser (fuel : Nat) (tokens : List Token) : Except Panic hskParser :=
  match tokens with
  | [] => .error .nilInterface
  | tok :: rest =>
    match skipLF fuel { lex := rest, prevToken := none, curToken := tok, tpMap := [] } with
    | .error e => .error e
    | .ok p =>
      .ok { p with tpMap :=
        builtinTypeArr.foldl (fun m val => mapSet m val (.AstPrimType val)) [] }

/-- The two steps `p := NewParser(program); pro := p.Program()` of `main`. -/
def parse (fuel : Nat) (tokens : List Token) : Except Panic AstProgram :=
  match NewParser fuel tokens with
  | .error e => .error e
  | .ok p => declarations fuel p

/-- The pipeline of `main` up to the analysis: parse, then `DoAnalyze` with a new
analyzer. -/
def compile (fuel : Nat) (tokens : List Token) : Except Panic (semanticAnalyzer × AstProgram) :=
  match parse fuel tokens with
  | .error e => .error e
  | .ok pro => DoAnalyze NewSemanticAnalyzer pro


/-! ## The emitter (interpreter.go, interp_go.go) -/

/-- An argument of a call of `addLine`. -/
inductive Arg where
  | str (v : String)
  | int (v : Int)
  deriving DecidableEq, Repr

/-- One call `interp.addLine(format, args...)`: the number of spaces of the head, the
format and the arguments. -/
structure Line where
  indent : Nat
  format : String
  args : List Arg
  deriving DecidableEq, Repr

/-- The fields of the record `interpreter` that the emitter of messages uses:
`depth` is `len(interp.callStack)`, `out` the calls of `addLine` so far. -/
structure interpreter where
  depth : Nat
  lastNewLine : Bool
  out : List Line
  deriving DecidableEq, Repr

/-- `NewInterpreter`. -/
def NewInterpreter : interpreter :=
  { depth := 1, lastNewLine := false, out := [] }

/-- `interpreter.addLine`. -/
def interpreter.addLine (interp : interpreter) (format : String) (args : List Arg) :
    interpreter :=
  { interp with
    out := interp.out ++ [{ indent := (interp.depth - 1) * 4, format := format, args := args }],
    lastNewLine := false }

/-- `interpreter.addNewLine`. -/
def interpreter.addNewLine (interp : interpreter) : interpreter :=
  if interp.lastNewLine then interp
  else { interp.addLine "" [] with lastNewLine := true }

/-- `interpreter.pushStackFrame`. -/
def interpreter.pushStackFrame (interp : interpreter) : interpreter :=
  { interp with depth := interp.depth + 1, lastNewLine := true }

/-- `interpreter.popStackFrame`. -/
def interpreter.popStackFrame (interp : interpreter) : Except Panic interpreter :=
  if interp.depth ≤ 1 then .error .indexOutOfRange
  else .ok { interp with depth := interp.depth - 1 }

/-- `visitVarRef_Go`. -/
def visitVarRef_Go (this : Bool) (name : String) : String :=
  if this then "m." ++ name else name

/-- `visitBinOP_Go`. -/
def visitBinOP_Go (op : TokenType) : String :=
  match op with
  | .BIT_AND => "&"
  | .BIT_OR => "|"
  | .AND => "&&"
  | .OR => "||"
  | .EQU => "=="
  | .NEQ => "!="
  | .LT => "<"
  | .LTE => "<="
  | .GT => ">"
  | .GTE => ">="
  | _ => "??"

/-- `interpreter.traveseCond` with the visitors `visitVarRef_Go`, `visitBinOP_Go`. -/
def traveseCond (top : Bool) : AstNode → String
  | .AstVarNameRef this name _ => visitVarRef_Go this name
  | .AstBinOP op left right _ =>
    if top then
      traveseCond false left ++ " " ++ visitBinOP_Go op ++ " " ++ traveseCond false right
    else
      "(" ++ traveseCond false left ++ " " ++ visitBinOP_Go op ++ " "
        ++ traveseCond false right ++ ")"
  | .AstIntConst value => toString value
  | _ => "??"

/-- `interpreter.wrapExist_Go`. -/
def wrapExist_Go (interp : interpreter) (f : AstVarDecl)
    (op : interpreter → Except Panic interpreter) : Except Panic interpreter :=
  match f.existIf with
  | some cond =>
    match op ((interp.addLine "if %s \x7b" [.str (traveseCond true cond)]).pushStackFrame) with
    | .error e => .error e
    | .ok interp1 =>
      match interp1.popStackFrame with
      | .error e => .error e
      | .ok interp2 => .ok (interp2.addLine "\x7d" [])
  | none => op interp

/-- `typeName4Go`. -/
def typeName4Go (tp : AstType) : Except Panic String :=
  match tp with
  | .AstPrimType name =>
    if name = symTypeU1 ∨ name = symTypeU2 ∨ name = symTypeU3 ∨ name = symTypeU4
        ∨ name = symTypeU5 ∨ name = symTypeU6 ∨ name = symTypeU7 ∨ name = symTypeU8
        ∨ name = symTypeChar then .ok "uint8"
    else if name = symTypeU16 then .ok "uint16"
    else if name = symTypeU32 ∨ name = symTypeV32 then .ok "uint32"
    else if name = symTypeU64 ∨ name = symTypeV64 then .ok "uint64"
    else .error (.emit "unsupported type")
  | .AstStructType name _ => .ok name
  | .AstUndefType name _ => .ok name
  | _ => .error (.emit "unsupported type")

/-- `getLimitFieldMax` of `ast.go`. -/
def getLimitFieldMax (fields : List AstVarDecl) (name : String) : Option VarNameRef :=
  match fields with
  | [] => none
  | f :: rest => if f.name = name then f.max else getLimitFieldMax rest name

/-- The Go expression `1<<bn - 1` on `int`. -/
def maskOf (bn : Nat) : Int :=
  wrap64 (wrap64 (2 ^ bn) - 1)

/-- The loop `for len(notes) > 0 && f.line > notes[0].line { ... }` of
`visitMsgEncode_Go`. -/
def emitNotes (interp : interpreter) (line : Nat) :
    List AstSrcComment → interpreter × List AstSrcComment
  | [] => (interp, [])
  | note :: rest =>
    if line > note.line then emitNotes (interp.addLine ("//" ++ note.value) []) line rest
    else (interp, note :: rest)

/-- The loop variables of `visitMsgEncode_Go`. -/
structure EncodeState where
  hasTmp : Bool := false
  bitAggr : Bool := false
  bits : Nat := 0
  xorVar : Option VarNameRef := none
  notes : List AstSrcComment := []
  deriving DecidableEq, Repr

/-- The `for` loop over the elements of an array field in `visitMsgEncode_Go` and
`visitMsgDecode_Go`; `write` is true in the encoder. -/
def emitArrayLoop (interp : interpreter) (fields : List AstVarDecl) (f : AstVarDecl)
    (limit : VarNameRef) (elemType : AstType) (write : Bool) : Except Panic interpreter :=
  let interp1 :=
    if (getLimitFieldMax fields limit.name).isSome then
      interp.addLine "for i := 0; i < int(m.%s); i++ \x7b" [.str limit.name]
    else interp.addLine "for i := 0; i < int(%s); i++ \x7b" [.str limit.name]
  let interp2 := interp1.pushStackFrame
  let body : Except Panic interpreter :=
    match elemType with
    | .AstPrimType name =>
      let (ok, bn) := isIntType (.AstPrimType name)
      if !ok ∨ bn % 8 ≠ 0 then .error (.emit "array elem not int or not div by 8")
      else if write then
        .ok (interp2.addLine "if binary.Write(buf, binary.BigEndian, m.%s[i]) != nil \x7b return -1 \x7d"
          [.str f.name])
      else
        .ok (interp2.addLine "if binary.Read(buf, binary.BigEndian, &m.%s[i]) != nil \x7b return -1 \x7d"
          [.str f.name])
    | .AstStructType sname _ =>
      if write then
        .ok (interp2.addLine "if encode_%s(buf, &m.%s[i]) < 0 \x7b return -1 \x7d"
          [.str sname, .str f.name])
      else
        .ok (interp2.addLine "if decode_%s(buf, &m.%s[i]) < 0 \x7b return -1 \x7d"
          [.str sname, .str f.name])
    | _ => .error (.emit "unsupported array elem type")
  match body with
  | .error e => .error e
  | .ok interp3 =>
    match interp3.popStackFrame with
    | .error e => .error e
    | .ok interp4 => .ok ((interp4.addLine "\x7d" []).addNewLine)

/-- The test `if ut, ok := ft.elemType.(*AstPrimType); ok { if ok, bn := isIntType(ut);
ok && bn == 8 { ... } }` of the array branch of the emitter: the element type is an
integer of 8 bits (`u8` or `char`). -/
def byteElem (elemType : AstType) : Bool :=
  match elemType with
  | .AstPrimType name =>
    (isIntType (.AstPrimType name)).1 && (isIntType (.AstPrimType name)).2 == 8
  | _ => false

/-- The closure given to `wrapExist_Go` for an array field in `visitMsgEncode_Go`. -/
def encodeArray (fields : List AstVarDecl) (f : AstVarDecl) (elemType : AstType)
    (interp : interpreter) : Except Panic interpreter :=
  match f.limit with
  | none => .error .nilInterface
  | some limit =>
    if byteElem elemType then
      let interp1 := interp.addNewLine
      if (getLimitFieldMax fields limit.name).isSome then
        .ok (interp1.addLine
          "if binary.Write(buf, binary.BigEndian, m.%s[0:m.%s]) != nil \x7b return -1 \x7d"
          [.str f.name, .str limit.name])
      else
        .ok (interp1.addLine
          "if binary.Write(buf, binary.BigEndian, m.%s[0:%s]) != nil \x7b return -1 \x7d"
          [.str f.name, .str limit.name])
    else emitArrayLoop interp fields f limit elemType true

/-- The closure given to `wrapExist_Go` for a whole-byte integer field in
`visitMsgEncode_Go`. -/
def encodeWholeInt (f : AstVarDecl) (interp : interpreter) : Except Panic interpreter :=
  if isVarInt f.type_ then .error (.emit "var int encode is not supported")
  else
    let interp1 :=
      match f.max with
      | some max =>
        (interp.addNewLine).addLine "if m.%s > %s \x7b m.%s = %s\x7d "
          [.str f.name, .str max.name, .str f.name, .str max.name]
      | none => interp
    match f.xor with
    | none =>
      .ok (interp1.addLine "if binary.Write(buf, binary.BigEndian, m.%s) != nil \x7b return -1 \x7d"
        [.str f.name])
    | some xor =>
      match typeName4Go f.type_ with
      | .error e => .error e
      | .ok tn =>
        .ok (interp1.addLine
          "if binary.Write(buf, binary.BigEndian, m.%s^%s(%s)) != nil \x7b return -1 \x7d"
          [.str f.name, .str tn, .str xor.name])

/-- The `case *AstPrimType` of the loop body of `visitMsgEncode_Go`. -/
def encodePrim (interp : interpreter) (st : EncodeState) (f : AstVarDecl) :
    Except Panic (interpreter × EncodeState) :=
  let (ok, bn) := isIntType f.type_
  let mask := maskOf bn
  if st.bitAggr then
    if !ok then .error (.emit "msg encode in bit assemble mode error")
    else
      let bits := st.bits + bn
      if bits ≤ 8 then
        let shift : Int := 8 - bits
        let interp1 :=
          if shift = 0 then interp.addLine "tmp |= m.%s & 0x%x" [.str f.name, .int mask]
          else interp.addLine "tmp |= (m.%s & 0x%x) << %d" [.str f.name, .int mask, .int shift]
        if bits = 8 then
          let interp2 :=
            match st.xorVar with
            | some xorVar => interp1.addLine "tmp ^= %s(%s)" [.str "uint8", .str xorVar.name]
            | none => interp1
          let interp3 :=
            (interp2.addLine "if binary.Write(buf, binary.BigEndian, tmp) != nil \x7b return -1 \x7d"
              []).addNewLine
          .ok (interp3, { st with bits := bits, bitAggr := false, xorVar := none })
        else .ok (interp1, { st with bits := bits })
      else .error (.emit "msg encode in bit assemble mode error, bits aggregate num")
  else if ok then
    if bn % 8 = 0 then
      let n := bn / 8
      if n = 1 ∨ n = 2 ∨ n = 4 ∨ n = 8 then
        match wrapExist_Go interp f (encodeWholeInt f) with
        | .error e => .error e
        | .ok interp1 => .ok (interp1, st)
      else .error (.emit "msg encode not support int")
    else
      let interp1 :=
        if !st.hasTmp then interp.addLine "tmp := uint8(0)" []
        else interp.addLine "tmp = 0" []
      let interp2 :=
        interp1.addLine "tmp |= (m.%s & 0x%x) << %d"
          [.str f.name, .int mask, .int (8 - (bn : Int))]
      .ok (interp2, { st with hasTmp := true, xorVar := f.xor, bits := bn, bitAggr := true })
  else .error (.emit "msg encode not support non int types")

/-- The loop body of `visitMsgEncode_Go` for one field; `fields` are the fields of
the message. -/
def encodeField (fields : List AstVarDecl) (interp : interpreter) (st : EncodeState)
    (f : AstVarDecl) : Except Panic (interpreter × EncodeState) :=
  let (interp0, notes) := emitNotes interp f.line st.notes
  let st0 := { st with notes := notes }
  match f.type_ with
  | .AstPrimType _ => encodePrim interp0 st0 f
  | .AstStructType sname _ =>
    match wrapExist_Go interp0 f (fun i =>
        .ok (i.addLine "if encode_%s(buf, &m.%s) < 0 \x7b return -1 \x7d" [.str sname, .str f.name])) with
    | .error e => .error e
    | .ok interp1 => .ok (interp1, st0)
  | .AstArrayType elemType =>
    match wrapExist_Go interp0 f (encodeArray fields f elemType) with
    | .error e => .error e
    | .ok interp1 => .ok (interp1, st0)
  | .AstUndefType uname _ =>
    match wrapExist_Go interp0 f (fun i =>
        .ok (i.addLine "if encode_%s(buf, &m.%s) < 0 \x7b return -1 \x7d" [.str uname, .str f.name])) with
    | .error e => .error e
    | .ok interp1 => .ok (interp1, st0)
  | .nil => .error (.emit "encode unsupported type")

/-- The loop of `visitMsgEncode_Go` over the fields. -/
def encodeFields (fields : List AstVarDecl) (interp : interpreter) (st : EncodeState) :
    List AstVarDecl → Except Panic (interpreter × EncodeState)
  | [] => .ok (interp, st)
  | f :: rest =>
    match encodeField fields interp st f with
    | .error e => .error e
    | .ok (interp1, st1) => encodeFields fields interp1 st1 rest

/-- `interpreter.visitMsgEncode_Go`. -/
def visitMsgEncode_Go (interp : interpreter) (node : AstStructDecl) : Except Panic interpreter :=
  let interp1 :=
    (interp.addLine "func encode_%s(buf io.Writer, m *%s) int \x7b"
      [.str node.name, .str node.name]).pushStackFrame
  match encodeFields node.fields interp1 { notes := node.notes } node.fields with
  | .error e => .error e
  | .ok (interp2, _) =>
    match (interp2.addLine "return 0" []).popStackFrame with
    | .error e => .error e
    | .ok interp3 => .ok (interp3.addLine "\x7d" [])


/-- The loop variables of `visitMsgDecode_Go`. -/
structure DecodeState where
  hasTmp : Bool := false
  bitAggr : Bool := false
  bits : Nat := 0
  deriving DecidableEq, Repr

/-- The closure given to `wrapExist_Go` for an array field in `visitMsgDecode_Go`. -/
def decodeArray (fields : List AstVarDecl) (f : AstVarDecl) (elemType : AstType)
    (interp : interpreter) : Except Panic interpreter :=
  match f.limit with
  | none => .error .nilInterface
  | some limit =>
    if byteElem elemType then
      if (getLimitFieldMax fields limit.name).isSome then
        .ok (interp.addLine
          "if binary.Read(buf, binary.BigEndian, m.%s[:m.%s]) != nil \x7b return -1 \x7d"
          [.str f.name, .str limit.name])
      else
        .ok (interp.addLine
          "if binary.Read(buf, binary.BigEndian, m.%s[:]) != nil \x7b return -1 \x7d"
          [.str f.name])
    else emitArrayLoop interp fields f limit elemType false

/-- The closure given to `wrapExist_Go` for a whole-byte integer field in
`visitMsgDecode_Go`. -/
def decodeWholeInt (f : AstVarDecl) (interp : interpreter) : Except Panic interpreter :=
  if isVarInt f.type_ then .error (.emit "var int encode is not supported")
  else
    let interp1 :=
      interp.addLine "if binary.Read(buf, binary.BigEndian, &m.%s) != nil \x7b return -1 \x7d"
        [.str f.name]
    let afterXor : Except Panic interpreter :=
      match f.xor with
      | some xor =>
        match typeName4Go f.type_ with
        | .error e => .error e
        | .ok tn => .ok (interp1.addLine "m.%s ^= %s(%s)" [.str f.name, .str tn, .str xor.name])
      | none => .ok interp1
    match afterXor with
    | .error e => .error e
    | .ok interp2 =>
      match f.max with
      | some max =>
        .ok (interp2.addLine "if m.%s > %s \x7b return -1 \x7d" [.str f.name, .str max.name])
      | none =>
        match f.equ with
        | some equ =>
          .ok (interp2.addLine "if m.%s != %s \x7b return -1 \x7d" [.str f.name, .str equ.name])
        | none => .ok interp2

/-- The `case *AstPrimType` of the loop body of `visitMsgDecode_Go`. -/
def decodePrim (interp : interpreter) (st : DecodeState) (f : AstVarDecl) :
    Except Panic (interpreter × DecodeState) :=
  let (ok, bn) := isIntType f.type_
  if st.bitAggr then
    let mask := maskOf bn
    if !ok then .error (.emit "msg decode in bit assemble mode error")
    else
      let bits := st.bits + bn
      if bits ≤ 8 then
        let shift : Int := 8 - bits
        let interp1 :=
          if shift > 0 then
            interp.addLine "m.%s = (tmp >> %d) & 0x%x;" [.str f.name, .int shift, .int mask]
          else interp.addLine "m.%s = tmp & 0x%x;" [.str f.name, .int mask]
        let interp2 :=
          match f.equ with
          | some equ => interp1.addLine "if m.%s != %s return -1; " [.str f.name, .str equ.name]
          | none => interp1
        if bits = 8 then .ok (interp2, { st with bitAggr := false, bits := 0 })
        else .ok (interp2, { st with bits := bits })
      else .error (.emit "msg decode in bit assemble mode error, bits aggregate num")
  else if ok then
    if bn % 8 = 0 then
      let n := bn / 8
      if n = 1 ∨ n = 2 ∨ n = 4 ∨ n = 8 then
        match wrapExist_Go interp f (decodeWholeInt f) with
        | .error e => .error e
        | .ok interp1 => .ok (interp1, st)
      else .error (.emit "msg decode not support int")
    else
      let interp1 :=
        if !st.hasTmp then interp.addLine "tmp := uint8(0)" []
        else (interp.addNewLine).addLine "tmp = 0" []
      let mask := maskOf bn
      let interp2 :=
        interp1.addLine "if binary.Read(buf, binary.BigEndian, &tmp) != nil \x7b return -1 \x7d" []
      let interp3 :=
        match f.xor with
        | some xor => interp2.addLine "tmp ^= %s(%s)" [.str "uint8", .str xor.name]
        | none => interp2
      let interp4 :=
        interp3.addLine "m.%s = (tmp >> %d) & 0x%x"
          [.str f.name, .int (8 - (bn : Int)), .int mask]
      let interp5 :=
        match f.equ with
        | some equ => interp4.addLine "if m.%s != %s \x7b return -1 \x7d" [.str f.name, .str equ.name]
        | none => interp4
      .ok (interp5, { st with hasTmp := true, bits := bn, bitAggr := true })
  else .error (.emit "msg decode not support non int types")

/-- The loop body of `visitMsgDecode_Go` for one field. -/
def decodeField (fields : List AstVarDecl) (interp : interpreter) (st : DecodeState)
    (f : AstVarDecl) : Except Panic (interpreter × DecodeState) :=
  match f.type_ with
  | .AstPrimType _ => decodePrim interp st f
  | .AstStructType sname _ =>
    match wrapExist_Go interp f (fun i =>
        .ok (i.addLine "if decode_%s(buf, &m.%s) < 0 \x7b return -1 \x7d" [.str sname, .str f.name])) with
    | .error e => .error e
    | .ok interp1 => .ok (interp1, st)
  | .AstArrayType elemType =>
    match wrapExist_Go interp f (decodeArray fields f elemType) with
    | .error e => .error e
    | .ok interp1 => .ok (interp1, st)
  | .AstUndefType uname _ =>
    match wrapExist_Go interp f (fun i =>
        .ok (i.addLine "if decode_%s(buf, &m.%s) < 0 \x7b return -1 \x7d" [.str uname, .str f.name])) with
    | .error e => .error e
    | .ok interp1 => .ok (interp1, st)
  | .nil => .error (.emit "decode unsupported type")

/-- The loop of `visitMsgDecode_Go` over the fields. -/
def decodeFields (fields : List AstVarDecl) (interp : interpreter) (st : DecodeState) :
    List AstVarDecl → Except Panic (interpreter × DecodeState)
  | [] => .ok (interp, st)
  | f :: rest =>
    match decodeField fields interp st f with
    | .error e => .error e
    | .ok (interp1, st1) => decodeFields fields interp1 st1 rest

/-- `interpreter.visitMsgDecode_Go`. -/
def visitMsgDecode_Go (interp : interpreter) (node : AstStructDecl) : Except Panic interpreter :=
  let interp1 :=
    (interp.addLine "func decode_%s(buf io.Reader, m *%s) int \x7b"
      [.str node.name, .str node.name]).pushStackFrame
  match decodeFields node.fields interp1 {} node.fields with
  | .error e => .error e
  | .ok (interp2, _) =>
    match (interp2.addLine "return 0" []).popStackFrame with
    | .error e => .error e
    | .ok interp3 => .ok (interp3.addLine "\x7d" [])


/-! ## Reading the emitted bit operations -/

/-- The field, mask and shift of a line `tmp |= (m.F & 0xMASK) << SHIFT` or
`tmp |= m.F & 0xMASK` (shift 0) emitted by `visitMsgEncode_Go`. -/
def encodeOp (l : Line) : Option (String × Int × Int) :=
  if l.format = "tmp |= (m.%s & 0x%x) << %d" then
    match l.args with
    | [.str name, .int mask, .int shift] => some (name, mask, shift)
    | _ => none
  else if l.format = "tmp |= m.%s & 0x%x" then
    match l.args with
    | [.str name, .int mask] => some (name, mask, 0)
    | _ => none
  else none

/-- The field, mask and shift of a line `m.F = (tmp >> SHIFT) & 0xMASK` or
`m.F = tmp & 0xMASK;` (shift 0) emitted by `visitMsgDecode_Go`. -/
def decodeOp (l : Line) : Option (String × Int × Int) :=
  if l.format = "m.%s = (tmp >> %d) & 0x%x" ∨ l.format = "m.%s = (tmp >> %d) & 0x%x;" then
    match l.args with
    | [.str name, .int shift, .int mask] => some (name, mask, shift)
    | _ => none
  else if l.format = "m.%s = tmp & 0x%x;" then
    match l.args with
    | [.str name, .int mask] => some (name, mask, 0)
    | _ => none
  else none

/-- The Go statement `tmp |= (m.F & MASK) << SHIFT` on `uint8` values. -/
def packStep (tmp v : Nat) (mask shift : Int) : Nat :=
  (tmp ||| (((v &&& mask.toNat) % 256) <<< shift.toNat) % 256) % 256

/-- The emitted statements `tmp |= ...` of a run executed in order on the field
values, from the value `tmp` on. -/
def packRun : List (String × Int × Int) → List Nat → Nat → Nat
  | (_, mask, shift) :: ops, v :: vals, tmp => packRun ops vals (packStep tmp v mask shift)
  | _, _, tmp => tmp

/-- The Go expression `(tmp >> SHIFT) & MASK` on `uint8` values. -/
def unpackOp (tmp : Nat) (op : String × Int × Int) : Nat :=
  ((tmp >>> op.2.2.toNat) &&& op.2.1.toNat) % 256

/-- The field, mask `2^w - 1` and shift `8 - (running total through the field)` for
each field of a run of which `b` bits are already taken. -/
def expectedOps (b : Nat) : List AstVarDecl → List (String × Int × Int)
  | [] => []
  | f :: rest =>
    (f.name, (2 : Int) ^ (isIntType f.type_).2 - 1, 8 - ((b + (isIntType f.type_).2 : Nat) : Int))
      :: expectedOps (b + (isIntType f.type_).2) rest

/-- The sum of the widths that `isIntType` gives for the fields. -/
def widthSum (fields : List AstVarDecl) : Nat :=
  (fields.map fun f => (isIntType f.type_).2).sum

/-- Every field is an integer of a width that is no multiple of 8. -/
def SubByteRun (fields : List AstVarDecl) : Prop :=
  ∀ f ∈ fields, (isIntType f.type_).1 = true ∧ (isIntType f.type_).2 % 8 ≠ 0

/-! ## Concrete programs -/

/-- A token with column 0. -/
def tk (t : TokenType) (v : String) (line : Nat) : Token :=
  { type_ := t, value := v, line := line, column := 0 }

/-- The fields `hi u4`, `lo u4` of scenario S2. -/
def fieldsFlags : List AstVarDecl :=
  [{ name := "hi", type_ := .AstPrimType symTypeU4, line := 2 },
   { name := "lo", type_ := .AstPrimType symTypeU4, line := 2 }]

/-! ## Names and symbol tables -/

/-- The name that `visitProgram` enters into the program-level symbol table for a
declaration. -/
def declNames : Decl → List String
  | .varDecl node => [node.name]
  | .idGroupDef node => [node.name]
  | .constDef node => [node.name]
  | .structType node => [node.name]
  | .externVar node => [node.name]
  | _ => []

/-- No table of the stack has a `varSymbol` under the name. -/
def NoVar (stack : List symbolTable) (name : String) : Prop :=
  ∀ tb ∈ stack, ∀ sym, mapGet tb.table name = some sym → ∃ n, sym = .builtinSymbol n

/-- The message `Buf` of scenario S4: `len u8 -> max MAX`, `data []u8 -> limit by len`. -/
def msgBuf : AstStructDecl :=
  { name := "Buf", line := 2, fields :=
      [{ name := "len", type_ := .AstPrimType symTypeU8, line := 2,
         max := some { name := "MAX", line := 2 } },
       { name := "data", type_ := .AstArrayType (.AstPrimType symTypeU8), line := 3,
         limit := some { name := "len", line := 3 } }] }

/-- The declaration `const MAX 256` of scenario S4. -/
def constMAX : AstConstDef :=
  { name := "MAX", val := .AstIntConst 256, line := 4 }

/-- Scenario S4 as the parser builds it when the fields are not separated by `;`:
the message `Buf`, then `const MAX 256`. -/
def programS4 : AstProgram :=
  { mspace := "test", decl_list := [.structType msgBuf, .constDef constMAX] }

/-- Scenario S4 with the constant declared before the message. -/
def programS4ConstFirst : AstProgram :=
  { mspace := "test",
    decl_list := [.constDef { constMAX with line := 2 }, .structType { msgBuf with line := 3 }] }

/-- The tokens of scenario S4 with a line break instead of the `;` between the fields:
`mspace test;` / `defmsg Buf { len u8 -> max MAX` / `data []u8 -> limit by len }` /
`const MAX 256`. -/
def tokensS4 : List Token :=
  [tk .MSPACE "mspace" 1, tk .ID "test" 1, tk .SEMI ";" 1,
   tk .DEFMSG "defmsg" 2, tk .ID "Buf" 2, tk .LBRACE "\x7b" 2,
   tk .ID "len" 2, tk .TYPE_U8 "u8" 2, tk .DESC "->" 2, tk .MAX "max" 2, tk .ID "MAX" 2,
   tk .ID "data" 3, tk .LBRACKET "[" 3, tk .RBRACKET "]" 3, tk .TYPE_U8 "u8" 3,
   tk .DESC "->" 3, tk .LIMIT "limit" 3, tk .BY "by" 3, tk .ID "len" 3, tk .RBRACE "\x7d" 3,
   tk .CONST "const" 4, tk .ID "MAX" 4, tk .INT_CONST "256" 4, tk .EOF "EOF" 4]

/-- A message with an array field that has no `limit by`: `n u8`, `data []u8`. -/
def msgNoLimit : AstStructDecl :=
  { name := "Raw", line := 2, fields :=
      [{ name := "n", type_ := .AstPrimType symTypeU8, line := 2 },
       { name := "data", type_ := .AstArrayType (.AstPrimType symTypeU8), line := 3 }] }

/-- The program `mspace test` with the message `msgNoLimit`. -/
def programNoLimit : AstProgram :=
  { mspace := "test", decl_list := [.structType msgNoLimit] }

/-- Scenario S3 as an AST: `mspace test` and `defmsg Bad` with `hi u4`, `mid u2`. -/
def programBad : AstProgram :=
  { mspace := "test",
    decl_list := [.structType { name := "Bad", line := 2, fields :=
      [{ name := "hi", type_ := .AstPrimType symTypeU4, line := 2 },
       { name := "mid", type_ := .AstPrimType symTypeU2, line := 2 }] }] }

/-- The tokens of scenario S3 without the `;` between the fields:
`mspace test;` / `defmsg Bad { hi u4 mid u2 }`. -/
def tokensS3 : List Token :=
  [tk .MSPACE "mspace" 1, tk .ID "test" 1, tk .SEMI ";" 1,
   tk .DEFMSG "defmsg" 2, tk .ID "Bad" 2, tk .LBRACE "\x7b" 2,
   tk .ID "hi" 2, tk .TYPE_U4 "u4" 2, tk .ID "mid" 2, tk .TYPE_U2 "u2" 2,
   tk .RBRACE "\x7d" 2, tk .EOF "EOF" 2]

/-- The tokens of scenario S1 as written: `mspace test;` / `defmsg Hello { a u8; b u8 }`. -/
def tokensS1 : List Token :=
  [tk .MSPACE "mspace" 1, tk .ID "test" 1, tk .SEMI ";" 1,
   tk .DEFMSG "defmsg" 2, tk .ID "Hello" 2, tk .LBRACE "\x7b" 2,
   tk .ID "a" 2, tk .TYPE_U8 "u8" 2, tk .SEMI ";" 2,
   tk .ID "b" 2, tk .TYPE_U8 "u8" 2, tk .RBRACE "\x7d" 2, tk .EOF "EOF" 2]

/-- The tokens of scenario S1 without the `;` between the fields:
`mspace test;` / `defmsg Hello { a u8 b u8 }`. -/
def tokensS1NoSemi : List Token :=
  [tk .MSPACE "mspace" 1, tk .ID "test" 1, tk .SEMI ";" 1,
   tk .DEFMSG "defmsg" 2, tk .ID "Hello" 2, tk .LBRACE "\x7b" 2,
   tk .ID "a" 2, tk .TYPE_U8 "u8" 2,
   tk .ID "b" 2, tk .TYPE_U8 "u8" 2, tk .RBRACE "\x7d" 2, tk .EOF "EOF" 2]

/-- A field of a message type that is declared later:
`mspace test` / `defmsg A { b B }` / `defmsg B { x u8 }`. -/
def tokensForwardMsg : List Token :=
  [tk .MSPACE "mspace" 1, tk .ID "test" 1,
   tk .DEFMSG "defmsg" 2, tk .ID "A" 2, tk .LBRACE "\x7b" 2,
   tk .ID "b" 2, tk .ID "B" 2, tk .RBRACE "\x7d" 2,
   tk .DEFMSG "defmsg" 3, tk .ID "B" 3, tk .LBRACE "\x7b" 3,
   tk .ID "x" 3, tk .TYPE_U8 "u8" 3, tk .RBRACE "\x7d" 3, tk .EOF "EOF" 3]

/-- A field of a type that a later `type` declares:
`mspace test` / `defmsg A { b B }` / `type B u8`. -/
def tokensForwardType : List Token :=
  [tk .MSPACE "mspace" 1, tk .ID "test" 1,
   tk .DEFMSG "defmsg" 2, tk .ID "A" 2, tk .LBRACE "\x7b" 2,
   tk .ID "b" 2, tk .ID "B" 2, tk .RBRACE "\x7d" 2,
   tk .TYPE "type" 3, tk .ID "B" 3, tk .TYPE_U8 "u8" 3, tk .EOF "EOF" 3]

/-- A field of a type that nothing declares: `mspace test` / `defmsg A { b B }`. -/
def tokensUndeclared : List Token :=
  [tk .MSPACE "mspace" 1, tk .ID "test" 1,
   tk .DEFMSG "defmsg" 2, tk .ID "A" 2, tk .LBRACE "\x7b" 2,
   tk .ID "b" 2, tk .ID "B" 2, tk .RBRACE "\x7d" 2, tk .EOF "EOF" 2]

/-- The program that `tokensUndeclared` parses to. -/
def programUndeclared : AstProgram :=
  { mspace := "test",
    decl_list := [.structType { name := "A", line := 2, fields :=
      [{ name := "b", type_ := .AstUndefType "B" .nil, line := 2 }] }] }

/-- An id group whose second item is numbered after the largest `int`:
`mspace test` / `defid G { A = 9223372036854775807, B }`. -/
def tokensIdOverflow : List Token :=
  [tk .MSPACE "mspace" 1, tk .ID "test" 1,
   tk .DEFID "defid" 2, tk .ID "G" 2, tk .LBRACE "\x7b" 2,
   tk .ID "A" 2, tk .ASSIGN "=" 2, tk .INT_CONST "9223372036854775807" 2, tk .COMMA "," 2,
   tk .ID "B" 2, tk .RBRACE "\x7d" 2, tk .EOF "EOF" 2]

/-- The id group of `tokensIdOverflow`. -/
def idGroupOverflow : AstIdGroupDef :=
  { name := "G", line := 2, items :=
      [{ name := "A", line := 2, base := true, idVal := 9223372036854775807 },
       { name := "B", line := 2 }] }

/-- The item values of the id groups of a program, in source order. -/
def idValues (program : AstProgram) : List (List Int) :=
  program.decl_list.filterMap fun d =>
    match d with
    | .idGroupDef node => some (node.items.map fun id => id.idVal)
    | _ => none

/-! ## Reading the emitted array lengths -/

/-- The length expression of a line that the emitter writes for an array field: the
bound of the slice `m.F[0:LEN]`, `m.F[:LEN]`, or of the loop `i < int(LEN)`. The
decoder's line `m.F[:]` has no length expression. -/
def lengthExpr (l : Line) : Option String :=
  if l.format = "if binary.Write(buf, binary.BigEndian, m.%s[0:m.%s]) != nil \x7b return -1 \x7d"
      ∨ l.format = "if binary.Read(buf, binary.BigEndian, m.%s[:m.%s]) != nil \x7b return -1 \x7d" then
    match l.args with
    | [.str _, .str limit] => some ("m." ++ limit)
    | _ => none
  else if l.format = "if binary.Write(buf, binary.BigEndian, m.%s[0:%s]) != nil \x7b return -1 \x7d" then
    match l.args with
    | [.str _, .str limit] => some limit
    | _ => none
  else if l.format = "for i := 0; i < int(m.%s); i++ \x7b" then
    match l.args with
    | [.str limit] => some ("m." ++ limit)
    | _ => none
  else if l.format = "for i := 0; i < int(%s); i++ \x7b" then
    match l.args with
    | [.str limit] => some limit
    | _ => none
  else none

/-- The element types for which the array branch of the emitter does not panic:
integers of whole bytes and struct types. -/
def supportedElem (elemType : AstType) : Bool :=
  match elemType with
  | .AstPrimType name =>
    (isIntType (.AstPrimType name)).1 && (isIntType (.AstPrimType name)).2 % 8 == 0
  | .AstStructType _ _ => true
  | _ => false

/-- The message `Buf` of scenario S4 without the `max` modifier on `len`. -/
def msgBufNoMax : AstStructDecl :=
  { name := "Buf", line := 2, fields :=
      [{ name := "len", type_ := .AstPrimType symTypeU8, line := 2 },
       { name := "data", type_ := .AstArrayType (.AstPrimType symTypeU8), line := 3,
         limit := some { name := "len", line := 3 } }] }

/-! ## Messages whose fields follow each other without a separator -/

/-- The tokens of field declarations `NAME TYPE NAME TYPE ...`, each given by its name
token and its type token. -/
def fieldTokens : List (Token × Token) → List Token
  | [] => []
  | (nameTok, typeTok) :: rest => nameTok :: typeTok :: fieldTokens rest

/-- The fields that the declarations `NAME TYPE` denote when every type is the keyword
of a primitive type, in source order. -/
def expectedFields (fs : List (Token × Token)) : List AstVarDecl :=
  fs.map fun q =>
    { name := q.1.value, type_ := .AstPrimType ((typeKeyword q.2.type_).getD ""),
      line := q.1.line }

/-- The type map of the parser has its initial entry for every primitive type that a
keyword names. -/
def BuiltinTypes (p : hskParser) : Prop :=
  ∀ kw name, typeKeyword kw = some name → p.tpGet name = .AstPrimType name

/-- The parser of scenario S1 without the `;` between the fields, when it stands at
`defmsg`: the tokens of `defmsg Hello { a u8 b u8 }` and the end of the text. -/
def parserAtHello : hskParser :=
  { lex := [tk .ID "Hello" 2, tk .LBRACE "\x7b" 2] ++
      fieldTokens [(tk .ID "a" 2, tk .TYPE_U8 "u8" 2), (tk .ID "b" 2, tk .TYPE_U8 "u8" 2)] ++
      [tk .RBRACE "\x7d" 2, tk .EOF "EOF" 2],
    prevToken := some (tk .SEMI ";" 1),
    curToken := tk .DEFMSG "defmsg" 2,
    tpMap := builtinTypeArr.foldl (fun m val => mapSet m val (.AstPrimType val)) [] }

/-! ## Id values as the specification words them -/

/-- The item values of invariant I4 with unbounded integers: an item with an explicit
value keeps it, which must exceed the previous item's value (`none` when it does not);
an item without one gets the previous value plus one; `prev` is `none` before the first
item, which gets 1 without an explicit value. -/
def specIdValues (prev : Option Int) : List idItem → Option (List Int)
  | [] => some []
  | id :: rest =>
    if id.base then
      match prev with
      | some p =>
        if id.idVal ≤ p then none
        else (specIdValues (some id.idVal) rest).map (id.idVal :: ·)
      | none => (specIdValues (some id.idVal) rest).map (id.idVal :: ·)
    else
      let v := prev.getD 0 + 1
      (specIdValues (some v) rest).map (v :: ·)

/-! ## The dispatch by message id (interpreter.go, interp_go.go) -/

/-- The Go expression `strings.ToUpper(mspace[:1]) + mspace[1:]` of
`visitBindEncode_Go` and `visitBindDecode_Go` for a name that starts with an ASCII
character; on the empty name the slice `mspace[:1]` is out of range. (On a first
character of several bytes the Go slice cuts inside the character; such names are not
considered.) -/
def upperFirst (mspace : String) : Except Panic String :=
  match mspace.toList with
  | [] => .error .indexOutOfRange
  | c :: rest => .ok (String.mk (c.toUpper :: rest))

/-- The loop `for idx, bind := range binds { ... }` shared by `visitBindEncode_Go` and
`visitBindDecode_Go`, from index `idx` on: `call` is the format of the line that calls
the encoder or the decoder of the bound message. -/
def bindCases (call : String) (interp : interpreter) (idx : Nat) :
    List AstBindDef → Except Panic interpreter
  | [] => .ok interp
  | bind :: rest =>
    let interp1 := if idx ≠ 0 then interp.addNewLine else interp
    let interp2 := (interp1.addLine "case %s:" [.str bind.msgId]).pushStackFrame
    let interp3 :=
      if bind.msgName.length ≠ 0 then
        interp2.addLine call [.str bind.msgName, .str bind.msgName]
      else interp2.addLine "return 0" []
    match interp3.popStackFrame with
    | .error e => .error e
    | .ok interp4 => bindCases call interp4 (idx + 1) rest

/-- The common body of `visitBindEncode_Go` and `visitBindDecode_Go`, which differ in
the strings only: `head` and `tail` are the parts of the function head before and after
the name of the message space (`interp.program.mspace`). -/
def visitBindDispatch_Go (head tail call : String) (interp : interpreter) (mspace : String)
    (binds : List AstBindDef) : Except Panic interpreter :=
  let interp1 := interp.addNewLine
  match upperFirst mspace with
  | .error e => .error e
  | .ok ms =>
    let interp2 := ((interp1.addLine (head ++ ms ++ tail) []).pushStackFrame).addLine
      "switch mid \x7b" []
    match bindCases call interp2 0 binds with
    | .error e => .error e
    | .ok interp3 =>
      match (((interp3.addLine "\x7d" []).addNewLine).addLine "return -1" []).popStackFrame with
      | .error e => .error e
      | .ok interp4 => .ok ((interp4.addLine "\x7d" []).addNewLine)

/-- `interpreter.visitBindEncode_Go`. -/
def visitBindEncode_Go (interp : interpreter) (mspace : String) (binds : List AstBindDef) :
    Except Panic interpreter :=
  visitBindDispatch_Go "func encode" "MsgById(buf io.Writer, mid uint16, msg interface\x7b\x7d) int \x7b"
    "return encode_%s(buf, msg.(*%s))" interp mspace binds

/-- `interpreter.visitBindDecode_Go`. -/
def visitBindDecode_Go (interp : interpreter) (mspace : String) (binds : List AstBindDef) :
    Except Panic interpreter :=
  visitBindDispatch_Go "func decode" "MsgById(buf io.Reader, mid uint16, msg interface\x7b\x7d) int \x7b"
    "return decode_%s(buf, msg.(*%s))" interp mspace binds

/-- `interpreter.visitBinds_Go`. -/
def visitBinds_Go (interp : interpreter) (mspace : String) (binds : List AstBindDef) :
    Except Panic interpreter :=
  match visitBindEncode_Go interp mspace binds with
  | .error e => .error e
  | .ok interp1 => visitBindDecode_Go interp1 mspace binds

/-- The bind directive of a declaration, if it is one. -/
def bindOf : Decl → Option AstBindDef
  | .bindDef node => some node
  | _ => none

/-- The list `interp.binds` after `visitTraverse`: `interpreter.visitBindDef` appends
every bind directive of the program, in source order. -/
def programBinds (program : AstProgram) : List AstBindDef :=
  program.decl_list.filterMap bindOf

/-- `interpreter.visitBinds` in the mode `INTERP_MODE_GO`, after `visitTraverse` has run
on the program. -/
def visitBinds (interp : interpreter) (program : AstProgram) : Except Panic interpreter :=
  if (programBinds program).length = 0 then .ok interp
  else visitBinds_Go interp program.mspace (programBinds program)

/-! ## Reading the emitted dispatch function -/

/-- The statement under the first line `case ID:` of the emitted lines that names
`id`. -/
def caseBody (id : String) : List Line → Option Line
  | [] => none
  | l :: rest =>
    if l.format = "case %s:" ∧ l.args = [.str id] then rest.head? else caseBody id rest

/-- The emitted lines after the first line `}`, which closes the `switch`. -/
def afterSwitch : List Line → List Line
  | [] => []
  | l :: rest => if l.format = "\x7d" then rest else afterSwitch rest

/-- The statement that the emitted function `encode<Mspace>MsgById` (or
`decode<Mspace>MsgById`) executes for `mid = id`: the statement under the `case` that
names `id`, or, when no `case` names it, the first statement after the `switch`. -/
def dispatchReturn (id : String) (lines : List Line) : Option Line :=
  match caseBody id lines with
  | some l => some l
  | none => (afterSwitch lines).find? fun l => l.format != ""

/-- The format and the arguments of a line. -/
def Line.text (l : Line) : String × List Arg :=
  (l.format, l.args)

/-- The tokens of scenario S5: `mspace test;` / `defmid M { ON = 1, OFF }` /
`defmsg Light { state u8 }` / `bind ON Light`. -/
def tokensS5 : List Token :=
  [tk .MSPACE "mspace" 1, tk .ID "test" 1, tk .SEMI ";" 1,
   tk .DEFMID "defmid" 2, tk .ID "M" 2, tk .LBRACE "\x7b" 2,
   tk .ID "ON" 2, tk .ASSIGN "=" 2, tk .INT_CONST "1" 2, tk .COMMA "," 2, tk .ID "OFF" 2,
   tk .RBRACE "\x7d" 2,
   tk .DEFMSG "defmsg" 3, tk .ID "Light" 3, tk .LBRACE "\x7b" 3,
   tk .ID "state" 3, tk .TYPE_U8 "u8" 3, tk .RBRACE "\x7d" 3,
   tk .DEFBIND "bind" 4, tk .ID "ON" 4, tk .ID "Light" 4, tk .EOF "EOF" 4]

/-- The id group `defmid M { ON = 1, OFF }` of scenario S5 as the parser builds it. -/
def idGroupM : AstIdGroupDef :=
  { isMsgId := true, name := "M", line := 2, items :=
      [{ name := "ON", line := 2, base := true, idVal := 1 }, { name := "OFF", line := 2 }] }

/-- The message `defmsg Light { state u8 }` of scenario S5. -/
def msgLight : AstStructDecl :=
  { name := "Light", line := 3, fields :=
      [{ name := "state", type_ := .AstPrimType symTypeU8, line := 3 }] }

/-- The directive `bind ON Light` of scenario S5. -/
def bindOnLight : AstBindDef :=
  { msgName := "Light", msgId := "ON", line := 4 }

/-- Scenario S5 as the parser builds it. -/
def programS5 : AstProgram :=
  { mspace := "test",
    decl_list := [.idGroupDef idGroupM, .structType msgLight, .bindDef bindOnLight] }

/-! ## The second pass of the analyzer: bind directives -/

/-- The calls of `visitBindDef` that the second pass of `visitProgram` makes, one for
each bind directive in source order. -/
def visitBindDefs (se : semanticAnalyzer) : List AstBindDef → Except Panic semanticAnalyzer
  | [] => .ok se
  | b :: rest =>
    match visitBindDef se b with
    | .error e => .error e
    | .ok se1 => visitBindDefs se1 rest

/-- The message that the analyzer has recorded for a message id: the field `bindMsg` of
the item that `midMap` holds under the name. -/
def boundMsg (se : semanticAnalyzer) (id : String) : Option String :=
  (mapGet se.midMap id).map fun item => item.bindMsg

/-- Scenario S5 with the directive first: `bind ON Light`, then the id group and the
message. -/
def programBindFirst : AstProgram :=
  { mspace := "test",
    decl_list := [.bindDef bindOnLight, .idGroupDef idGroupM, .structType msgLight] }

/-- The tokens of `mspace test` / `defmid M { ON = 1 }` / `defmsg Light { state u8 }` /
`bind ON nil` / `bind ON Light`: two directives name the id `ON`. -/
def tokensBindNil : List Token :=
  [tk .MSPACE "mspace" 1, tk .ID "test" 1,
   tk .DEFMID "defmid" 2, tk .ID "M" 2, tk .LBRACE "\x7b" 2,
   tk .ID "ON" 2, tk .ASSIGN "=" 2, tk .INT_CONST "1" 2, tk .RBRACE "\x7d" 2,
   tk .DEFMSG "defmsg" 3, tk .ID "Light" 3, tk .LBRACE "\x7b" 3,
   tk .ID "state" 3, tk .TYPE_U8 "u8" 3, tk .RBRACE "\x7d" 3,
   tk .DEFBIND "bind" 4, tk .ID "ON" 4, tk .NIL "nil" 4,
   tk .DEFBIND "bind" 5, tk .ID "ON" 5, tk .ID "Light" 5, tk .EOF "EOF" 5]

/-- The tokens of `mspace test` / `const MAX 256` / `defmid M { ON = 1 }` /
`bind ON MAX`: the directive names a constant. -/
def tokensBindConst : List Token :=
  [tk .MSPACE "mspace" 1, tk .ID "test" 1,
   tk .CONST "const" 2, tk .ID "MAX" 2, tk .INT_CONST "256" 2,
   tk .DEFMID "defmid" 3, tk .ID "M" 3, tk .LBRACE "\x7b" 3,
   tk .ID "ON" 3, tk .ASSIGN "=" 3, tk .INT_CONST "1" 3, tk .RBRACE "\x7d" 3,
   tk .DEFBIND "bind" 4, tk .ID "ON" 4, tk .ID "MAX" 4, tk .EOF "EOF" 4]

/-- The tokens of `mspace test` / `defmid M { ON = 1 }` / `bind ON void`: the directive
names a built-in type (`void` is no keyword of the lexer, so it is an `ID`). -/
def tokensBindVoid : List Token :=
  [tk .MSPACE "mspace" 1, tk .ID "test" 1,
   tk .DEFMID "defmid" 2, tk .ID "M" 2, tk .LBRACE "\x7b" 2,
   tk .ID "ON" 2, tk .ASSIGN "=" 2, tk .INT_CONST "1" 2, tk .RBRACE "\x7d" 2,
   tk .DEFBIND "bind" 3, tk .ID "ON" 3, tk .ID "void" 3, tk .EOF "EOF" 3]

/-- The tokens of `mspace test` / `extern dev u8` / `defid G { K }` /
`defmid M { ON = 1 }` / `bind ON dev`, and the same with `bind ON G`: the directive
names an extern, or an id group. -/
def tokensBindOther (name : String) : List Token :=
  [tk .MSPACE "mspace" 1, tk .ID "test" 1,
   tk .EXTERN "extern" 2, tk .ID "dev" 2, tk .TYPE_U8 "u8" 2,
   tk .DEFID "defid" 3, tk .ID "G" 3, tk .LBRACE "\x7b" 3, tk .ID "K" 3, tk .RBRACE "\x7d" 3,
   tk .DEFMID "defmid" 4, tk .ID "M" 4, tk .LBRACE "\x7b" 4,
   tk .ID "ON" 4, tk .ASSIGN "=" 4, tk .INT_CONST "1" 4, tk .RBRACE "\x7d" 4,
   tk .DEFBIND "bind" 5, tk .ID "ON" 5, tk .ID name 5, tk .EOF "EOF" 5]

/-! ## The tokens that the parser has not consumed -/

/-- The tokens that the parser has not consumed yet: the current token and the rest of
the lexer's output. -/
def hskParser.pending (p : hskParser) : List Token :=
  p.curToken :: p.lex

/-- An expression parser only consumes tokens: what is pending after it is a final part
of what was pending before. -/
def Shrinks (f : ExprParser) : Prop :=
  ∀ p r, f p = .ok r → r.2.pending <:+ p.pending

/-- The tokens of `mspace a` / `mspace b` / `defmsg Hello { a u8 }`: two `mspace`
declarations. -/
def tokensTwoMspace : List Token :=
  [tk .MSPACE "mspace" 1, tk .ID "a" 1,
   tk .MSPACE "mspace" 2, tk .ID "b" 2,
   tk .DEFMSG "defmsg" 3, tk .ID "Hello" 3, tk .LBRACE "\x7b" 3,
   tk .ID "a" 3, tk .TYPE_U8 "u8" 3, tk .RBRACE "\x7d" 3, tk .EOF "EOF" 3]

/-- The tokens of `defmsg Hello { a u8 }`: no `mspace` declaration. -/
def tokensNoMspace : List Token :=
  [tk .DEFMSG "defmsg" 1, tk .ID "Hello" 1, tk .LBRACE "\x7b" 1,
   tk .ID "a" 1, tk .TYPE_U8 "u8" 1, tk .RBRACE "\x7d" 1, tk .EOF "EOF" 1]

/-! ## The names of the top level -/

/-- The name that the first pass of `visitProgram` enters into the symbol table of the
program for a declaration: the name of a field, constant, message or extern and of an id
group that has items (`visitIdGroupDefine` returns at once for a group without items). -/
def symbolNames : Decl → List String
  | .varDecl node => [node.name]
  | .idGroupDef node => if node.items.length = 0 then [] else [node.name]
  | .constDef node => [node.name]
  | .structType node => [node.name]
  | .externVar node => [node.name]
  | _ => []

/-- The names that the first pass of `visitProgram` enters into `midMap` for a
declaration: the names of the items of an id group. -/
def itemNames : Decl → List String
  | .idGroupDef node => node.items.map fun id => id.name
  | _ => []

/-- The analyzer `se1` is `se` with one more symbol in the current table, under a name
that the table did not have. -/
def Entered (se se1 : semanticAnalyzer) (name : String) : Prop :=
  ∃ tb up sym, se.symbolStack = tb :: up ∧ mapGet tb.table name = none ∧
    se1 = { se with symbolStack := { tb with table := mapSet tb.table name sym } :: up }

/-- The tokens of `mspace test` / `const MAX 256` / `defid G { MAX }`: an id item with
the name of a constant. -/
def tokensItemConst : List Token :=
  [tk .MSPACE "mspace" 1, tk .ID "test" 1,
   tk .CONST "const" 2, tk .ID "MAX" 2, tk .INT_CONST "256" 2,
   tk .DEFID "defid" 3, tk .ID "G" 3, tk .LBRACE "\x7b" 3, tk .ID "MAX" 3, tk .RBRACE "\x7d" 3,
   tk .EOF "EOF" 3]

/-- The tokens of `mspace test` / `defid E { }` / `defid E { }`: two id groups without
items and with the same name. -/
def tokensEmptyGroups : List Token :=
  [tk .MSPACE "mspace" 1, tk .ID "test" 1,
   tk .DEFID "defid" 2, tk .ID "E" 2, tk .LBRACE "\x7b" 2, tk .RBRACE "\x7d" 2,
   tk .DEFID "defid" 3, tk .ID "E" 3, tk .LBRACE "\x7b" 3, tk .RBRACE "\x7d" 3,
   tk .EOF "EOF" 3]

/-- The tokens of `mspace test` / `const K 1` / `defmsg K { a u8 }`: a message with the
name of a constant. -/
def tokensConstMsg : List Token :=
  [tk .MSPACE "mspace" 1, tk .ID "test" 1,
   tk .CONST "const" 2, tk .ID "K" 2, tk .INT_CONST "1" 2,
   tk .DEFMSG "defmsg" 3, tk .ID "K" 3, tk .LBRACE "\x7b" 3,
   tk .ID "a" 3, tk .TYPE_U8 "u8" 3, tk .RBRACE "\x7d" 3, tk .EOF "EOF" 3]

/-- The names under which the current symbol table of the analyzer has a symbol. -/
def symKeys (se : semanticAnalyzer) (n : String) : Bool :=
  (lookup se.symbolStack n false).isSome

/-- The names under which `midMap` has an item. -/
def itemKeys (se : semanticAnalyzer) (n : String) : Bool :=
  (mapGet se.midMap n).isSome

/-- From the keys `before` to the keys `after` exactly the names `names` were added: they
were no keys before, they are pairwise distinct, and the keys after are the keys of before
and the names. -/
def AddsNames (before after : String → Bool) (names : List String) : Prop :=
  (∀ n ∈ names, before n = false) ∧ names.Nodup
    ∧ (∀ n, after n = false ↔ before n = false ∧ n ∉ names)

/-! ## Field names -/

/-- The tokens of `mspace test` / `defmsg A { void u8 }`: one field, whose name is the
name of a built-in type (`void` is no keyword of the lexer, so it is an `ID`). -/
def tokensFieldVoid : List Token :=
  [tk .MSPACE "mspace" 1, tk .ID "test" 1,
   tk .DEFMSG "defmsg" 2, tk .ID "A" 2, tk .LBRACE "\x7b" 2,
   tk .ID "void" 2, tk .TYPE_U8 "u8" 2, tk .RBRACE "\x7d" 2, tk .EOF "EOF" 2]

/-- The message `defmsg A { a u8 b u16 a u32 }`, which declares the field `a` twice. -/
def msgDupField : AstStructDecl :=
  { name := "A", line := 2, fields :=
      [{ name := "a", type_ := .AstPrimType symTypeU8, line := 2 },
       { name := "b", type_ := .AstPrimType symTypeU16, line := 2 },
       { name := "a", type_ := .AstPrimType symTypeU32, line := 2 }] }

/-! ## Modifiers of fields in a sub-byte run -/

/-- The tokens of `mspace test` / `const K 5` / `defmsg A { hi u4 -> xor K exist if K == 5`
/ `lo u4 }`: the first field of a sub-byte run carries `xor` and `exist if`. -/
def tokensXorFirst : List Token :=
  [tk .MSPACE "mspace" 1, tk .ID "test" 1,
   tk .CONST "const" 2, tk .ID "K" 2, tk .INT_CONST "5" 2,
   tk .DEFMSG "defmsg" 3, tk .ID "A" 3, tk .LBRACE "\x7b" 3,
   tk .ID "hi" 3, tk .TYPE_U4 "u4" 3, tk .DESC "->" 3, tk .XOR "xor" 3, tk .ID "K" 3,
   tk .EXIST "exist" 3, tk .IF "if" 3, tk .ID "K" 3, tk .EQU "==" 3, tk .INT_CONST "5" 3,
   tk .ID "lo" 4, tk .TYPE_U4 "u4" 4, tk .RBRACE "\x7d" 4, tk .EOF "EOF" 4]

/-- The message `defmsg A { hi u4 lo u4 -> xor K }`: the second field of a sub-byte run
carries `xor`. -/
def msgXorSecond : AstStructDecl :=
  { name := "A", line := 3, fields :=
      [{ name := "hi", type_ := .AstPrimType symTypeU4, line := 3 },
       { name := "lo", type_ := .AstPrimType symTypeU4, line := 3,
         xor := some { name := "K", line := 3 } }] }

/-- The program `mspace test` / `const K 5` with the message `msgXorSecond`. -/
def programXorSecond : AstProgram :=
  { mspace := "test",
    decl_list := [.constDef { name := "K", val := .AstIntConst 5, line := 2 },
                  .structType msgXorSecond] }

/-! ## The expression of `exist if` -/

/-- The field with the expression of its `exist if` modifier, if it has one, replaced by
its image under `g`. -/
def AstVarDecl.mapExistIf (g : AstNode → AstNode) (f : AstVarDecl) : AstVarDecl :=
  { f with existIf := f.existIf.map g }

/-- The message with `AstVarDecl.mapExistIf g` applied to its fields. -/
def AstStructDecl.mapExistIf (g : AstNode → AstNode) (node : AstStructDecl) : AstStructDecl :=
  { node with fields := node.fields.map (AstVarDecl.mapExistIf g) }

/-- The declaration with the `exist if` expressions of its fields replaced. -/
def Decl.mapExistIf (g : AstNode → AstNode) : Decl → Decl
  | .varDecl node => .varDecl (node.mapExistIf g)
  | .structType node => .structType (node.mapExistIf g)
  | d => d

/-- The program with every `exist if` expression `e` replaced by `g e`. -/
def AstProgram.mapExistIf (g : AstNode → AstNode) (program : AstProgram) : AstProgram :=
  { program with decl_list := program.decl_list.map (Decl.mapExistIf g) }

/-- The tokens of `mspace test` / `defmsg A { a u8 -> exist if nosuch == 1`
/ `b u8 -> exist if "x" }`: an `exist if` expression that names an undefined identifier,
and one that is a string. -/
def tokensExistUndefined : List Token :=
  [tk .MSPACE "mspace" 1, tk .ID "test" 1,
   tk .DEFMSG "defmsg" 2, tk .ID "A" 2, tk .LBRACE "\x7b" 2,
   tk .ID "a" 2, tk .TYPE_U8 "u8" 2, tk .DESC "->" 2, tk .EXIST "exist" 2, tk .IF "if" 2,
   tk .ID "nosuch" 2, tk .EQU "==" 2, tk .INT_CONST "1" 2,
   tk .ID "b" 3, tk .TYPE_U8 "u8" 3, tk .DESC "->" 3, tk .EXIST "exist" 3, tk .IF "if" 3,
   tk .STRING_CONST "x" 3, tk .RBRACE "\x7d" 3, tk .EOF "EOF" 3]

/-! ## Reading the emitted checks of the decoder -/

/-- The field, the comparison and the bound of a line `if m.F > M { return -1 }` or
`if m.F != E { return -1 }` that `visitMsgDecode_Go` emits for a whole-byte integer. -/
def decodeCheck (l : Line) : Option (String × String × String) :=
  if l.format = "if m.%s > %s \x7b return -1 \x7d" then
    match l.args with
    | [.str name, .str bound] => some (name, ">", bound)
    | _ => none
  else if l.format = "if m.%s != %s \x7b return -1 \x7d" then
    match l.args with
    | [.str name, .str bound] => some (name, "!=", bound)
    | _ => none
  else none

/-- The field `len u8 -> max MAX equal E`, which carries both modifiers. -/
def fieldMaxEqual : AstVarDecl :=
  { name := "len", type_ := .AstPrimType symTypeU8, line := 4,
    max := some { name := "MAX", line := 4 }, equ := some { name := "E", line := 4 } }

/-- The tokens of `mspace test` / `const MAX 9` / `const E 7` /
`defmsg Buf { len u8 -> max MAX equal E }`. -/
def tokensMaxEqual : List Token :=
  [tk .MSPACE "mspace" 1, tk .ID "test" 1,
   tk .CONST "const" 2, tk .ID "MAX" 2, tk .INT_CONST "9" 2,
   tk .CONST "const" 3, tk .ID "E" 3, tk .INT_CONST "7" 3,
   tk .DEFMSG "defmsg" 4, tk .ID "Buf" 4, tk .LBRACE "\x7b" 4,
   tk .ID "len" 4, tk .TYPE_U8 "u8" 4, tk .DESC "->" 4, tk .MAX "max" 4, tk .ID "MAX" 4,
   tk .EQU "equal" 4, tk .ID "E" 4, tk .RBRACE "\x7d" 4, tk .EOF "EOF" 4]

/-! ## The lexer (lexer.go) -/

/-- The map `keywords`. -/
def keywords : List (String × TokenType) :=
  [("var", .VAR), ("const", .CONST), ("int", .TYPE_INT), ("None", .NONE),
   ("string", .TYPE_STRING), ("return", .RETURN), ("any", .TYPE_ANY), ("type", .TYPE),
   ("struct", .STRUCT), ("new", .NEW), ("if", .IF), ("elif", .ELIF), ("else", .ELSE),
   ("while", .WHILE), ("break", .BREAK), ("u1", .TYPE_U1), ("u2", .TYPE_U2),
   ("u3", .TYPE_U3), ("u4", .TYPE_U4), ("u5", .TYPE_U5), ("u6", .TYPE_U6),
   ("u7", .TYPE_U7), ("u8", .TYPE_U8), ("char", .TYPE_CHAR), ("u16", .TYPE_U16),
   ("u32", .TYPE_U32), ("u64", .TYPE_U64), ("v32", .TYPE_V32), ("v64", .TYPE_V64),
   ("defmsg", .DEFMSG), ("defid", .DEFID), ("limit", .LIMIT), ("by", .BY), ("max", .MAX),
   ("equal", .EQU), ("xor", .XOR), ("exist", .EXIST), ("this", .THIS),
   ("extern", .EXTERN), ("defmid", .DEFMID), ("bind", .DEFBIND), ("nil", .NIL),
   ("mend", .MEND), ("mspace", .MSPACE)]

/-- The rune 0: the value of `curChar` at the end of the text. -/
abbrev chNUL : Char := Char.ofNat 0

/-- The line feed. -/
abbrev chLF : Char := Char.ofNat 10

/-- The double quote. -/
abbrev chQuote : Char := Char.ofNat 34

/-- The backslash. -/
abbrev chBackslash : Char := Char.ofNat 92

/-- `unicode.IsSpace`: tab, line feed, vertical tab, form feed, carriage return, space,
U+0085, U+00A0 and the characters of the property White_Space above U+00FF. -/
def isSpace (c : Char) : Bool :=
  decide ((9 ≤ c.toNat ∧ c.toNat ≤ 13) ∨ c.toNat = 32 ∨ c.toNat = 0x85 ∨ c.toNat = 0xA0
    ∨ c.toNat = 0x1680 ∨ (0x2000 ≤ c.toNat ∧ c.toNat ≤ 0x200A) ∨ c.toNat = 0x2028
    ∨ c.toNat = 0x2029 ∨ c.toNat = 0x202F ∨ c.toNat = 0x205F ∨ c.toNat = 0x3000)

/-- `unicode.IsDigit` on the characters up to U+00FF, where the decimal digits are
`0` to `9`. The table of the category Nd above U+00FF is not embedded: the embedding
is about texts of characters up to U+00FF, and answers false above. -/
def isDigit (c : Char) : Bool :=
  decide (48 ≤ c.toNat ∧ c.toNat ≤ 57)

/-- `unicode.IsLetter` on the characters up to U+00FF: `A`-`Z`, `a`-`z`, U+00AA, U+00B5,
U+00BA, U+00C0-U+00D6, U+00D8-U+00F6, U+00F8-U+00FF. The table of the category L above
U+00FF is not embedded (see `isDigit`). -/
def isLetter (c : Char) : Bool :=
  decide ((65 ≤ c.toNat ∧ c.toNat ≤ 90) ∨ (97 ≤ c.toNat ∧ c.toNat ≤ 122) ∨ c.toNat = 0xAA
    ∨ c.toNat = 0xB5 ∨ c.toNat = 0xBA ∨ (0xC0 ≤ c.toNat ∧ c.toNat ≤ 0xD6)
    ∨ (0xD8 ≤ c.toNat ∧ c.toNat ≤ 0xF6) ∨ (0xF8 ≤ c.toNat ∧ c.toNat ≤ 0xFF))

/-- The record `hskLexer`. The field `posMax` is set once, to `len(lex.text)`, and is
the function `hskLexer.posMax` here; `lastError` keeps the character, the line and the
column of the message `unknown char`. -/
structure hskLexer where
  text : List Char
  pos : Nat := 0
  curChar : Char := chNUL
  lineNo : Nat := 0
  colNo : Nat := 0
  lastError : Option (Char × Nat × Nat) := none
  deriving DecidableEq, Repr

/-- The field `posMax`. -/
def hskLexer.posMax (lex : hskLexer) : Nat :=
  lex.text.length

/-- `hskLexer.advance`. -/
def hskLexer.advance (lex : hskLexer) : hskLexer :=
  if lex.pos + 1 < lex.posMax then
    { lex with
      pos := lex.pos + 1
      lineNo := if lex.curChar = chLF then lex.lineNo + 1 else lex.lineNo
      colNo := (if lex.curChar = chLF then 0 else lex.colNo) + 1
      curChar := lex.text.getD (lex.pos + 1) chNUL }
  else { lex with pos := lex.pos + 1, curChar := chNUL }

/-- `hskLexer.advanceBy`. -/
def hskLexer.advanceBy (lex : hskLexer) : Nat → hskLexer
  | 0 => lex
  | cnt + 1 => if lex.pos < lex.posMax then lex.advance.advanceBy cnt else lex

/-- `hskLexer.peekChar` (the index is never negative in the callers). -/
def hskLexer.peekChar (lex : hskLexer) (idx : Nat) : Char :=
  if lex.pos + idx < lex.posMax then lex.text.getD (lex.pos + idx) chNUL else chNUL

/-- The loop `for lex.pos < lex.posMax { ... }` of `skipComment`; every round advances,
so the loop makes at most `posMax - pos` rounds, which is the bound that `skipComment`
passes. -/
def skipCommentLoop (mult : Bool) (line : Nat) : Nat → hskLexer → hskLexer
  | 0, lex => lex
  | n + 1, lex =>
    if lex.pos < lex.posMax then
      if mult ∧ lex.curChar = '*' ∧ lex.peekChar 1 = '/' then lex.advanceBy 2
      else
        let lex1 := lex.advance
        if ¬ mult ∧ lex1.lineNo ≠ line then lex1 else skipCommentLoop mult line n lex1
    else lex

/-- `hskLexer.skipComment`: the runes returned and the lexer after the call. -/
def hskLexer.skipComment (lex : hskLexer) (mult : Bool) : List Char × hskLexer :=
  let lex1 := skipCommentLoop mult lex.lineNo (lex.posMax - lex.pos) lex
  let span := (lex.text.drop lex.pos).take (lex1.pos - lex.pos)
  if mult then (span, lex1) else (span.takeWhile (fun ch => ch != chLF), lex1)

/-- The loop `for P(lex.curChar) { acc = append(acc, lex.curChar); lex.advance() }`
shared by `getInteger`, `skipSpaces` and `getId`. No `P` of these holds of the rune 0,
which `advance` sets at the end of the text, so the loop makes at most `posMax - pos`
rounds (one round when `pos` is at the end); the callers pass `posMax - pos + 1`. -/
def collect (P : Char → Bool) : Nat → List Char → hskLexer → List Char × hskLexer
  | 0, acc, lex => (acc, lex)
  | n + 1, acc, lex =>
    if P lex.curChar then collect P n (acc ++ [lex.curChar]) lex.advance else (acc, lex)

/-- The `case` list of the hexadecimal branch of `getInteger`. -/
def isHexDigit (c : Char) : Bool :=
  decide ((48 ≤ c.toNat ∧ c.toNat ≤ 57) ∨ (97 ≤ c.toNat ∧ c.toNat ≤ 102)
    ∨ (65 ≤ c.toNat ∧ c.toNat ≤ 70))

/-- The `case` list of the decimal branch of `getInteger`. -/
def isDecDigit (c : Char) : Bool :=
  decide (48 ≤ c.toNat ∧ c.toNat ≤ 57)

/-- `hskLexer.getInteger`. -/
def hskLexer.getInteger (lex : hskLexer) : String × hskLexer :=
  if lex.curChar = '0' ∧ (lex.peekChar 1 = 'x' ∨ lex.peekChar 1 = 'X') then
    let lex1 := lex.advanceBy 2
    let r := collect (fun c => c != chNUL && isHexDigit c) (lex1.posMax - lex1.pos + 1)
      ['0', 'x'] lex1
    (String.mk r.1, r.2)
  else
    let r := collect (fun c => c != chNUL && isDecDigit c) (lex.posMax - lex.pos + 1) [] lex
    (String.mk r.1, r.2)

/-- `hskLexer.escapedChar`. -/
def escapedChar (escaped : Char) : Char :=
  if escaped = 't' then Char.ofNat 9
  else if escaped = 'b' then Char.ofNat 8
  else if escaped = 'n' then Char.ofNat 10
  else if escaped = 'r' then Char.ofNat 13
  else if escaped = 'f' then Char.ofNat 12
  else escaped

/-- The loop `for lex.curChar != '"' { ... }` of `getString`; the first argument bounds
the number of rounds. -/
def getStringLoop : Nat → List Char → hskLexer → Except Panic (List Char × hskLexer)
  | 0, _, _ => .error .outOfFuel
  | n + 1, val, lex =>
    if lex.curChar ≠ chQuote then
      if lex.curChar = chBackslash then
        let lex1 := lex.advance
        getStringLoop n (val ++ [escapedChar lex1.curChar]) lex1.advance
      else getStringLoop n (val ++ [lex.curChar]) lex.advance
    else .ok (val, lex)

/-- `hskLexer.getString`. -/
def getString (fuel : Nat) (lex : hskLexer) : Except Panic (String × hskLexer) :=
  match getStringLoop fuel [] lex.advance with
  | .error e => .error e
  | .ok (val, lex1) => .ok (String.mk val, lex1.advance)

/-- `hskLexer.skipSpaces`. -/
def hskLexer.skipSpaces (lex : hskLexer) : hskLexer :=
  (collect isSpace (lex.posMax - lex.pos + 1) [] lex).2

/-- `hskLexer.getId`. -/
def hskLexer.getId (lex : hskLexer) : Token × hskLexer :=
  let col := lex.colNo
  let r := collect (fun c => isLetter c || isDigit c || c == '_') (lex.posMax - lex.pos + 1)
    [] lex
  let value := String.mk r.1
  match mapGet keywords value with
  | some type_ => ({ type_ := type_, value := value, line := r.2.lineNo, column := col }, r.2)
  | none => ({ type_ := .ID, value := value, line := r.2.lineNo, column := col }, r.2)

/-- The token `&Token{type_, value, lex.lineNo, lex.colNo}`. -/
def hskLexer.token (lex : hskLexer) (type_ : TokenType) (value : String) : Token :=
  { type_ := type_, value := value, line := lex.lineNo, column := lex.colNo }

/-- The cases of the `switch lex.curChar` of `getNextToken` that return at once: every
case but `/` before `*` or `/`, which starts a comment. `none` is the nil of the
`default` case. In the case of the character `-` the Go code first builds a `MINUS`
token and then replaces it. -/
def switchToken (lex : hskLexer) : Option Token × hskLexer :=
  if lex.curChar = '+' then (some (lex.token .PLUS (String.singleton lex.curChar)), lex.advance)
  else if lex.curChar = '-' then
    if lex.peekChar 1 = '>' then (some (lex.token .DESC "->"), lex.advanceBy 2)
    else (some (lex.token .DIV (String.singleton lex.curChar)), lex.advance)
  else if lex.curChar = '*' then (some (lex.token .MUL (String.singleton lex.curChar)), lex.advance)
  else if lex.curChar = '/' then (some (lex.token .DIV (String.singleton lex.curChar)), lex.advance)
  else if lex.curChar = ':' then
    if lex.peekChar 1 = '=' then (some (lex.token .DEC_ASSIGN ":="), lex.advanceBy 2)
    else (some (lex.token .COLON ":"), lex.advanceBy 1)
  else if lex.curChar = '=' then
    if lex.peekChar 1 = '=' then (some (lex.token .EQU "=="), lex.advanceBy 2)
    else (some (lex.token .ASSIGN "="), lex.advanceBy 1)
  else if lex.curChar = '!' then
    if lex.peekChar 1 = '=' then (some (lex.token .NEQ "!="), lex.advanceBy 2)
    else (some (lex.token .NOT "!"), lex.advanceBy 1)
  else if lex.curChar = '&' then
    if lex.peekChar 1 = '&' then (some (lex.token .AND "&&"), lex.advanceBy 2)
    else (some (lex.token .BIT_AND "&"), lex.advance)
  else if lex.curChar = '|' then
    if lex.peekChar 1 = '|' then (some (lex.token .OR "||"), lex.advanceBy 2)
    else (some (lex.token .BIT_OR "|"), lex.advance)
  else if lex.curChar = '<' then
    if lex.peekChar 1 = '=' then (some (lex.token .LTE "<="), lex.advanceBy 2)
    else if lex.peekChar 1 = '<' then (some (lex.token .LSHIFT "<<"), lex.advanceBy 2)
    else (some (lex.token .LT "<"), lex.advanceBy 1)
  else if lex.curChar = '>' then
    if lex.peekChar 1 = '=' then (some (lex.token .GTE ">="), lex.advanceBy 2)
    else (some (lex.token .GT ">"), lex.advanceBy 1)
  else if lex.curChar = '(' then (some (lex.token .LPAREN (String.singleton lex.curChar)), lex.advance)
  else if lex.curChar = ')' then (some (lex.token .RPAREN (String.singleton lex.curChar)), lex.advance)
  else if lex.curChar = Char.ofNat 123 then (some (lex.token .LBRACE (String.singleton lex.curChar)), lex.advance)
  else if lex.curChar = Char.ofNat 125 then (some (lex.token .RBRACE (String.singleton lex.curChar)), lex.advance)
  else if lex.curChar = ',' then (some (lex.token .COMMA (String.singleton lex.curChar)), lex.advance)
  else if lex.curChar = ';' then (some (lex.token .SEMI (String.singleton lex.curChar)), lex.advance)
  else if lex.curChar = chLF then (some (lex.token .LF (String.mk [chBackslash, 'n'])), lex.advance)
  else if lex.curChar = '[' then (some (lex.token .LBRACKET "["), lex.advance)
  else if lex.curChar = ']' then (some (lex.token .RBRACKET "]"), lex.advance)
  else if lex.curChar = '.' then (some (lex.token .DOT "."), lex.advance)
  else (none, { lex with lastError := some (lex.curChar, lex.lineNo, lex.colNo) })

/-- The token `SCOMMENT` that `getNextToken` returns at `//*`, and the lexer after it. -/
def commentToken (lex : hskLexer) : Option Token × hskLexer :=
  (some { type_ := .SCOMMENT, value := String.mk ((lex.skipComment false).1.drop 3),
          line := lex.lineNo, column := (lex.skipComment false).2.colNo },
   (lex.skipComment false).2)

/-- `hskLexer.getNextToken`: the token returned (`none` is nil) and the lexer after the
call. The first argument bounds the rounds of the loop `for { ... }` (one more round
after each skipped comment) and of the loop of `getString`. The `switch lex.curChar`
is `switchToken`, but for the case of `/` at a comment. -/
def getNextToken : Nat → hskLexer → Except Panic (Option Token × hskLexer)
  | 0, _ => .error .outOfFuel
  | fuel + 1, lex0 =>
    if lex0.skipSpaces.curChar = chNUL then
      .ok (some (lex0.skipSpaces.token .EOF "EOF"), lex0.skipSpaces)
    else if isDigit lex0.skipSpaces.curChar then
      .ok (some { type_ := .INT_CONST, value := lex0.skipSpaces.getInteger.1,
                  line := lex0.skipSpaces.lineNo, column := lex0.skipSpaces.colNo },
           lex0.skipSpaces.getInteger.2)
    else if isLetter lex0.skipSpaces.curChar then
      .ok (some lex0.skipSpaces.getId.1, lex0.skipSpaces.getId.2)
    else if lex0.skipSpaces.curChar = chQuote then
      match getString fuel lex0.skipSpaces with
      | .error e => .error e
      | .ok (val, lex1) =>
        .ok (some { type_ := .STRING_CONST, value := val, line := lex0.skipSpaces.lineNo,
                    column := lex0.skipSpaces.colNo }, lex1)
    else if lex0.skipSpaces.curChar = '/' ∧ lex0.skipSpaces.peekChar 1 = '*' then
      getNextToken fuel (lex0.skipSpaces.skipComment true).2
    else if lex0.skipSpaces.curChar = '/' ∧ lex0.skipSpaces.peekChar 1 = '/' then
      if lex0.skipSpaces.peekChar 2 = '*' then .ok (commentToken lex0.skipSpaces)
      else getNextToken fuel (lex0.skipSpaces.skipComment false).2
    else .ok (switchToken lex0.skipSpaces)

/-- `newLexer`. -/
def newLexer (text : String) : hskLexer :=
  if text.toList.length > 0 then
    { text := text.toList, lineNo := 1, curChar := text.toList.headD chNUL }
  else { text := text.toList }

/-- The results of the calls `lex.getNextToken()` that a loop as the one of `TestLexer`
makes: up to the first `EOF` token (included) or the first nil (not included). -/
def lexTokens : Nat → hskLexer → Except Panic (List Token)
  | 0, _ => .error .outOfFuel
  | fuel + 1, lex =>
    match getNextToken (fuel + 1) lex with
    | .error e => .error e
    | .ok (none, _) => .ok []
    | .ok (some tok, lex1) =>
      if tok.type_ = .EOF then .ok [tok]
      else
        match lexTokens fuel lex1 with
        | .error e => .error e
        | .ok toks => .ok (tok :: toks)

/-- The steps `p := NewParser(program); pro := p.Program()` of `main` on a source text.
(The Go parser asks the lexer for one token at a time; here the text is lexed first.) -/
def parseText (fuel : Nat) (text : String) : Except Panic AstProgram :=
  match lexTokens fuel (newLexer text) with
  | .error e => .error e
  | .ok tokens => parse fuel tokens

/-! ## Constant folding in the emitter (interpreter.go) -/

/-- The Go values (`interface{}`) that `interpreter.visitAst` returns for an
expression: nil, an `int`, a `string`, a `[]interface{}` or a
`map[string]interface{}`. -/
inductive GoValue where
  | nil
  | int (v : Int)
  | str (v : String)
  | arr (elems : List GoValue)
  | map (fields : List (String × GoValue))

/-- The second half of `interpreter.visitBinOP`: from the values of the two operands to
the result. -/
def binOPValue (op : TokenType) (lhs rhs : GoValue) : Except Panic GoValue :=
  match lhs with
  | .str s1 =>
    match rhs with
    | .str s2 => .ok (.str (s1 ++ s2))
    | _ => .error .typeAssertion
  | .int lhv =>
    match rhs with
    | .int rhv =>
      if op = .PLUS then .ok (.int (wrap64 (lhv + rhv)))
      else if op = .MINUS then .ok (.int (wrap64 (lhv - rhv)))
      else if op = .MUL then .ok (.int (wrap64 (lhv * rhv)))
      else if op = .DIV then
        if rhv ≠ 0 then .ok (.int (wrap64 (Int.tdiv lhv rhv))) else .error (.emit "div by zero")
      else if op = .LSHIFT then
        if rhv < 0 then .error .negativeShift else .ok (.int (wrap64 (lhv * 2 ^ rhv.toNat)))
      else if op = .AND then .ok (.int (if lhv = 0 then lhv else rhv))
      else if op = .OR then .ok (.int (if lhv ≠ 0 then lhv else rhv))
      else if op = .NOT then .ok (.int (if lhv = 0 then 1 else 0))
      else if op = .EQU then .ok (.int (if lhv = rhv then 1 else 0))
      else if op = .NEQ then .ok (.int (if lhv ≠ rhv then 1 else 0))
      else if op = .LT then .ok (.int (if lhv < rhv then 1 else 0))
      else if op = .LTE then .ok (.int (if lhv ≤ rhv then 1 else 0))
      else if op = .GT then .ok (.int (if lhv > rhv then 1 else 0))
      else if op = .GTE then .ok (.int (if lhv ≥ rhv then 1 else 0))
      else .ok (.int 0)
    | _ => .error .typeAssertion
  | _ => .error .typeAssertion

/-- The second half of `interpreter.visitUnaryOP`. -/
def unaryOPValue (op : TokenType) (rhs : GoValue) : Except Panic GoValue :=
  match rhs with
  | .int intVal =>
    if op = .PLUS then .ok rhs
    else if op = .MINUS then .ok (.int (wrap64 (-intVal)))
    else if op = .NOT then .ok (.int (if intVal = 0 then 1 else 0))
    else .error (.emit "unknown unary operator")
  | _ => .error .typeAssertion

/-- `interpreter.visitAst` on expression nodes, with `visitBinOP`, `visitUnaryOP`,
`visitIntConst`, `visitStringConst`, `visitVarRef`, `visitIndexedRef`, `visitDotRef`;
`vars` are the variables that `interp.curFrame.lookup(name, true)` finds, with their
values. This is the evaluation that `visitConstDef_Go` applies to the expression of a
constant. -/
def interpreter.visitAst (vars : List (String × GoValue)) : AstNode → Except Panic GoValue
  | .AstBinOP op left right _ =>
    match left with
    | .AstIndexedRef _ _ _ | .AstDotRef _ _ _ => .error (.emit "error in binop left")
    | _ =>
      match interpreter.visitAst vars left with
      | .error e => .error e
      | .ok lhs =>
        match right with
        | .AstIndexedRef _ _ _ | .AstDotRef _ _ _ => .error (.emit "error in binop right")
        | _ =>
          match interpreter.visitAst vars right with
          | .error e => .error e
          | .ok rhs => binOPValue op lhs rhs
  | .AstUnaryOP op dst _ =>
    match dst with
    | .AstBinOP _ _ _ _ | .AstUnaryOP _ _ _ | .AstIntConst _ | .AstVarNameRef _ _ _ =>
      match interpreter.visitAst vars dst with
      | .error e => .error e
      | .ok rhs => unaryOPValue op rhs
    | _ => .error (.emit "error in unaryop dst")
  | .AstIntConst value => .ok (.int value)
  | .AstStringConst value => .ok (.str value)
  | .AstVarNameRef _ name _ =>
    match mapGet vars name with
    | some val => .ok val
    | none => .error (.symbolNotFound name)
  | .AstIndexedRef host index _ =>
    match interpreter.visitAst vars index with
    | .error e => .error e
    | .ok (.int primTp) =>
      match interpreter.visitAst vars host with
      | .error e => .error e
      | .ok .nil => .error (.emit "nil array reference")
      | .ok (.arr arrTp) =>
        if primTp < 0 then .error .indexOutOfRange
        else if primTp < arrTp.length then
          match arrTp.get? primTp.toNat with
          | some v => .ok v
          | none => .error .indexOutOfRange
        else .error (.emit "index out of bound")
      | .ok _ => .error (.emit "host should be array")
    | .ok _ => .error (.emit "nil reference")
  | .AstDotRef host name _ =>
    match interpreter.visitAst vars host with
    | .error e => .error e
    | .ok .nil => .error (.emit "nil reference")
    | .ok (.map mv) =>
      match mapGet mv name with
      | some v => .ok v
      | none => .ok .nil
    | .ok _ => .error (.emit "host should be map")

/-- The integer that the emitter folds the expression of a constant to, if it is one. -/
def foldedInt (r : Except Panic GoValue) : Option Int :=
  match r with
  | .ok (.int v) => some v
  | _ => none

/-! ## The tokens that the lexer can return -/

/-- The kind of the token that a call of `getNextToken` returned, if it returned one. -/
def tokenTypeOf (r : Except Panic (Option Token × hskLexer)) : Option TokenType :=
  match r with
  | .ok (some tok, _) => some tok.type_
  | _ => none

/-- The kinds and the texts of the tokens of a text, as `lexTokens` returns them. -/
def tokenKinds (fuel : Nat) (text : String) : Except Panic (List (TokenType × String)) :=
  (lexTokens fuel (newLexer text)).map fun toks => toks.map fun t => (t.type_, t.value)

/-- The tokens of `mspace t` / `defmsg A {` / `a u8 -> exist follow above` / `}` as they
would be if the lexer returned the kinds `FOLLOW` and `ABOVE` for the two words. -/
def tokensFollowAbove : List Token :=
  [tk .MSPACE "mspace" 1, tk .ID "t" 1,
   tk .DEFMSG "defmsg" 2, tk .ID "A" 2, tk .LBRACE "\x7b" 2,
   tk .ID "a" 3, tk .TYPE_U8 "u8" 3, tk .DESC "->" 3, tk .EXIST "exist" 3,
   tk .FOLLOW "follow" 3, tk .ABOVE "above" 3,
   tk .RBRACE "\x7d" 4, tk .EOF "EOF" 4]

/-! ## The position of the lexer in the text -/

/-- The lexer stands before the characters `cs`: they are the text from `lex.pos` on,
and `lex.curChar` is the first of them, the rune 0 when none is left. `newLexer` and
every `advance` give such a state. -/
def hskLexer.At (lex : hskLexer) (cs : List Char) : Prop :=
  lex.text.drop lex.pos = cs ∧ lex.curChar = cs.headD chNUL

/-- The characters after the end of the line that `cs` starts in: after the first line
feed. -/
def dropLine (cs : List Char) : List Char :=
  (cs.dropWhile fun ch => ch != chLF).drop 1

/-- The characters after the first `*` that is followed by `/`, and after that `/`;
none when there is no such pair. -/
def dropComment : List Char → List Char
  | [] => []
  | [_] => []
  | c :: d :: rest => if c = '*' ∧ d = '/' then rest else dropComment (d :: rest)

/-- The Go `int` read as an unsigned number of 64 bits. -/
def asUint64 (x : Int) : Nat :=
  (x % 18446744073709551616).toNat

/-- The number that the digits `ds` denote in the base: the value of an integer
literal as the specification means it. -/
def digitsValue (base : Nat) (ds : List Char) : Nat :=
  ds.foldl (fun n c => n * base + (digitVal c).getD 0) 0

/-! ## The precedence ladder of `expr` (parser.go) -/

/-- The binary operators of the functions `expr`, `expr_and`, `expr_bitOr`,
`expr_bitAnd`, `expr_equ`, `expr_comp`, `expr_shift`, `expr_add`, `expr_mul`, in the
order of the calls: logical or, logical and, bitwise or, bitwise and, equality,
relational, shift, additive, multiplicative. -/
def ladderOps : List (List TokenType) :=
  [[.OR], [.AND], [.BIT_OR], [.BIT_AND], [.EQU, .NEQ], [.GT, .GTE, .LT, .LTE],
   [.LSHIFT, .RSHIFT], [.PLUS, .MINUS], [.MUL, .DIV]]

/-- The position in a list of levels of the first level that has the operator. -/
def lvl : List (List TokenType) → TokenType → Option Nat
  | [], _ => none
  | ops :: rest, t => if t ∈ ops then some 0 else (lvl rest t).map fun n => n + 1

/-- The level of a binary operator in the ladder, 0 for `||` to 8 for `*` and `/`; none
for a token that is no binary operator. -/
def opLevel (t : TokenType) : Option Nat :=
  lvl ladderOps t

/-- The chain of calls from one of the functions `expr`, ..., `expr_mul` down to
`factor`, for the levels `levels` of operators: each level is a `binLevel` over the
next. -/
def ladder (factorP : ExprParser) (fuel : Nat) : List (List TokenType) → ExprParser
  | [] => factorP
  | ops :: rest => binLevel ops (ladder factorP fuel rest) fuel

/-- No operator is on two of the levels. -/
def DisjointLevels : List (List TokenType) → Prop
  | [] => True
  | ops :: rest => (∀ t ∈ ops, lvl rest t = none) ∧ DisjointLevels rest

/-- A parser that has `cur` as current token and `rest` as the tokens that the lexer
returns next. -/
def parserOn (cur : Token) (rest : List Token) : hskParser :=
  { lex := rest, prevToken := none, curToken := cur, tpMap := [] }

/-- The parser before the tokens of `( 1 + 2 ) * 3 + 4`. -/
def parserParenMulAdd : hskParser :=
  parserOn (tk .LPAREN "(" 1)
    [tk .INT_CONST "1" 1, tk .PLUS "+" 1, tk .INT_CONST "2" 1, tk .RPAREN ")" 1,
     tk .MUL "*" 1, tk .INT_CONST "3" 1, tk .PLUS "+" 1, tk .INT_CONST "4" 1, tk .EOF "EOF" 1]

/-! ## Binary expressions in the analyzer -/

/-- The program `mspace t` / `const X "a" == "b"` as the parser builds it. -/
def programStringCompare : AstProgram :=
  { mspace := "t", decl_list := [.constDef
      { name := "X", val := .AstBinOP .EQU (.AstStringConst "a") (.AstStringConst "b") 2,
        line := 2 }] }

/-- The tokens of `mspace t` / `const X "a" == "b"`. -/
def tokensStringCompare : List Token :=
  [tk .MSPACE "mspace" 1, tk .ID "t" 1, tk .CONST "const" 2, tk .ID "X" 2,
   tk .STRING_CONST "a" 2, tk .EQU "==" 2, tk .STRING_CONST "b" 2, tk .EOF "EOF" 2]

/-! ## Reading the emitted xor of a whole-byte integer -/

/-- The field, the Go type and the xor source of a line
`if binary.Write(buf, binary.BigEndian, m.F^T(X)) != nil { return -1 }` that
`visitMsgEncode_Go` emits. -/
def encodeXor (l : Line) : Option (String × String × String) :=
  if l.format = "if binary.Write(buf, binary.BigEndian, m.%s^%s(%s)) != nil \x7b return -1 \x7d" then
    match l.args with
    | [.str name, .str tn, .str xor] => some (name, tn, xor)
    | _ => none
  else none

/-- The field, the Go type and the xor source of a line `m.F ^= T(X)` that
`visitMsgDecode_Go` emits after the line that reads `m.F`. -/
def decodeXor (l : Line) : Option (String × String × String) :=
  if l.format = "m.%s ^= %s(%s)" then
    match l.args with
    | [.str name, .str tn, .str xor] => some (name, tn, xor)
    | _ => none
  else none

/-- The number of bits of the Go types that `typeName4Go` names for integers. -/
def goTypeBits (tn : String) : Nat :=
  if tn = "uint8" then 8
  else if tn = "uint16" then 16
  else if tn = "uint32" then 32
  else if tn = "uint64" then 64
  else 0

/-- The Go conversion `T(x)` of an integer to an unsigned type of `bits` bits: the low
bits of `x`. -/
def convertTo (bits : Nat) (x : Int) : Nat :=
  (x % 2 ^ bits).toNat

/-- The `n` bytes that `binary.Write(buf, binary.BigEndian, v)` writes for an unsigned
value of `n` bytes. -/
def putBigEndian : Nat → Nat → List Nat
  | 0, _ => []
  | n + 1, v => v / 256 ^ n % 256 :: putBigEndian n v

/-- The unsigned value that `binary.Read(buf, binary.BigEndian, &v)` reads from the
bytes. -/
def getBigEndian (bytes : List Nat) : Nat :=
  bytes.foldl (fun acc b => acc * 256 + b) 0

/-- The bytes that the emitted statement `binary.Write(buf, binary.BigEndian, m.F^T(X))`
writes when `m.F` has the value `v` and `X` the value `x`. -/
def xorWrite (op : String × String × String) (v : Nat) (x : Int) : List Nat :=
  putBigEndian (goTypeBits op.2.1 / 8) (v ^^^ convertTo (goTypeBits op.2.1) x)

/-- The value of `m.F` after the emitted statements
`binary.Read(buf, binary.BigEndian, &m.F)` on the bytes and `m.F ^= T(X)`, when `X` has
the value `x`. -/
def xorRead (op : String × String × String) (bytes : List Nat) (x : Int) : Nat :=
  getBigEndian bytes ^^^ convertTo (goTypeBits op.2.1) x

/-- The field `key u16 -> xor K max M`. -/
def fieldXorMax : AstVarDecl :=
  { name := "key", type_ := .AstPrimType symTypeU16, line := 3,
    xor := some { name := "K", line := 3 }, max := some { name := "M", line := 3 } }

/-! ## The pipeline of `main` on a source text -/

/-- The steps of `main` up to the analysis on a source text: `NewParser`, `Program`,
then `DoAnalyze` with a new analyzer. -/
def compileText (fuel : Nat) (text : String) : Except Panic (semanticAnalyzer × AstProgram) :=
  match parseText fuel text with
  | .error e => .error e
  | .ok pro => DoAnalyze NewSemanticAnalyzer pro

/-! ## The emitter on a whole program (interpreter.go, interp_go.go) -/

/-- The constant `INTERP_VERSION`. -/
def INTERP_VERSION : String := "version 1.0; author lqp"

/-- A text between two double quotes, as the formats of the emitter have it where they
print a Go string literal. -/
def quoted (s : String) : String :=
  String.mk [chQuote] ++ s ++ String.mk [chQuote]

/-- The verb `%x` of `fmt` on an `int`: the digits in base 16, after a minus sign if
the value is negative. -/
def fmtHex (v : Int) : String :=
  if v < 0 then "-" ++ String.mk (Nat.toDigits 16 v.natAbs)
  else String.mk (Nat.toDigits 16 v.natAbs)

/-- `interpreter.intConstComment_go`. The fields `lval`, `rval` of the node are the
values of its two operands, which `interpreter.visitBinOP` has written into the node
right before (`node.lval = lhv`, `node.rval = rhv`). -/
def intConstComment_go (vars : List (String × GoValue)) (val : Int) (node : AstNode) : String :=
  match node with
  | .AstBinOP op left right _ =>
    let lval := (foldedInt (interpreter.visitAst vars left)).getD 0
    let rval := (foldedInt (interpreter.visitAst vars right)).getD 0
    if op = .LSHIFT then "(" ++ toString lval ++ "<<" ++ toString rval ++ ")"
    else if op = .RSHIFT then "(" ++ toString lval ++ ">>" ++ toString rval ++ ")"
    else "0x" ++ fmtHex val
  | _ => "0x" ++ fmtHex val

/-- `interpreter.visitConstDef_Go`; `vars` are the variables of the current frame. -/
def visitConstDef_Go (interp : interpreter) (vars : List (String × GoValue))
    (node : AstConstDef) : Except Panic interpreter :=
  match interpreter.visitAst vars node.val with
  | .error e => .error e
  | .ok (.int val) =>
    .ok (interp.addLine "const %s = %d //%s"
      [.str node.name, .int val, .str (intConstComment_go vars val node.val)])
  | .ok (.str val) => .ok (interp.addLine ("const %s = " ++ quoted "%s") [.str node.name, .str val])
  | .ok _ => .error (.emit "unknown val type")

/-- The loop over the items of `visitIdGroupDefine_Go`, from item number `idx` on. -/
def idGroupItems_Go (interp : interpreter) (idx : Nat) (notes : List AstSrcComment) :
    List idItem → interpreter
  | [] => interp
  | id :: rest =>
    let interp1 := if id.base ∧ idx > 0 then interp.addNewLine else interp
    idGroupItems_Go
      ((emitNotes interp1 id.line notes).1.addLine "%s = %d //hex: 0x%x"
        [.str id.name, .int id.idVal, .int id.idVal])
      (idx + 1) (emitNotes interp1 id.line notes).2 rest

/-- The loop over the items of `idGroupName_Go`, from item number `idx` on. -/
def idGroupCases_Go (interp : interpreter) (idx : Nat) : List idItem → Except Panic interpreter
  | [] => .ok interp
  | id :: rest =>
    let interp1 := if idx ≠ 0 then interp.addNewLine else interp
    let interp2 := ((interp1.addLine "case %s:" [.str id.name]).pushStackFrame).addLine
      ("return " ++ quoted "%s" ++ ", true") [.str id.name]
    match interp2.popStackFrame with
    | .error e => .error e
    | .ok interp3 => idGroupCases_Go interp3 (idx + 1) rest

/-- `interpreter.idGroupName_Go`. -/
def idGroupName_Go (interp : interpreter) (node : AstIdGroupDef) : Except Panic interpreter :=
  let interp1 :=
    (((interp.addNewLine).addLine "func %s_name(id uint16)(string, bool) \x7b" [.str node.name]
      ).pushStackFrame).addLine "switch id \x7b" []
  match idGroupCases_Go interp1 0 node.items with
  | .error e => .error e
  | .ok interp2 =>
    match ((interp2.addLine "\x7d" []).addLine ("return " ++ quoted "" ++ ", false") []
        ).popStackFrame with
    | .error e => .error e
    | .ok interp3 => .ok (interp3.addLine "\x7d" [])

/-- `interpreter.visitIdGroupDefine_Go`. -/
def visitIdGroupDefine_Go (interp : interpreter) (node : AstIdGroupDef) :
    Except Panic interpreter :=
  match (idGroupItems_Go ((interp.addLine "const (" []).pushStackFrame) 0 node.notes
      node.items).popStackFrame with
  | .error e => .error e
  | .ok interp1 => idGroupName_Go (interp1.addLine ")" []) node

/-- The body of the loop over the fields of `visitMsgDefine_Go`: the line of one field
in the Go `struct` type; `fields` are the fields of the message. -/
def structFieldLine (fields : List AstVarDecl) (interp : interpreter) (f : AstVarDecl) :
    Except Panic interpreter :=
  match f.type_ with
  | .AstPrimType name =>
    match typeName4Go f.type_ with
    | .error e => .error e
    | .ok tn =>
      match f.comment with
      | some c =>
        .ok (interp.addLine "%s %s //%s %s" [.str f.name, .str tn, .str name, .str c.value])
      | none => .ok (interp.addLine "%s %s //%s" [.str f.name, .str tn, .str name])
  | .AstArrayType elemType =>
    match f.limit with
    | none => .error .nilInterface
    | some limit =>
      match typeName4Go elemType with
      | .error e => .error e
      | .ok tn =>
        match getLimitFieldMax fields limit.name with
        | some lm => .ok (interp.addLine "%s [%s]%s" [.str f.name, .str lm.name, .str tn])
        | none => .ok (interp.addLine "%s [%s]%s" [.str f.name, .str limit.name, .str tn])
  | .nil => .error (.emit "unsupported type")
  | _ =>
    match typeName4Go f.type_ with
    | .error e => .error e
    | .ok tn =>
      match f.comment with
      | some c => .ok (interp.addLine "%s %s //%s" [.str f.name, .str tn, .str c.value])
      | none => .ok (interp.addLine "%s %s" [.str f.name, .str tn])

/-- The loop over the fields of `visitMsgDefine_Go`. -/
def structFieldLines (fields : List AstVarDecl) (interp : interpreter) :
    List AstVarDecl → Except Panic interpreter
  | [] => .ok interp
  | f :: rest =>
    match structFieldLine fields interp f with
    | .error e => .error e
    | .ok interp1 => structFieldLines fields interp1 rest

/-- `interpreter.visitMsgCodec_Go`. -/
def visitMsgCodec_Go (interp : interpreter) (node : AstStructDecl) : Except Panic interpreter :=
  match visitMsgEncode_Go interp node with
  | .error e => .error e
  | .ok interp1 => visitMsgDecode_Go (interp1.addLine "" []) node

/-- `interpreter.visitMsgDefine_Go`. -/
def visitMsgDefine_Go (interp : interpreter) (node : AstStructDecl) : Except Panic interpreter :=
  let interp1 :=
    ((interp.addLine "" []).addLine "type %s struct \x7b" [.str node.name]).pushStackFrame
  match structFieldLines node.fields interp1 node.fields with
  | .error e => .error e
  | .ok interp2 =>
    match interp2.popStackFrame with
    | .error e => .error e
    | .ok interp3 => visitMsgCodec_Go ((interp3.addLine "\x7d" []).addLine "" []) node

mutual
/-- The effect of the write `impl.name = node.name` of `visitTypeDef_Go` on a type that
may refer to the message that was named `old`: every pointer to the message sees the new
name. (The parser keeps one `AstStructType` per message and hands out pointers to it; two
messages never have the same name, so the name identifies the object.) -/
def renameType (old new : String) : AstType → AstType
  | .nil => .nil
  | .AstPrimType n => .AstPrimType n
  | .AstArrayType elemType => .AstArrayType (renameType old new elemType)
  | .AstStructType n fields =>
    .AstStructType (if n = old then new else n) (renameFieldTypes old new fields)
  | .AstUndefType n resolved => .AstUndefType n (renameType old new resolved)
/-- The function `renameType` on the field types of a struct type. -/
def renameFieldTypes (old new : String) : List (String × AstType) → List (String × AstType)
  | [] => []
  | (n, t) :: rest => (n, renameType old new t) :: renameFieldTypes old new rest
end

/-- The write `impl.name = node.name` as seen from a declaration of the program. -/
def renameDecl (old new : String) : Decl → Decl
  | .varDecl node => .varDecl { node with type_ := renameType old new node.type_ }
  | .structType node =>
    .structType { node with
      name := (if node.name = old then new else node.name),
      fields := node.fields.map fun f => { f with type_ := renameType old new f.type_ } }
  | .externVar node => .externVar { node with type_ := renameType old new node.type_ }
  | .typeDef node => .typeDef { node with impl := renameType old new node.impl }
  | d => d

/-- The message that a struct type refers to: the declaration of that name in the
program (the object that the parser's pointer leads to); for a struct type without a
declaration, the node with the fields of the type. -/
def structDeclOf (decls : List Decl) (name : String) (fields : List (String × AstType)) :
    AstStructDecl :=
  match decls with
  | [] => { name := name, fields := fields.map fun f => { name := f.1, type_ := f.2 } }
  | .structType node :: rest =>
    if node.name = name then node else structDeclOf rest name fields
  | _ :: rest => structDeclOf rest name fields

/-- The state of the emitter during `visitTraverse`: the output state, the variables of
the frame of level 0, and the program, into whose nodes `visitTypeDef_Go` writes. -/
structure EmitState where
  interp : interpreter
  vars : List (String × GoValue)
  program : AstProgram

/-- `interpreter.visitTypeDef_Go` on the declaration number `i` of the program. For an
implementation that is a message it sets the name of the message to the name of the
type definition (`impl.name = node.name`), emits the encoder and the decoder, and then
assigns the old name of the message to the type definition (`node.name = oname`). -/
def visitTypeDef_Go (s : EmitState) (i : Nat) (node : AstTypeDef) : Except Panic EmitState :=
  match typeName4Go node.impl with
  | .error e => .error e
  | .ok tn =>
    let interp1 := s.interp.addLine "type %s %s;" [.str node.name, .str tn]
    match node.impl with
    | .AstStructType oname fields =>
      let decls1 := s.program.decl_list.map (renameDecl oname node.name)
      match visitMsgCodec_Go interp1
          (structDeclOf decls1 node.name (renameFieldTypes oname node.name fields)) with
      | .error e => .error e
      | .ok interp2 =>
        let node1 : AstTypeDef :=
          { name := oname, impl := renameType oname node.name node.impl }
        .ok { s with
          interp := interp2,
          program := { s.program with decl_list := List.set decls1 i (.typeDef node1) } }
    | _ => .ok { s with interp := interp1 }

/-- `newStructVari`: the value of a new variable of a struct type. -/
def newStructVari (fields : List (String × AstType)) : GoValue :=
  .map (fields.foldl (fun mv f =>
    match f.2 with
    | .AstPrimType n =>
      if n = symTypeInt then mapSet mv f.1 (.int 0)
      else if n = symTypeString then mapSet mv f.1 (.str "")
      else mv
    | _ => mapSet mv f.1 .nil) [])

/-- `newArrayVari`: the value of a new variable of an array type. -/
def newArrayVari (elemType : AstType) : Except Panic GoValue :=
  match elemType with
  | .AstPrimType n =>
    if n = symTypeInt ∨ n = symTypeString then .ok (.arr [])
    else .error (.emit "newArrayVari error, unknown primitive elem type")
  | .AstArrayType _ | .AstStructType _ _ => .ok (.arr [])
  | _ => .error (.emit "newArrayVari error, unknown elem type")

/-- `interpreter.visitVarDecl` on the frame of level 0. -/
def interpreter.visitVarDecl (vars : List (String × GoValue)) (node : AstVarDecl) :
    Except Panic (List (String × GoValue)) :=
  match mapGet vars node.name with
  | some _ => .error (.emit "error variable inited")
  | none =>
    match node.type_ with
    | .AstPrimType n =>
      if n = symTypeInt then .ok (mapSet vars node.name (.int 0))
      else if n = symTypeString then .ok (mapSet vars node.name (.str ""))
      else if n = symTypeVoid then .ok vars
      else .error (.emit "unknown AstPrimType when interpret")
    | .AstStructType _ fields => .ok (mapSet vars node.name (newStructVari fields))
    | .AstArrayType elemType =>
      match newArrayVari elemType with
      | .error e => .error e
      | .ok v => .ok (mapSet vars node.name v)
    | _ => .error (.emit "unknown type when interpret")

/-- The body of the loop of `interpreter.visitTraverse` for the declaration number `i`,
in the mode `INTERP_MODE_GO`. (A bind directive is appended to `interp.binds`, which
`programBinds` reads off the program.) -/
def visitTraverseDecl (s : EmitState) (i : Nat) (decl : Decl) : Except Panic EmitState :=
  match decl with
  | .varDecl node =>
    match interpreter.visitVarDecl s.vars node with
    | .error e => .error e
    | .ok vars => .ok { s with vars := vars }
  | .idGroupDef node =>
    match visitIdGroupDefine_Go s.interp node with
    | .error e => .error e
    | .ok interp => .ok { s with interp := interp }
  | .constDef node =>
    match visitConstDef_Go s.interp s.vars node with
    | .error e => .error e
    | .ok interp => .ok { s with interp := interp }
  | .srcComment node => .ok { s with interp := s.interp.addLine ("//" ++ node.value) [] }
  | .structType node =>
    match visitMsgDefine_Go s.interp node with
    | .error e => .error e
    | .ok interp => .ok { s with interp := interp }
  | .typeDef node => visitTypeDef_Go s i node
  | .externVar _ => .ok s
  | .bindDef _ => .ok s

/-- The loop `for _, decl := range program.decl_list` of `interpreter.visitTraverse`:
`n` declarations from number `i` on. -/
def visitTraverseLoop : Nat → Nat → EmitState → Except Panic EmitState
  | 0, _, s => .ok s
  | n + 1, i, s =>
    match s.program.decl_list.get? i with
    | none => .ok s
    | some decl =>
      match visitTraverseDecl s i decl with
      | .error e => .error e
      | .ok s1 => visitTraverseLoop n (i + 1) s1

/-- `interpreter.visitTraverse`. -/
def interpreter.visitTraverse (s : EmitState) : Except Panic EmitState :=
  visitTraverseLoop s.program.decl_list.length 0 s

/-- `interpreter.visitProgram` in the mode `INTERP_MODE_GO`; `srcFile` is
`interp.SrcFile` and `now` the result of `currentTimeString()`. The result has the
program as the emitter leaves it. -/
def interpreter.visitProgram (interp : interpreter) (srcFile now : String)
    (program : AstProgram) : Except Panic (interpreter × AstProgram) :=
  let interp1 :=
    (((interp.addLine "/*" []).addLine
        " * code auto generated from: %s @%s, Do NOT touch by hand!!!" [.str srcFile, .str now]
      ).addLine " * generator %s; mode: %s" [.str INTERP_VERSION, .str "golang"]
      ).addLine "*/" []
  match interpreter.visitTraverse { interp := interp1, vars := [], program := program } with
  | .error e => .error e
  | .ok s =>
    match visitBinds s.interp s.program with
    | .error e => .error e
    | .ok interp2 => .ok (interp2, s.program)

/-- `interpreter.DoInterpret` on a root that is an `*AstProgram`, in the mode
`INTERP_MODE_GO`: `.error` is the error returned (every panic is recovered), `.ok` is
the nil result with the emitter and the program as the call leaves them. -/
def DoInterpret (interp : interpreter) (srcFile now : String) (root : AstProgram) :
    Except Panic (interpreter × AstProgram) :=
  interpreter.visitProgram interp srcFile now root

/-- The whole pipeline of `main` on a source text in the mode `INTERP_MODE_GO`: parse,
analyze, emit. -/
def emitText (fuel : Nat) (text : String) : Except Panic (interpreter × AstProgram) :=
  match compileText fuel text with
  | .error e => .error e
  | .ok (_, pro) => DoInterpret NewInterpreter "a.proto" "2024-01-01 00:00:00" pro

/-- The names of the messages and of the type definitions of a program, in the order of
the declarations. -/
def declName : Decl → Option (String × String)
  | .structType node => some ("defmsg", node.name)
  | .typeDef node => some ("type", node.name)
  | _ => none

/-- The lines that a run of the emitter wrote, as pairs of format and arguments. -/
def emitted (r : Except Panic (interpreter × AstProgram)) : List (String × List Arg) :=
  match r with
  | .ok (interp, _) => interp.out.map Line.text
  | .error _ => []

/-! ## Reading the emitted conditions -/

/-- The condition of a line `if COND {` that `wrapExist_Go` wrote, if the line is one. -/
def existCond (l : Line) : Option String :=
  if l.format = "if %s \x7b" then
    match l.args with
    | [.str cond] => some cond
    | _ => none
  else none

/-- The conditions of the `exist if` fields in the lines that a run of the emitter
wrote: those of the encoder of a message, then those of its decoder. -/
def existConds (r : Except Panic (interpreter × AstProgram)) : List String :=
  match r with
  | .ok (interp, _) => interp.out.filterMap existCond
  | .error _ => []

/-- The lines `const NAME = VALUE //COMMENT` that a run of the emitter wrote: the names
with the values. -/
def constLine (l : Line) : Option (String × Int) :=
  if l.format = "const %s = %d //%s" then
    match l.args with
    | [.str name, .int val, _] => some (name, val)
    | _ => none
  else none

/-- The constants in the output of a run of the emitter. -/
def constLines (r : Except Panic (interpreter × AstProgram)) : List (String × Int) :=
  match r with
  | .ok (interp, _) => interp.out.filterMap constLine
  | .error _ => []

/-- The text of an `exist if` expression as section 4.6 of the specification words it:
a binary node is written without parentheses at the root (depth 0) and inside one pair
of parentheses below it; a name reference is written `m.NAME` if it has the `this.`
prefix and `NAME` otherwise. A node of another kind has no text of its own (`??`). -/
def specCond (depth : Nat) : AstNode → String
  | .AstVarNameRef this name _ => if this then "m." ++ name else name
  | .AstBinOP op left right _ =>
    if depth = 0 then
      specCond (depth + 1) left ++ " " ++ visitBinOP_Go op ++ " " ++ specCond (depth + 1) right
    else
      "(" ++ specCond (depth + 1) left ++ " " ++ visitBinOP_Go op ++ " "
        ++ specCond (depth + 1) right ++ ")"
  | .AstIntConst value => toString value
  | _ => "??"

/-! ## `peekToken` (lexer.go) -/

/-- `hskLexer.peekToken`: the token returned and the lexer after the call, in which
`pos`, `lineNo`, `colNo` and `curChar` have the values from before the call of
`getNextToken`. The first argument bounds the rounds of the loops, as in
`getNextToken`. -/
def peekToken (fuel : Nat) (lex : hskLexer) : Except Panic (Option Token × hskLexer) :=
  match getNextToken fuel lex with
  | .error e => .error e
  | .ok (tok, lex1) =>
    .ok (tok, { lex1 with pos := lex.pos, lineNo := lex.lineNo, colNo := lex.colNo,
                          curChar := lex.curChar })

/-- The lexer with another value in the field `lastError`. -/
def hskLexer.withError (lex : hskLexer) (e : Option (Char × Nat × Nat)) : hskLexer :=
  { lex with lastError := e }

/-- The result of a scanning step on a lexer whose field `lastError` had the value `e`,
from the result on the same lexer with another value in that field: a step that returns
a token does not write the field, a step that returns nil writes it. -/
def keepError (e : Option (Char × Nat × Nat)) (r : Option Token × hskLexer) :
    Option Token × hskLexer :=
  match r.1 with
  | some _ => (r.1, r.2.withError e)
  | none => r

/-! ## The analyzer as a panic leaves it (semantic.go)

`DoAnalyze` recovers every panic and returns it as an error; the analyzer keeps the
state that it had when the panic was raised. The functions below give that state: each
one is the analyzer after the function of the same name without `Left`, whether that
function returned or panicked. -/

/-- The analyzer after the field loop of `visitMsgDefine`. None of the checks of the
loop body writes the analyzer; `se.visitAst(f)` writes it when it succeeds. -/
def visitFieldsLeft (se : semanticAnalyzer) (st : AggrState) :
    List AstVarDecl → semanticAnalyzer
  | [] => se
  | f :: rest =>
    match aggrStep st f.name f.type_ with
    | .error _ => se
    | .ok (st1, xorOk, ok) =>
      match visitVarDecl se f with
      | .error _ => se
      | .ok se1 =>
        match visitFieldChecks se1 f xorOk ok with
        | .error _ => se1
        | .ok _ => visitFieldsLeft se1 st1 rest

/-- The analyzer after `popSymbolTable`: on a stack of one table the Go function
shortens the stack and decrements `stackSize` before the index expression panics. -/
def semanticAnalyzer.popSymbolTableLeft (se : semanticAnalyzer) : semanticAnalyzer :=
  match se.symbolStack with
  | [] => se
  | [_] => { se with symbolStack := [], stackSize := se.stackSize - 1 }
  | _ :: tb :: up => { se with symbolStack := tb :: up, stackSize := se.stackSize - 1 }

/-- The analyzer after `visitMsgDefine`: the call `se.popSymbolTable()` is the last
statement of the function and is not deferred, so a panic in the field loop leaves the
table of the message on the stack. -/
def visitMsgDefineLeft (se : semanticAnalyzer) (node : AstStructDecl) : semanticAnalyzer :=
  match lookup se.symbolStack node.name false with
  | some _ => se
  | none =>
    match se.insertSymbol (newVarSymbol node.name node.toType se.curLevel node.line) with
    | .error _ => se
    | .ok se1 =>
      match visitFields se1.pushSymbolTable { inAggr := false, bits := 0 } node.fields with
      | .error _ => visitFieldsLeft se1.pushSymbolTable { inAggr := false, bits := 0 } node.fields
      | .ok (se2, _) => se2.popSymbolTableLeft

/-- The map `midMap` after the loop of `visitIdGroupDefine` from item number `i` on: an
item is entered into the map before its value is checked. -/
def visitIdItemsLeft (isMsgId : Bool) (midMap : List (String × idItem)) (val : Int) (i : Nat) :
    List idItem → List (String × idItem)
  | [] => midMap
  | id :: rest =>
    let id1 : idItem := { id with isMsgId := isMsgId }
    match mapGet midMap id1.name with
    | some _ => midMap
    | none =>
      if id1.base then
        if i > 0 ∧ id1.idVal ≤ val then mapSet midMap id1.name id1
        else visitIdItemsLeft isMsgId (mapSet midMap id1.name id1) id1.idVal (i + 1) rest
      else
        let val1 := wrap64 (val + 1)
        let id2 : idItem := { id1 with idVal := val1 }
        visitIdItemsLeft isMsgId (mapSet midMap id2.name id2) val1 (i + 1) rest

/-- The analyzer after `visitIdGroupDefine`. -/
def visitIdGroupDefineLeft (se : semanticAnalyzer) (node : AstIdGroupDef) : semanticAnalyzer :=
  if node.items.length = 0 then se
  else
    match lookup se.symbolStack node.name false with
    | some _ => se
    | none =>
      match se.insertSymbol
          (newVarSymbol node.name (.AstPrimType symTypeInt) se.curLevel node.line) with
      | .error _ => se
      | .ok se1 => { se1 with midMap := visitIdItemsLeft node.isMsgId se1.midMap 0 0 node.items }

/-- The result of a function that writes the analyzer in its last step only, or the
analyzer as it was if the function panicked. -/
def orUnchanged (se : semanticAnalyzer) (r : Except Panic semanticAnalyzer) : semanticAnalyzer :=
  match r with
  | .ok se1 => se1
  | .error _ => se

/-- The analyzer after the body of the loop of `visitProgram` for one declaration. -/
def visitDeclLeft (se : semanticAnalyzer) (decl : Decl) : semanticAnalyzer :=
  match decl with
  | .varDecl node => if se.firstPass then orUnchanged se (visitVarDecl se node) else se
  | .idGroupDef node => if se.firstPass then visitIdGroupDefineLeft se node else se
  | .constDef node => if se.firstPass then orUnchanged se (visitConstDef se node) else se
  | .structType node => if se.firstPass then visitMsgDefineLeft se node else se
  | .externVar node => if se.firstPass then orUnchanged se (visitExternVar se node) else se
  | .bindDef node => if !se.firstPass then orUnchanged se (visitBindDef se node) else se
  | .srcComment _ => se
  | .typeDef _ => se

/-- The analyzer after the loop of `visitProgram` over `decl_list`. -/
def visitDeclsLeft (se : semanticAnalyzer) : List Decl → semanticAnalyzer
  | [] => se
  | decl :: rest =>
    match visitDecl se decl with
    | .error _ => visitDeclLeft se decl
    | .ok (se1, _) => visitDeclsLeft se1 rest

/-- The analyzer after `visitProgram`. -/
def visitProgramLeft (se : semanticAnalyzer) (program : AstProgram) : semanticAnalyzer :=
  if program.mspace = "" then se
  else
    match visitDecls se program.decl_list with
    | .error _ => visitDeclsLeft se program.decl_list
    | .ok (se1, _) => { se1 with firstPass := false }

/-- The analyzer after `DoAnalyze` has returned, with nil or with an error. -/
def DoAnalyzeLeft (se : semanticAnalyzer) (root : AstProgram) : semanticAnalyzer :=
  match visitProgram se root with
  | .error _ => visitProgramLeft se root
  | .ok (se1, root1) => visitProgramLeft se1 root1

/-- The depth of the stack of symbol tables, the counter `stackSize` and the level of
the current table. -/
def stackShape (se : semanticAnalyzer) : Nat × Int × Int :=
  (se.symbolStack.length, se.stackSize, se.curLevel)

/-- The analyzer after `DoAnalyze` on a source text (with a new analyzer), if the text
can be parsed. -/
def analyzerLeft (fuel : Nat) (text : String) : Option semanticAnalyzer :=
  match parseText fuel text with
  | .error _ => none
  | .ok pro => some (DoAnalyzeLeft NewSemanticAnalyzer pro)

/-! ## The names of the declarations before and after the emitter -/

/-- Whether the declaration is a type definition whose implementation is a message
(`node.impl.astType() == AST_TP_Struct`). -/
def typeDefOfMsg : Decl → Bool
  | .typeDef node =>
    match node.impl with
    | .AstStructType _ _ => true
    | _ => false
  | _ => false

/-- The names of the messages and of the type definitions of the program that a stage
of the pipeline returned, in the order of the declarations. -/
def namesAfter {α : Type} (r : Except Panic (α × AstProgram)) : List (String × String) :=
  match r with
  | .ok (_, program) => program.decl_list.filterMap declName
  | .error _ => []

/-! ## Notes and field comments (parser.go, interp_go.go) -/

/-- The `switch ft := f.type_.(type)` of the loop body of `visitMsgEncode_Go`: the
statements of one field, after the loop over the notes. -/
def encodeFieldBody (fields : List AstVarDecl) (interp0 : interpreter) (st0 : EncodeState)
    (f : AstVarDecl) : Except Panic (interpreter × EncodeState) :=
  match f.type_ with
  | .AstPrimType _ => encodePrim interp0 st0 f
  | .AstStructType sname _ =>
    match wrapExist_Go interp0 f (fun i =>
        .ok (i.addLine "if encode_%s(buf, &m.%s) < 0 \x7b return -1 \x7d" [.str sname, .str f.name])) with
    | .error e => .error e
    | .ok interp1 => .ok (interp1, st0)
  | .AstArrayType elemType =>
    match wrapExist_Go interp0 f (encodeArray fields f elemType) with
    | .error e => .error e
    | .ok interp1 => .ok (interp1, st0)
  | .AstUndefType uname _ =>
    match wrapExist_Go interp0 f (fun i =>
        .ok (i.addLine "if encode_%s(buf, &m.%s) < 0 \x7b return -1 \x7d" [.str uname, .str f.name])) with
    | .error e => .error e
    | .ok interp1 => .ok (interp1, st0)
  | .nil => .error (.emit "encode unsupported type")

/-- The line that the emitter writes for a note. -/
def noteLine (interp : interpreter) (note : AstSrcComment) : Line :=
  { indent := (interp.depth - 1) * 4, format := "//" ++ note.value, args := [] }

/-- The notes of the messages of a parsed text and, for every field, its name, its line
and its comment. -/
def notesAndComments (r : Except Panic AstProgram) :
    List (List AstSrcComment × List (String × Nat × Option AstSrcComment)) :=
  match r with
  | .error _ => []
  | .ok program =>
    program.decl_list.filterMap fun d =>
      match d with
      | .structType node =>
        some (node.notes, node.fields.map fun f => (f.name, f.line, f.comment))
      | _ => none

/-- The lines of the body of the first encoder in the output of a run of the emitter:
those after the head `func encode_...` up to `return 0`. -/
def encoderBody (r : Except Panic (interpreter × AstProgram)) : List (String × List Arg) :=
  match r with
  | .error _ => []
  | .ok (interp, _) =>
    (((interp.out.map Line.text).dropWhile fun l =>
        l.1 != "func encode_%s(buf io.Writer, m *%s) int \x7b").drop 1).takeWhile fun l =>
      l.1 != "return 0"

/-! ## Messages that the analysis accepts and the emitter rejects -/

/-- Whether the declaration is a message with a field of type `v32` or `v64`. -/
def hasVarIntField : Decl → Bool
  | .structType node => node.fields.any fun f => isVarInt f.type_
  | _ => false

/-! ## Reading the emitted id constants -/

/-- The name and the value of a line `NAME = VALUE //hex: 0xVALUE` of the `const (`
block that `visitIdGroupDefine_Go` writes. -/
def idConstLine (l : Line) : Option (String × Int) :=
  if l.format = "%s = %d //hex: 0x%x" then
    match l.args with
    | [.str name, .int val, _] => some (name, val)
    | _ => none
  else none

/-- The lines of the output of a run of the emitter in which an id has the Go type
`uint16`: the head of a function `NAME_name(id uint16)` or of a dispatch function
(`mid uint16`), and a line `case ID:` of a `switch` on such a parameter. -/
def uint16Line (l : Line) : Option (String × List Arg) :=
  if l.format = "func %s_name(id uint16)(string, bool) \x7b" ∨ l.format = "case %s:"
      ∨ l.format = "func encodeTMsgById(buf io.Writer, mid uint16, msg interface\x7b\x7d) int \x7b"
      ∨ l.format = "func decodeTMsgById(buf io.Reader, mid uint16, msg interface\x7b\x7d) int \x7b"
  then some (l.format, l.args)
  else none

/-- The id constants in the output of a run of the emitter. -/
def idConstLines (r : Except Panic (interpreter × AstProgram)) : List (String × Int) :=
  match r with
  | .ok (interp, _) => interp.out.filterMap idConstLine
  | .error _ => []

/-- The lines with a `uint16` id in the output of a run of the emitter. -/
def uint16Lines (r : Except Panic (interpreter × AstProgram)) : List (String × List Arg) :=
  match r with
  | .ok (interp, _) => interp.out.filterMap uint16Line
  | .error _ => []

/-- The program `mspace t` / `defid G { A = v }` as the parser builds it. -/
def programOneId (v : Int) : AstProgram :=
  { mspace := "t", decl_list :=
      [.idGroupDef { name := "G", line := 2, items :=
        [{ name := "A", line := 2, base := true, idVal := v }] }] }

/-! ## Field declarations one after the other (parser.go, `msg_decl`) -/

/-- The calls of `field_decl` that the loop of `msg_decl` makes for `n` field
declarations in a row: each call starts at the token at which the call before it
stopped. The first argument is the bound of the loop of `msg_decl`, which counts down
with every round. -/
def fieldDecls : Nat → Nat → hskParser → Except Panic (List AstVarDecl × hskParser)
  | _, 0, p => .ok ([], p)
  | 0, _ + 1, _ => .error .outOfFuel
  | fuel + 1, n + 1, p =>
    match field_decl fuel p with
    | .error e => .error e
    | .ok (f, p1) =>
      match fieldDecls fuel n p1 with
      | .error e => .error e
      | .ok (fs, pe) => .ok (f :: fs, pe)

/-- The parser when it stands at `defmsg` of the message of scenario S4 written without
separators: `defmsg Buf { len u8 -> max MAX data []u8 -> limit by len //*payload` /
`}` and the end of the text. -/
def parserAtBuf : hskParser :=
  { lex := [tk .ID "Buf" 2, tk .LBRACE "\x7b" 2,
      tk .ID "len" 2, tk .TYPE_U8 "u8" 2, tk .DESC "->" 2, tk .MAX "max" 2, tk .ID "MAX" 2,
      tk .ID "data" 2, tk .LBRACKET "[" 2, tk .RBRACKET "]" 2, tk .TYPE_U8 "u8" 2,
      tk .DESC "->" 2, tk .LIMIT "limit" 2, tk .BY "by" 2, tk .ID "len" 2,
      tk .SCOMMENT "payload" 2, tk .RBRACE "\x7d" 3, tk .EOF "EOF" 3],
    prevToken := some (tk .SEMI ";" 1),
    curToken := tk .DEFMSG "defmsg" 2,
    tpMap := builtinTypeArr.foldl (fun m val => mapSet m val (.AstPrimType val)) [] }

/-- The fields of the messages of a parsed text: name, type, `limit by` name and
comment of every field. -/
def msgFields (r : Except Panic AstProgram) :
    List (List (String × AstType × Option String × Option String)) :=
  match r with
  | .error _ => []
  | .ok program =>
    program.decl_list.filterMap fun d =>
      match d with
      | .structType node =>
        some (node.fields.map fun f =>
          (f.name, f.type_, f.limit.map (·.name), f.comment.map (·.value)))
      | _ => none

/-- The lines `tmp ^= TYPE(NAME)` in the output of a run of the emitter: the `xor` of an
assembled byte, in the encoder and in the decoder. -/
def tmpXorLines (r : Except Panic (interpreter × AstProgram)) : List (List Arg) :=
  match r with
  | .error _ => []
  | .ok (interp, _) =>
    interp.out.filterMap fun l => if l.format = "tmp ^= %s(%s)" then some l.args else none

/-! # Theorems -/

/-! ## Bit aggregation (semantic.go, `visitMsgDefine`) -/

theorem ite_pred {α : Type} {c : Prop} [Decidable c] {a b : α} (P : α → Prop)
    (ha : P a) (hb : P b) : P (if c then a else b) := by
  split <;> assumption

theorem primIntWidth_cases (name : String) : IsIntResult (primIntWidth name) := by
  unfold primIntWidth
  repeat' apply ite_pred IsIntResult
  all_goals first
    | (left; rfl)
    | (right; exact ⟨_, rfl, by omega⟩)

theorem isIntType_cases (tp : AstType) : IsIntResult (isIntType tp) := by
  cases tp with
  | AstPrimType name => exact primIntWidth_cases name
  | _ => left; rfl

theorem isIntType_sub_byte (tp : AstType) (bn : Nat) (h : isIntType tp = (true, bn))
    (h8 : bn % 8 ≠ 0) : 1 ≤ bn ∧ bn ≤ 7 := by
  rcases isIntType_cases tp with h0 | ⟨b, hb, hc⟩
  · rw [h0] at h; simp at h
  · rw [hb] at h
    have : b = bn := by simpa using h
    subst this
    omega

theorem isIntType_pos (tp : AstType) (bn : Nat) (h : isIntType tp = (true, bn)) : 1 ≤ bn := by
  rcases isIntType_cases tp with h0 | ⟨b, hb, hc⟩
  · rw [h0] at h; simp at h
  · rw [hb] at h
    have : b = bn := by simpa using h
    subst this
    omega

theorem aggrStep_spec (st : AggrState) (fname : String) (tp : AstType) :
    (match aggrStep st fname tp with
      | .ok (st1, _, _) => some st1.toRunState
      | .error _ => none) =
      specTransition st.toRunState (isIntType tp).1 (isIntType tp).2 := by
  rcases st with ⟨inAggr, bits⟩
  rcases h : isIntType tp with ⟨ok, bn⟩
  cases inAggr <;> cases ok <;>
    simp only [aggrStep, h, specTransition, AggrState.toRunState] <;> simp
  · by_cases h8 : bn % 8 = 0 <;> simp [h8]
  · by_cases h1 : bits + bn < 8
    · have : ¬ (8 < bits + bn) := by omega
      simp [h1, this]
    · by_cases h2 : bits + bn = 8
      · simp [h2]
      · have : 8 < bits + bn := by omega
        simp [h1, h2, this]

theorem aggrRun_spec (st : AggrState) (fields : List AstVarDecl) :
    okState (aggrRun st fields) =
      specRun st.toRunState (fields.map fun f => isIntType f.type_) := by
  induction fields generalizing st with
  | nil => rfl
  | cons f rest ih =>
    have hstep := aggrStep_spec st f.name f.type_
    simp only [aggrRun, List.map_cons, specRun]
    cases h : aggrStep st f.name f.type_ with
    | error e =>
      rw [h] at hstep
      simp only [] at hstep
      rw [← hstep]
      rfl
    | ok r =>
      obtain ⟨st1, xorOk, ok⟩ := r
      rw [h] at hstep
      simp only [] at hstep
      rw [← hstep]
      exact ih st1

theorem aggrStep_inRange (st : AggrState) (fname : String) (tp : AstType)
    (st1 : AggrState) (xorOk ok : Bool) (hst : st.inRange)
    (h : aggrStep st fname tp = .ok (st1, xorOk, ok)) : st1.inRange := by
  rcases st with ⟨inAggr, bits⟩
  rcases hi : isIntType tp with ⟨isInt, bn⟩
  cases inAggr <;> cases isInt <;> simp only [aggrStep, hi] at h
  · simp at h
    rw [← h.1]; intro hc; simp at hc
  · by_cases h8 : bn % 8 = 0
    · simp [h8] at h
      rw [← h.1]; exact hst
    · simp [h8] at h
      rw [← h.1]; intro _
      exact isIntType_sub_byte tp bn hi h8
  · simp at h
  · have hpos := isIntType_pos tp bn hi
    have hk := hst rfl
    simp only [] at hk
    by_cases h1 : bits + bn < 8
    · simp [h1] at h
      rw [← h.1]; intro _
      simp only []
      omega
    · by_cases h2 : bits + bn = 8
      · simp [h2] at h
        rw [← h.1]; intro hc; simp at hc
      · simp [h1, h2] at h

theorem aggrRun_inRange (st : AggrState) (fields : List AstVarDecl) (st1 : AggrState)
    (hst : st.inRange) (h : aggrRun st fields = .ok st1) : st1.inRange := by
  induction fields generalizing st with
  | nil =>
    simp only [aggrRun, Except.ok.injEq] at h
    rw [← h]; exact hst
  | cons f rest ih =>
    simp only [aggrRun] at h
    cases hs : aggrStep st f.name f.type_ with
    | error e => rw [hs] at h; simp at h
    | ok r =>
      obtain ⟨st2, xorOk, ok⟩ := r
      rw [hs] at h
      exact ih st2 (aggrStep_inRange st f.name f.type_ st2 xorOk ok hst hs) h

theorem visitFields_aggrRun (se : semanticAnalyzer) (st : AggrState) (fields : List AstVarDecl)
    (se1 : semanticAnalyzer) (st1 : AggrState)
    (h : visitFields se st fields = .ok (se1, st1)) : aggrRun st fields = .ok st1 := by
  induction fields generalizing se st with
  | nil =>
    simp only [visitFields, Except.ok.injEq, Prod.mk.injEq] at h
    simp [aggrRun, h.2]
  | cons f rest ih =>
    simp only [visitFields, visitField] at h
    simp only [aggrRun]
    cases hs : aggrStep st f.name f.type_ with
    | error e => rw [hs] at h; simp at h
    | ok r =>
      obtain ⟨st2, xorOk, ok⟩ := r
      rw [hs] at h
      simp only [] at h ⊢
      cases hv : visitVarDecl se f with
      | error e => rw [hv] at h; simp at h
      | ok se2 =>
        rw [hv] at h
        simp only [] at h
        cases hc : visitFieldChecks se2 f xorOk ok with
        | error e => rw [hc] at h; simp at h
        | ok u =>
          rw [hc] at h
          exact ih se2 st2 h

theorem visitFields_error_of_aggrRun (se : semanticAnalyzer) (st : AggrState)
    (fields : List AstVarDecl) (e : Panic) (h : aggrRun st fields = .error e) :
    ∃ e1, visitFields se st fields = .error e1 := by
  cases hv : visitFields se st fields with
  | error e1 => exact ⟨e1, rfl⟩
  | ok r =>
    obtain ⟨se1, st1⟩ := r
    rw [visitFields_aggrRun se st fields se1 st1 hv] at h
    cases h

/-- C1. For every sequence of message fields the loop variables `inAggr`, `bits` of
`visitMsgDefine` follow the transition function of section 4.4 applied to the results of
`isIntType`: the aggregation check alone ends in the state the specification gives (and
panics exactly where the specification has a semantic error); whenever the analyzer gets
through the fields its variables are that state; where the specification has an error the
analyzer returns one; and every `aggregating(k)` state reached has `1 <= k <= 7`. Since
the fields are any sequence, this is the state after each field of a longer message. -/
theorem visitMsgDefine_aggregation_follows_spec (se : semanticAnalyzer)
    (fields : List AstVarDecl) :
    okState (aggrRun { inAggr := false, bits := 0 } fields) =
        specRun .flat (fields.map fun f => isIntType f.type_)
      ∧ (∀ se1 st1, visitFields se { inAggr := false, bits := 0 } fields = .ok (se1, st1) →
          specRun .flat (fields.map fun f => isIntType f.type_) = some st1.toRunState)
      ∧ (specRun .flat (fields.map fun f => isIntType f.type_) = none →
          ∃ e, visitFields se { inAggr := false, bits := 0 } fields = .error e)
      ∧ (∀ k, specRun .flat (fields.map fun f => isIntType f.type_) = some (.aggregating k) →
          1 ≤ k ∧ k ≤ 7) := by
  have hrun := aggrRun_spec { inAggr := false, bits := 0 } fields
  have hflat : ({ inAggr := false, bits := 0 } : AggrState).toRunState = .flat := rfl
  rw [hflat] at hrun
  refine ⟨hrun, ?_, ?_, ?_⟩
  · intro se1 st1 h
    rw [← hrun, visitFields_aggrRun _ _ _ _ _ h]
    rfl
  · intro h
    rw [← hrun] at h
    cases ha : aggrRun { inAggr := false, bits := 0 } fields with
    | ok st1 => rw [ha] at h; simp [okState] at h
    | error e => exact visitFields_error_of_aggrRun se _ fields e ha
  · intro k h
    rw [← hrun] at h
    cases ha : aggrRun { inAggr := false, bits := 0 } fields with
    | error e => rw [ha] at h; simp [okState] at h
    | ok st1 =>
      rw [ha] at h
      have hr := aggrRun_inRange _ fields st1 (by intro hc; simp at hc) ha
      rcases st1 with ⟨a, b⟩
      cases a
      · simp [okState, AggrState.toRunState] at h
      · simp [okState, AggrState.toRunState] at h
        subst h
        exact hr rfl

/-! ## Bit packing arithmetic -/

theorem toNat_mask (w : Nat) : ((2 : Int) ^ w - 1).toNat = 2 ^ w - 1 := by
  have h1 : 1 ≤ 2 ^ w := Nat.one_le_two_pow
  have : ((2 : Int) ^ w - 1) = ((2 ^ w - 1 : Nat) : Int) := by
    push_cast [Nat.cast_sub h1]
    rfl
  rw [this, Int.toNat_natCast]

theorem toNat_shift (t : Nat) : ((8 : Int) - (t : Int)).toNat = 8 - t := by
  omega

theorem sum_lt_of_multiple (tmp y b : Nat) (hb : b ≤ 8) (htmp : tmp < 256)
    (hmul : tmp % 2 ^ (8 - b) = 0) (hy : y < 2 ^ (8 - b)) : tmp + y < 256 := by
  interval_cases b <;> simp at hmul hy <;> omega

theorem packStep_eq (tmp v b w : Nat) (hbw : b + w ≤ 8)
    (htmp : tmp < 256) (hmul : tmp % 2 ^ (8 - b) = 0) :
    packStep tmp v ((2 : Int) ^ w - 1) (8 - ((b + w : Nat) : Int)) =
      tmp + (v % 2 ^ w) * 2 ^ (8 - (b + w)) := by
  unfold packStep
  rw [toNat_mask, toNat_shift, Nat.and_pow_two_sub_one_eq_mod, Nat.shiftLeft_eq]
  have hx : v % 2 ^ w < 2 ^ w := Nat.mod_lt _ (by positivity)
  have hlt : (v % 2 ^ w) * 2 ^ (8 - (b + w)) < 2 ^ (8 - b) := by
    calc (v % 2 ^ w) * 2 ^ (8 - (b + w)) < 2 ^ w * 2 ^ (8 - (b + w)) :=
          Nat.mul_lt_mul_of_pos_right hx (by positivity)
      _ = 2 ^ (8 - b) := by rw [← pow_add]; congr 1; omega
  have hx256 : v % 2 ^ w < 256 :=
    lt_of_lt_of_le hx (by
      have : 2 ^ w ≤ 2 ^ 8 := Nat.pow_le_pow_right (by omega) (by omega)
      simpa using this)
  have hy256 : (v % 2 ^ w) * 2 ^ (8 - (b + w)) < 256 :=
    lt_of_lt_of_le hlt (by
      have : 2 ^ (8 - b) ≤ 2 ^ 8 := Nat.pow_le_pow_right (by omega) (by omega)
      simpa using this)
  have hor : tmp ||| (v % 2 ^ w) * 2 ^ (8 - (b + w)) =
      tmp + (v % 2 ^ w) * 2 ^ (8 - (b + w)) := by
    obtain ⟨a, ha⟩ := Nat.dvd_of_mod_eq_zero hmul
    rw [ha]
    exact (Nat.mul_add_lt_is_or hlt a).symm
  rw [Nat.mod_eq_of_lt hx256, Nat.mod_eq_of_lt hy256, hor]
  exact Nat.mod_eq_of_lt (sum_lt_of_multiple tmp _ b (by omega) htmp hmul hlt)

theorem step_arith (tmp x b w final : Nat) (hw : 1 ≤ w) (hbw : b + w ≤ 8)
    (hmul : tmp % 2 ^ (8 - b) = 0) (hx : x < 2 ^ w)
    (hfin : final / 2 ^ (8 - (b + w)) = (tmp + x * 2 ^ (8 - (b + w))) / 2 ^ (8 - (b + w))) :
    (tmp + x * 2 ^ (8 - (b + w))) % 2 ^ (8 - (b + w)) = 0
      ∧ final / 2 ^ (8 - b) = tmp / 2 ^ (8 - b)
      ∧ (final / 2 ^ (8 - (b + w))) % 2 ^ w = x := by
  have hb : b ≤ 7 := by omega
  have hw8 : w ≤ 8 := by omega
  interval_cases w <;> interval_cases b <;> simp at hbw hmul hx hfin ⊢ <;> omega

theorem unpackOp_eq (final : Nat) (name : String) (b w : Nat) (hbw : b + w ≤ 8) :
    unpackOp final (name, (2 : Int) ^ w - 1, 8 - ((b + w : Nat) : Int)) =
      (final / 2 ^ (8 - (b + w))) % 2 ^ w := by
  unfold unpackOp
  simp only []
  rw [toNat_mask, toNat_shift, Nat.and_pow_two_sub_one_eq_mod, Nat.shiftRight_eq_div_pow]
  apply Nat.mod_eq_of_lt
  have h1 : final / 2 ^ (8 - (b + w)) % 2 ^ w < 2 ^ w := Nat.mod_lt _ (by positivity)
  have h2 : 2 ^ w ≤ 2 ^ 8 := Nat.pow_le_pow_right (by omega) (by omega)
  have h3 : (2 : Nat) ^ 8 = 256 := by norm_num
  omega

theorem widthSum_cons (f : AstVarDecl) (rest : List AstVarDecl) :
    widthSum (f :: rest) = (isIntType f.type_).2 + widthSum rest := by
  simp [widthSum]

theorem packRun_spec (fields : List AstVarDecl) :
    ∀ (vals : List Nat) (b tmp : Nat),
      (∀ f ∈ fields, 1 ≤ (isIntType f.type_).2) → b + widthSum fields = 8 →
      vals.length = fields.length → tmp < 256 → tmp % 2 ^ (8 - b) = 0 →
      packRun (expectedOps b fields) vals tmp < 256
        ∧ packRun (expectedOps b fields) vals tmp / 2 ^ (8 - b) = tmp / 2 ^ (8 - b)
        ∧ (expectedOps b fields).map (unpackOp (packRun (expectedOps b fields) vals tmp)) =
            List.zipWith (fun f v => v % 2 ^ (isIntType f.type_).2) fields vals := by
  induction fields with
  | nil =>
    intro vals b tmp _ _ hlen htmp _
    cases vals with
    | nil => simp [expectedOps, packRun, htmp]
    | cons v vs => simp at hlen
  | cons f rest ih =>
    intro vals b tmp hpos hsum hlen htmp hmul
    cases vals with
    | nil => simp at hlen
    | cons v vs =>
      rw [widthSum_cons] at hsum
      have hw : 1 ≤ (isIntType f.type_).2 := hpos f (List.mem_cons_self _ _)
      have hbw : b + (isIntType f.type_).2 ≤ 8 := by omega
      have hstep := packStep_eq tmp v b (isIntType f.type_).2 hbw htmp hmul
      have hx : v % 2 ^ (isIntType f.type_).2 < 2 ^ (isIntType f.type_).2 :=
        Nat.mod_lt _ (by positivity)
      have hlt : (v % 2 ^ (isIntType f.type_).2) * 2 ^ (8 - (b + (isIntType f.type_).2))
          < 2 ^ (8 - b) := by
        calc (v % 2 ^ (isIntType f.type_).2) * 2 ^ (8 - (b + (isIntType f.type_).2))
            < 2 ^ (isIntType f.type_).2 * 2 ^ (8 - (b + (isIntType f.type_).2)) :=
              Nat.mul_lt_mul_of_pos_right hx (by positivity)
          _ = 2 ^ (8 - b) := by rw [← pow_add]; congr 1; omega
      have htmp1 := sum_lt_of_multiple tmp _ b (by omega) htmp hmul hlt
      have hmul1 : (tmp + (v % 2 ^ (isIntType f.type_).2)
          * 2 ^ (8 - (b + (isIntType f.type_).2))) % 2 ^ (8 - (b + (isIntType f.type_).2)) = 0 := by
        have hd : 2 ^ (8 - (b + (isIntType f.type_).2)) ∣ tmp := by
          have h1 : 2 ^ (8 - (b + (isIntType f.type_).2)) ∣ 2 ^ (8 - b) :=
            pow_dvd_pow 2 (by omega)
          exact Nat.dvd_trans h1 (Nat.dvd_of_mod_eq_zero hmul)
        exact Nat.mod_eq_zero_of_dvd (Nat.dvd_add hd (Nat.dvd_mul_left _ _))
      have hrec := ih vs (b + (isIntType f.type_).2)
        (tmp + (v % 2 ^ (isIntType f.type_).2) * 2 ^ (8 - (b + (isIntType f.type_).2)))
        (fun g hg => hpos g (List.mem_cons_of_mem _ hg)) (by omega)
        (by simpa using hlen) htmp1 hmul1
      obtain ⟨hfl, hfd, hfm⟩ := hrec
      have harith := step_arith tmp (v % 2 ^ (isIntType f.type_).2) b (isIntType f.type_).2
        (packRun (expectedOps (b + (isIntType f.type_).2) rest) vs
          (tmp + (v % 2 ^ (isIntType f.type_).2) * 2 ^ (8 - (b + (isIntType f.type_).2))))
        hw hbw hmul hx hfd
      simp only [expectedOps, packRun, hstep, List.map_cons, List.zipWith_cons_cons]
      refine ⟨hfl, harith.2.1, ?_⟩
      rw [unpackOp_eq _ _ _ _ hbw, harith.2.2, hfm]

/-! ## The bit operations that the emitter writes for a run -/

theorem maskOf_eq (w : Nat) (hw : w ≤ 7) : maskOf w = (2 : Int) ^ w - 1 := by
  interval_cases w <;> rfl

theorem isIntType_prim (tp : AstType) (h : (isIntType tp).1 = true) :
    ∃ name, tp = .AstPrimType name := by
  cases tp with
  | AstPrimType name => exact ⟨name, rfl⟩
  | _ => simp [isIntType] at h

theorem out_addLine (interp : interpreter) (format : String) (args : List Arg) :
    (interp.addLine format args).out =
      interp.out ++ [{ indent := (interp.depth - 1) * 4, format := format, args := args }] := rfl

theorem comment_ne (v s : String) (h : s.data.head? ≠ some '/') : "//" ++ v ≠ s := by
  intro heq
  apply h
  rw [← heq, String.data_append]
  rfl

theorem encodeOp_comment (indent : Nat) (v : String) :
    encodeOp { indent := indent, format := "//" ++ v, args := [] } = none := by
  unfold encodeOp
  rw [if_neg (comment_ne v _ (by decide)), if_neg (comment_ne v _ (by decide))]

theorem emitNotes_ops (notes : List AstSrcComment) (interp : interpreter) (line : Nat) :
    (emitNotes interp line notes).1.out.filterMap encodeOp = interp.out.filterMap encodeOp := by
  induction notes generalizing interp with
  | nil => rfl
  | cons note rest ih =>
    unfold emitNotes
    split
    · rw [ih, out_addLine, List.filterMap_append]
      simp [encodeOp_comment]
    · rfl

theorem encodePrim_start (interp : interpreter) (st : EncodeState) (f : AstVarDecl) (w : Nat)
    (h : isIntType f.type_ = (true, w)) (hna : st.bitAggr = false) (h8 : w % 8 ≠ 0) :
    ∃ ei es, encodePrim interp st f = .ok (ei, es)
      ∧ ei.out.filterMap encodeOp =
          interp.out.filterMap encodeOp ++ [(f.name, maskOf w, 8 - (w : Int))]
      ∧ es.bits = w ∧ es.bitAggr = true := by
  simp only [encodePrim, h, hna]
  simp only [Bool.false_eq_true, if_false, if_true, if_neg h8]
  refine ⟨_, _, rfl, ?_, rfl, rfl⟩
  by_cases ht : st.hasTmp = true
  · simp [ht, out_addLine, List.filterMap_append, encodeOp]
  · simp [ht, out_addLine, List.filterMap_append, encodeOp]

theorem encodePrim_aggr (interp : interpreter) (st : EncodeState) (f : AstVarDecl) (w : Nat)
    (h : isIntType f.type_ = (true, w)) (ha : st.bitAggr = true) (hle : st.bits + w ≤ 8) :
    ∃ ei es, encodePrim interp st f = .ok (ei, es)
      ∧ ei.out.filterMap encodeOp =
          interp.out.filterMap encodeOp
            ++ [(f.name, maskOf w, 8 - ((st.bits + w : Nat) : Int))]
      ∧ es.bits = st.bits + w ∧ es.bitAggr = decide (st.bits + w < 8) := by
  simp only [encodePrim, h, ha]
  simp only [Bool.not_true, Bool.false_eq_true, if_false, if_true, if_pos hle]
  by_cases h8 : st.bits + w = 8
  · have hs : ((8 : Int) - ((st.bits + w : Nat) : Int)) = 0 := by omega
    simp only [h8, if_true]
    refine ⟨_, _, rfl, ?_, rfl, by simp⟩
    cases hx : st.xorVar <;>
      simp [interpreter.addNewLine, out_addLine, List.filterMap_append, encodeOp]
    all_goals split <;> simp [out_addLine, List.filterMap_append, encodeOp]
  · have hs : ((8 : Int) - ((st.bits + w : Nat) : Int)) ≠ 0 := by omega
    simp only [h8, if_false, if_neg hs]
    refine ⟨_, _, rfl, ?_, rfl, ?_⟩
    · simp [out_addLine, List.filterMap_append, encodeOp]
    · simp; omega

theorem widthSum_pos_of_ne_nil (fields : List AstVarDecl) (hsub : SubByteRun fields)
    (hne : fields ≠ []) : 1 ≤ widthSum fields := by
  cases fields with
  | nil => exact absurd rfl hne
  | cons f rest =>
    rw [widthSum_cons]
    have hf := hsub f (List.mem_cons_self _ _)
    rcases hi : isIntType f.type_ with ⟨ok, bn⟩
    rw [hi] at hf
    have := isIntType_sub_byte f.type_ bn (by rw [hi]; simp at hf; rw [hf.1]) hf.2
    simp only []
    omega

theorem subByte_width (f : AstVarDecl) (fields : List AstVarDecl) (hsub : SubByteRun fields)
    (hf : f ∈ fields) :
    isIntType f.type_ = (true, (isIntType f.type_).2)
      ∧ 1 ≤ (isIntType f.type_).2 ∧ (isIntType f.type_).2 ≤ 7 := by
  have h := hsub f hf
  have heq : isIntType f.type_ = (true, (isIntType f.type_).2) := by
    rw [← h.1]
  exact ⟨heq, isIntType_sub_byte f.type_ _ heq h.2⟩

theorem encodeField_prim (fields : List AstVarDecl) (interp : interpreter) (st : EncodeState)
    (f : AstVarDecl) (h : (isIntType f.type_).1 = true) :
    encodeField fields interp st f =
      encodePrim (emitNotes interp f.line st.notes).1
        { st with notes := (emitNotes interp f.line st.notes).2 } f := by
  obtain ⟨name, hn⟩ := isIntType_prim f.type_ h
  unfold encodeField
  rw [hn]

theorem encodeFields_aggr (allFields : List AstVarDecl) (fields : List AstVarDecl) :
    ∀ (b : Nat) (interp : interpreter) (st : EncodeState),
      SubByteRun fields → st.bitAggr = true → st.bits = b → 1 ≤ b →
      b + widthSum fields = 8 →
      ∃ ei es, encodeFields allFields interp st fields = .ok (ei, es)
        ∧ ei.out.filterMap encodeOp = interp.out.filterMap encodeOp ++ expectedOps b fields := by
  induction fields with
  | nil =>
    intro b interp st _ _ _ _ _
    exact ⟨interp, st, rfl, by simp [expectedOps]⟩
  | cons f rest ih =>
    intro b interp st hsub ha hb hb1 hsum
    rw [widthSum_cons] at hsum
    obtain ⟨hw, hw1, hw7⟩ := subByte_width f (f :: rest) hsub (List.mem_cons_self _ _)
    have hsubr : SubByteRun rest := fun g hg => hsub g (List.mem_cons_of_mem _ hg)
    obtain ⟨ei, es, he, hops, hbits, haggr⟩ :=
      encodePrim_aggr (emitNotes interp f.line st.notes).1
        { st with notes := (emitNotes interp f.line st.notes).2 } f _ hw ha
        (by simp only [hb]; omega)
    simp only [hb] at hops hbits haggr
    rw [emitNotes_ops] at hops
    simp only [encodeFields, encodeField_prim allFields interp st f (by rw [hw]), he]
    by_cases hr : rest = []
    · subst hr
      refine ⟨ei, es, rfl, ?_⟩
      rw [hops, maskOf_eq _ hw7]
      simp [expectedOps]
    · have hrpos := widthSum_pos_of_ne_nil rest hsubr hr
      have hlt : b + (isIntType f.type_).2 < 8 := by omega
      obtain ⟨ei2, es2, he2, hops2⟩ :=
        ih (b + (isIntType f.type_).2) ei es hsubr (by rw [haggr]; simp [hlt]) hbits
          (by omega) (by omega)
      refine ⟨ei2, es2, he2, ?_⟩
      rw [hops2, hops, maskOf_eq _ hw7]
      simp [expectedOps]

theorem encodeFields_run (allFields : List AstVarDecl) (fields : List AstVarDecl)
    (interp : interpreter) (st : EncodeState)
    (hsub : SubByteRun fields) (hna : st.bitAggr = false) (hsum : widthSum fields = 8) :
    ∃ ei es, encodeFields allFields interp st fields = .ok (ei, es)
      ∧ ei.out.filterMap encodeOp = interp.out.filterMap encodeOp ++ expectedOps 0 fields := by
  cases fields with
  | nil => simp [widthSum] at hsum
  | cons f rest =>
    rw [widthSum_cons] at hsum
    obtain ⟨hw, hw1, hw7⟩ := subByte_width f (f :: rest) hsub (List.mem_cons_self _ _)
    have hsubr : SubByteRun rest := fun g hg => hsub g (List.mem_cons_of_mem _ hg)
    obtain ⟨ei, es, he, hops, hbits, haggr⟩ :=
      encodePrim_start (emitNotes interp f.line st.notes).1
        { st with notes := (emitNotes interp f.line st.notes).2 } f _ hw hna
        (hsub f (List.mem_cons_self _ _)).2
    rw [emitNotes_ops] at hops
    obtain ⟨ei2, es2, he2, hops2⟩ :=
      encodeFields_aggr allFields rest (isIntType f.type_).2 ei es hsubr haggr hbits hw1 hsum
    refine ⟨ei2, es2, ?_, ?_⟩
    · simp only [encodeFields, encodeField_prim allFields interp st f (by rw [hw]), he]
      exact he2
    · rw [hops2, hops, maskOf_eq _ hw7]
      simp [expectedOps]
theorem decodePrim_start (interp : interpreter) (st : DecodeState) (f : AstVarDecl) (w : Nat)
    (h : isIntType f.type_ = (true, w)) (hna : st.bitAggr = false) (h8 : w % 8 ≠ 0) :
    ∃ di ds, decodePrim interp st f = .ok (di, ds)
      ∧ di.out.filterMap decodeOp =
          interp.out.filterMap decodeOp ++ [(f.name, maskOf w, 8 - (w : Int))]
      ∧ ds.bits = w ∧ ds.bitAggr = true := by
  simp only [decodePrim, h, hna]
  simp only [Bool.false_eq_true, if_false, if_true, if_neg h8]
  refine ⟨_, _, rfl, ?_, rfl, rfl⟩
  by_cases ht : st.hasTmp = true <;> cases hx : f.xor <;> cases he : f.equ <;>
    simp [ht, interpreter.addNewLine, out_addLine, List.filterMap_append, decodeOp]
  all_goals split <;> simp [out_addLine, List.filterMap_append, decodeOp]

theorem decodePrim_aggr (interp : interpreter) (st : DecodeState) (f : AstVarDecl) (w : Nat)
    (h : isIntType f.type_ = (true, w)) (ha : st.bitAggr = true) (hle : st.bits + w ≤ 8) :
    ∃ di ds, decodePrim interp st f = .ok (di, ds)
      ∧ di.out.filterMap decodeOp =
          interp.out.filterMap decodeOp
            ++ [(f.name, maskOf w, 8 - ((st.bits + w : Nat) : Int))]
      ∧ (st.bits + w < 8 → ds.bits = st.bits + w ∧ ds.bitAggr = true) := by
  simp only [decodePrim, h, ha]
  simp only [Bool.not_true, Bool.false_eq_true, if_false, if_true, if_pos hle]
  by_cases h8 : st.bits + w = 8
  · have hs : ¬ ((8 : Int) - ((st.bits + w : Nat) : Int)) > 0 := by omega
    simp only [h8, if_true]
    refine ⟨_, _, rfl, ?_, by omega⟩
    cases hx : f.equ <;> simp [out_addLine, List.filterMap_append, decodeOp]
  · have hs : ((8 : Int) - ((st.bits + w : Nat) : Int)) > 0 := by omega
    simp only [h8, if_false, if_pos hs]
    refine ⟨_, _, rfl, ?_, fun _ => ⟨rfl, rfl⟩⟩
    cases hx : f.equ <;> simp [out_addLine, List.filterMap_append, decodeOp]

theorem decodeField_prim (fields : List AstVarDecl) (interp : interpreter) (st : DecodeState)
    (f : AstVarDecl) (h : (isIntType f.type_).1 = true) :
    decodeField fields interp st f = decodePrim interp st f := by
  obtain ⟨name, hn⟩ := isIntType_prim f.type_ h
  unfold decodeField
  rw [hn]

theorem decodeFields_aggr (allFields : List AstVarDecl) (fields : List AstVarDecl) :
    ∀ (b : Nat) (interp : interpreter) (st : DecodeState),
      SubByteRun fields → st.bitAggr = true → st.bits = b → 1 ≤ b →
      b + widthSum fields = 8 →
      ∃ di ds, decodeFields allFields interp st fields = .ok (di, ds)
        ∧ di.out.filterMap decodeOp = interp.out.filterMap decodeOp ++ expectedOps b fields := by
  induction fields with
  | nil =>
    intro b interp st _ _ _ _ _
    exact ⟨interp, st, rfl, by simp [expectedOps]⟩
  | cons f rest ih =>
    intro b interp st hsub ha hb hb1 hsum
    rw [widthSum_cons] at hsum
    obtain ⟨hw, hw1, hw7⟩ := subByte_width f (f :: rest) hsub (List.mem_cons_self _ _)
    have hsubr : SubByteRun rest := fun g hg => hsub g (List.mem_cons_of_mem _ hg)
    obtain ⟨di, ds, he, hops, hnext⟩ :=
      decodePrim_aggr interp st f _ hw ha (by simp only [hb]; omega)
    simp only [hb] at hops hnext
    simp only [decodeFields, decodeField_prim allFields interp st f (by rw [hw]), he]
    by_cases hr : rest = []
    · subst hr
      refine ⟨di, ds, rfl, ?_⟩
      rw [hops, maskOf_eq _ hw7]
      simp [expectedOps]
    · have hrpos := widthSum_pos_of_ne_nil rest hsubr hr
      have hlt : b + (isIntType f.type_).2 < 8 := by omega
      obtain ⟨hbits, haggr⟩ := hnext hlt
      obtain ⟨di2, ds2, he2, hops2⟩ :=
        ih (b + (isIntType f.type_).2) di ds hsubr haggr hbits (by omega) (by omega)
      refine ⟨di2, ds2, he2, ?_⟩
      rw [hops2, hops, maskOf_eq _ hw7]
      simp [expectedOps]

theorem decodeFields_run (allFields : List AstVarDecl) (fields : List AstVarDecl)
    (interp : interpreter) (st : DecodeState)
    (hsub : SubByteRun fields) (hna : st.bitAggr = false) (hsum : widthSum fields = 8) :
    ∃ di ds, decodeFields allFields interp st fields = .ok (di, ds)
      ∧ di.out.filterMap decodeOp = interp.out.filterMap decodeOp ++ expectedOps 0 fields := by
  cases fields with
  | nil => simp [widthSum] at hsum
  | cons f rest =>
    rw [widthSum_cons] at hsum
    obtain ⟨hw, hw1, hw7⟩ := subByte_width f (f :: rest) hsub (List.mem_cons_self _ _)
    have hsubr : SubByteRun rest := fun g hg => hsub g (List.mem_cons_of_mem _ hg)
    obtain ⟨di, ds, he, hops, hbits, haggr⟩ :=
      decodePrim_start interp st f _ hw hna (hsub f (List.mem_cons_self _ _)).2
    obtain ⟨di2, ds2, he2, hops2⟩ :=
      decodeFields_aggr allFields rest (isIntType f.type_).2 di ds hsubr haggr hbits hw1 hsum
    refine ⟨di2, ds2, ?_, ?_⟩
    · simp only [decodeFields, decodeField_prim allFields interp st f (by rw [hw]), he]
      exact he2
    · rw [hops2, hops, maskOf_eq _ hw7]
      simp [expectedOps]

/-- C3. For every run of sub-byte fields whose widths sum to 8, wherever it stands in a
message (any emitter state outside a run): `visitMsgEncode_Go` and `visitMsgDecode_Go`
both get through the run, the shift and mask of the decoder's line for each field are
those of the encoder's line for it, namely shift `8 - (running total through the field)`
and mask `2^w - 1`, and executing the decoder's extraction for each field on the byte
that the encoder's statements pack from any field values (of type `uint8`) gives the
value of the field reduced to its `w` bits. -/
theorem bit_run_decode_inverts_encode (allFields fields : List AstVarDecl)
    (interp : interpreter) (est : EncodeState) (dst : DecodeState) (vals : List Nat)
    (hsub : SubByteRun fields) (hsum : widthSum fields = 8)
    (he : est.bitAggr = false) (hd : dst.bitAggr = false)
    (hlen : vals.length = fields.length) :
    ∃ ei es di ds,
      encodeFields allFields interp est fields = .ok (ei, es)
      ∧ decodeFields allFields interp dst fields = .ok (di, ds)
      ∧ ei.out.filterMap encodeOp = interp.out.filterMap encodeOp ++ expectedOps 0 fields
      ∧ di.out.filterMap decodeOp = interp.out.filterMap decodeOp ++ expectedOps 0 fields
      ∧ (expectedOps 0 fields).map (unpackOp (packRun (expectedOps 0 fields) vals 0)) =
          List.zipWith (fun f v => v % 2 ^ (isIntType f.type_).2) fields vals := by
  obtain ⟨ei, es, h1, h2⟩ := encodeFields_run allFields fields interp est hsub he hsum
  obtain ⟨di, ds, h3, h4⟩ := decodeFields_run allFields fields interp dst hsub hd hsum
  refine ⟨ei, es, di, ds, h1, h3, h2, h4, ?_⟩
  have hpos : ∀ f ∈ fields, 1 ≤ (isIntType f.type_).2 :=
    fun f hf => (subByte_width f fields hsub hf).2.1
  exact (packRun_spec fields vals 0 0 hpos (by omega) hlen (by omega) (by simp)).2.2

theorem subByteRun_fieldsFlags : SubByteRun fieldsFlags := by
  intro f hf
  simp only [fieldsFlags, List.mem_cons, List.mem_singleton, List.not_mem_nil, or_false] at hf
  rcases hf with rfl | rfl <;> decide

/-- Witness of C3: the run `hi u4`, `lo u4` of scenario S2 with the values 0xAB, 0xCD. -/
theorem bit_run_decode_inverts_encode_witness :
    SubByteRun fieldsFlags ∧ widthSum fieldsFlags = 8 ∧
    ∃ ei es di ds,
      encodeFields fieldsFlags NewInterpreter {} fieldsFlags = .ok (ei, es)
      ∧ decodeFields fieldsFlags NewInterpreter {} fieldsFlags = .ok (di, ds)
      ∧ ei.out.filterMap encodeOp =
          NewInterpreter.out.filterMap encodeOp ++ expectedOps 0 fieldsFlags
      ∧ di.out.filterMap decodeOp =
          NewInterpreter.out.filterMap decodeOp ++ expectedOps 0 fieldsFlags
      ∧ (expectedOps 0 fieldsFlags).map
            (unpackOp (packRun (expectedOps 0 fieldsFlags) [171, 205] 0)) =
          List.zipWith (fun f v => v % 2 ^ (isIntType f.type_).2) fieldsFlags [171, 205] :=
  ⟨subByteRun_fieldsFlags, by decide,
    bit_run_decode_inverts_encode fieldsFlags fieldsFlags NewInterpreter {} {} [171, 205]
      subByteRun_fieldsFlags (by decide) rfl rfl rfl⟩

/-! ## Array fields need a limit (semantic.go, `visitMsgDefine`) -/

theorem visitField_error_of_array_no_limit (se : semanticAnalyzer) (st : AggrState)
    (f : AstVarDecl) (elemType : AstType) (ht : f.type_ = .AstArrayType elemType)
    (hl : f.limit = none) : ∃ e, visitField se st f = .error e := by
  unfold visitField
  cases aggrStep st f.name f.type_ with
  | error e => exact ⟨e, rfl⟩
  | ok r =>
    obtain ⟨st1, xorOk, ok⟩ := r
    simp only []
    cases visitVarDecl se f with
    | error e => exact ⟨e, rfl⟩
    | ok se1 =>
      simp only []
      have : visitFieldChecks se1 f xorOk ok = .error (.arrayNoLimit f.name) := by
        unfold visitFieldChecks
        rw [ht]
        simp [AstType.astType, hl]
      rw [this]
      exact ⟨_, rfl⟩

theorem visitFields_error_of_array_no_limit (fields : List AstVarDecl) :
    ∀ (se : semanticAnalyzer) (st : AggrState) (f : AstVarDecl) (elemType : AstType),
      f ∈ fields → f.type_ = .AstArrayType elemType → f.limit = none →
      ∃ e, visitFields se st fields = .error e := by
  induction fields with
  | nil => intro se st f elemType hf; cases hf
  | cons g rest ih =>
    intro se st f elemType hf ht hl
    unfold visitFields
    rcases List.mem_cons.mp hf with hfg | hfr
    · subst hfg
      obtain ⟨e, he⟩ := visitField_error_of_array_no_limit se st f elemType ht hl
      rw [he]
      exact ⟨e, rfl⟩
    · cases hv : visitField se st g with
      | error e => exact ⟨e, rfl⟩
      | ok r =>
        obtain ⟨se1, st1⟩ := r
        exact ih se1 st1 f elemType hfr ht hl

theorem visitMsgDefine_error_of_array_no_limit (se : semanticAnalyzer) (node : AstStructDecl)
    (f : AstVarDecl) (elemType : AstType) (hf : f ∈ node.fields)
    (ht : f.type_ = .AstArrayType elemType) (hl : f.limit = none) :
    ∃ e, visitMsgDefine se node = .error e := by
  unfold visitMsgDefine
  cases lookup se.symbolStack node.name false with
  | some s => exact ⟨_, rfl⟩
  | none =>
    simp only []
    cases se.insertSymbol (newVarSymbol node.name node.toType se.curLevel node.line) with
    | error e => exact ⟨e, rfl⟩
    | ok se1 =>
      simp only []
      obtain ⟨e, he⟩ := visitFields_error_of_array_no_limit node.fields se1.pushSymbolTable
        { inAggr := false, bits := 0 } f elemType hf ht hl
      rw [he]
      exact ⟨e, rfl⟩

theorem insertSymbol_firstPass (se se1 : semanticAnalyzer) (sym : symbolClass)
    (h : se.insertSymbol sym = .ok se1) :
    se1.firstPass = se.firstPass ∧ se1.midMap = se.midMap := by
  unfold semanticAnalyzer.insertSymbol at h
  cases hs : se.symbolStack with
  | nil => rw [hs] at h; simp at h
  | cons tb up =>
    rw [hs] at h
    simp only [] at h
    cases ht : tb.insertSymbol sym with
    | error e => rw [ht] at h; simp at h
    | ok tb1 =>
      rw [ht] at h
      simp only [Except.ok.injEq] at h
      rw [← h]
      exact ⟨rfl, rfl⟩

theorem visitVarDecl_firstPass (se se1 : semanticAnalyzer) (node : AstVarDecl)
    (h : visitVarDecl se node = .ok se1) : se1.firstPass = se.firstPass := by
  unfold visitVarDecl at h
  cases hl : lookup se.symbolStack node.name false with
  | some s => rw [hl] at h; simp at h
  | none =>
    rw [hl] at h
    simp only [] at h
    split at h
    · simp at h
    · exact (insertSymbol_firstPass _ _ _ h).1

theorem visitFields_firstPass (fields : List AstVarDecl) :
    ∀ (se se1 : semanticAnalyzer) (st st1 : AggrState),
      visitFields se st fields = .ok (se1, st1) → se1.firstPass = se.firstPass := by
  induction fields with
  | nil =>
    intro se se1 st st1 h
    simp only [visitFields, Except.ok.injEq, Prod.mk.injEq] at h
    rw [← h.1]
  | cons f rest ih =>
    intro se se1 st st1 h
    simp only [visitFields, visitField] at h
    cases hs : aggrStep st f.name f.type_ with
    | error e => rw [hs] at h; simp at h
    | ok r =>
      obtain ⟨st2, xorOk, ok⟩ := r
      rw [hs] at h
      simp only [] at h
      cases hv : visitVarDecl se f with
      | error e => rw [hv] at h; simp at h
      | ok se2 =>
        rw [hv] at h
        simp only [] at h
        cases hc : visitFieldChecks se2 f xorOk ok with
        | error e => rw [hc] at h; simp at h
        | ok u =>
          rw [hc] at h
          rw [ih se2 se1 st2 st1 h, visitVarDecl_firstPass se se2 f hv]

theorem visitMsgDefine_firstPass (se se1 : semanticAnalyzer) (node : AstStructDecl)
    (h : visitMsgDefine se node = .ok se1) : se1.firstPass = se.firstPass := by
  unfold visitMsgDefine at h
  cases hl : lookup se.symbolStack node.name false with
  | some s => rw [hl] at h; simp at h
  | none =>
    rw [hl] at h
    simp only [] at h
    cases hi : se.insertSymbol (newVarSymbol node.name node.toType se.curLevel node.line) with
    | error e => rw [hi] at h; simp at h
    | ok se2 =>
      rw [hi] at h
      simp only [] at h
      cases hf : visitFields se2.pushSymbolTable { inAggr := false, bits := 0 } node.fields with
      | error e => rw [hf] at h; simp at h
      | ok r =>
        obtain ⟨se3, st3⟩ := r
        rw [hf] at h
        simp only [] at h
        have h3 := visitFields_firstPass node.fields _ _ _ _ hf
        have h2 := (insertSymbol_firstPass _ _ _ hi).1
        unfold semanticAnalyzer.popSymbolTable at h
        split at h
        · simp only [Except.ok.injEq] at h
          rw [← h]
          simp only []
          rw [h3]
          exact h2
        · simp at h

theorem visitDecl_firstPass (se se1 : semanticAnalyzer) (decl decl1 : Decl)
    (h : visitDecl se decl = .ok (se1, decl1)) : se1.firstPass = se.firstPass := by
  unfold visitDecl at h
  cases decl with
  | varDecl node =>
    simp only [] at h
    split at h
    · cases hv : visitVarDecl se node with
      | error e => rw [hv] at h; simp at h
      | ok se2 =>
        rw [hv] at h
        simp only [Except.ok.injEq, Prod.mk.injEq] at h
        rw [← h.1]
        exact visitVarDecl_firstPass _ _ _ hv
    · simp only [Except.ok.injEq, Prod.mk.injEq] at h
      rw [← h.1]
  | idGroupDef node =>
    simp only [] at h
    split at h
    · cases hv : visitIdGroupDefine se node with
      | error e => rw [hv] at h; simp at h
      | ok r =>
        obtain ⟨se2, node2⟩ := r
        rw [hv] at h
        simp only [Except.ok.injEq, Prod.mk.injEq] at h
        rw [← h.1]
        unfold visitIdGroupDefine at hv
        split at hv
        · simp only [Except.ok.injEq, Prod.mk.injEq] at hv
          rw [← hv.1]
        · cases hl : lookup se.symbolStack node.name false with
          | some s => rw [hl] at hv; simp at hv
          | none =>
            rw [hl] at hv
            simp only [] at hv
            cases hi : se.insertSymbol
                (newVarSymbol node.name (.AstPrimType symTypeInt) se.curLevel node.line) with
            | error e => rw [hi] at hv; simp at hv
            | ok se3 =>
              rw [hi] at hv
              simp only [] at hv
              cases hit : visitIdItems node.isMsgId se3.midMap 0 0 node.items with
              | error e => rw [hit] at hv; simp at hv
              | ok r2 =>
                obtain ⟨m, items⟩ := r2
                rw [hit] at hv
                simp only [Except.ok.injEq, Prod.mk.injEq] at hv
                rw [← hv.1]
                exact (insertSymbol_firstPass _ _ _ hi).1
    · simp only [Except.ok.injEq, Prod.mk.injEq] at h
      rw [← h.1]
  | constDef node =>
    simp only [] at h
    split at h
    · cases hv : visitConstDef se node with
      | error e => rw [hv] at h; simp at h
      | ok se2 =>
        rw [hv] at h
        simp only [Except.ok.injEq, Prod.mk.injEq] at h
        rw [← h.1]
        unfold visitConstDef at hv
        cases hl : lookup se.symbolStack node.name false with
        | some s => rw [hl] at hv; simp at hv
        | none =>
          rw [hl] at hv
          simp only [] at hv
          cases ha : visitAst se node.val with
          | error e => rw [ha] at hv; simp at hv
          | ok t =>
            rw [ha] at hv
            simp only [] at hv
            cases hat : assertAstType t with
            | error e => rw [hat] at hv; simp at hv
            | ok tp =>
              rw [hat] at hv
              exact (insertSymbol_firstPass _ _ _ hv).1
    · simp only [Except.ok.injEq, Prod.mk.injEq] at h
      rw [← h.1]
  | structType node =>
    simp only [] at h
    split at h
    · cases hv : visitMsgDefine se node with
      | error e => rw [hv] at h; simp at h
      | ok se2 =>
        rw [hv] at h
        simp only [Except.ok.injEq, Prod.mk.injEq] at h
        rw [← h.1]
        exact visitMsgDefine_firstPass _ _ _ hv
    · simp only [Except.ok.injEq, Prod.mk.injEq] at h
      rw [← h.1]
  | externVar node =>
    simp only [] at h
    split at h
    · cases hv : visitExternVar se node with
      | error e => rw [hv] at h; simp at h
      | ok se2 =>
        rw [hv] at h
        simp only [Except.ok.injEq, Prod.mk.injEq] at h
        rw [← h.1]
        unfold visitExternVar at hv
        cases hl : lookup se.symbolStack node.name false with
        | some s => rw [hl] at hv; simp at hv
        | none =>
          rw [hl] at hv
          exact (insertSymbol_firstPass _ _ _ hv).1
    · simp only [Except.ok.injEq, Prod.mk.injEq] at h
      rw [← h.1]
  | bindDef node =>
    simp only [] at h
    split at h
    · cases hv : visitBindDef se node with
      | error e => rw [hv] at h; simp at h
      | ok se2 =>
        rw [hv] at h
        simp only [Except.ok.injEq, Prod.mk.injEq] at h
        rw [← h.1]
        unfold visitBindDef at hv
        split at hv
        · simp only [Except.ok.injEq] at hv
          rw [← hv]
        · split at hv
          · simp at hv
          · split at hv
            · simp at hv
            · split at hv
              · simp at hv
              · split at hv
                · simp at hv
                · simp only [Except.ok.injEq] at hv
                  rw [← hv]
    · simp only [Except.ok.injEq, Prod.mk.injEq] at h
      rw [← h.1]
  | srcComment node =>
    simp only [Except.ok.injEq, Prod.mk.injEq] at h
    rw [← h.1]
  | typeDef node =>
    simp only [Except.ok.injEq, Prod.mk.injEq] at h
    rw [← h.1]

theorem visitDecls_error_of_array_no_limit (decls : List Decl) :
    ∀ (se : semanticAnalyzer) (node : AstStructDecl) (f : AstVarDecl) (elemType : AstType),
      se.firstPass = true → Decl.structType node ∈ decls → f ∈ node.fields →
      f.type_ = .AstArrayType elemType → f.limit = none →
      ∃ e, visitDecls se decls = .error e := by
  induction decls with
  | nil => intro se node f elemType _ hm; cases hm
  | cons d rest ih =>
    intro se node f elemType hfp hm hf ht hl
    unfold visitDecls
    rcases List.mem_cons.mp hm with hd | hr
    · subst hd
      obtain ⟨e, he⟩ := visitMsgDefine_error_of_array_no_limit se node f elemType hf ht hl
      have : visitDecl se (.structType node) = .error e := by
        simp [visitDecl, hfp, he]
      rw [this]
      exact ⟨e, rfl⟩
    · cases hv : visitDecl se d with
      | error e => exact ⟨e, rfl⟩
      | ok r =>
        obtain ⟨se1, d1⟩ := r
        simp only []
        have hfp1 : se1.firstPass = true := by
          rw [visitDecl_firstPass se se1 d d1 hv]; exact hfp
        obtain ⟨e, he⟩ := ih se1 node f elemType hfp1 hr hf ht hl
        rw [he]
        exact ⟨e, rfl⟩

/-- For every program with a message that has a field whose type node is an array
(`astType() == AST_TP_Array`) and that has no `limit by` modifier, `DoAnalyze` (on an
analyzer that has not run yet, as `NewSemanticAnalyzer` gives it) returns an error. -/
theorem array_without_limit_rejected (se : semanticAnalyzer) (program : AstProgram)
    (node : AstStructDecl) (f : AstVarDecl) (elemType : AstType)
    (hfp : se.firstPass = true) (hm : Decl.structType node ∈ program.decl_list)
    (hf : f ∈ node.fields) (ht : f.type_ = .AstArrayType elemType) (hl : f.limit = none) :
    ∃ e, DoAnalyze se program = .error e := by
  obtain ⟨e, he⟩ :=
    visitDecls_error_of_array_no_limit program.decl_list se node f elemType hfp hm hf ht hl
  have hv : ∃ e1, visitProgram se program = .error e1 := by
    unfold visitProgram
    split
    · exact ⟨_, rfl⟩
    · rw [he]
      exact ⟨e, rfl⟩
  obtain ⟨e1, he1⟩ := hv
  unfold DoAnalyze
  rw [he1]
  exact ⟨e1, rfl⟩

/-! ## Modifier references are looked up in declaration order (semantic.go) -/

theorem mapGet_mapSet_ne {α : Type} (m : List (String × α)) (k k' : String) (v : α)
    (h : k ≠ k') : mapGet (mapSet m k v) k' = mapGet m k' := by
  simp [mapSet, mapGet, h]

theorem mapGet_builtin_foldl (names : List String) (name : String) :
    ∀ (m : List (String × symbolClass)),
      (∀ sym, mapGet m name = some sym → ∃ n, sym = .builtinSymbol n) →
      ∀ sym, mapGet (names.foldl (fun tb val => mapSet tb val (.builtinSymbol val)) m) name
        = some sym → ∃ n, sym = .builtinSymbol n := by
  induction names with
  | nil => intro m hm sym h; exact hm sym h
  | cons a rest ih =>
    intro m hm sym h
    simp only [List.foldl_cons] at h
    apply ih (mapSet m a (.builtinSymbol a)) _ sym h
    intro s hs
    by_cases ha : a = name
    · simp [mapSet, mapGet, ha] at hs
      exact ⟨name, hs.symm⟩
    · rw [mapGet_mapSet_ne m a name _ ha] at hs
      exact hm s hs

theorem newSymTable_builtin (level : Int) (name : String) (sym : symbolClass)
    (h : mapGet (newSymTable level).table name = some sym) : ∃ n, sym = .builtinSymbol n := by
  unfold newSymTable at h
  exact mapGet_builtin_foldl builtinTypeArr name [] (by intro s hs; simp [mapGet] at hs) sym h

theorem noVar_new (name : String) : NoVar NewSemanticAnalyzer.symbolStack name := by
  intro tb htb sym h
  simp only [NewSemanticAnalyzer, List.mem_singleton] at htb
  subst htb
  exact newSymTable_builtin 0 name sym h

theorem noVar_push (se : semanticAnalyzer) (name : String) (h : NoVar se.symbolStack name) :
    NoVar se.pushSymbolTable.symbolStack name := by
  intro tb htb sym hs
  simp only [semanticAnalyzer.pushSymbolTable, List.mem_cons] at htb
  rcases htb with rfl | htb
  · exact newSymTable_builtin _ name sym hs
  · exact h tb htb sym hs

theorem newVarSymbol_symName (name : String) (tp : AstType) (lvl : Int) (line : Nat) :
    (newVarSymbol name tp lvl line).symName = name := by
  unfold newVarSymbol
  split <;> rfl

theorem noVar_insert (se se1 : semanticAnalyzer) (sym : symbolClass) (name : String)
    (hne : sym.symName ≠ name) (h : NoVar se.symbolStack name)
    (hi : se.insertSymbol sym = .ok se1) : NoVar se1.symbolStack name := by
  unfold semanticAnalyzer.insertSymbol at hi
  cases hs : se.symbolStack with
  | nil => rw [hs] at hi; simp at hi
  | cons tb up =>
    rw [hs] at hi h
    simp only [] at hi
    unfold symbolTable.insertSymbol at hi
    cases hg : mapGet tb.table sym.symName with
    | some s => rw [hg] at hi; simp at hi
    | none =>
      rw [hg] at hi
      simp only [Except.ok.injEq] at hi
      rw [← hi]
      intro tb1 htb1 s1 hs1
      simp only [List.mem_cons] at htb1
      rcases htb1 with rfl | htb1
      · simp only [] at hs1
        rw [mapGet_mapSet_ne _ _ _ _ hne] at hs1
        exact h tb (List.mem_cons_self _ _) s1 hs1
      · exact h tb1 (List.mem_cons_of_mem _ htb1) s1 hs1

theorem lookup_noVar (stack : List symbolTable) (name : String) (chained : Bool)
    (h : NoVar stack name) :
    lookup stack name chained = none ∨ ∃ n, lookup stack name chained = some (.builtinSymbol n) := by
  induction stack with
  | nil => left; rfl
  | cons tb up ih =>
    unfold lookup
    cases hg : mapGet tb.table name with
    | some s =>
      obtain ⟨n, hn⟩ := h tb (List.mem_cons_self _ _) s hg
      right
      exact ⟨n, by simp [hn]⟩
    | none =>
      simp only []
      split
      · exact ih (fun tb1 htb1 => h tb1 (List.mem_cons_of_mem _ htb1))
      · left; rfl

theorem visitVarRef_error_of_noVar (se : semanticAnalyzer) (name : String)
    (h : NoVar se.symbolStack name) : ∃ e, visitVarRef se name = .error e := by
  unfold visitVarRef
  rcases lookup_noVar se.symbolStack name true h with h0 | ⟨n, hn⟩
  · rw [h0]; exact ⟨_, rfl⟩
  · rw [hn]; exact ⟨_, rfl⟩

theorem visitModifier_error_of_noVar (se : semanticAnalyzer) (ref : VarNameRef) (what : String)
    (h : NoVar se.symbolStack ref.name) : ∃ e, visitModifier se (some ref) what = .error e := by
  obtain ⟨e, he⟩ := visitVarRef_error_of_noVar se ref.name h
  unfold visitModifier
  simp only [he]
  exact ⟨e, rfl⟩

theorem visitFieldChecks_error_of_noVar (se : semanticAnalyzer) (f : AstVarDecl)
    (xorOk ok : Bool) (ref : VarNameRef)
    (hmod : f.limit = some ref ∨ f.max = some ref ∨ f.min = some ref ∨ f.equ = some ref
      ∨ f.xor = some ref)
    (h : NoVar se.symbolStack ref.name) : ∃ e, visitFieldChecks se f xorOk ok = .error e := by
  unfold visitFieldChecks
  cases f.type_.astType with
  | error e => exact ⟨e, rfl⟩
  | ok k =>
    simp only []
    split
    · exact ⟨_, rfl⟩
    · split
      · exact ⟨_, rfl⟩
      · cases h1 : visitModifier se f.equ "equal" with
        | error e => exact ⟨e, rfl⟩
        | ok u1 =>
          simp only []
          cases h2 : visitModifier se f.limit "limit" with
          | error e => exact ⟨e, rfl⟩
          | ok u2 =>
            simp only []
            cases h3 : visitModifier se f.max "max" with
            | error e => exact ⟨e, rfl⟩
            | ok u3 =>
              simp only []
              cases h4 : visitModifier se f.min "min" with
              | error e => exact ⟨e, rfl⟩
              | ok u4 =>
                simp only []
                rcases hmod with hm | hm | hm | hm | hm
                · rw [hm] at h2
                  obtain ⟨e, he⟩ := visitModifier_error_of_noVar se ref "limit" h
                  rw [he] at h2; cases h2
                · rw [hm] at h3
                  obtain ⟨e, he⟩ := visitModifier_error_of_noVar se ref "max" h
                  rw [he] at h3; cases h3
                · rw [hm] at h4
                  obtain ⟨e, he⟩ := visitModifier_error_of_noVar se ref "min" h
                  rw [he] at h4; cases h4
                · rw [hm] at h1
                  obtain ⟨e, he⟩ := visitModifier_error_of_noVar se ref "equal" h
                  rw [he] at h1; cases h1
                · unfold visitXor
                  rw [hm]
                  simp only []
                  split
                  · exact ⟨_, rfl⟩
                  · split
                    · exact visitModifier_error_of_noVar se ref "xor" h
                    · exact ⟨_, rfl⟩

theorem visitVarDecl_noVar (se se1 : semanticAnalyzer) (node : AstVarDecl) (name : String)
    (hne : node.name ≠ name) (h : NoVar se.symbolStack name)
    (hv : visitVarDecl se node = .ok se1) : NoVar se1.symbolStack name := by
  unfold visitVarDecl at hv
  cases hl : lookup se.symbolStack node.name false with
  | some s => rw [hl] at hv; simp at hv
  | none =>
    rw [hl] at hv
    simp only [] at hv
    split at hv
    · simp at hv
    · exact noVar_insert se se1 _ name (by rw [newVarSymbol_symName]; exact hne) h hv

theorem visitField_noVar (se se1 : semanticAnalyzer) (st st1 : AggrState) (f : AstVarDecl)
    (name : String) (hne : f.name ≠ name) (h : NoVar se.symbolStack name)
    (hv : visitField se st f = .ok (se1, st1)) : NoVar se1.symbolStack name := by
  unfold visitField at hv
  cases hs : aggrStep st f.name f.type_ with
  | error e => rw [hs] at hv; simp at hv
  | ok r =>
    obtain ⟨st2, xorOk, ok⟩ := r
    rw [hs] at hv
    simp only [] at hv
    cases hd : visitVarDecl se f with
    | error e => rw [hd] at hv; simp at hv
    | ok se2 =>
      rw [hd] at hv
      simp only [] at hv
      cases hc : visitFieldChecks se2 f xorOk ok with
      | error e => rw [hc] at hv; simp at hv
      | ok u =>
        rw [hc] at hv
        simp only [Except.ok.injEq, Prod.mk.injEq] at hv
        rw [← hv.1]
        exact visitVarDecl_noVar se se2 f name hne h hd

theorem visitField_error_of_noVar (se : semanticAnalyzer) (st : AggrState) (f : AstVarDecl)
    (ref : VarNameRef)
    (hmod : f.limit = some ref ∨ f.max = some ref ∨ f.min = some ref ∨ f.equ = some ref
      ∨ f.xor = some ref)
    (hne : f.name ≠ ref.name) (h : NoVar se.symbolStack ref.name) :
    ∃ e, visitField se st f = .error e := by
  unfold visitField
  cases hs : aggrStep st f.name f.type_ with
  | error e => exact ⟨e, rfl⟩
  | ok r =>
    obtain ⟨st2, xorOk, ok⟩ := r
    simp only []
    cases hd : visitVarDecl se f with
    | error e => exact ⟨e, rfl⟩
    | ok se2 =>
      simp only []
      obtain ⟨e, he⟩ := visitFieldChecks_error_of_noVar se2 f xorOk ok ref hmod
        (visitVarDecl_noVar se se2 f ref.name hne h hd)
      rw [he]
      exact ⟨e, rfl⟩

theorem visitFields_error_of_noVar (fpre : List AstVarDecl) :
    ∀ (se : semanticAnalyzer) (st : AggrState) (f : AstVarDecl) (fpost : List AstVarDecl)
      (ref : VarNameRef),
      (f.limit = some ref ∨ f.max = some ref ∨ f.min = some ref ∨ f.equ = some ref
        ∨ f.xor = some ref) →
      (∀ g ∈ fpre, g.name ≠ ref.name) → f.name ≠ ref.name → NoVar se.symbolStack ref.name →
      ∃ e, visitFields se st (fpre ++ f :: fpost) = .error e := by
  induction fpre with
  | nil =>
    intro se st f fpost ref hmod _ hne h
    simp only [List.nil_append, visitFields]
    obtain ⟨e, he⟩ := visitField_error_of_noVar se st f ref hmod hne h
    rw [he]
    exact ⟨e, rfl⟩
  | cons g rest ih =>
    intro se st f fpost ref hmod hsib hne h
    simp only [List.cons_append, visitFields]
    cases hv : visitField se st g with
    | error e => exact ⟨e, rfl⟩
    | ok r =>
      obtain ⟨se1, st1⟩ := r
      simp only []
      exact ih se1 st1 f fpost ref hmod (fun x hx => hsib x (List.mem_cons_of_mem _ hx)) hne
        (visitField_noVar se se1 st st1 g ref.name (hsib g (List.mem_cons_self _ _)) h hv)
theorem insertSymbol_tail (se se1 : semanticAnalyzer) (sym : symbolClass)
    (hi : se.insertSymbol sym = .ok se1) : se1.symbolStack.tail = se.symbolStack.tail := by
  unfold semanticAnalyzer.insertSymbol at hi
  cases hs : se.symbolStack with
  | nil => rw [hs] at hi; simp at hi
  | cons tb up =>
    rw [hs] at hi
    simp only [] at hi
    cases ht : tb.insertSymbol sym with
    | error e => rw [ht] at hi; simp at hi
    | ok tb1 =>
      rw [ht] at hi
      simp only [Except.ok.injEq] at hi
      rw [← hi]
      rfl

theorem visitVarDecl_tail (se se1 : semanticAnalyzer) (node : AstVarDecl)
    (hv : visitVarDecl se node = .ok se1) : se1.symbolStack.tail = se.symbolStack.tail := by
  unfold visitVarDecl at hv
  cases hl : lookup se.symbolStack node.name false with
  | some s => rw [hl] at hv; simp at hv
  | none =>
    rw [hl] at hv
    simp only [] at hv
    split at hv
    · simp at hv
    · exact insertSymbol_tail se se1 _ hv

theorem visitFields_tail (fields : List AstVarDecl) :
    ∀ (se se1 : semanticAnalyzer) (st st1 : AggrState),
      visitFields se st fields = .ok (se1, st1) →
      se1.symbolStack.tail = se.symbolStack.tail := by
  induction fields with
  | nil =>
    intro se se1 st st1 h
    simp only [visitFields, Except.ok.injEq, Prod.mk.injEq] at h
    rw [← h.1]
  | cons f rest ih =>
    intro se se1 st st1 h
    simp only [visitFields, visitField] at h
    cases hs : aggrStep st f.name f.type_ with
    | error e => rw [hs] at h; simp at h
    | ok r =>
      obtain ⟨st2, xorOk, ok⟩ := r
      rw [hs] at h
      simp only [] at h
      cases hv : visitVarDecl se f with
      | error e => rw [hv] at h; simp at h
      | ok se2 =>
        rw [hv] at h
        simp only [] at h
        cases hc : visitFieldChecks se2 f xorOk ok with
        | error e => rw [hc] at h; simp at h
        | ok u =>
          rw [hc] at h
          rw [ih se2 se1 st2 st1 h, visitVarDecl_tail se se2 f hv]

theorem visitMsgDefine_noVar (se se1 : semanticAnalyzer) (node : AstStructDecl)
    (name : String) (hne : node.name ≠ name) (h : NoVar se.symbolStack name)
    (hv : visitMsgDefine se node = .ok se1) : NoVar se1.symbolStack name := by
  unfold visitMsgDefine at hv
  cases hl : lookup se.symbolStack node.name false with
  | some s => rw [hl] at hv; simp at hv
  | none =>
    rw [hl] at hv
    simp only [] at hv
    cases hi : se.insertSymbol (newVarSymbol node.name node.toType se.curLevel node.line) with
    | error e => rw [hi] at hv; simp at hv
    | ok se2 =>
      rw [hi] at hv
      simp only [] at hv
      have h2 : NoVar se2.symbolStack name :=
        noVar_insert se se2 _ name (by rw [newVarSymbol_symName]; exact hne) h hi
      cases hf : visitFields se2.pushSymbolTable { inAggr := false, bits := 0 } node.fields with
      | error e => rw [hf] at hv; simp at hv
      | ok r =>
        obtain ⟨se3, st3⟩ := r
        rw [hf] at hv
        simp only [] at hv
        have ht := visitFields_tail node.fields _ _ _ _ hf
        have hp : se2.pushSymbolTable.symbolStack.tail = se2.symbolStack := rfl
        rw [hp] at ht
        unfold semanticAnalyzer.popSymbolTable at hv
        split at hv
        · rename_i top tb up hstack
          simp only [Except.ok.injEq] at hv
          rw [← hv]
          simp only []
          rw [hstack] at ht
          simp only [List.tail_cons] at ht
          rw [ht]
          exact h2
        · simp at hv

theorem visitDecl_noVar (se se1 : semanticAnalyzer) (decl decl1 : Decl) (name : String)
    (hne : name ∉ declNames decl) (h : NoVar se.symbolStack name)
    (hv : visitDecl se decl = .ok (se1, decl1)) : NoVar se1.symbolStack name := by
  unfold visitDecl at hv
  cases decl with
  | varDecl node =>
    simp only [declNames, List.mem_singleton] at hne
    simp only [] at hv
    split at hv
    · cases hd : visitVarDecl se node with
      | error e => rw [hd] at hv; simp at hv
      | ok se2 =>
        rw [hd] at hv
        simp only [Except.ok.injEq, Prod.mk.injEq] at hv
        rw [← hv.1]
        exact visitVarDecl_noVar se se2 node name (fun hc => hne hc.symm) h hd
    · simp only [Except.ok.injEq, Prod.mk.injEq] at hv
      rw [← hv.1]; exact h
  | idGroupDef node =>
    simp only [declNames, List.mem_singleton] at hne
    simp only [] at hv
    split at hv
    · cases hd : visitIdGroupDefine se node with
      | error e => rw [hd] at hv; simp at hv
      | ok r =>
        obtain ⟨se2, node2⟩ := r
        rw [hd] at hv
        simp only [Except.ok.injEq, Prod.mk.injEq] at hv
        rw [← hv.1]
        unfold visitIdGroupDefine at hd
        split at hd
        · simp only [Except.ok.injEq, Prod.mk.injEq] at hd
          rw [← hd.1]; exact h
        · cases hl : lookup se.symbolStack node.name false with
          | some s => rw [hl] at hd; simp at hd
          | none =>
            rw [hl] at hd
            simp only [] at hd
            cases hi : se.insertSymbol
                (newVarSymbol node.name (.AstPrimType symTypeInt) se.curLevel node.line) with
            | error e => rw [hi] at hd; simp at hd
            | ok se3 =>
              rw [hi] at hd
              simp only [] at hd
              cases hit : visitIdItems node.isMsgId se3.midMap 0 0 node.items with
              | error e => rw [hit] at hd; simp at hd
              | ok r2 =>
                obtain ⟨m, items⟩ := r2
                rw [hit] at hd
                simp only [Except.ok.injEq, Prod.mk.injEq] at hd
                rw [← hd.1]
                exact noVar_insert se se3 _ name
                  (by rw [newVarSymbol_symName]; exact fun hc => hne hc.symm) h hi
    · simp only [Except.ok.injEq, Prod.mk.injEq] at hv
      rw [← hv.1]; exact h
  | constDef node =>
    simp only [declNames, List.mem_singleton] at hne
    simp only [] at hv
    split at hv
    · cases hd : visitConstDef se node with
      | error e => rw [hd] at hv; simp at hv
      | ok se2 =>
        rw [hd] at hv
        simp only [Except.ok.injEq, Prod.mk.injEq] at hv
        rw [← hv.1]
        unfold visitConstDef at hd
        cases hl : lookup se.symbolStack node.name false with
        | some s => rw [hl] at hd; simp at hd
        | none =>
          rw [hl] at hd
          simp only [] at hd
          cases ha : visitAst se node.val with
          | error e => rw [ha] at hd; simp at hd
          | ok t =>
            rw [ha] at hd
            simp only [] at hd
            cases hat : assertAstType t with
            | error e => rw [hat] at hd; simp at hd
            | ok tp =>
              rw [hat] at hd
              exact noVar_insert se se2 _ name
                (by rw [newVarSymbol_symName]; exact fun hc => hne hc.symm) h hd
    · simp only [Except.ok.injEq, Prod.mk.injEq] at hv
      rw [← hv.1]; exact h
  | structType node =>
    simp only [declNames, List.mem_singleton] at hne
    simp only [] at hv
    split at hv
    · cases hd : visitMsgDefine se node with
      | error e => rw [hd] at hv; simp at hv
      | ok se2 =>
        rw [hd] at hv
        simp only [Except.ok.injEq, Prod.mk.injEq] at hv
        rw [← hv.1]
        exact visitMsgDefine_noVar se se2 node name (fun hc => hne hc.symm) h hd
    · simp only [Except.ok.injEq, Prod.mk.injEq] at hv
      rw [← hv.1]; exact h
  | externVar node =>
    simp only [declNames, List.mem_singleton] at hne
    simp only [] at hv
    split at hv
    · cases hd : visitExternVar se node with
      | error e => rw [hd] at hv; simp at hv
      | ok se2 =>
        rw [hd] at hv
        simp only [Except.ok.injEq, Prod.mk.injEq] at hv
        rw [← hv.1]
        unfold visitExternVar at hd
        cases hl : lookup se.symbolStack node.name false with
        | some s => rw [hl] at hd; simp at hd
        | none =>
          rw [hl] at hd
          exact noVar_insert se se2 _ name
            (by rw [newVarSymbol_symName]; exact fun hc => hne hc.symm) h hd
    · simp only [Except.ok.injEq, Prod.mk.injEq] at hv
      rw [← hv.1]; exact h
  | bindDef node =>
    simp only [] at hv
    split at hv
    · cases hd : visitBindDef se node with
      | error e => rw [hd] at hv; simp at hv
      | ok se2 =>
        rw [hd] at hv
        simp only [Except.ok.injEq, Prod.mk.injEq] at hv
        rw [← hv.1]
        unfold visitBindDef at hd
        split at hd
        · simp only [Except.ok.injEq] at hd
          rw [← hd]; exact h
        · split at hd
          · simp at hd
          · split at hd
            · simp at hd
            · split at hd
              · simp at hd
              · split at hd
                · simp at hd
                · simp only [Except.ok.injEq] at hd
                  rw [← hd]; exact h
    · simp only [Except.ok.injEq, Prod.mk.injEq] at hv
      rw [← hv.1]; exact h
  | srcComment node =>
    simp only [Except.ok.injEq, Prod.mk.injEq] at hv
    rw [← hv.1]; exact h
  | typeDef node =>
    simp only [Except.ok.injEq, Prod.mk.injEq] at hv
    rw [← hv.1]; exact h

theorem visitMsgDefine_error_of_noVar (se : semanticAnalyzer) (node : AstStructDecl)
    (fpre fpost : List AstVarDecl) (f : AstVarDecl) (ref : VarNameRef)
    (hfields : node.fields = fpre ++ f :: fpost)
    (hmod : f.limit = some ref ∨ f.max = some ref ∨ f.min = some ref ∨ f.equ = some ref
      ∨ f.xor = some ref)
    (hmsg : node.name ≠ ref.name) (hsib : ∀ g ∈ fpre, g.name ≠ ref.name)
    (hself : f.name ≠ ref.name) (h : NoVar se.symbolStack ref.name) :
    ∃ e, visitMsgDefine se node = .error e := by
  unfold visitMsgDefine
  cases lookup se.symbolStack node.name false with
  | some s => exact ⟨_, rfl⟩
  | none =>
    simp only []
    cases hi : se.insertSymbol (newVarSymbol node.name node.toType se.curLevel node.line) with
    | error e => exact ⟨e, rfl⟩
    | ok se1 =>
      simp only []
      have h1 : NoVar se1.symbolStack ref.name :=
        noVar_insert se se1 _ ref.name (by rw [newVarSymbol_symName]; exact hmsg) h hi
      obtain ⟨e, he⟩ := visitFields_error_of_noVar fpre se1.pushSymbolTable
        { inAggr := false, bits := 0 } f fpost ref hmod hsib hself (noVar_push se1 _ h1)
      rw [hfields, he]
      exact ⟨e, rfl⟩

theorem visitDecls_cons_error (se : semanticAnalyzer) (d : Decl) (rest : List Decl)
    (h : ∀ se1 d1, visitDecl se d = .ok (se1, d1) → ∃ e, visitDecls se1 rest = .error e) :
    ∃ e, visitDecls se (d :: rest) = .error e := by
  unfold visitDecls
  cases hv : visitDecl se d with
  | error e => exact ⟨e, rfl⟩
  | ok r =>
    obtain ⟨se1, d1⟩ := r
    obtain ⟨e, he⟩ := h se1 d1 hv
    simp only [he]
    exact ⟨e, rfl⟩

theorem visitDecls_error_of_noVar (pre : List Decl) :
    ∀ (se : semanticAnalyzer) (post : List Decl) (node : AstStructDecl)
      (fpre fpost : List AstVarDecl) (f : AstVarDecl) (ref : VarNameRef),
      se.firstPass = true → node.fields = fpre ++ f :: fpost →
      (f.limit = some ref ∨ f.max = some ref ∨ f.min = some ref ∨ f.equ = some ref
        ∨ f.xor = some ref) →
      (∀ d ∈ pre, ref.name ∉ declNames d) → node.name ≠ ref.name →
      (∀ g ∈ fpre, g.name ≠ ref.name) → f.name ≠ ref.name → NoVar se.symbolStack ref.name →
      ∃ e, visitDecls se (pre ++ Decl.structType node :: post) = .error e := by
  induction pre with
  | nil =>
    intro se post node fpre fpost f ref hfp hfields hmod _ hmsg hsib hself h
    rw [List.nil_append]
    apply visitDecls_cons_error
    intro se1 d1 hv
    obtain ⟨e, he⟩ :=
      visitMsgDefine_error_of_noVar se node fpre fpost f ref hfields hmod hmsg hsib hself h
    simp [visitDecl, hfp, he] at hv
  | cons d rest ih =>
    intro se post node fpre fpost f ref hfp hfields hmod hpre hmsg hsib hself h
    rw [List.cons_append]
    apply visitDecls_cons_error
    intro se1 d1 hv
    have hfp1 : se1.firstPass = true := by
      rw [visitDecl_firstPass se se1 d d1 hv]; exact hfp
    exact ih se1 post node fpre fpost f ref hfp1 hfields hmod
      (fun x hx => hpre x (List.mem_cons_of_mem _ hx)) hmsg hsib hself
      (visitDecl_noVar se se1 d d1 ref.name (hpre d (List.mem_cons_self _ _)) h hv)

theorem doAnalyze_error_of_visitDecls (se : semanticAnalyzer) (program : AstProgram)
    (h : ∃ e, visitDecls se program.decl_list = .error e) :
    ∃ e, DoAnalyze se program = .error e := by
  obtain ⟨e, he⟩ := h
  have hv : ∃ e1, visitProgram se program = .error e1 := by
    unfold visitProgram
    split
    · exact ⟨_, rfl⟩
    · rw [he]
      exact ⟨e, rfl⟩
  obtain ⟨e1, he1⟩ := hv
  unfold DoAnalyze
  rw [he1]
  exact ⟨e1, rfl⟩

/-- The message `Raw` with `n u8`, `data []u8` is rejected. -/
theorem array_without_limit_rejected_witness :
    NewSemanticAnalyzer.firstPass = true
      ∧ Decl.structType msgNoLimit ∈ programNoLimit.decl_list
      ∧ ∃ e, DoAnalyze NewSemanticAnalyzer programNoLimit = .error e :=
  ⟨rfl, List.mem_cons_self _ _,
    array_without_limit_rejected NewSemanticAnalyzer programNoLimit msgNoLimit
      { name := "data", type_ := .AstArrayType (.AstPrimType symTypeU8), line := 3 }
      (.AstPrimType symTypeU8) rfl (List.mem_cons_self _ _)
      (List.mem_cons_of_mem _ (List.mem_cons_self _ _)) rfl rfl⟩

/-- C10 (amended). A modifier of a message field can only name what is declared
before it: when a field carries `limit by C`, `max C`, `equal C` or `xor C` and neither a
declaration before the message, nor the message, nor the field or an earlier field of the
message is named `C`, `DoAnalyze` returns an error, whatever follows the message (a
`const C` after it, as in scenario S4, does not help); scenario S4 with `const MAX 256`
placed before the message is accepted. -/
theorem modifier_name_must_be_declared_before (ms : String) (pre post : List Decl)
    (node : AstStructDecl) (fpre fpost : List AstVarDecl) (f : AstVarDecl) (ref : VarNameRef)
    (hfields : node.fields = fpre ++ f :: fpost)
    (hmod : f.limit = some ref ∨ f.max = some ref ∨ f.min = some ref ∨ f.equ = some ref
      ∨ f.xor = some ref)
    (hpre : ∀ d ∈ pre, ref.name ∉ declNames d) (hmsg : node.name ≠ ref.name)
    (hsib : ∀ g ∈ fpre, g.name ≠ ref.name) (hself : f.name ≠ ref.name) :
    (∃ e, DoAnalyze NewSemanticAnalyzer
        { mspace := ms, decl_list := pre ++ Decl.structType node :: post } = .error e)
      ∧ (DoAnalyze NewSemanticAnalyzer programS4ConstFirst).toBool = true := by
  refine ⟨?_, by rfl⟩
  apply doAnalyze_error_of_visitDecls
  exact visitDecls_error_of_noVar pre NewSemanticAnalyzer post node fpre fpost f ref rfl
    hfields hmod hpre hmsg hsib hself (noVar_new ref.name)

/-- Witness of C10 (amended): scenario S4, the message `Buf` followed by
`const MAX 256`. -/
theorem modifier_name_must_be_declared_before_witness :
    (∃ e, DoAnalyze NewSemanticAnalyzer
        { mspace := "test", decl_list := [] ++ Decl.structType msgBuf :: [.constDef constMAX] }
          = .error e)
      ∧ (DoAnalyze NewSemanticAnalyzer programS4ConstFirst).toBool = true :=
  modifier_name_must_be_declared_before "test" [] [.constDef constMAX] msgBuf []
    [{ name := "data", type_ := .AstArrayType (.AstPrimType symTypeU8), line := 3,
       limit := some { name := "len", line := 3 } }]
    { name := "len", type_ := .AstPrimType symTypeU8, line := 2,
      max := some { name := "MAX", line := 2 } }
    { name := "MAX", line := 2 } rfl (Or.inr (Or.inl rfl)) (by intro d hd; cases hd)
    (by decide) (by intro g hg; cases hg) (by decide)

/-- Counterexample to C10: scenario S4 (fields on separate lines, `const MAX 256` after
the message) parses to `programS4`, and `DoAnalyze` returns the error
`symbol not found: MAX`. -/
theorem forward_constant_rejected :
    parse 100 tokensS4 = .ok programS4
      ∧ DoAnalyze NewSemanticAnalyzer programS4 = .error (.symbolNotFound "MAX") :=
  ⟨by rfl, by rfl⟩

/-- C2 (the code at the failing input). Scenario S3 written without the `;` parses to
`programBad`, whose only message ends inside a run of 6 bits, and `DoAnalyze` returns no
error: `visitMsgDefine` has no check after its loop. -/
theorem unclosed_bit_run_accepted :
    parse 100 tokensS3 = .ok programBad
      ∧ aggrRun { inAggr := false, bits := 0 }
          [{ name := "hi", type_ := .AstPrimType symTypeU4, line := 2 },
           { name := "mid", type_ := .AstPrimType symTypeU2, line := 2 }]
          = .ok { inAggr := true, bits := 6 }
      ∧ (DoAnalyze NewSemanticAnalyzer programBad).toBool = true :=
  ⟨by rfl, by rfl, by rfl⟩

/-- C5 (the code at the failing input). A field whose type is a message declared by a
later `defmsg` makes `declarations` panic with `duplicate type define`, while the same
reference to a name declared by a later `type` is resolved by `type_def`. -/
theorem forward_message_reference_is_duplicate :
    parse 100 tokensForwardMsg = .error (.duplicateTypeDefine "B")
      ∧ parse 100 tokensForwardType = .ok
          { mspace := "test",
            decl_list :=
              [.structType { name := "A", line := 2, fields :=
                [{ name := "b", type_ := .AstUndefType "B" (.AstPrimType "u8"), line := 2 }] },
               .typeDef { name := "B", impl := .AstPrimType "u8" }] } :=
  ⟨by rfl, by rfl⟩

/-- Counterexample to C6: `mspace test` / `defmsg A { b B }`, where nothing declares
`B`, parses to `programUndeclared` and `DoAnalyze` returns no error. -/
theorem undeclared_type_accepted :
    parse 100 tokensUndeclared = .ok programUndeclared
      ∧ (compile 100 tokensUndeclared).toBool = true :=
  ⟨by rfl, by rfl⟩

/-- C7 (the code at the failing input). `defid G { A = 9223372036854775807, B }` is
accepted and `B` gets the value `-9223372036854775808`, which is below the value of `A`:
the increment `val++` of `visitIdGroupDefine` wraps around. In the same way
`intConstVal` turns the explicit value `18446744073709551615` into `-1`. -/
theorem id_value_wraps_around :
    parse 100 tokensIdOverflow =
        .ok { mspace := "test", decl_list := [.idGroupDef idGroupOverflow] }
      ∧ (compile 100 tokensIdOverflow).map (fun r => idValues r.2) =
        .ok [[9223372036854775807, -9223372036854775808]]
      ∧ intConstVal "18446744073709551615" = -1 :=
  ⟨by rfl, by rfl, by rfl⟩


/-- Counterexample to C9: in the message `len u8`, `data []u8 -> limit by len`, where
the sibling `len` has no `max`, the encoder's slice bound is `len`, not `m.len`, and the
decoder reads `m.data[:]` with no bound. -/
theorem limit_without_max_not_read_from_message :
    (visitMsgEncode_Go NewInterpreter msgBufNoMax).map (fun i => i.out.filterMap lengthExpr)
        = .ok ["len"]
      ∧ (visitMsgDecode_Go NewInterpreter msgBufNoMax).map (fun i => i.out.filterMap lengthExpr)
        = .ok [] :=
  ⟨by rfl, by rfl⟩

theorem out_addNewLine_lengths (interp : interpreter) :
    interp.addNewLine.out.filterMap lengthExpr = interp.out.filterMap lengthExpr := by
  unfold interpreter.addNewLine
  split
  · rfl
  · simp [out_addLine, List.filterMap_append, lengthExpr]

theorem emitArrayLoop_lengths (interp : interpreter) (fields : List AstVarDecl)
    (f : AstVarDecl) (limit : VarNameRef) (elemType : AstType) (write : Bool)
    (hsup : supportedElem elemType = true) (hdepth : 1 ≤ interp.depth) :
    ∃ r, emitArrayLoop interp fields f limit elemType write = .ok r
      ∧ r.out.filterMap lengthExpr = interp.out.filterMap lengthExpr ++
          [if (getLimitFieldMax fields limit.name).isSome then "m." ++ limit.name
           else limit.name] := by
  have h0 : interp.depth ≠ 0 := by omega
  unfold emitArrayLoop
  cases elemType with
  | AstPrimType name =>
    simp only [supportedElem, Bool.and_eq_true, beq_iff_eq] at hsup
    rcases hi : isIntType (.AstPrimType name) with ⟨ok, bn⟩
    rw [hi] at hsup
    simp only [] at hsup
    simp only [hi, hsup.1, hsup.2]
    simp only [Bool.not_true, Bool.false_eq_true, ne_eq, not_true_eq_false, or_self, if_false]
    cases write <;> cases hm : (getLimitFieldMax fields limit.name).isSome <;>
      simp [interpreter.popStackFrame, interpreter.pushStackFrame, interpreter.addLine,
        interpreter.addNewLine, List.filterMap_append, lengthExpr, h0]
  | AstStructType sname sfields =>
    cases write <;> cases hm : (getLimitFieldMax fields limit.name).isSome <;>
      simp [interpreter.popStackFrame, interpreter.pushStackFrame, interpreter.addLine,
        interpreter.addNewLine, List.filterMap_append, lengthExpr, h0]
  | nil => simp [supportedElem] at hsup
  | AstArrayType e => simp [supportedElem] at hsup
  | AstUndefType n r => simp [supportedElem] at hsup

/-- C9 (amended). For an array field whose `limit by` names a sibling field that carries
a `max` modifier, the length that the encoder and the decoder emit (slice bound or loop
bound) is `m.<limit>`. When the first field of that name carries no `max` (and also when
no field has that name), the encoder emits the bare name `<limit>`, and so does the
decoder for its loop, while for elements of 8 bits the decoder reads the whole `m.F[:]`
with no bound. The element types are those the emitter supports (whole-byte integers
and structs). -/
theorem array_length_expression (fields : List AstVarDecl) (f : AstVarDecl)
    (elemType : AstType) (limit : VarNameRef) (interp : interpreter)
    (hl : f.limit = some limit) (hsup : supportedElem elemType = true)
    (hdepth : 1 ≤ interp.depth) :
    ∃ ei di,
      encodeArray fields f elemType interp = .ok ei
      ∧ decodeArray fields f elemType interp = .ok di
      ∧ ((getLimitFieldMax fields limit.name).isSome = true →
          ei.out.filterMap lengthExpr = interp.out.filterMap lengthExpr ++ ["m." ++ limit.name]
          ∧ di.out.filterMap lengthExpr = interp.out.filterMap lengthExpr ++ ["m." ++ limit.name])
      ∧ ((getLimitFieldMax fields limit.name).isSome = false →
          ei.out.filterMap lengthExpr = interp.out.filterMap lengthExpr ++ [limit.name]
          ∧ di.out.filterMap lengthExpr = interp.out.filterMap lengthExpr ++
              (if byteElem elemType then [] else [limit.name])) := by
  unfold encodeArray decodeArray
  rw [hl]
  simp only []
  cases hbyte : byteElem elemType with
  | true =>
    simp only [if_true]
    cases hm : (getLimitFieldMax fields limit.name).isSome with
    | true =>
      refine ⟨_, _, rfl, rfl, ?_, ?_⟩
      · intro _
        constructor
        · rw [out_addLine, List.filterMap_append, out_addNewLine_lengths]
          simp [lengthExpr]
        · rw [out_addLine, List.filterMap_append]
          simp [lengthExpr]
      · intro hc; cases hc
    | false =>
      refine ⟨_, _, rfl, rfl, ?_, ?_⟩
      · intro hc; cases hc
      · intro _
        constructor
        · rw [out_addLine, List.filterMap_append, out_addNewLine_lengths]
          simp [lengthExpr]
        · rw [out_addLine, List.filterMap_append]
          simp [lengthExpr]
  | false =>
    simp only [Bool.false_eq_true, if_false]
    obtain ⟨ei, he, hel⟩ := emitArrayLoop_lengths interp fields f limit elemType true hsup hdepth
    obtain ⟨di, hd, hdl⟩ := emitArrayLoop_lengths interp fields f limit elemType false hsup hdepth
    refine ⟨ei, di, he, hd, ?_, ?_⟩
    · intro hm
      rw [hm] at hel hdl
      exact ⟨hel, hdl⟩
    · intro hm
      rw [hm] at hel hdl
      exact ⟨hel, hdl⟩

/-- Witness of C9 (amended): the field `data []u8 -> limit by len` of scenario S4, where
`len` carries `max MAX`. -/
theorem array_length_expression_witness :
    ∃ ei di,
      encodeArray msgBuf.fields
          { name := "data", type_ := .AstArrayType (.AstPrimType symTypeU8), line := 3,
            limit := some { name := "len", line := 3 } }
          (.AstPrimType symTypeU8) NewInterpreter = .ok ei
      ∧ decodeArray msgBuf.fields
          { name := "data", type_ := .AstArrayType (.AstPrimType symTypeU8), line := 3,
            limit := some { name := "len", line := 3 } }
          (.AstPrimType symTypeU8) NewInterpreter = .ok di
      ∧ ((getLimitFieldMax msgBuf.fields "len").isSome = true →
          ei.out.filterMap lengthExpr = NewInterpreter.out.filterMap lengthExpr ++ ["m." ++ "len"]
          ∧ di.out.filterMap lengthExpr =
              NewInterpreter.out.filterMap lengthExpr ++ ["m." ++ "len"])
      ∧ ((getLimitFieldMax msgBuf.fields "len").isSome = false →
          ei.out.filterMap lengthExpr = NewInterpreter.out.filterMap lengthExpr ++ ["len"]
          ∧ di.out.filterMap lengthExpr = NewInterpreter.out.filterMap lengthExpr ++
              (if byteElem (.AstPrimType symTypeU8) then [] else ["len"])) :=
  array_length_expression msgBuf.fields
    { name := "data", type_ := .AstArrayType (.AstPrimType symTypeU8), line := 3,
      limit := some { name := "len", line := 3 } }
    (.AstPrimType symTypeU8) { name := "len", line := 3 } NewInterpreter rfl (by decide)
    (by decide)

/-- C6 (amended). A field whose type name nothing declares does not make the analysis
fail: `type_spec` leaves an `AstUndefType` placeholder with a nil `resolved`, `DoAnalyze`
does not call `resolveTypes`, and `visitMsgDefine` accepts such a field whenever it
stands outside a sub-byte run, its name is new in the message and it carries no `limit`,
`max`, `equal` or `xor` modifier: the state stays flat and the field is entered into the
scope of the message as a symbol of nil type. -/
theorem unresolved_field_type_is_accepted (se : semanticAnalyzer) (st : AggrState)
    (f : AstVarDecl) (tname : String)
    (ht : f.type_ = .AstUndefType tname .nil) (hst : st.inAggr = false)
    (hmods : f.limit = none ∧ f.max = none ∧ f.min = none ∧ f.equ = none ∧ f.xor = none)
    (hfresh : lookup se.symbolStack f.name false = none) (hstack : se.symbolStack ≠ []) :
    ∃ se1, visitField se st f = .ok (se1, { inAggr := false, bits := 0 })
      ∧ lookup se1.symbolStack f.name false = some (.varSymbol f.name .nil se.curLevel f.line) := by
  obtain ⟨hl, hmax, hmin, hequ, hxor⟩ := hmods
  cases hs : se.symbolStack with
  | nil => exact absurd hs hstack
  | cons tb up =>
    have hget : mapGet tb.table f.name = none := by
      rw [hs] at hfresh
      unfold lookup at hfresh
      cases hg : mapGet tb.table f.name with
      | none => rfl
      | some s => rw [hg] at hfresh; simp at hfresh
    have hstep : aggrStep st f.name f.type_ = .ok ({ inAggr := false, bits := 0 }, false, false) := by
      simp [aggrStep, ht, isIntType, hst]
    have hdecl : visitVarDecl se f = .ok { se with symbolStack :=
        { tb with table := mapSet tb.table f.name (.varSymbol f.name .nil se.curLevel f.line) }
          :: up } := by
      have hfresh2 : lookup (tb :: up) f.name false = none := by rw [← hs]; exact hfresh
      simp [visitVarDecl, hfresh2, ht, semanticAnalyzer.insertSymbol, hs,
        symbolTable.insertSymbol, newVarSymbol, symbolClass.symName, hget]
    refine ⟨{ se with symbolStack :=
        { tb with table := mapSet tb.table f.name (.varSymbol f.name .nil se.curLevel f.line) }
          :: up }, ?_, ?_⟩
    · unfold visitField
      rw [hstep]
      simp only []
      rw [hdecl]
      simp only []
      have hchk : visitFieldChecks { se with symbolStack :=
          { tb with table := mapSet tb.table f.name (.varSymbol f.name .nil se.curLevel f.line) }
            :: up } f false false = .ok () := by
        simp [visitFieldChecks, ht, AstType.astType, AST_TP_UndefType, AST_TP_Array, hl, hmax,
          hmin, hequ, hxor, visitModifier, visitXor]
      rw [hchk]
    · simp [lookup, mapSet, mapGet]

/-- Witness of C6 (amended): the field `b B` of `programUndeclared` in the scope that
`visitMsgDefine` opens in a new analyzer. -/
theorem unresolved_field_type_is_accepted_witness :
    ∃ se1, visitField NewSemanticAnalyzer.pushSymbolTable { inAggr := false, bits := 0 }
        { name := "b", type_ := .AstUndefType "B" .nil, line := 2 }
          = .ok (se1, { inAggr := false, bits := 0 })
      ∧ lookup se1.symbolStack "b" false =
          some (.varSymbol "b" .nil NewSemanticAnalyzer.pushSymbolTable.curLevel 2) :=
  unresolved_field_type_is_accepted NewSemanticAnalyzer.pushSymbolTable
    { inAggr := false, bits := 0 } { name := "b", type_ := .AstUndefType "B" .nil, line := 2 }
    "B" rfl rfl ⟨rfl, rfl, rfl, rfl, rfl⟩ (by rfl) (by simp [semanticAnalyzer.pushSymbolTable])

/-! ## Fields of a message are not separated by `;` (parser.go) -/

theorem type_spec_keyword (fuel : Nat) (p : hskParser) (name : String) (tok : Token)
    (rest : List Token) (hk : typeKeyword p.curToken.type_ = some name)
    (hlex : p.lex = tok :: rest) (htp : BuiltinTypes p) :
    type_spec (fuel + 1) p =
      .ok (.AstPrimType name,
        { p with lex := rest, prevToken := some p.curToken, curToken := tok }) := by
  have hget : hskParser.tpGet
      { p with lex := rest, prevToken := some p.curToken, curToken := tok } name
      = .AstPrimType name := htp _ _ hk
  simp only [type_spec, hk, eat, hlex, if_true]
  rw [hget]

theorem field_decl_simple (fuel : Nat) (p : hskParser) (name : String) (typeTok next : Token)
    (rest : List Token) (hid : p.curToken.type_ = .ID)
    (hlex : p.lex = typeTok :: next :: rest)
    (hk : typeKeyword typeTok.type_ = some name)
    (hn1 : next.type_ ≠ .DESC) (hn2 : next.type_ ≠ .SCOMMENT) (htp : BuiltinTypes p) :
    field_decl (fuel + 1) p =
      .ok ({ name := p.curToken.value, type_ := .AstPrimType name, line := p.curToken.line },
        { p with lex := rest, prevToken := some typeTok, curToken := next }) := by
  have hts := type_spec_keyword fuel
    { p with lex := next :: rest, prevToken := some p.curToken, curToken := typeTok }
    name next rest hk rfl htp
  simp only [field_decl, eat, hid, hlex, if_true]
  rw [hts]
  simp [hn1, hn2]

theorem typeKeyword_ne_id (t : TokenType) (h : t = .ID) : typeKeyword t = none := by
  subst h; rfl

theorem msgBody_fields (fs : List (Token × Token)) :
    ∀ (fuel : Nat) (ast : AstStructDecl) (p : hskParser) (rb next : Token) (rest : List Token),
      fs.length + 1 ≤ fuel →
      p.curToken :: p.lex = fieldTokens fs ++ rb :: next :: rest →
      rb.type_ = .RBRACE →
      (∀ q ∈ fs, q.1.type_ = .ID ∧ (typeKeyword q.2.type_).isSome) →
      BuiltinTypes p →
      ∃ p1, msgBody fuel ast p =
          .ok ({ ast with fields := ast.fields ++ expectedFields fs }, p1)
        ∧ p1.curToken = rb ∧ p1.lex = next :: rest ∧ p1.tpMap = p.tpMap := by
  induction fs with
  | nil =>
    intro fuel ast p rb next rest hfuel hlex hrb _ _
    simp only [fieldTokens, List.nil_append, List.cons.injEq] at hlex
    obtain ⟨hc, hl⟩ := hlex
    cases fuel with
    | zero => simp at hfuel
    | succ n =>
      refine ⟨p, ?_, hc, hl, rfl⟩
      simp [msgBody, hc, hrb, expectedFields]
  | cons q qs ih =>
    intro fuel ast p rb next rest hfuel hlex hrb hfs htp
    obtain ⟨nameTok, typeTok⟩ := q
    simp only [fieldTokens, List.cons_append, List.cons.injEq] at hlex
    obtain ⟨hc, hl⟩ := hlex
    obtain ⟨hid, hkw⟩ := hfs (nameTok, typeTok) (List.mem_cons_self _ _)
    simp only [] at hid hkw
    obtain ⟨name, hname⟩ := Option.isSome_iff_exists.mp hkw
    cases fuel with
    | zero => simp at hfuel
    | succ n =>
      simp only [List.length_cons] at hfuel
      -- the token after the type keyword: the next field name or the closing brace
      have hnext : ∃ nx tail, fieldTokens qs ++ rb :: next :: rest = nx :: tail
          ∧ nx.type_ ≠ .DESC ∧ nx.type_ ≠ .SCOMMENT := by
        cases qs with
        | nil => exact ⟨rb, next :: rest, rfl, by rw [hrb]; decide, by rw [hrb]; decide⟩
        | cons q2 qs2 =>
          obtain ⟨n2, t2⟩ := q2
          have h2 := (hfs (n2, t2) (List.mem_cons_of_mem _ (List.mem_cons_self _ _))).1
          simp only [] at h2
          exact ⟨n2, _, rfl, by rw [h2]; decide, by rw [h2]; decide⟩
      obtain ⟨nx, tail, hnx, hn1, hn2⟩ := hnext
      have hlex2 : p.lex = typeTok :: nx :: tail := by rw [hl, hnx]
      have hcid : p.curToken.type_ = .ID := by rw [hc]; exact hid
      cases n with
      | zero => omega
      | succ m =>
        have hfd := field_decl_simple m p name typeTok nx tail hcid hlex2 hname hn1 hn2 htp
        have hrec := ih (m + 1)
          { ast with fields := ast.fields ++
              [{ name := p.curToken.value, type_ := .AstPrimType name, line := p.curToken.line }] }
          { p with lex := tail, prevToken := some typeTok, curToken := nx } rb next rest
          (by omega) (by simp only []; rw [← hnx])
          hrb (fun x hx => hfs x (List.mem_cons_of_mem _ hx)) htp
        obtain ⟨p1, hp1, h1, h2, h3⟩ := hrec
        refine ⟨p1, ?_, h1, h2, h3⟩
        have hne1 : p.curToken.type_ ≠ .RBRACE := by rw [hcid]; decide
        have hne2 : p.curToken.type_ ≠ .SCOMMENT := by rw [hcid]; decide
        rw [msgBody]
        simp only [hne1, hne2, ne_eq, not_false_eq_true, if_true, if_false, hfd]
        rw [hp1]
        simp [expectedFields, hname, hc]

/-- Fields of primitive types without a separator: for every message declaration
`defmsg NAME { F1 T1 F2 T2 ... }` whose fields follow each other with nothing between
them, each type a keyword of a primitive type, the parser succeeds and builds the message
with those fields in source order; `mspace test;` / `defmsg Hello { a u8 b u8 }` is
accepted by the analysis. -/
theorem msg_decl_fields_without_separator (fuel : Nat) (p : hskParser)
    (nameTok lb rb next : Token) (rest : List Token) (fs : List (Token × Token))
    (hcur : p.curToken.type_ = .DEFMSG)
    (hlex : p.lex = nameTok :: lb :: (fieldTokens fs ++ rb :: next :: rest))
    (hname : nameTok.type_ = .ID) (hlb : lb.type_ = .LBRACE) (hrb : rb.type_ = .RBRACE)
    (hfs : ∀ q ∈ fs, q.1.type_ = .ID ∧ (typeKeyword q.2.type_).isSome)
    (htp : BuiltinTypes p) (hfuel : fs.length + 1 ≤ fuel) :
    (∃ p1, msg_decl fuel p =
        .ok ({ name := nameTok.value, line := nameTok.line, fields := expectedFields fs }, p1)
      ∧ p1.curToken = next ∧ p1.lex = rest)
    ∧ (compile 100 tokensS1NoSemi).toBool = true := by
  refine ⟨?_, by rfl⟩
  -- the first token of the body
  have hbody : ∃ b tail, fieldTokens fs ++ rb :: next :: rest = b :: tail := by
    cases fs with
    | nil => exact ⟨rb, _, rfl⟩
    | cons q qs => obtain ⟨n2, t2⟩ := q; exact ⟨n2, _, rfl⟩
  obtain ⟨b, tail, hb⟩ := hbody
  have hrec := msgBody_fields fs fuel
    { name := nameTok.value, line := nameTok.line, fields := [] }
    { p with lex := tail, prevToken := some lb, curToken := b } rb next rest hfuel
    (by simp only []; rw [← hb]) hrb hfs htp
  obtain ⟨p1, hp1, h1, h2, h3⟩ := hrec
  refine ⟨{ p1 with lex := rest, prevToken := some p1.curToken, curToken := next }, ?_, rfl, rfl⟩
  simp only [msg_decl, eat, hcur, hlex, hname, hlb, if_true, hb, hskParser.prevValue,
    hskParser.prevLine]
  rw [hp1]
  simp [h1, h2, hrb]

theorem builtinTypes_parserAtHello : BuiltinTypes parserAtHello := by
  intro kw name h
  cases kw <;> simp [typeKeyword] at h <;> subst h <;> rfl

/-- The declaration `defmsg Hello { a u8 b u8 }` is parsed. -/
theorem msg_decl_fields_without_separator_witness :
    (∃ p1, msg_decl 3 parserAtHello =
        .ok ({ name := "Hello", line := 2,
               fields := expectedFields
                 [(tk .ID "a" 2, tk .TYPE_U8 "u8" 2), (tk .ID "b" 2, tk .TYPE_U8 "u8" 2)] }, p1)
      ∧ p1.curToken = tk .EOF "EOF" 2 ∧ p1.lex = [])
    ∧ (compile 100 tokensS1NoSemi).toBool = true :=
  msg_decl_fields_without_separator 3 parserAtHello (tk .ID "Hello" 2) (tk .LBRACE "\x7b" 2)
    (tk .RBRACE "\x7d" 2) (tk .EOF "EOF" 2) []
    [(tk .ID "a" 2, tk .TYPE_U8 "u8" 2), (tk .ID "b" 2, tk .TYPE_U8 "u8" 2)]
    rfl rfl rfl rfl rfl
    (by
      intro q hq
      simp only [List.mem_cons, List.mem_singleton, List.not_mem_nil, or_false] at hq
      rcases hq with rfl | rfl <;> exact ⟨rfl, rfl⟩)
    builtinTypes_parserAtHello (by decide)

/-- Counterexample to C4: on scenario S1 as written, with `;` between the fields, the
parser panics at the `;`: `field_decl` expects an identifier. -/
theorem semicolon_between_fields_fails :
    parse 100 tokensS1 = .error (.parseExpect .ID .SEMI 2) := by rfl

/-! ## Id values (semantic.go, `visitIdGroupDefine`) -/

theorem wrap64_of_lt (x : Int) (h1 : -9223372036854775808 ≤ x) (h2 : x < 9223372036854775808) :
    wrap64 x = x := by
  unfold wrap64
  omega

/-- Where no increment leaves the range of `int`, the loop of `visitIdGroupDefine` gives
the items the values of invariant I4, and these are strictly increasing. -/
theorem visitIdItems_spec (items : List idItem) :
    ∀ (isMsgId : Bool) (midMap : List (String × idItem)) (val : Int) (i : Nat)
      (m : List (String × idItem)) (out : List idItem),
      visitIdItems isMsgId midMap val i items = .ok (m, out) →
      (i = 0 → val = 0) → -9223372036854775808 ≤ val →
      val + items.length < 9223372036854775808 →
      (∀ id ∈ items, id.base = true →
        -9223372036854775808 ≤ id.idVal ∧ id.idVal + items.length < 9223372036854775808) →
      specIdValues (if i = 0 then none else some val) items = some (out.map (·.idVal))
        ∧ List.Chain (· < ·) (if i = 0 then -9223372036854775809 else val) (out.map (·.idVal))
        := by
  induction items with
  | nil =>
    intro isMsgId midMap val i m out h _ _ _ _
    simp only [visitIdItems, Except.ok.injEq, Prod.mk.injEq] at h
    rw [← h.2]
    simp [specIdValues]
  | cons id rest ih =>
    intro isMsgId midMap val i m out h h0 hlo hhi hexp
    simp only [List.length_cons, Nat.cast_add, Nat.cast_one] at hhi
    rw [visitIdItems] at h
    simp only [] at h
    cases hg : mapGet midMap id.name with
    | some s => rw [hg] at h; simp at h
    | none =>
      rw [hg] at h
      simp only [] at h
      by_cases hb : id.base = true
      · obtain ⟨hlo1, hhi1⟩ := hexp id (List.mem_cons_self _ _) hb
        simp only [List.length_cons, Nat.cast_add, Nat.cast_one] at hhi1
        rw [if_pos hb] at h
        split at h
        · simp at h
        · rename_i hchk
          split at h
          · simp at h
          · rename_i m1 out1 hr
            simp only [Except.ok.injEq, Prod.mk.injEq] at h
            have hrec := ih isMsgId _ id.idVal (i + 1) m1 out1 hr (by omega) hlo1 (by omega)
              (fun x hx hxb => by
                have := hexp x (List.mem_cons_of_mem _ hx) hxb
                simp only [List.length_cons, Nat.cast_add, Nat.cast_one] at this
                omega)
            simp only [Nat.add_one_ne_zero, if_false] at hrec
            rw [← h.2]
            simp only [List.map_cons, specIdValues, hb, if_true]
            by_cases hi : i = 0
            · simp only [hi, if_true, hrec.1, Option.map_some', true_and]
              exact List.Chain.cons (by omega) hrec.2
            · have hlt : val < id.idVal := by
                have : ¬ (i > 0 ∧ id.idVal ≤ val) := hchk
                omega
              have hnle : ¬ id.idVal ≤ val := by omega
              simp only [hi, if_false, hnle, hrec.1, Option.map_some', true_and]
              exact List.Chain.cons hlt hrec.2
      · rw [if_neg hb] at h
        have hbf : id.base = false := by simpa using hb
        have hw : wrap64 (val + 1) = val + 1 := wrap64_of_lt _ (by omega) (by omega)
        rw [hw] at h
        split at h
        · simp at h
        · rename_i m1 out1 hr
          simp only [Except.ok.injEq, Prod.mk.injEq] at h
          have hrec := ih isMsgId _ (val + 1) (i + 1) m1 out1 hr (by omega) (by omega)
            (by omega)
            (fun x hx hxb => by
              have := hexp x (List.mem_cons_of_mem _ hx) hxb
              simp only [List.length_cons, Nat.cast_add, Nat.cast_one] at this
              omega)
          simp only [Nat.add_one_ne_zero, if_false] at hrec
          rw [← h.2]
          simp only [List.map_cons, specIdValues, hbf, Bool.false_eq_true, if_false]
          by_cases hi : i = 0
          · have hv : val = 0 := h0 hi
            subst hv
            simp only [hi, if_true, Option.getD_none, hrec.1, Option.map_some', true_and]
            exact List.Chain.cons (by omega) hrec.2
          · simp only [hi, if_false, Option.getD_some, hrec.1, Option.map_some', true_and]
            exact List.Chain.cons (by omega) hrec.2

/-! ## The dispatch by message id (interp_go.go) -/

theorem caseBody_cons_ne (id : String) (l : Line) (ys : List Line)
    (h : ¬(l.format = "case %s:" ∧ l.args = [.str id])) :
    caseBody id (l :: ys) = caseBody id ys := by
  simp only [caseBody, if_neg h]

theorem afterSwitch_cons_ne (l : Line) (ys : List Line) (h : l.format ≠ "\x7d") :
    afterSwitch (l :: ys) = afterSwitch ys := by
  simp only [afterSwitch, if_neg h]

theorem addNewLine_reads (id : String) (interp : interpreter) :
    ∃ new, interp.addNewLine.out = interp.out ++ new
      ∧ interp.addNewLine.depth = interp.depth
      ∧ (∀ ys, afterSwitch (new ++ ys) = afterSwitch ys)
      ∧ (∀ ys, caseBody id (new ++ ys) = caseBody id ys) := by
  unfold interpreter.addNewLine
  split
  · exact ⟨[], by simp, rfl, fun ys => rfl, fun ys => rfl⟩
  · refine ⟨[{ indent := (interp.depth - 1) * 4, format := "", args := [] }], rfl, rfl, ?_, ?_⟩
    · intro ys
      exact afterSwitch_cons_ne _ _ (show ("" : String) ≠ "\x7d" by decide)
    · intro ys
      exact caseBody_cons_ne _ _ _ (by simp)

theorem string_length_eq_zero (s : String) : s.length = 0 ↔ s = "" := by
  constructor
  · intro h
    apply String.ext
    exact List.length_eq_zero.mp h
  · intro h
    rw [h]
    rfl

theorem bindCases_reads (call id : String) (hc1 : call ≠ "case %s:") (hc2 : call ≠ "\x7d")
    (binds : List AstBindDef) :
    ∀ (interp : interpreter) (idx : Nat), 1 ≤ interp.depth →
      ∃ r new, bindCases call interp idx binds = .ok r ∧ r.depth = interp.depth
        ∧ r.out = interp.out ++ new
        ∧ (∀ ys, afterSwitch (new ++ ys) = afterSwitch ys)
        ∧ (∀ b, binds.find? (fun b => b.msgId = id) = some b → ∀ ys,
            (caseBody id (new ++ ys)).map Line.text =
              some (if b.msgName = "" then ("return 0", [])
                else (call, [.str b.msgName, .str b.msgName])))
        ∧ (binds.find? (fun b => b.msgId = id) = none →
            ∀ ys, caseBody id (new ++ ys) = caseBody id ys) := by
  induction binds with
  | nil =>
    intro interp idx _
    exact ⟨interp, [], rfl, rfl, by simp, fun ys => rfl, by simp, fun _ ys => rfl⟩
  | cons bind rest ih =>
    intro interp idx hdepth
    have hd0 : interp.depth ≠ 0 := by omega
    -- the optional blank line
    have h1 : ∃ i1 new0, (if idx ≠ 0 then interp.addNewLine else interp) = i1
        ∧ i1.out = interp.out ++ new0 ∧ i1.depth = interp.depth
        ∧ (∀ ys, afterSwitch (new0 ++ ys) = afterSwitch ys)
        ∧ (∀ ys, caseBody id (new0 ++ ys) = caseBody id ys) := by
      split
      · obtain ⟨new0, ho, hdp, ha, hc⟩ := addNewLine_reads id interp
        exact ⟨_, new0, rfl, ho, hdp, ha, hc⟩
      · exact ⟨_, [], rfl, by simp, rfl, fun ys => rfl, fun ys => rfl⟩
    obtain ⟨i1, new0, hi1, ho1, hdp1, ha1, hcb1⟩ := h1
    -- the two lines of the case
    let body : Line :=
      { indent := (i1.depth + 1 - 1) * 4,
        format := if bind.msgName.length ≠ 0 then call else "return 0",
        args := if bind.msgName.length ≠ 0 then [.str bind.msgName, .str bind.msgName] else [] }
    let caseLine : Line :=
      { indent := (i1.depth - 1) * 4, format := "case %s:", args := [.str bind.msgId] }
    let i4 : interpreter :=
      { depth := i1.depth, lastNewLine := false, out := i1.out ++ [caseLine, body] }
    have hstep : bindCases call interp idx (bind :: rest) = bindCases call i4 (idx + 1) rest := by
      simp only [bindCases, hi1]
      by_cases hn : bind.msgName.length ≠ 0
      · simp [hn, interpreter.popStackFrame, interpreter.pushStackFrame, interpreter.addLine,
          hdp1, hd0, i4, caseLine, body]
      · simp [hn, interpreter.popStackFrame, interpreter.pushStackFrame, interpreter.addLine,
          hdp1, hd0, i4, caseLine, body]
    obtain ⟨r, new1, hr, hrd, hro, hra, hrs, hrn⟩ := ih i4 (idx + 1) (by simp [i4, hdp1]; omega)
    have hbody1 : ¬(body.format = "case %s:" ∧ body.args = [.str id]) := by
      intro h
      by_cases hn : bind.msgName.length ≠ 0
      · simp only [body, if_pos hn] at h
        exact hc1 h.1
      · simp only [body, if_neg hn] at h
        exact absurd h.1 (by decide)
    have hbody2 : body.format ≠ "\x7d" := by
      by_cases hn : bind.msgName.length ≠ 0
      · simp only [body, if_pos hn]
        exact hc2
      · simp only [body, if_neg hn]
        decide
    refine ⟨r, new0 ++ [caseLine, body] ++ new1, by rw [hstep, hr], by rw [hrd, hdp1], ?_, ?_, ?_, ?_⟩
    · rw [hro]
      simp [i4, ho1, List.append_assoc]
    · intro ys
      rw [List.append_assoc, List.append_assoc, ha1]
      simp only [List.cons_append, List.nil_append]
      rw [afterSwitch_cons_ne _ _ (show ("case %s:" : String) ≠ "\x7d" by decide),
        afterSwitch_cons_ne _ _ hbody2, hra]
    · intro b hb ys
      rw [List.append_assoc, List.append_assoc, hcb1]
      simp only [List.cons_append, List.nil_append]
      by_cases hid : bind.msgId = id
      · have hbb : b = bind := by
          simp [List.find?, hid] at hb
          exact hb.symm
        subst hbb
        have : caseBody id (caseLine :: body :: (new1 ++ ys)) = some body := by
          simp [caseBody, caseLine, hid]
        rw [this]
        simp only [Option.map, Line.text, body]
        by_cases hn : b.msgName = ""
        · simp [hn]
        · have hl : b.msgName.length ≠ 0 := fun h => hn ((string_length_eq_zero _).mp h)
          simp [hn, hl]
      · have hc : ¬(caseLine.format = "case %s:" ∧ caseLine.args = [.str id]) := by
          simp [caseLine, hid]
        rw [caseBody_cons_ne _ _ _ hc, caseBody_cons_ne _ _ _ hbody1]
        apply hrs b
        simpa [List.find?, hid] using hb
    · intro hnone ys
      have hid : bind.msgId ≠ id := by
        intro hid
        simp [List.find?, hid] at hnone
      have hc : ¬(caseLine.format = "case %s:" ∧ caseLine.args = [.str id]) := by
        simp [caseLine, hid]
      rw [List.append_assoc, List.append_assoc, hcb1]
      simp only [List.cons_append, List.nil_append]
      rw [caseBody_cons_ne _ _ _ hc, caseBody_cons_ne _ _ _ hbody1]
      apply hrn
      simpa [List.find?, hid] using hnone

theorem append_ne_of_head (head x s : String) (c : Char) (hh : head.data.head? = some c)
    (hs : s.data.head? ≠ some c) : head ++ x ≠ s := by
  intro heq
  apply hs
  rw [← heq, String.data_append]
  cases hd : head.data with
  | nil => rw [hd] at hh; simp at hh
  | cons a rest => rw [hd] at hh; simpa using hh

theorem upperFirst_ok (mspace : String) (h : mspace ≠ "") : ∃ ms, upperFirst mspace = .ok ms := by
  unfold upperFirst
  cases hm : mspace.toList with
  | nil =>
    exfalso
    apply h
    apply String.ext
    exact hm
  | cons c rest => exact ⟨_, rfl⟩

theorem visitBindDispatch_reads (head tail call id : String) (interp : interpreter)
    (mspace : String) (binds : List AstBindDef)
    (hh : head.data.head? = some 'f') (hc1 : call ≠ "case %s:") (hc2 : call ≠ "\x7d")
    (hdepth : 1 ≤ interp.depth) (hms : mspace ≠ "") :
    ∃ r new, visitBindDispatch_Go head tail call interp mspace binds = .ok r
      ∧ r.out = interp.out ++ new
      ∧ (∀ b, binds.find? (fun b => b.msgId = id) = some b →
          (dispatchReturn id new).map Line.text =
            some (if b.msgName = "" then ("return 0", [])
              else (call, [.str b.msgName, .str b.msgName])))
      ∧ (binds.find? (fun b => b.msgId = id) = none →
          (dispatchReturn id new).map Line.text = some ("return -1", [])) := by
  obtain ⟨ms, hms1⟩ := upperFirst_ok mspace hms
  obtain ⟨new0, ho0, hd0, ha0, hcb0⟩ := addNewLine_reads id interp
  have hne : interp.depth ≠ 0 := by omega
  let i2 : interpreter :=
    ((interp.addNewLine.addLine (head ++ ms ++ tail) []).pushStackFrame).addLine "switch mid \x7b" []
  have hi2d : i2.depth = interp.depth + 1 := by
    simp [i2, interpreter.addLine, interpreter.pushStackFrame, hd0]
  obtain ⟨r3, new1, hr3, hr3d, hr3o, hra, hrs, hrn⟩ :=
    bindCases_reads call id hc1 hc2 binds i2 0 (by rw [hi2d]; omega)
  have hhead1 : ¬((head ++ ms ++ tail) = "case %s:" ∧ ([] : List Arg) = [.str id]) := by
    intro h
    cases h.2
  have hhead2 : head ++ ms ++ tail ≠ "\x7d" := by
    rw [String.append_assoc]
    exact append_ne_of_head head _ _ 'f' hh (by decide)
  have hi2o : i2.out = interp.out ++ (new0 ++
      [{ indent := (interp.depth - 1) * 4, format := head ++ ms ++ tail, args := [] },
       { indent := interp.depth * 4, format := "switch mid \x7b", args := [] }]) := by
    simp [i2, interpreter.addLine, interpreter.pushStackFrame, hd0, ho0]
  let i5 : interpreter := ((r3.addLine "\x7d" []).addNewLine).addLine "return -1" []
  let R : interpreter :=
    (({ i5 with depth := i5.depth - 1 } : interpreter).addLine "\x7d" []).addNewLine
  have hres : visitBindDispatch_Go head tail call interp mspace binds = .ok R := by
    simp only [visitBindDispatch_Go, hms1]
    rw [hr3]
    simp [interpreter.popStackFrame, interpreter.addLine, interpreter.addNewLine, hr3d, hi2d, R, i5,
      hne]
  refine ⟨R, new0 ++
      [{ indent := (interp.depth - 1) * 4, format := head ++ ms ++ tail, args := [] },
       { indent := interp.depth * 4, format := "switch mid \x7b", args := [] }] ++ new1 ++
      [{ indent := interp.depth * 4, format := "\x7d", args := [] },
       { indent := interp.depth * 4, format := "", args := [] },
       { indent := interp.depth * 4, format := "return -1", args := [] },
       { indent := (interp.depth - 1) * 4, format := "\x7d", args := [] },
       { indent := (interp.depth - 1) * 4, format := "", args := [] }], hres, ?_, ?_, ?_⟩
  · simp [R, i5, interpreter.addLine, interpreter.addNewLine, hr3o, hi2o, hr3d, hi2d,
      List.append_assoc]
  · intro b hb
    have h := hrs b hb
      [{ indent := interp.depth * 4, format := "\x7d", args := [] },
       { indent := interp.depth * 4, format := "", args := [] },
       { indent := interp.depth * 4, format := "return -1", args := [] },
       { indent := (interp.depth - 1) * 4, format := "\x7d", args := [] },
       { indent := (interp.depth - 1) * 4, format := "", args := [] }]
    unfold dispatchReturn
    simp only [List.append_assoc, List.cons_append, List.nil_append]
    rw [hcb0]
    rw [caseBody_cons_ne _ _ _ hhead1, caseBody_cons_ne _ _ _ (by simp)]
    cases hcase : caseBody id (new1 ++
      [{ indent := interp.depth * 4, format := "\x7d", args := [] },
       { indent := interp.depth * 4, format := "", args := [] },
       { indent := interp.depth * 4, format := "return -1", args := [] },
       { indent := (interp.depth - 1) * 4, format := "\x7d", args := [] },
       { indent := (interp.depth - 1) * 4, format := "", args := [] }]) with
    | none => rw [hcase] at h; simp at h
    | some l => rw [hcase] at h; exact h
  · intro hnone
    have h := hrn hnone
      [{ indent := interp.depth * 4, format := "\x7d", args := [] },
       { indent := interp.depth * 4, format := "", args := [] },
       { indent := interp.depth * 4, format := "return -1", args := [] },
       { indent := (interp.depth - 1) * 4, format := "\x7d", args := [] },
       { indent := (interp.depth - 1) * 4, format := "", args := [] }]
    unfold dispatchReturn
    simp only [List.append_assoc, List.cons_append, List.nil_append]
    rw [hcb0, ha0]
    rw [caseBody_cons_ne _ _ _ hhead1, caseBody_cons_ne _ _ _ (by simp), h,
      afterSwitch_cons_ne _ _ hhead2,
      afterSwitch_cons_ne _ _ (show ("switch mid \x7b" : String) ≠ "\x7d" by decide), hra]
    simp [caseBody, afterSwitch, Line.text]

theorem find_msgId (binds : List AstBindDef) (id : String) (b : AstBindDef)
    (h : binds.find? (fun b => b.msgId = id) = some b) : b ∈ binds ∧ b.msgId = id := by
  have h1 := List.find?_some h
  have h2 := List.mem_of_find?_eq_some h
  exact ⟨h2, by simpa using h1⟩

/-- C11 (amended). The dispatch functions are built from the `bind` directives, not from
the id items. For an id whose (first) directive is `bind ID nil`, the emitted
`encode<Mspace>MsgById` and `decode<Mspace>MsgById` execute `return 0`; for an id with a
directive `bind ID Msg` they call the encoder or the decoder of `Msg`; for an id that no
directive names the `switch` has no `case` and both functions execute the `return -1`
that follows it. -/
theorem dispatch_follows_bind_directives (interp : interpreter) (mspace : String)
    (binds : List AstBindDef) (id : String) (hdepth : 1 ≤ interp.depth) (hms : mspace ≠ "") :
    ∃ enc dec encLines decLines,
      visitBindEncode_Go interp mspace binds = .ok enc ∧ enc.out = interp.out ++ encLines
      ∧ visitBindDecode_Go interp mspace binds = .ok dec ∧ dec.out = interp.out ++ decLines
      ∧ (∀ b, binds.find? (fun b => b.msgId = id) = some b → b.msgName = "" →
          (dispatchReturn id encLines).map Line.text = some ("return 0", [])
          ∧ (dispatchReturn id decLines).map Line.text = some ("return 0", []))
      ∧ (∀ b, binds.find? (fun b => b.msgId = id) = some b → b.msgName ≠ "" →
          (dispatchReturn id encLines).map Line.text =
            some ("return encode_%s(buf, msg.(*%s))", [.str b.msgName, .str b.msgName])
          ∧ (dispatchReturn id decLines).map Line.text =
            some ("return decode_%s(buf, msg.(*%s))", [.str b.msgName, .str b.msgName]))
      ∧ ((∀ b ∈ binds, b.msgId ≠ id) →
          (dispatchReturn id encLines).map Line.text = some ("return -1", [])
          ∧ (dispatchReturn id decLines).map Line.text = some ("return -1", [])) := by
  obtain ⟨enc, encLines, he, heo, hes, hen⟩ :=
    visitBindDispatch_reads "func encode"
      "MsgById(buf io.Writer, mid uint16, msg interface\x7b\x7d) int \x7b"
      "return encode_%s(buf, msg.(*%s))" id interp mspace binds (by decide) (by decide)
      (by decide) hdepth hms
  obtain ⟨dec, decLines, hd, hdo, hds, hdn⟩ :=
    visitBindDispatch_reads "func decode"
      "MsgById(buf io.Reader, mid uint16, msg interface\x7b\x7d) int \x7b"
      "return decode_%s(buf, msg.(*%s))" id interp mspace binds (by decide) (by decide)
      (by decide) hdepth hms
  refine ⟨enc, dec, encLines, decLines, he, heo, hd, hdo, ?_, ?_, ?_⟩
  · intro b hb hn
    have h1 := hes b hb
    have h2 := hds b hb
    rw [if_pos hn] at h1 h2
    exact ⟨h1, h2⟩
  · intro b hb hn
    have h1 := hes b hb
    have h2 := hds b hb
    rw [if_neg hn] at h1 h2
    exact ⟨h1, h2⟩
  · intro hall
    have hnone : binds.find? (fun b => b.msgId = id) = none := by
      cases hf : binds.find? (fun b => b.msgId = id) with
      | none => rfl
      | some b =>
        obtain ⟨hm, hi⟩ := find_msgId binds id b hf
        exact absurd hi (hall b hm)
    exact ⟨hen hnone, hdn hnone⟩

/-- Witness of C11 (amended): the directives of scenario S5 and the id `OFF`, which no
directive names. -/
theorem dispatch_follows_bind_directives_witness :
    ∃ enc dec encLines decLines,
      visitBindEncode_Go NewInterpreter "test" [bindOnLight] = .ok enc
      ∧ enc.out = NewInterpreter.out ++ encLines
      ∧ visitBindDecode_Go NewInterpreter "test" [bindOnLight] = .ok dec
      ∧ dec.out = NewInterpreter.out ++ decLines
      ∧ (∀ b, [bindOnLight].find? (fun b => b.msgId = "OFF") = some b → b.msgName = "" →
          (dispatchReturn "OFF" encLines).map Line.text = some ("return 0", [])
          ∧ (dispatchReturn "OFF" decLines).map Line.text = some ("return 0", []))
      ∧ (∀ b, [bindOnLight].find? (fun b => b.msgId = "OFF") = some b → b.msgName ≠ "" →
          (dispatchReturn "OFF" encLines).map Line.text =
            some ("return encode_%s(buf, msg.(*%s))", [.str b.msgName, .str b.msgName])
          ∧ (dispatchReturn "OFF" decLines).map Line.text =
            some ("return decode_%s(buf, msg.(*%s))", [.str b.msgName, .str b.msgName]))
      ∧ ((∀ b ∈ [bindOnLight], b.msgId ≠ "OFF") →
          (dispatchReturn "OFF" encLines).map Line.text = some ("return -1", [])
          ∧ (dispatchReturn "OFF" decLines).map Line.text = some ("return -1", [])) :=
  dispatch_follows_bind_directives NewInterpreter "test" [bindOnLight] "OFF" (by decide)
    (by decide)

/-- Counterexample to C11: scenario S5 is accepted, its only directive is
`bind ON Light`, and for the id `OFF`, which has no bound message, the emitted
`encodeTestMsgById` and `decodeTestMsgById` have no `case` and execute `return -1`, not
`return 0`. -/
theorem unbound_id_dispatch_returns_minus_one :
    parse 100 tokensS5 = .ok programS5
      ∧ (compile 100 tokensS5).toBool = true
      ∧ programBinds programS5 = [bindOnLight]
      ∧ (visitBindEncode_Go NewInterpreter programS5.mspace (programBinds programS5)).map
          (fun i => (dispatchReturn "OFF" i.out).map Line.text) = .ok (some ("return -1", []))
      ∧ (visitBindDecode_Go NewInterpreter programS5.mspace (programBinds programS5)).map
          (fun i => (dispatchReturn "OFF" i.out).map Line.text) = .ok (some ("return -1", [])) :=
  ⟨by rfl, by rfl, by rfl, by rfl, by rfl⟩

/-! ## Bind directives are resolved in the second pass (semantic.go) -/

theorem mapGet_mapUpdate_ne {α : Type} (m : List (String × α)) (k k' : String) (v : α)
    (h : k ≠ k') : mapGet (mapUpdate m k v) k' = mapGet m k' := by
  induction m with
  | nil => rfl
  | cons a rest ih =>
    obtain ⟨a, x⟩ := a
    unfold mapUpdate
    by_cases hak : a = k
    · have hak' : a ≠ k' := fun h' => h (hak.symm.trans h')
      simp [hak, mapGet, h]
    · by_cases hak' : a = k'
      · subst hak'
        simp [hak, mapGet]
      · simp [hak, mapGet, hak', ih]

theorem mapGet_mapUpdate_self {α : Type} (m : List (String × α)) (k : String) (v x : α)
    (h : mapGet m k = some x) : mapGet (mapUpdate m k v) k = some v := by
  induction m with
  | nil => simp [mapGet] at h
  | cons a rest ih =>
    obtain ⟨a, y⟩ := a
    unfold mapUpdate
    by_cases hak : a = k
    · simp [hak, mapGet]
    · simp only [mapGet, if_neg hak] at h
      simp [hak, mapGet, ih h]

theorem mapUpdate_comm {α : Type} (m : List (String × α)) (k k' : String) (v v' : α)
    (h : k ≠ k') :
    mapUpdate (mapUpdate m k v) k' v' = mapUpdate (mapUpdate m k' v') k v := by
  induction m with
  | nil => rfl
  | cons a rest ih =>
    obtain ⟨a, y⟩ := a
    by_cases hak : a = k
    · have hak' : a ≠ k' := fun h' => h (hak.symm.trans h')
      simp [mapUpdate, hak, h]
    · by_cases hak' : a = k'
      · have : k' ≠ k := fun h' => h h'.symm
        simp [mapUpdate, hak', this]
      · simp [mapUpdate, hak, hak', ih]

theorem visitBindDef_nil (se : semanticAnalyzer) (b : AstBindDef) (h : b.msgName = "") :
    visitBindDef se b = .ok se := by
  simp [visitBindDef, h]

theorem visitBindDef_ok (se se1 : semanticAnalyzer) (b : AstBindDef)
    (h : visitBindDef se b = .ok se1) (hn : b.msgName ≠ "") :
    ∃ id, mapGet se.midMap b.msgId = some id ∧ id.isMsgId = true ∧ id.bindMsg = ""
      ∧ (lookup se.symbolStack b.msgName false).isSome = true
      ∧ se1 = { se with midMap := mapUpdate se.midMap b.msgId { id with bindMsg := b.msgName } } := by
  have hl : ¬ b.msgName.length = 0 := fun h0 => hn ((string_length_eq_zero _).mp h0)
  unfold visitBindDef at h
  rw [if_neg hl] at h
  cases hlk : lookup se.symbolStack b.msgName false with
  | none => rw [hlk] at h; simp at h
  | some sym =>
    rw [hlk] at h
    simp only [] at h
    cases hm : mapGet se.midMap b.msgId with
    | none => rw [hm] at h; simp at h
    | some id =>
      rw [hm] at h
      simp only [] at h
      split at h
      · simp at h
      · rename_i hmsg
        split at h
        · simp at h
        · rename_i hbound
          simp only [Except.ok.injEq] at h
          refine ⟨id, rfl, ?_, ?_, rfl, h.symm⟩
          · simpa using hmsg
          · apply (string_length_eq_zero _).mp
            simpa using hbound

theorem visitBindDef_of (se : semanticAnalyzer) (b : AstBindDef) (id : idItem)
    (hn : b.msgName ≠ "") (hm : mapGet se.midMap b.msgId = some id) (hmsg : id.isMsgId = true)
    (hb : id.bindMsg = "") (hlk : (lookup se.symbolStack b.msgName false).isSome = true) :
    visitBindDef se b =
      .ok { se with midMap := mapUpdate se.midMap b.msgId { id with bindMsg := b.msgName } } := by
  have hl : ¬ b.msgName.length = 0 := fun h0 => hn ((string_length_eq_zero _).mp h0)
  unfold visitBindDef
  rw [if_neg hl]
  cases hlk2 : lookup se.symbolStack b.msgName false with
  | none => rw [hlk2] at hlk; simp at hlk
  | some sym =>
    simp only [hm]
    simp [hmsg, hb]

theorem visitBindDef_swap (s sc s2 : semanticAnalyzer) (c b : AstBindDef)
    (h1 : visitBindDef s c = .ok sc) (h2 : visitBindDef sc b = .ok s2) :
    ∃ t, visitBindDef s b = .ok t ∧ visitBindDef t c = .ok s2 := by
  by_cases hc : c.msgName = ""
  · rw [visitBindDef_nil s c hc] at h1
    cases h1
    exact ⟨s2, h2, visitBindDef_nil s2 c hc⟩
  · by_cases hb : b.msgName = ""
    · rw [visitBindDef_nil sc b hb] at h2
      cases h2
      exact ⟨s, visitBindDef_nil s b hb, h1⟩
    · obtain ⟨idc, hmc, hmsgc, hbc, hlkc, hsc⟩ := visitBindDef_ok s sc c h1 hc
      obtain ⟨idb, hmb, hmsgb, hbb, hlkb, hs2⟩ := visitBindDef_ok sc s2 b h2 hb
      have hne : c.msgId ≠ b.msgId := by
        intro heq
        rw [hsc] at hmb
        simp only [] at hmb
        rw [← heq, mapGet_mapUpdate_self _ _ _ _ hmc] at hmb
        simp only [Option.some.injEq] at hmb
        rw [← hmb] at hbb
        exact hc hbb
      have hmb' : mapGet s.midMap b.msgId = some idb := by
        rw [hsc] at hmb
        simp only [] at hmb
        rw [mapGet_mapUpdate_ne _ _ _ _ hne] at hmb
        exact hmb
      have hlkb' : (lookup s.symbolStack b.msgName false).isSome = true := by
        rw [hsc] at hlkb
        exact hlkb
      refine ⟨_, visitBindDef_of s b idb hb hmb' hmsgb hbb hlkb', ?_⟩
      have ht := visitBindDef_of
        { s with midMap := mapUpdate s.midMap b.msgId { idb with bindMsg := b.msgName } }
        c idc hc (by
          simp only []
          rw [mapGet_mapUpdate_ne _ _ _ _ (fun h => hne h.symm)]
          exact hmc) hmsgc hbc hlkc
      rw [ht, hs2, hsc]
      simp only []
      rw [mapUpdate_comm _ _ _ _ _ hne]

theorem visitBindDefs_append (xs ys : List AstBindDef) :
    ∀ se, visitBindDefs se (xs ++ ys) =
      match visitBindDefs se xs with
      | .error e => .error e
      | .ok se1 => visitBindDefs se1 ys := by
  induction xs with
  | nil => intro se; rfl
  | cons x rest ih =>
    intro se
    simp only [List.cons_append, visitBindDefs]
    cases visitBindDef se x with
    | error e => rfl
    | ok se1 => exact ih se1

theorem visitBindDefs_move (b : AstBindDef) (ys : List AstBindDef) :
    ∀ s s2, visitBindDefs s (ys ++ [b]) = .ok s2 → visitBindDefs s (b :: ys) = .ok s2 := by
  induction ys with
  | nil => intro s s2 h; exact h
  | cons c rest ih =>
    intro s s2 h
    simp only [List.cons_append, visitBindDefs] at h
    cases hc : visitBindDef s c with
    | error e => rw [hc] at h; simp at h
    | ok sc =>
      rw [hc] at h
      simp only [] at h
      have h' := ih sc s2 h
      simp only [visitBindDefs] at h'
      cases hb : visitBindDef sc b with
      | error e => rw [hb] at h'; simp at h'
      | ok s' =>
        rw [hb] at h'
        simp only [] at h'
        obtain ⟨t, ht1, ht2⟩ := visitBindDef_swap s sc s' c b hc hb
        simp only [visitBindDefs, ht1, ht2]
        exact h'

theorem visitDecls_append (xs ys : List Decl) :
    ∀ se, visitDecls se (xs ++ ys) =
      match visitDecls se xs with
      | .error e => .error e
      | .ok r =>
        match visitDecls r.1 ys with
        | .error e => .error e
        | .ok r2 => .ok (r2.1, r.2 ++ r2.2) := by
  induction xs with
  | nil =>
    intro se
    simp only [List.nil_append, visitDecls]
    cases visitDecls se ys with
    | error e => rfl
    | ok r => rfl
  | cons x rest ih =>
    intro se
    simp only [List.cons_append, visitDecls, List.append_eq]
    cases visitDecl se x with
    | error e => rfl
    | ok r =>
      obtain ⟨se1, x1⟩ := r
      simp only []
      rw [ih se1]
      cases visitDecls se1 rest with
      | error e => rfl
      | ok r1 =>
        obtain ⟨se2, rest1⟩ := r1
        simp only []
        cases visitDecls se2 ys with
        | error e => rfl
        | ok r2 => rfl

theorem visitDecls_firstPass (decls : List Decl) :
    ∀ (se se1 : semanticAnalyzer) (decls1 : List Decl),
      visitDecls se decls = .ok (se1, decls1) → se1.firstPass = se.firstPass := by
  induction decls with
  | nil =>
    intro se se1 decls1 h
    simp only [visitDecls, Except.ok.injEq, Prod.mk.injEq] at h
    rw [← h.1]
  | cons d rest ih =>
    intro se se1 decls1 h
    simp only [visitDecls] at h
    cases hd : visitDecl se d with
    | error e => rw [hd] at h; simp at h
    | ok r =>
      obtain ⟨se2, d1⟩ := r
      rw [hd] at h
      simp only [] at h
      cases hr : visitDecls se2 rest with
      | error e => rw [hr] at h; simp at h
      | ok r2 =>
        obtain ⟨se3, rest1⟩ := r2
        rw [hr] at h
        simp only [Except.ok.injEq, Prod.mk.injEq] at h
        rw [← h.1, ih se2 se3 rest1 hr, visitDecl_firstPass se se2 d d1 hd]

theorem visitBindDef_firstPass (se se1 : semanticAnalyzer) (b : AstBindDef)
    (h : visitBindDef se b = .ok se1) : se1.firstPass = se.firstPass := by
  by_cases hn : b.msgName = ""
  · rw [visitBindDef_nil se b hn] at h
    cases h
    rfl
  · obtain ⟨id, _, _, _, _, hs⟩ := visitBindDef_ok se se1 b h hn
    rw [hs]

theorem visitDecl_second (se : semanticAnalyzer) (d : Decl) (h : se.firstPass = false) :
    visitDecl se d =
      match bindOf d with
      | some b =>
        match visitBindDef se b with
        | .error e => .error e
        | .ok s => .ok (s, d)
      | none => .ok (se, d) := by
  cases d with
  | bindDef node =>
    simp only [visitDecl, bindOf, h]
    cases visitBindDef se node <;> rfl
  | _ => simp [visitDecl, bindOf, h]

theorem visitDecls_second (decls : List Decl) :
    ∀ se, se.firstPass = false →
      visitDecls se decls =
        match visitBindDefs se (decls.filterMap bindOf) with
        | .error e => .error e
        | .ok s => .ok (s, decls) := by
  induction decls with
  | nil => intro se _; rfl
  | cons d rest ih =>
    intro se h
    simp only [visitDecls]
    rw [visitDecl_second se d h]
    cases hb : bindOf d with
    | none =>
      simp only [List.filterMap_cons, hb]
      rw [ih se h]
      cases visitBindDefs se (List.filterMap bindOf rest) with
      | error e => rfl
      | ok s => rfl
    | some b =>
      simp only [List.filterMap_cons, hb, visitBindDefs]
      cases hv : visitBindDef se b with
      | error e => rfl
      | ok s =>
        simp only []
        rw [ih s (by rw [visitBindDef_firstPass se s b hv]; exact h)]
        cases visitBindDefs s (List.filterMap bindOf rest) with
        | error e => rfl
        | ok s2 => rfl

theorem doAnalyze_two_passes (se sB : semanticAnalyzer) (ms : String) (decls decls1 : List Decl)
    (hms : ms ≠ "") (h1 : visitDecls se decls = .ok (sB, decls1)) :
    DoAnalyze se { mspace := ms, decl_list := decls } =
      match visitBindDefs { sB with firstPass := false } (decls1.filterMap bindOf) with
      | .error e => .error e
      | .ok s => .ok ({ s with firstPass := false }, { mspace := ms, decl_list := decls1 }) := by
  simp only [DoAnalyze, visitProgram, if_neg hms, h1]
  rw [visitDecls_second decls1 _ rfl]
  cases visitBindDefs { sB with firstPass := false } (decls1.filterMap bindOf) <;> rfl

theorem visitDecl_bind_first (se : semanticAnalyzer) (b : AstBindDef) (h : se.firstPass = true) :
    visitDecl se (.bindDef b) = .ok (se, .bindDef b) := by
  simp [visitDecl, h]

theorem visitBindDefs_last (xs : List AstBindDef) (b : AstBindDef) (s s2 : semanticAnalyzer)
    (h : visitBindDefs s (xs ++ [b]) = .ok s2) (hn : b.msgName ≠ "") :
    boundMsg s2 b.msgId = some b.msgName := by
  rw [visitBindDefs_append] at h
  cases hx : visitBindDefs s xs with
  | error e => rw [hx] at h; simp at h
  | ok sx =>
    rw [hx] at h
    simp only [visitBindDefs] at h
    cases hb : visitBindDef sx b with
    | error e => rw [hb] at h; simp at h
    | ok sb =>
      rw [hb] at h
      simp only [Except.ok.injEq] at h
      obtain ⟨id, hm, _, _, _, hs⟩ := visitBindDef_ok sx sb b hb hn
      rw [← h, hs]
      simp only [boundMsg]
      rw [mapGet_mapUpdate_self _ _ _ _ hm]
      rfl

/-- C12. A `bind` directive may stand anywhere. When `DoAnalyze` (on an analyzer that has
not run yet) accepts a program whose last declaration is `bind ID Msg`, it accepts the
program with the directive moved in front of any number of the other declarations, in
particular in front of the `defmid` group that declares `ID` and of the `defmsg` that
declares `Msg`; it leaves the same analyzer in both cases, with `Msg` recorded as the
bound message of `ID`, and the same declarations. -/
theorem bind_position_is_irrelevant (se : semanticAnalyzer) (ms : String)
    (pre post : List Decl) (b : AstBindDef) (hfp : se.firstPass = true)
    (hlast : (DoAnalyze se { mspace := ms, decl_list := pre ++ post ++ [.bindDef b] }).toBool
      = true) :
    ∃ se2 pre1 post1,
      DoAnalyze se { mspace := ms, decl_list := pre ++ post ++ [.bindDef b] } =
        .ok (se2, { mspace := ms, decl_list := pre1 ++ post1 ++ [.bindDef b] })
      ∧ DoAnalyze se { mspace := ms, decl_list := pre ++ .bindDef b :: post } =
        .ok (se2, { mspace := ms, decl_list := pre1 ++ .bindDef b :: post1 })
      ∧ (b.msgName ≠ "" → boundMsg se2 b.msgId = some b.msgName) := by
  by_cases hms : ms = ""
  · simp [DoAnalyze, visitProgram, hms, Except.toBool] at hlast
  cases hA : visitDecls se pre with
  | error e =>
    simp [DoAnalyze, visitProgram, hms, List.append_assoc, visitDecls_append, hA,
      Except.toBool] at hlast
  | ok rA =>
    obtain ⟨sA, pre1⟩ := rA
    have hfpA : sA.firstPass = true := by rw [visitDecls_firstPass pre se sA pre1 hA]; exact hfp
    cases hB : visitDecls sA post with
    | error e =>
      simp [DoAnalyze, visitProgram, hms, List.append_assoc, visitDecls_append, hA, hB,
        Except.toBool] at hlast
    | ok rB =>
      obtain ⟨sB, post1⟩ := rB
      have hfpB : sB.firstPass = true := by
        rw [visitDecls_firstPass post sA sB post1 hB]; exact hfpA
      have hend : visitDecls sB [.bindDef b] = .ok (sB, [.bindDef b]) := by
        simp [visitDecls, visitDecl, hfpB]
      have hlast1 : visitDecls se (pre ++ post ++ [.bindDef b]) =
          .ok (sB, pre1 ++ post1 ++ [.bindDef b]) := by
        rw [visitDecls_append, visitDecls_append, hA]
        simp only [hB, hend]
      have hearly1 : visitDecls se (pre ++ .bindDef b :: post) =
          .ok (sB, pre1 ++ .bindDef b :: post1) := by
        rw [visitDecls_append, hA]
        simp only [visitDecls, visitDecl_bind_first sA b hfpA, hB]
      have hbl : (pre1 ++ post1 ++ [Decl.bindDef b]).filterMap bindOf =
          pre1.filterMap bindOf ++ post1.filterMap bindOf ++ [b] := by
        simp [List.filterMap_append, bindOf]
      have hbe : (pre1 ++ Decl.bindDef b :: post1).filterMap bindOf =
          pre1.filterMap bindOf ++ b :: post1.filterMap bindOf := by
        simp [List.filterMap_append, bindOf]
      rw [doAnalyze_two_passes se sB ms _ _ hms hlast1, hbl] at hlast
      rw [doAnalyze_two_passes se sB ms _ _ hms hlast1, hbl,
        doAnalyze_two_passes se sB ms _ _ hms hearly1, hbe]
      cases hC : visitBindDefs { sB with firstPass := false }
          (pre1.filterMap bindOf ++ post1.filterMap bindOf ++ [b]) with
      | error e =>
        rw [hC] at hlast
        simp [Except.toBool] at hlast
      | ok s2 =>
        have hE : visitBindDefs { sB with firstPass := false }
            (pre1.filterMap bindOf ++ b :: post1.filterMap bindOf) = .ok s2 := by
          rw [List.append_assoc, visitBindDefs_append] at hC
          rw [visitBindDefs_append]
          cases hx : visitBindDefs { sB with firstPass := false } (pre1.filterMap bindOf) with
          | error e => rw [hx] at hC; simp at hC
          | ok sx =>
            rw [hx] at hC
            simp only [] at hC ⊢
            exact visitBindDefs_move b _ sx s2 hC
        refine ⟨{ s2 with firstPass := false }, pre1, post1, ?_, ?_, ?_⟩
        · rfl
        · rw [hE]
        · intro hn
          have := visitBindDefs_last _ b _ s2 hC hn
          simpa [boundMsg] using this

/-- Witness of C12: scenario S5, whose last declaration is `bind ON Light`, and the same
program with the directive first. -/
theorem bind_position_is_irrelevant_witness :
    ∃ se2 pre1 post1,
      DoAnalyze NewSemanticAnalyzer
          { mspace := "test",
            decl_list := [] ++ [.idGroupDef idGroupM, .structType msgLight]
              ++ [.bindDef bindOnLight] } =
        .ok (se2, { mspace := "test", decl_list := pre1 ++ post1 ++ [.bindDef bindOnLight] })
      ∧ DoAnalyze NewSemanticAnalyzer
          { mspace := "test",
            decl_list := [] ++ .bindDef bindOnLight ::
              [.idGroupDef idGroupM, .structType msgLight] } =
        .ok (se2, { mspace := "test", decl_list := pre1 ++ .bindDef bindOnLight :: post1 })
      ∧ (bindOnLight.msgName ≠ "" → boundMsg se2 bindOnLight.msgId = some bindOnLight.msgName) :=
  bind_position_is_irrelevant NewSemanticAnalyzer "test" []
    [.idGroupDef idGroupM, .structType msgLight] bindOnLight rfl (by rfl)

/-! ## An id is bound to a message once (semantic.go, `visitBindDef`) -/

theorem visitDecl_bindOf (se se1 : semanticAnalyzer) (d d1 : Decl)
    (h : visitDecl se d = .ok (se1, d1)) : bindOf d1 = bindOf d := by
  cases d with
  | varDecl node =>
    simp only [visitDecl] at h
    split at h
    · cases hv : visitVarDecl se node with
      | error e => rw [hv] at h; simp at h
      | ok r => rw [hv] at h; simp only [Except.ok.injEq, Prod.mk.injEq] at h; rw [← h.2]
    · simp only [Except.ok.injEq, Prod.mk.injEq] at h; rw [← h.2]
  | idGroupDef node =>
    simp only [visitDecl] at h
    split at h
    · cases hv : visitIdGroupDefine se node with
      | error e => rw [hv] at h; simp at h
      | ok r => rw [hv] at h; simp only [Except.ok.injEq, Prod.mk.injEq] at h; rw [← h.2]; rfl
    · simp only [Except.ok.injEq, Prod.mk.injEq] at h; rw [← h.2]
  | constDef node =>
    simp only [visitDecl] at h
    split at h
    · cases hv : visitConstDef se node with
      | error e => rw [hv] at h; simp at h
      | ok r => rw [hv] at h; simp only [Except.ok.injEq, Prod.mk.injEq] at h; rw [← h.2]
    · simp only [Except.ok.injEq, Prod.mk.injEq] at h; rw [← h.2]
  | structType node =>
    simp only [visitDecl] at h
    split at h
    · cases hv : visitMsgDefine se node with
      | error e => rw [hv] at h; simp at h
      | ok r => rw [hv] at h; simp only [Except.ok.injEq, Prod.mk.injEq] at h; rw [← h.2]
    · simp only [Except.ok.injEq, Prod.mk.injEq] at h; rw [← h.2]
  | externVar node =>
    simp only [visitDecl] at h
    split at h
    · cases hv : visitExternVar se node with
      | error e => rw [hv] at h; simp at h
      | ok r => rw [hv] at h; simp only [Except.ok.injEq, Prod.mk.injEq] at h; rw [← h.2]
    · simp only [Except.ok.injEq, Prod.mk.injEq] at h; rw [← h.2]
  | bindDef node =>
    simp only [visitDecl] at h
    split at h
    · cases hv : visitBindDef se node with
      | error e => rw [hv] at h; simp at h
      | ok r => rw [hv] at h; simp only [Except.ok.injEq, Prod.mk.injEq] at h; rw [← h.2]
    · simp only [Except.ok.injEq, Prod.mk.injEq] at h; rw [← h.2]
  | srcComment node =>
    simp only [visitDecl, Except.ok.injEq, Prod.mk.injEq] at h; rw [← h.2]
  | typeDef node =>
    simp only [visitDecl, Except.ok.injEq, Prod.mk.injEq] at h; rw [← h.2]

theorem visitDecls_binds (decls : List Decl) :
    ∀ (se se1 : semanticAnalyzer) (decls1 : List Decl),
      visitDecls se decls = .ok (se1, decls1) →
      decls1.filterMap bindOf = decls.filterMap bindOf := by
  induction decls with
  | nil =>
    intro se se1 decls1 h
    simp only [visitDecls, Except.ok.injEq, Prod.mk.injEq] at h
    rw [← h.2]
  | cons d rest ih =>
    intro se se1 decls1 h
    simp only [visitDecls] at h
    cases hd : visitDecl se d with
    | error e => rw [hd] at h; simp at h
    | ok r =>
      obtain ⟨se2, d1⟩ := r
      rw [hd] at h
      simp only [] at h
      cases hr : visitDecls se2 rest with
      | error e => rw [hr] at h; simp at h
      | ok r2 =>
        obtain ⟨se3, rest1⟩ := r2
        rw [hr] at h
        simp only [Except.ok.injEq, Prod.mk.injEq] at h
        rw [← h.2]
        simp only [List.filterMap_cons, visitDecl_bindOf se se2 d d1 hd, ih se2 se3 rest1 hr]

theorem bound_step (s s1 : semanticAnalyzer) (b : AstBindDef) (id : String)
    (hb : ∃ v, mapGet s.midMap id = some v ∧ v.bindMsg ≠ "")
    (h : visitBindDef s b = .ok s1) : ∃ v, mapGet s1.midMap id = some v ∧ v.bindMsg ≠ "" := by
  by_cases hn : b.msgName = ""
  · rw [visitBindDef_nil s b hn] at h
    cases h
    exact hb
  · obtain ⟨idb, hm, _, hbm, _, hs⟩ := visitBindDef_ok s s1 b h hn
    obtain ⟨v, hv, hvb⟩ := hb
    have hne : b.msgId ≠ id := by
      intro heq
      rw [heq, hv] at hm
      simp only [Option.some.injEq] at hm
      rw [hm] at hvb
      exact hvb hbm
    rw [hs]
    simp only []
    rw [mapGet_mapUpdate_ne _ _ _ _ hne]
    exact ⟨v, hv, hvb⟩

theorem bound_steps (bs : List AstBindDef) (id : String) :
    ∀ (s s1 : semanticAnalyzer), (∃ v, mapGet s.midMap id = some v ∧ v.bindMsg ≠ "") →
      visitBindDefs s bs = .ok s1 → ∃ v, mapGet s1.midMap id = some v ∧ v.bindMsg ≠ "" := by
  induction bs with
  | nil =>
    intro s s1 hb h
    simp only [visitBindDefs, Except.ok.injEq] at h
    rw [← h]
    exact hb
  | cons b rest ih =>
    intro s s1 hb h
    simp only [visitBindDefs] at h
    cases hv : visitBindDef s b with
    | error e => rw [hv] at h; simp at h
    | ok s2 =>
      rw [hv] at h
      exact ih s2 s1 (bound_step s s2 b id hb hv) h

theorem visitBindDefs_error_of_double (xs ys zs : List AstBindDef) (b1 b2 : AstBindDef)
    (s : semanticAnalyzer) (hid : b1.msgId = b2.msgId) (h1 : b1.msgName ≠ "")
    (h2 : b2.msgName ≠ "") :
    ∃ e, visitBindDefs s (xs ++ b1 :: (ys ++ b2 :: zs)) = .error e := by
  rw [visitBindDefs_append]
  cases hx : visitBindDefs s xs with
  | error e => exact ⟨e, rfl⟩
  | ok sx =>
    simp only [visitBindDefs]
    cases hb1 : visitBindDef sx b1 with
    | error e => exact ⟨e, rfl⟩
    | ok s1 =>
      simp only []
      rw [visitBindDefs_append]
      cases hy : visitBindDefs s1 ys with
      | error e => exact ⟨e, rfl⟩
      | ok sy =>
        simp only [visitBindDefs]
        cases hb2 : visitBindDef sy b2 with
        | error e => exact ⟨e, rfl⟩
        | ok s2 =>
          exfalso
          obtain ⟨id1, hm1, _, _, _, hs1⟩ := visitBindDef_ok sx s1 b1 hb1 h1
          have hbound : ∃ v, mapGet s1.midMap b1.msgId = some v ∧ v.bindMsg ≠ "" := by
            rw [hs1]
            simp only []
            rw [mapGet_mapUpdate_self _ _ _ _ hm1]
            exact ⟨_, rfl, h1⟩
          obtain ⟨v, hv, hvb⟩ := bound_steps ys b1.msgId s1 sy hbound hy
          obtain ⟨id2, hm2, _, hb2m, _, _⟩ := visitBindDef_ok sy s2 b2 hb2 h2
          rw [← hid, hv] at hm2
          simp only [Option.some.injEq] at hm2
          rw [hm2] at hvb
          exact hvb hb2m

/-- C13 (amended). For every program that contains two `bind` directives which name the
same message id and each name a message (`bind ID Msg1` ... `bind ID Msg2`), `DoAnalyze`
returns an error. A directive `bind ID nil` is not counted: `visitBindDef` returns at once
for it. -/
theorem double_bind_to_messages_rejected (se : semanticAnalyzer) (ms : String)
    (a m c : List Decl) (b1 b2 : AstBindDef) (hid : b1.msgId = b2.msgId)
    (h1 : b1.msgName ≠ "") (h2 : b2.msgName ≠ "") :
    ∃ e, DoAnalyze se
      { mspace := ms, decl_list := a ++ .bindDef b1 :: (m ++ .bindDef b2 :: c) } = .error e := by
  by_cases hms : ms = ""
  · exact ⟨.noMspace, by simp [DoAnalyze, visitProgram, hms]⟩
  cases hv : visitDecls se (a ++ .bindDef b1 :: (m ++ .bindDef b2 :: c)) with
  | error e => exact doAnalyze_error_of_visitDecls se _ ⟨e, hv⟩
  | ok r =>
    obtain ⟨sB, decls1⟩ := r
    rw [doAnalyze_two_passes se sB ms _ _ hms hv, visitDecls_binds _ se sB decls1 hv]
    have hb : (a ++ Decl.bindDef b1 :: (m ++ Decl.bindDef b2 :: c)).filterMap bindOf =
        a.filterMap bindOf ++ b1 :: (m.filterMap bindOf ++ b2 :: c.filterMap bindOf) := by
      simp [List.filterMap_append, bindOf]
    rw [hb]
    obtain ⟨e, he⟩ := visitBindDefs_error_of_double (a.filterMap bindOf) (m.filterMap bindOf)
      (c.filterMap bindOf) b1 b2 { sB with firstPass := false } hid h1 h2
    rw [he]
    exact ⟨e, rfl⟩

/-- Witness of C13 (amended): scenario S6, `bind ON Light` followed by `bind ON Lamp`,
after the id group of scenario S5 and the messages `Light` and `Lamp`. -/
theorem double_bind_to_messages_rejected_witness :
    ∃ e, DoAnalyze NewSemanticAnalyzer
      { mspace := "test",
        decl_list :=
          [.idGroupDef idGroupM, .structType msgLight,
            .structType { msgLight with name := "Lamp" }] ++ .bindDef bindOnLight ::
          ([] ++ .bindDef { msgName := "Lamp", msgId := "ON", line := 5 } :: []) } = .error e :=
  double_bind_to_messages_rejected NewSemanticAnalyzer "test"
    [.idGroupDef idGroupM, .structType msgLight, .structType { msgLight with name := "Lamp" }]
    [] [] bindOnLight { msgName := "Lamp", msgId := "ON", line := 5 } rfl (by decide) (by decide)

/-- Counterexample to C13: `bind ON nil` followed by `bind ON Light` names the id `ON`
twice, and the program is accepted; `ON` is bound to `Light`, and the emitted `switch`
has two lines `case ON:`. -/
theorem bind_nil_then_bind_message_accepted :
    (compile 100 tokensBindNil).map (fun r => (programBinds r.2, boundMsg r.1 "ON")) =
        .ok ([{ msgName := "", msgId := "ON", line := 4 },
              { msgName := "Light", msgId := "ON", line := 5 }], some "Light")
      ∧ (visitBindEncode_Go NewInterpreter "test"
            [{ msgName := "", msgId := "ON", line := 4 },
             { msgName := "Light", msgId := "ON", line := 5 }]).map
          (fun i => (i.out.filter fun l => l.format = "case %s:").map Line.text) =
        .ok [("case %s:", [.str "ON"]), ("case %s:", [.str "ON"])] :=
  ⟨by rfl, by rfl⟩

/-- C14 (the code at the failing input). `bind ON MAX`, where `MAX` is a constant, is
accepted and `MAX` is recorded as the message of `ON`; so are `bind ON void` (a built-in
type name), `bind ON dev` (an extern) and `bind ON G` (an id group): `visitBindDef` only
tests that the name is in the symbol table. -/
theorem bind_to_non_message_accepted :
    (compile 100 tokensBindConst).map (fun r => boundMsg r.1 "ON") = .ok (some "MAX")
      ∧ (compile 100 tokensBindVoid).map (fun r => boundMsg r.1 "ON") = .ok (some "void")
      ∧ (compile 100 (tokensBindOther "dev")).map (fun r => boundMsg r.1 "ON") = .ok (some "dev")
      ∧ (compile 100 (tokensBindOther "G")).map (fun r => boundMsg r.1 "ON") = .ok (some "G") :=
  ⟨by rfl, by rfl, by rfl, by rfl⟩

/-! ## The parser only consumes tokens (parser.go) -/

theorem eat_pending (p p1 : hskParser) (t : TokenType) (h : eat p t = .ok p1) :
    p1.pending <:+ p.pending := by
  unfold eat at h
  split at h
  · cases hl : p.lex with
    | nil => rw [hl] at h; simp at h
    | cons tok rest =>
      rw [hl] at h
      simp only [Except.ok.injEq] at h
      rw [← h]
      simp only [hskParser.pending, hl]
      exact List.suffix_cons _ _
  · simp at h

theorem eatSeperator_pending (p p1 : hskParser) (h : eatSeperator p = .ok p1) :
    p1.pending <:+ p.pending := by
  unfold eatSeperator at h
  split at h
  · exact eat_pending p p1 _ h
  · split at h
    · split at h
      · simp at h
      · simp only [Except.ok.injEq] at h
        rw [← h]
    · simp only [Except.ok.injEq] at h
      rw [← h]

theorem type_spec_pending (fuel : Nat) :
    ∀ (p : hskParser) (r : AstType × hskParser), type_spec fuel p = .ok r →
      r.2.pending <:+ p.pending := by
  induction fuel with
  | zero => intro p r h; simp [type_spec] at h
  | succ n ih =>
    intro p r h
    unfold type_spec at h
    split at h
    · cases h1 : eat p p.curToken.type_ with
      | error e => rw [h1] at h; simp at h
      | ok p1 =>
        rw [h1] at h
        simp only [Except.ok.injEq] at h
        rw [← h]
        exact eat_pending _ _ _ h1
    · split at h
      · cases h1 : eat p .LBRACKET with
        | error e => rw [h1] at h; simp at h
        | ok p1 =>
          rw [h1] at h
          simp only [] at h
          cases h2 : eat p1 .RBRACKET with
          | error e => rw [h2] at h; simp at h
          | ok p2 =>
            rw [h2] at h
            simp only [] at h
            cases h3 : type_spec n p2 with
            | error e => rw [h3] at h; simp at h
            | ok r3 =>
              rw [h3] at h
              simp only [Except.ok.injEq] at h
              rw [← h]
              exact (ih p2 r3 h3).trans ((eat_pending _ _ _ h2).trans (eat_pending _ _ _ h1))
      · split at h
        · cases h1 : eat p .ID with
          | error e => rw [h1] at h; simp at h
          | ok p1 =>
            rw [h1] at h
            simp only [] at h
            split at h
            · simp only [Except.ok.injEq] at h
              rw [← h]
              exact eat_pending p p1 _ h1
            · simp only [Except.ok.injEq] at h
              rw [← h]
              exact eat_pending p p1 _ h1
        · simp at h

theorem binLoop_pending (ops : List TokenType) (lower : ExprParser) (hl : Shrinks lower)
    (fuel : Nat) :
    ∀ (node : AstNode) (p : hskParser) (r : AstNode × hskParser),
      binLoop ops lower fuel node p = .ok r → r.2.pending <:+ p.pending := by
  induction fuel with
  | zero => intro node p r h; simp [binLoop] at h
  | succ n ih =>
    intro node p r h
    unfold binLoop at h
    split at h
    · simp only [] at h
      cases h1 : eat p p.curToken.type_ with
      | error e => rw [h1] at h; simp at h
      | ok p1 =>
        rw [h1] at h
        simp only [] at h
        cases h2 : lower p1 with
        | error e => rw [h2] at h; simp at h
        | ok r2 =>
          rw [h2] at h
          simp only [] at h
          exact (ih _ _ r h).trans ((hl p1 r2 h2).trans (eat_pending _ _ _ h1))
    · simp only [Except.ok.injEq] at h
      rw [← h]

theorem binLevel_shrinks (ops : List TokenType) (lower : ExprParser) (hl : Shrinks lower)
    (fuel : Nat) : Shrinks (binLevel ops lower fuel) := by
  intro p r h
  unfold binLevel at h
  cases h1 : lower p with
  | error e => rw [h1] at h; simp at h
  | ok r1 =>
    rw [h1] at h
    simp only [] at h
    exact (binLoop_pending ops lower hl fuel _ _ r h).trans (hl p r1 h1)

theorem varRefLoop_pending (exprRec : ExprParser) (he : Shrinks exprRec) (fuel : Nat) :
    ∀ (ast : AstNode) (p : hskParser) (r : AstNode × hskParser),
      varRefLoop exprRec fuel ast p = .ok r → r.2.pending <:+ p.pending := by
  induction fuel with
  | zero => intro ast p r h; simp [varRefLoop] at h
  | succ n ih =>
    intro ast p r h
    unfold varRefLoop at h
    split at h
    · simp only [] at h
      cases h1 : eat p .LBRACKET with
      | error e => rw [h1] at h; simp at h
      | ok p1 =>
        rw [h1] at h
        simp only [] at h
        cases h2 : exprRec p1 with
        | error e => rw [h2] at h; simp at h
        | ok r2 =>
          rw [h2] at h
          simp only [] at h
          cases h3 : eat r2.2 .RBRACKET with
          | error e => rw [h3] at h; simp at h
          | ok p3 =>
            rw [h3] at h
            simp only [] at h
            exact (ih _ _ r h).trans ((eat_pending _ _ _ h3).trans
              ((he p1 r2 h2).trans (eat_pending _ _ _ h1)))
    · split at h
      · simp only [] at h
        cases h1 : eat p .DOT with
        | error e => rw [h1] at h; simp at h
        | ok p1 =>
          rw [h1] at h
          simp only [] at h
          cases h2 : eat p1 .ID with
          | error e => rw [h2] at h; simp at h
          | ok p2 =>
            rw [h2] at h
            simp only [] at h
            exact (ih _ _ r h).trans ((eat_pending _ _ _ h2).trans (eat_pending _ _ _ h1))
      · simp only [Except.ok.injEq] at h
        rw [← h]

theorem var_ref_shrinks (exprRec : ExprParser) (he : Shrinks exprRec) (fuel : Nat) :
    Shrinks (var_ref exprRec fuel) := by
  intro p r h
  unfold var_ref at h
  simp only [] at h
  split at h
  · simp at h
  · rename_i this p1 hstart
    cases h2 : eat p1 .ID with
    | error e => rw [h2] at h; simp at h
    | ok p2 =>
      rw [h2] at h
      simp only [] at h
      have hp1 : p1.pending <:+ p.pending := by
        split at hstart
        · cases h3 : eat p .THIS with
          | error e => rw [h3] at hstart; simp at hstart
          | ok q1 =>
            rw [h3] at hstart
            simp only [] at hstart
            cases h4 : eat q1 .DOT with
            | error e => rw [h4] at hstart; simp at hstart
            | ok q2 =>
              rw [h4] at hstart
              simp only [Except.ok.injEq, Prod.mk.injEq] at hstart
              rw [← hstart.2]
              exact (eat_pending _ _ _ h4).trans (eat_pending _ _ _ h3)
        · simp only [Except.ok.injEq, Prod.mk.injEq] at hstart
          rw [← hstart.2]
      exact (varRefLoop_pending exprRec he fuel _ _ r h).trans
        ((eat_pending _ _ _ h2).trans hp1)

theorem factor_pending (exprRec : ExprParser) (he : Shrinks exprRec) (fuel : Nat) :
    Shrinks (factor exprRec fuel) := by
  induction fuel with
  | zero => intro p r h; simp [factor] at h
  | succ n ih =>
    intro p r h
    unfold factor at h
    simp only [] at h
    split at h
    · cases h1 : eat p p.curToken.type_ with
      | error e => rw [h1] at h; simp at h
      | ok p1 =>
        rw [h1] at h
        simp only [] at h
        cases h2 : factor exprRec n p1 with
        | error e => rw [h2] at h; simp at h
        | ok r2 =>
          rw [h2] at h
          simp only [Except.ok.injEq] at h
          rw [← h]
          exact (ih p1 r2 h2).trans (eat_pending _ _ _ h1)
    · split at h
      · cases h1 : eat p .INT_CONST with
        | error e => rw [h1] at h; simp at h
        | ok p1 =>
          rw [h1] at h
          simp only [Except.ok.injEq] at h
          rw [← h]
          exact eat_pending p p1 _ h1
      · split at h
        · cases h1 : eat p .STRING_CONST with
          | error e => rw [h1] at h; simp at h
          | ok p1 =>
            rw [h1] at h
            simp only [Except.ok.injEq] at h
            rw [← h]
            exact eat_pending p p1 _ h1
        · split at h
          · exact var_ref_shrinks exprRec he n p r h
          · split at h
            · cases h1 : eat p .LPAREN with
              | error e => rw [h1] at h; simp at h
              | ok p1 =>
                rw [h1] at h
                simp only [] at h
                cases h2 : exprRec p1 with
                | error e => rw [h2] at h; simp at h
                | ok r2 =>
                  rw [h2] at h
                  simp only [] at h
                  cases h3 : eat r2.2 .RPAREN with
                  | error e => rw [h3] at h; simp at h
                  | ok p3 =>
                    rw [h3] at h
                    simp only [Except.ok.injEq] at h
                    rw [← h]
                    exact (eat_pending r2.2 p3 _ h3).trans
                      ((he p1 r2 h2).trans (eat_pending _ _ _ h1))
            · simp at h

theorem expr_and_shrinks (exprRec : ExprParser) (he : Shrinks exprRec) (fuel : Nat) :
    Shrinks (expr_and exprRec fuel) := by
  unfold expr_and expr_bitOr expr_bitAnd expr_equ expr_comp expr_shift expr_add expr_mul
  exact binLevel_shrinks _ _ (binLevel_shrinks _ _ (binLevel_shrinks _ _ (binLevel_shrinks _ _
    (binLevel_shrinks _ _ (binLevel_shrinks _ _ (binLevel_shrinks _ _ (binLevel_shrinks _ _
      (factor_pending exprRec he fuel) _) _) _) _) _) _) _) _

theorem expr_shrinks (fuel : Nat) : Shrinks (expr fuel) := by
  induction fuel with
  | zero => intro p r h; simp [expr] at h
  | succ n ih =>
    intro p r h
    unfold expr at h
    exact binLevel_shrinks _ _ (expr_and_shrinks _ ih _) _ p r h

theorem const_decl_pending (fuel : Nat) (p : hskParser) (r : AstConstDef × hskParser)
    (h : const_decl fuel p = .ok r) : r.2.pending <:+ p.pending := by
  unfold const_decl at h
  cases h1 : eat p .CONST with
  | error e => rw [h1] at h; simp at h
  | ok p1 =>
    rw [h1] at h
    simp only [] at h
    cases h2 : eat p1 .ID with
    | error e => rw [h2] at h; simp at h
    | ok p2 =>
      rw [h2] at h
      simp only [] at h
      cases h3 : expr fuel p2 with
      | error e => rw [h3] at h; simp at h
      | ok r3 =>
        rw [h3] at h
        simp only [Except.ok.injEq] at h
        rw [← h]
        exact (expr_shrinks fuel p2 r3 h3).trans
          ((eat_pending _ _ _ h2).trans (eat_pending _ _ _ h1))

theorem msg_bind_pending (p : hskParser) (r : AstBindDef × hskParser)
    (h : msg_bind p = .ok r) : r.2.pending <:+ p.pending := by
  unfold msg_bind at h
  cases h1 : eat p .DEFBIND with
  | error e => rw [h1] at h; simp at h
  | ok p1 =>
    rw [h1] at h
    simp only [] at h
    cases h2 : eat p1 .ID with
    | error e => rw [h2] at h; simp at h
    | ok p2 =>
      rw [h2] at h
      simp only [] at h
      split at h
      · cases h3 : eat p2 .NIL with
        | error e => rw [h3] at h; simp at h
        | ok p3 =>
          rw [h3] at h
          simp only [Except.ok.injEq] at h
          rw [← h]
          exact (eat_pending p2 p3 _ h3).trans
            ((eat_pending _ _ _ h2).trans (eat_pending _ _ _ h1))
      · cases h3 : eat p2 .ID with
        | error e => rw [h3] at h; simp at h
        | ok p3 =>
          rw [h3] at h
          simp only [Except.ok.injEq] at h
          rw [← h]
          exact (eat_pending p2 p3 _ h3).trans
            ((eat_pending _ _ _ h2).trans (eat_pending _ _ _ h1))

theorem msgidItem_decl_pending (p : hskParser) (r : idItem × hskParser)
    (h : msgidItem_decl p = .ok r) : r.2.pending <:+ p.pending := by
  unfold msgidItem_decl at h
  simp only [] at h
  cases h1 : eat p .ID with
  | error e => rw [h1] at h; simp at h
  | ok p1 =>
    rw [h1] at h
    simp only [] at h
    split at h
    · cases h2 : eat p1 .ASSIGN with
      | error e => rw [h2] at h; simp at h
      | ok p2 =>
        rw [h2] at h
        simp only [] at h
        cases h3 : eat p2 .INT_CONST with
        | error e => rw [h3] at h; simp at h
        | ok p3 =>
          rw [h3] at h
          simp only [Except.ok.injEq] at h
          rw [← h]
          exact (eat_pending p2 p3 _ h3).trans
            ((eat_pending _ _ _ h2).trans (eat_pending _ _ _ h1))
    · simp only [Except.ok.injEq] at h
      rw [← h]
      exact eat_pending p p1 _ h1

theorem idNotes_pending (fuel : Nat) :
    ∀ (notes : List AstSrcComment) (p : hskParser) (r : List AstSrcComment × hskParser),
      idNotes fuel notes p = .ok r → r.2.pending <:+ p.pending := by
  induction fuel with
  | zero => intro notes p r h; simp [idNotes] at h
  | succ n ih =>
    intro notes p r h
    unfold idNotes at h
    split at h
    · cases h1 : eat p .SCOMMENT with
      | error e => rw [h1] at h; simp at h
      | ok p1 =>
        rw [h1] at h
        simp only [] at h
        exact (ih _ _ r h).trans (eat_pending _ _ _ h1)
    · simp only [Except.ok.injEq] at h
      rw [← h]

theorem idItemsLoop_pending (fuel : Nat) :
    ∀ (items : List idItem) (notes : List AstSrcComment) (p : hskParser)
      (r : List idItem × List AstSrcComment × hskParser),
      idItemsLoop fuel items notes p = .ok r → r.2.2.pending <:+ p.pending := by
  induction fuel with
  | zero => intro items notes p r h; simp [idItemsLoop] at h
  | succ n ih =>
    intro items notes p r h
    unfold idItemsLoop at h
    split at h
    · cases h1 : eat p .COMMA with
      | error e => rw [h1] at h; simp at h
      | ok p1 =>
        rw [h1] at h
        simp only [] at h
        split at h
        · cases h2 : eat p1 .SCOMMENT with
          | error e => rw [h2] at h; simp at h
          | ok p2 =>
            rw [h2] at h
            simp only [] at h
            cases h3 : msgidItem_decl p2 with
            | error e => rw [h3] at h; simp at h
            | ok r3 =>
              rw [h3] at h
              simp only [] at h
              exact (ih _ _ _ r h).trans ((msgidItem_decl_pending p2 r3 h3).trans
                ((eat_pending _ _ _ h2).trans (eat_pending _ _ _ h1)))
        · split at h
          · simp only [Except.ok.injEq] at h
            rw [← h]
            exact eat_pending p p1 _ h1
          · cases h3 : msgidItem_decl p1 with
            | error e => rw [h3] at h; simp at h
            | ok r3 =>
              rw [h3] at h
              simp only [] at h
              exact (ih _ _ _ r h).trans ((msgidItem_decl_pending p1 r3 h3).trans
                (eat_pending _ _ _ h1))
    · split at h
      · cases h1 : eat p .SCOMMENT with
        | error e => rw [h1] at h; simp at h
        | ok p1 =>
          rw [h1] at h
          simp only [] at h
          exact (ih _ _ _ r h).trans (eat_pending _ _ _ h1)
      · simp only [Except.ok.injEq] at h
        rw [← h]

theorem idGroupBody_pending (fuel : Nat) (isMsgId : Bool) (p : hskParser)
    (r : AstIdGroupDef × hskParser) (h : idGroupBody fuel isMsgId p = .ok r) :
    r.2.pending <:+ p.pending := by
  unfold idGroupBody at h
  simp only [] at h
  cases h1 : eat p .ID with
  | error e => rw [h1] at h; simp at h
  | ok p1 =>
    rw [h1] at h
    simp only [] at h
    cases h2 : eat p1 .LBRACE with
    | error e => rw [h2] at h; simp at h
    | ok p2 =>
      rw [h2] at h
      simp only [] at h
      cases h3 : idNotes fuel [] p2 with
      | error e => rw [h3] at h; simp at h
      | ok r3 =>
        rw [h3] at h
        simp only [] at h
        have h12 : r3.2.pending <:+ p.pending :=
          (idNotes_pending fuel _ _ r3 h3).trans
            ((eat_pending _ _ _ h2).trans (eat_pending _ _ _ h1))
        split at h
        · simp at h
        · rename_i items notes2 p5 hbody
          have h5 : p5.pending <:+ r3.2.pending := by
            split at hbody
            · cases h4 : msgidItem_decl r3.2 with
              | error e => rw [h4] at hbody; simp at hbody
              | ok r4 =>
                rw [h4] at hbody
                simp only [] at hbody
                exact (idItemsLoop_pending fuel _ _ _ _ hbody).trans
                  (msgidItem_decl_pending _ r4 h4)
            · simp only [Except.ok.injEq, Prod.mk.injEq] at hbody
              rw [← hbody.2.2]
          cases h6 : idNotes fuel notes2 p5 with
          | error e => rw [h6] at h; simp at h
          | ok r6 =>
            rw [h6] at h
            simp only [] at h
            cases h7 : eat r6.2 .RBRACE with
            | error e => rw [h7] at h; simp at h
            | ok p7 =>
              rw [h7] at h
              simp only [Except.ok.injEq] at h
              rw [← h]
              exact (eat_pending r6.2 p7 _ h7).trans
                ((idNotes_pending fuel _ _ r6 h6).trans (h5.trans h12))

theorem id_decl_pending (fuel : Nat) (p : hskParser) (r : AstIdGroupDef × hskParser)
    (h : id_decl fuel p = .ok r) : r.2.pending <:+ p.pending := by
  unfold id_decl at h
  cases h1 : eat p .DEFID with
  | error e => rw [h1] at h; simp at h
  | ok p1 =>
    rw [h1] at h
    exact (idGroupBody_pending fuel false p1 r h).trans (eat_pending _ _ _ h1)

theorem msgid_decl_pending (fuel : Nat) (p : hskParser) (r : AstIdGroupDef × hskParser)
    (h : msgid_decl fuel p = .ok r) : r.2.pending <:+ p.pending := by
  unfold msgid_decl at h
  cases h1 : eat p .DEFMID with
  | error e => rw [h1] at h; simp at h
  | ok p1 =>
    rw [h1] at h
    exact (idGroupBody_pending fuel true p1 r h).trans (eat_pending _ _ _ h1)

theorem modifierRef_pending (p : hskParser) (r : VarNameRef × hskParser)
    (h : modifierRef p = .ok r) : r.2.pending <:+ p.pending := by
  unfold modifierRef at h
  simp only [] at h
  cases h1 : eat p .ID with
  | error e => rw [h1] at h; simp at h
  | ok p1 =>
    rw [h1] at h
    simp only [Except.ok.injEq] at h
    rw [← h]
    exact eat_pending p p1 _ h1

theorem fieldModifiers_pending (fuel : Nat) :
    ∀ (ast : AstVarDecl) (has : Bool) (p : hskParser) (r : AstVarDecl × Bool × hskParser),
      fieldModifiers fuel ast has p = .ok r → r.2.2.pending <:+ p.pending := by
  induction fuel with
  | zero => intro ast has p r h; simp [fieldModifiers] at h
  | succ n ih =>
    intro ast has p r h
    unfold fieldModifiers at h
    simp only [] at h
    split at h
    · cases h1 : eat p .LIMIT with
      | error e => rw [h1] at h; simp at h
      | ok p1 =>
        rw [h1] at h
        simp only [] at h
        cases h2 : eat p1 .BY with
        | error e => rw [h2] at h; simp at h
        | ok p2 =>
          rw [h2] at h
          simp only [] at h
          cases h3 : modifierRef p2 with
          | error e => rw [h3] at h; simp at h
          | ok r3 =>
            rw [h3] at h
            simp only [] at h
            exact (ih _ _ _ r h).trans ((modifierRef_pending p2 r3 h3).trans
              ((eat_pending _ _ _ h2).trans (eat_pending _ _ _ h1)))
    · split at h
      · cases h1 : eat p .MAX with
        | error e => rw [h1] at h; simp at h
        | ok p1 =>
          rw [h1] at h
          simp only [] at h
          cases h3 : modifierRef p1 with
          | error e => rw [h3] at h; simp at h
          | ok r3 =>
            rw [h3] at h
            simp only [] at h
            exact (ih _ _ _ r h).trans ((modifierRef_pending p1 r3 h3).trans
              (eat_pending _ _ _ h1))
      · split at h
        · cases h1 : eat p .EQU with
          | error e => rw [h1] at h; simp at h
          | ok p1 =>
            rw [h1] at h
            simp only [] at h
            cases h3 : modifierRef p1 with
            | error e => rw [h3] at h; simp at h
            | ok r3 =>
              rw [h3] at h
              simp only [] at h
              exact (ih _ _ _ r h).trans ((modifierRef_pending p1 r3 h3).trans
                (eat_pending _ _ _ h1))
        · split at h
          · cases h1 : eat p .XOR with
            | error e => rw [h1] at h; simp at h
            | ok p1 =>
              rw [h1] at h
              simp only [] at h
              cases h3 : modifierRef p1 with
              | error e => rw [h3] at h; simp at h
              | ok r3 =>
                rw [h3] at h
                simp only [] at h
                exact (ih _ _ _ r h).trans ((modifierRef_pending p1 r3 h3).trans
                  (eat_pending _ _ _ h1))
          · split at h
            · cases h1 : eat p .EXIST with
              | error e => rw [h1] at h; simp at h
              | ok p1 =>
                rw [h1] at h
                simp only [] at h
                split at h
                · cases h2 : eat p1 .FOLLOW with
                  | error e => rw [h2] at h; simp at h
                  | ok p2 =>
                    rw [h2] at h
                    simp only [] at h
                    cases h3 : eat p2 .ABOVE with
                    | error e => rw [h3] at h; simp at h
                    | ok p3 =>
                      rw [h3] at h
                      simp only [] at h
                      exact (ih _ _ _ r h).trans ((eat_pending _ _ _ h3).trans
                        ((eat_pending _ _ _ h2).trans (eat_pending _ _ _ h1)))
                · cases h2 : eat p1 .IF with
                  | error e => rw [h2] at h; simp at h
                  | ok p2 =>
                    rw [h2] at h
                    simp only [] at h
                    cases h3 : expr n p2 with
                    | error e => rw [h3] at h; simp at h
                    | ok r3 =>
                      rw [h3] at h
                      simp only [] at h
                      exact (ih _ _ _ r h).trans ((expr_shrinks n p2 r3 h3).trans
                        ((eat_pending _ _ _ h2).trans (eat_pending _ _ _ h1)))
            · simp only [Except.ok.injEq] at h
              rw [← h]

theorem field_decl_pending (fuel : Nat) (p : hskParser) (r : AstVarDecl × hskParser)
    (h : field_decl fuel p = .ok r) : r.2.pending <:+ p.pending := by
  unfold field_decl at h
  simp only [] at h
  cases h1 : eat p .ID with
  | error e => rw [h1] at h; simp at h
  | ok p1 =>
    rw [h1] at h
    simp only [] at h
    cases h2 : type_spec fuel p1 with
    | error e => rw [h2] at h; simp at h
    | ok r2 =>
      rw [h2] at h
      simp only [] at h
      have h12 : r2.2.pending <:+ p.pending :=
        (type_spec_pending fuel p1 r2 h2).trans (eat_pending _ _ _ h1)
      split at h
      · simp at h
      · rename_i ast1 p5 hdesc
        have h5 : p5.pending <:+ r2.2.pending := by
          split at hdesc
          · cases h3 : eat r2.2 .DESC with
            | error e => rw [h3] at hdesc; simp at hdesc
            | ok p3 =>
              rw [h3] at hdesc
              simp only [] at hdesc
              cases h4 : fieldModifiers fuel
                  { name := p.curToken.value, type_ := r2.1, line := p.curToken.line } false p3 with
              | error e => rw [h4] at hdesc; simp at hdesc
              | ok r4 =>
                rw [h4] at hdesc
                simp only [] at hdesc
                split at hdesc
                · simp at hdesc
                · simp only [Except.ok.injEq, Prod.mk.injEq] at hdesc
                  rw [← hdesc.2]
                  exact (fieldModifiers_pending fuel _ _ _ r4 h4).trans (eat_pending _ _ _ h3)
          · simp only [Except.ok.injEq, Prod.mk.injEq] at hdesc
            rw [← hdesc.2]
        split at h
        · cases h6 : eat p5 .SCOMMENT with
          | error e => rw [h6] at h; simp at h
          | ok p6 =>
            rw [h6] at h
            simp only [Except.ok.injEq] at h
            rw [← h]
            exact (eat_pending p5 p6 _ h6).trans (h5.trans h12)
        · simp only [Except.ok.injEq] at h
          rw [← h]
          exact h5.trans h12

theorem msgBody_pending (fuel : Nat) :
    ∀ (ast : AstStructDecl) (p : hskParser) (r : AstStructDecl × hskParser),
      msgBody fuel ast p = .ok r → r.2.pending <:+ p.pending := by
  induction fuel with
  | zero => intro ast p r h; simp [msgBody] at h
  | succ n ih =>
    intro ast p r h
    unfold msgBody at h
    split at h
    · split at h
      · simp only [] at h
        cases h1 : eat p .SCOMMENT with
        | error e => rw [h1] at h; simp at h
        | ok p1 =>
          rw [h1] at h
          simp only [] at h
          exact (ih _ _ r h).trans (eat_pending _ _ _ h1)
      · cases h1 : field_decl n p with
        | error e => rw [h1] at h; simp at h
        | ok r1 =>
          rw [h1] at h
          simp only [] at h
          exact (ih _ _ r h).trans (field_decl_pending n p r1 h1)
    · simp only [Except.ok.injEq] at h
      rw [← h]

theorem msg_decl_pending (fuel : Nat) (p : hskParser) (r : AstStructDecl × hskParser)
    (h : msg_decl fuel p = .ok r) : r.2.pending <:+ p.pending := by
  unfold msg_decl at h
  cases h1 : eat p .DEFMSG with
  | error e => rw [h1] at h; simp at h
  | ok p1 =>
    rw [h1] at h
    simp only [] at h
    cases h2 : eat p1 .ID with
    | error e => rw [h2] at h; simp at h
    | ok p2 =>
      rw [h2] at h
      simp only [] at h
      cases h3 : eat p2 .LBRACE with
      | error e => rw [h3] at h; simp at h
      | ok p3 =>
        rw [h3] at h
        simp only [] at h
        cases h4 : msgBody fuel { name := p2.prevValue, line := p2.prevLine, fields := [] } p3 with
        | error e => rw [h4] at h; simp at h
        | ok r4 =>
          rw [h4] at h
          simp only [] at h
          cases h5 : eat r4.2 .RBRACE with
          | error e => rw [h5] at h; simp at h
          | ok p5 =>
            rw [h5] at h
            simp only [Except.ok.injEq] at h
            rw [← h]
            exact (eat_pending r4.2 p5 _ h5).trans ((msgBody_pending fuel _ _ r4 h4).trans
              ((eat_pending _ _ _ h3).trans ((eat_pending _ _ _ h2).trans
                (eat_pending _ _ _ h1))))

theorem type_def_pending (fuel : Nat) (p : hskParser)
    (r : AstTypeDef × hskParser × Option (String × AstType))
    (h : type_def fuel p = .ok r) : r.2.1.pending <:+ p.pending := by
  unfold type_def at h
  cases h1 : eat p .TYPE with
  | error e => rw [h1] at h; simp at h
  | ok p1 =>
    rw [h1] at h
    simp only [] at h
    cases h2 : eat p1 .ID with
    | error e => rw [h2] at h; simp at h
    | ok p2 =>
      rw [h2] at h
      simp only [] at h
      cases h3 : type_spec fuel p2 with
      | error e => rw [h3] at h; simp at h
      | ok r3 =>
        rw [h3] at h
        simp only [] at h
        have h123 : r3.2.pending <:+ p.pending :=
          (type_spec_pending fuel p2 r3 h3).trans
            ((eat_pending _ _ _ h2).trans (eat_pending _ _ _ h1))
        split at h
        · split at h
          · simp at h
          · split at h
            · split at h
              · simp only [Except.ok.injEq] at h
                rw [← h]
                exact h123
              · simp at h
            · simp at h
        · simp only [Except.ok.injEq] at h
          rw [← h]
          exact h123

theorem skipLF_pending (fuel : Nat) :
    ∀ (p p1 : hskParser), skipLF fuel p = .ok p1 → p1.pending <:+ p.pending := by
  induction fuel with
  | zero => intro p p1 h; simp [skipLF] at h
  | succ n ih =>
    intro p p1 h
    unfold skipLF at h
    split at h
    · cases h1 : eat p .LF with
      | error e => rw [h1] at h; simp at h
      | ok q =>
        rw [h1] at h
        simp only [] at h
        exact (ih q p1 h).trans (eat_pending _ _ _ h1)
    · simp only [Except.ok.injEq] at h
      rw [← h]

/-! ## The `mspace` declaration (parser.go, semantic.go) -/

theorem declLoop_mspace (fuel : Nat) :
    ∀ (program : AstProgram) (p : hskParser) (r : AstProgram × hskParser),
      declLoop fuel program p = .ok r → (∀ t ∈ p.pending, t.type_ ≠ .MSPACE) →
      r.1.mspace = program.mspace := by
  induction fuel with
  | zero => intro program p r h; simp [declLoop] at h
  | succ n ih =>
    intro program p r h hclean
    have hsub : ∀ (q : hskParser), q.pending <:+ p.pending →
        ∀ t ∈ q.pending, t.type_ ≠ .MSPACE :=
      fun q hq t ht => hclean t (hq.subset ht)
    have hm : p.curToken.type_ ≠ .MSPACE := hclean p.curToken (List.mem_cons_self _ _)
    unfold declLoop at h
    change (if p.curToken.type_ = .EOF then _ else _) = _ at h
    by_cases c1 : p.curToken.type_ = .EOF
    · rw [if_pos c1] at h
      simp only [Except.ok.injEq] at h
      rw [← h]
    rw [if_neg c1, if_neg hm] at h
    by_cases c3 : p.curToken.type_ = .CONST
    · rw [if_pos c3] at h
      cases h1 : const_decl n p with
      | error e => rw [h1] at h; simp at h
      | ok r1 =>
        rw [h1] at h
        simp only [] at h
        cases h2 : eatSeperator r1.2 with
        | error e => rw [h2] at h; simp at h
        | ok p2 =>
          rw [h2] at h
          simp only [] at h
          exact (ih _ _ r h (hsub p2 ((eatSeperator_pending _ _ h2).trans
            (const_decl_pending n p r1 h1))) :)
    rw [if_neg c3] at h
    by_cases c4 : p.curToken.type_ = .SCOMMENT
    · rw [if_pos c4] at h
      cases h1 : eat p .SCOMMENT with
      | error e => rw [h1] at h; simp at h
      | ok p1 =>
        rw [h1] at h
        simp only [] at h
        exact (ih _ _ r h (hsub p1 (eat_pending _ _ _ h1)) :)
    rw [if_neg c4] at h
    by_cases c5 : p.curToken.type_ = .TYPE
    · rw [if_pos c5] at h
      split at h
      · simp at h
      · rename_i ast p1 h1
        exact (ih _ _ r h (hsub p1 (type_def_pending n p _ h1)) :)
      · rename_i ast p1 name impl h1
        exact (ih _ _ r h (hsub p1 (type_def_pending n p _ h1)) :)
    rw [if_neg c5] at h
    by_cases c6 : p.curToken.type_ = .DEFID
    · rw [if_pos c6] at h
      cases h1 : id_decl n p with
      | error e => rw [h1] at h; simp at h
      | ok r1 =>
        rw [h1] at h
        simp only [] at h
        cases h2 : eatSeperator r1.2 with
        | error e => rw [h2] at h; simp at h
        | ok p2 =>
          rw [h2] at h
          simp only [] at h
          exact (ih _ _ r h (hsub p2 ((eatSeperator_pending _ _ h2).trans
            (id_decl_pending n p r1 h1))) :)
    rw [if_neg c6] at h
    by_cases c7 : p.curToken.type_ = .DEFMID
    · rw [if_pos c7] at h
      cases h1 : msgid_decl n p with
      | error e => rw [h1] at h; simp at h
      | ok r1 =>
        rw [h1] at h
        simp only [] at h
        cases h2 : eatSeperator r1.2 with
        | error e => rw [h2] at h; simp at h
        | ok p2 =>
          rw [h2] at h
          simp only [] at h
          exact (ih _ _ r h (hsub p2 ((eatSeperator_pending _ _ h2).trans
            (msgid_decl_pending n p r1 h1))) :)
    rw [if_neg c7] at h
    by_cases c8 : p.curToken.type_ = .DEFBIND
    · rw [if_pos c8] at h
      cases h1 : msg_bind p with
      | error e => rw [h1] at h; simp at h
      | ok r1 =>
        rw [h1] at h
        simp only [] at h
        cases h2 : eatSeperator r1.2 with
        | error e => rw [h2] at h; simp at h
        | ok p2 =>
          rw [h2] at h
          simp only [] at h
          exact (ih _ _ r h (hsub p2 ((eatSeperator_pending _ _ h2).trans
            (msg_bind_pending p r1 h1))) :)
    rw [if_neg c8] at h
    by_cases c9 : p.curToken.type_ = .EXTERN
    · rw [if_pos c9] at h
      cases h1 : eat p .EXTERN with
      | error e => rw [h1] at h; simp at h
      | ok p1 =>
        rw [h1] at h
        simp only [] at h
        cases h2 : eat p1 .ID with
        | error e => rw [h2] at h; simp at h
        | ok p2 =>
          rw [h2] at h
          simp only [] at h
          cases h3 : type_spec n p2 with
          | error e => rw [h3] at h; simp at h
          | ok r3 =>
            rw [h3] at h
            simp only [] at h
            cases h4 : eatSeperator r3.2 with
            | error e => rw [h4] at h; simp at h
            | ok p4 =>
              rw [h4] at h
              simp only [] at h
              exact (ih _ _ r h (hsub p4 ((eatSeperator_pending _ _ h4).trans
                ((type_spec_pending n p2 r3 h3).trans
                  ((eat_pending _ _ _ h2).trans (eat_pending _ _ _ h1))))) :)
    rw [if_neg c9] at h
    cases h1 : msg_decl n p with
    | error e => rw [h1] at h; simp at h
    | ok r1 =>
      rw [h1] at h
      simp only [] at h
      cases h2 : eatSeperator r1.2 with
      | error e => rw [h2] at h; simp at h
      | ok p2 =>
        rw [h2] at h
        simp only [] at h
        split at h
        · simp at h
        · exact (ih _ _ r h (hsub p2 ((eatSeperator_pending _ _ h2).trans
            (msg_decl_pending n p r1 h1))) :)

theorem doAnalyze_noMspace (se : semanticAnalyzer) (program : AstProgram)
    (h : program.mspace = "") : DoAnalyze se program = .error .noMspace := by
  simp [DoAnalyze, visitProgram, h]

theorem parse_mspace (fuel : Nat) (tokens : List Token) (program : AstProgram)
    (hno : ∀ t ∈ tokens, t.type_ ≠ .MSPACE) (h : parse fuel tokens = .ok program) :
    program.mspace = "" := by
  unfold parse NewParser at h
  cases tokens with
  | nil => simp at h
  | cons tok rest =>
    simp only [] at h
    cases h1 : skipLF fuel { lex := rest, prevToken := none, curToken := tok, tpMap := [] } with
    | error e => rw [h1] at h; simp at h
    | ok p =>
      rw [h1] at h
      simp only [declarations] at h
      have hp := skipLF_pending fuel _ p h1
      split at h
      · simp at h
      · rename_i prog q hd
        simp only [Except.ok.injEq] at h
        rw [← h]
        exact declLoop_mspace fuel {} _ (prog, q) hd (fun t ht => hno t (hp.subset ht))

/-- C15 (amended). A program without an `mspace` declaration is rejected: when the text
has no `mspace` keyword, every program that the parser returns for it has the empty
message space, and `DoAnalyze` returns the error `mid space not specified`. (The parser
does not count the declarations: each `mspace NAME` overwrites the name.) -/
theorem mspace_declaration_required (fuel : Nat) (tokens : List Token)
    (hno : ∀ t ∈ tokens, t.type_ ≠ .MSPACE) :
    (∀ program, parse fuel tokens = .ok program →
        program.mspace = "" ∧ ∀ se, DoAnalyze se program = .error .noMspace)
      ∧ ∃ e, compile fuel tokens = .error e := by
  constructor
  · intro program h
    have hm := parse_mspace fuel tokens program hno h
    exact ⟨hm, fun se => doAnalyze_noMspace se program hm⟩
  · unfold compile
    cases h : parse fuel tokens with
    | error e => exact ⟨e, rfl⟩
    | ok program =>
      exact ⟨.noMspace, doAnalyze_noMspace _ program (parse_mspace fuel tokens program hno h)⟩

/-- Witness of C15 (amended): the text `defmsg Hello { a u8 }`, which the parser
accepts. -/
theorem mspace_declaration_required_witness :
    (parse 100 tokensNoMspace).toBool = true
      ∧ (∀ program, parse 100 tokensNoMspace = .ok program →
          program.mspace = "" ∧ ∀ se, DoAnalyze se program = .error .noMspace)
      ∧ ∃ e, compile 100 tokensNoMspace = .error e :=
  ⟨by rfl, mspace_declaration_required 100 tokensNoMspace (by decide)⟩

/-- Counterexample to C15: the text `mspace a` / `mspace b` / `defmsg Hello { a u8 }`
has two `mspace` declarations and is accepted; the message space is `b`. -/
theorem two_mspace_declarations_accepted :
    (compile 100 tokensTwoMspace).map (fun r => r.2.mspace) = .ok "b" := by
  rfl

/-! ## Names of the top level (semantic.go) -/

theorem insertSymbol_entered (se se1 : semanticAnalyzer) (sym : symbolClass)
    (h : se.insertSymbol sym = .ok se1) : Entered se se1 sym.symName := by
  unfold semanticAnalyzer.insertSymbol at h
  cases hs : se.symbolStack with
  | nil => rw [hs] at h; simp at h
  | cons tb up =>
    rw [hs] at h
    simp only [symbolTable.insertSymbol] at h
    cases hg : mapGet tb.table sym.symName with
    | some s => rw [hg] at h; simp at h
    | none =>
      rw [hg] at h
      simp only [Except.ok.injEq] at h
      exact ⟨tb, up, sym, hs, hg, h.symm⟩

theorem entered_lookup (se se1 : semanticAnalyzer) (name : String) (h : Entered se se1 name) :
    lookup se.symbolStack name false = none
      ∧ (∀ n, lookup se1.symbolStack n false = none →
          lookup se.symbolStack n false = none ∧ n ≠ name)
      ∧ se1.midMap = se.midMap ∧ se1.firstPass = se.firstPass := by
  obtain ⟨tb, up, sym, hs, hg, h1⟩ := h
  refine ⟨?_, ?_, ?_, ?_⟩
  · rw [hs]
    simp [lookup, hg]
  · intro n hn
    rw [h1] at hn
    rw [hs]
    simp only [lookup, mapSet, mapGet] at hn ⊢
    by_cases hnn : name = n
    · simp [hnn] at hn
    · simp only [if_neg hnn] at hn
      refine ⟨?_, fun h => hnn h.symm⟩
      cases hgn : mapGet tb.table n with
      | none => rfl
      | some s => rw [hgn] at hn; simp at hn
  · rw [h1]
  · rw [h1]

theorem visitVarDecl_entered (se se1 : semanticAnalyzer) (node : AstVarDecl)
    (h : visitVarDecl se node = .ok se1) : Entered se se1 node.name := by
  unfold visitVarDecl at h
  cases hl : lookup se.symbolStack node.name false with
  | some s => rw [hl] at h; simp at h
  | none =>
    rw [hl] at h
    simp only [] at h
    split at h
    · simp at h
    · have := insertSymbol_entered se se1 _ h
      rw [newVarSymbol_symName] at this
      exact this

theorem visitConstDef_entered (se se1 : semanticAnalyzer) (node : AstConstDef)
    (h : visitConstDef se node = .ok se1) : Entered se se1 node.name := by
  unfold visitConstDef at h
  cases hl : lookup se.symbolStack node.name false with
  | some s => rw [hl] at h; simp at h
  | none =>
    rw [hl] at h
    simp only [] at h
    cases ha : visitAst se node.val with
    | error e => rw [ha] at h; simp at h
    | ok t =>
      rw [ha] at h
      simp only [] at h
      cases hat : assertAstType t with
      | error e => rw [hat] at h; simp at h
      | ok tp =>
        rw [hat] at h
        have := insertSymbol_entered se se1 _ h
        rw [newVarSymbol_symName] at this
        exact this

theorem visitExternVar_entered (se se1 : semanticAnalyzer) (node : AstExternVar)
    (h : visitExternVar se node = .ok se1) : Entered se se1 node.name := by
  unfold visitExternVar at h
  cases hl : lookup se.symbolStack node.name false with
  | some s => rw [hl] at h; simp at h
  | none =>
    rw [hl] at h
    have := insertSymbol_entered se se1 _ h
    rw [newVarSymbol_symName] at this
    exact this

theorem visitFields_stack (fields : List AstVarDecl) :
    ∀ (se se1 : semanticAnalyzer) (st st1 : AggrState) (tb : symbolTable) (up : List symbolTable),
      visitFields se st fields = .ok (se1, st1) → se.symbolStack = tb :: up →
      ∃ tb1, se1 = { se with symbolStack := tb1 :: up } := by
  induction fields with
  | nil =>
    intro se se1 st st1 tb up h hs
    simp only [visitFields, Except.ok.injEq, Prod.mk.injEq] at h
    exact ⟨tb, by rw [← h.1, ← hs]⟩
  | cons f rest ih =>
    intro se se1 st st1 tb up h hs
    simp only [visitFields, visitField] at h
    cases hst : aggrStep st f.name f.type_ with
    | error e => rw [hst] at h; simp at h
    | ok r =>
      obtain ⟨st2, xorOk, ok⟩ := r
      rw [hst] at h
      simp only [] at h
      cases hv : visitVarDecl se f with
      | error e => rw [hv] at h; simp at h
      | ok se2 =>
        rw [hv] at h
        simp only [] at h
        cases hc : visitFieldChecks se2 f xorOk ok with
        | error e => rw [hc] at h; simp at h
        | ok u =>
          rw [hc] at h
          simp only [] at h
          obtain ⟨tb', up', sym, hs', _, h2⟩ := visitVarDecl_entered se se2 f hv
          rw [hs] at hs'
          simp only [List.cons.injEq] at hs'
          obtain ⟨tb1, h1⟩ := ih se2 se1 st2 st1 _ up h (by rw [h2, ← hs'.2])
          exact ⟨tb1, by rw [h1, h2]⟩

theorem visitMsgDefine_entered (se se1 : semanticAnalyzer) (node : AstStructDecl)
    (h : visitMsgDefine se node = .ok se1) : Entered se se1 node.name := by
  unfold visitMsgDefine at h
  cases hl : lookup se.symbolStack node.name false with
  | some s => rw [hl] at h; simp at h
  | none =>
    rw [hl] at h
    simp only [] at h
    cases hi : se.insertSymbol (newVarSymbol node.name node.toType se.curLevel node.line) with
    | error e => rw [hi] at h; simp at h
    | ok se2 =>
      rw [hi] at h
      simp only [] at h
      cases hf : visitFields se2.pushSymbolTable { inAggr := false, bits := 0 } node.fields with
      | error e => rw [hf] at h; simp at h
      | ok r =>
        obtain ⟨se3, st3⟩ := r
        rw [hf] at h
        simp only [] at h
        have hent := insertSymbol_entered se se2 _ hi
        rw [newVarSymbol_symName] at hent
        obtain ⟨tb, up, sym, hs, hg, h2⟩ := hent
        obtain ⟨tb1, h3⟩ := visitFields_stack node.fields se2.pushSymbolTable se3 _ st3
          (newSymTable se2.stackSize) se2.symbolStack hf rfl
        refine ⟨tb, up, sym, hs, hg, ?_⟩
        rw [h3, h2] at h
        simp only [semanticAnalyzer.popSymbolTable, semanticAnalyzer.pushSymbolTable,
          Except.ok.injEq] at h
        rw [← h]
        simp

theorem addsNames_refl (keys : String → Bool) : AddsNames keys keys [] :=
  ⟨fun n hn => (by cases hn), List.nodup_nil, fun n => by simp⟩

theorem addsNames_trans (a b c : String → Bool) (xs ys : List String)
    (h1 : AddsNames a b xs) (h2 : AddsNames b c ys) : AddsNames a c (xs ++ ys) := by
  obtain ⟨hx1, hx2, hx3⟩ := h1
  obtain ⟨hy1, hy2, hy3⟩ := h2
  refine ⟨?_, ?_, ?_⟩
  · intro n hn
    rcases List.mem_append.mp hn with h | h
    · exact hx1 n h
    · exact ((hx3 n).mp (hy1 n h)).1
  · rw [List.nodup_append]
    refine ⟨hx2, hy2, ?_⟩
    intro n hnx hny
    exact ((hx3 n).mp (hy1 n hny)).2 hnx
  · intro n
    rw [hy3 n, hx3 n, List.mem_append]
    tauto

theorem entered_adds (se se1 : semanticAnalyzer) (name : String) (h : Entered se se1 name) :
    AddsNames (symKeys se) (symKeys se1) [name] ∧ se1.midMap = se.midMap := by
  obtain ⟨tb, up, sym, hs, hg, h1⟩ := h
  refine ⟨⟨?_, List.nodup_singleton _, ?_⟩, by rw [h1]⟩
  · intro n hn
    rw [List.mem_singleton] at hn
    rw [hn]
    simp [symKeys, hs, lookup, hg]
  · intro n
    rw [h1]
    simp only [symKeys, hs, lookup, mapSet, mapGet, List.mem_singleton]
    by_cases hnn : name = n
    · simp [hnn]
    · have hnn' : ¬ n = name := fun h => hnn h.symm
      simp only [if_neg hnn, hnn', not_false_eq_true, and_true]

theorem mapGet_mapSet {α : Type} (m : List (String × α)) (k n : String) (v : α) :
    mapGet (mapSet m k v) n = if k = n then some v else mapGet m n := by
  simp [mapSet, mapGet]

theorem visitIdItems_names (items : List idItem) :
    ∀ (isMsgId : Bool) (m : List (String × idItem)) (val : Int) (i : Nat)
      (m1 : List (String × idItem)) (out : List idItem),
      visitIdItems isMsgId m val i items = .ok (m1, out) →
      AddsNames (fun n => (mapGet m n).isSome) (fun n => (mapGet m1 n).isSome)
        (items.map fun id => id.name) := by
  induction items with
  | nil =>
    intro isMsgId m val i m1 out h
    simp only [visitIdItems, Except.ok.injEq, Prod.mk.injEq] at h
    rw [← h.1]
    exact addsNames_refl _
  | cons id rest ih =>
    intro isMsgId m val i m1 out h
    have hrec : mapGet m id.name = none ∧ ∃ v val1 out1,
        visitIdItems isMsgId (mapSet m id.name v) val1 (i + 1) rest = .ok (m1, out1) := by
      simp only [visitIdItems] at h
      cases hg : mapGet m id.name with
      | some x => rw [hg] at h; simp at h
      | none =>
        rw [hg] at h
        simp only [] at h
        refine ⟨rfl, ?_⟩
        split at h
        · split at h
          · simp at h
          · split at h
            · simp at h
            · rename_i m2 out2 hr
              simp only [Except.ok.injEq, Prod.mk.injEq] at h
              rw [← h.1]
              exact ⟨_, _, _, hr⟩
        · split at h
          · simp at h
          · rename_i m2 out2 hr
            simp only [Except.ok.injEq, Prod.mk.injEq] at h
            rw [← h.1]
            exact ⟨_, _, _, hr⟩
    obtain ⟨hg, v, val1, out1, hr⟩ := hrec
    have h2 := ih isMsgId _ val1 (i + 1) m1 out1 hr
    have h1 : AddsNames (fun n => (mapGet m n).isSome)
        (fun n => (mapGet (mapSet m id.name v) n).isSome) [id.name] := by
      refine ⟨?_, List.nodup_singleton _, ?_⟩
      · intro n hn
        rw [List.mem_singleton] at hn
        rw [hn]
        simp [hg]
      · intro n
        simp only [mapGet_mapSet, List.mem_singleton]
        by_cases hk : id.name = n
        · simp [hk]
        · have hk' : ¬ n = id.name := fun h => hk h.symm
          simp [hk, hk']
    exact addsNames_trans _ _ _ _ _ h1 h2

theorem visitIdGroupDefine_adds (se se1 : semanticAnalyzer) (node node1 : AstIdGroupDef)
    (h : visitIdGroupDefine se node = .ok (se1, node1)) :
    AddsNames (symKeys se) (symKeys se1) (symbolNames (.idGroupDef node))
      ∧ AddsNames (itemKeys se) (itemKeys se1) (itemNames (.idGroupDef node)) := by
  unfold visitIdGroupDefine at h
  by_cases h0 : node.items.length = 0
  · rw [if_pos h0] at h
    simp only [Except.ok.injEq, Prod.mk.injEq] at h
    rw [← h.1]
    have hnil : node.items = [] := List.length_eq_zero.mp h0
    simp only [symbolNames, itemNames, h0, if_true, hnil, List.map_nil]
    exact ⟨addsNames_refl _, addsNames_refl _⟩
  · rw [if_neg h0] at h
    cases hl : lookup se.symbolStack node.name false with
    | some s => rw [hl] at h; simp at h
    | none =>
      rw [hl] at h
      simp only [] at h
      cases hi : se.insertSymbol
          (newVarSymbol node.name (.AstPrimType symTypeInt) se.curLevel node.line) with
      | error e => rw [hi] at h; simp at h
      | ok se2 =>
        rw [hi] at h
        simp only [] at h
        cases hit : visitIdItems node.isMsgId se2.midMap 0 0 node.items with
        | error e => rw [hit] at h; simp at h
        | ok r =>
          obtain ⟨m, items⟩ := r
          rw [hit] at h
          simp only [Except.ok.injEq, Prod.mk.injEq] at h
          have hent := insertSymbol_entered se se2 _ hi
          rw [newVarSymbol_symName] at hent
          obtain ⟨ha, hmid⟩ := entered_adds se se2 node.name hent
          have hitems := visitIdItems_names node.items node.isMsgId se2.midMap 0 0 m items hit
          rw [← h.1]
          simp only [symbolNames, itemNames, h0, if_false]
          refine ⟨ha, ?_⟩
          rw [hmid] at hitems
          exact hitems

theorem visitDecl_adds (se se1 : semanticAnalyzer) (d d1 : Decl)
    (h : visitDecl se d = .ok (se1, d1)) (hfp : se.firstPass = true) :
    AddsNames (symKeys se) (symKeys se1) (symbolNames d)
      ∧ AddsNames (itemKeys se) (itemKeys se1) (itemNames d) := by
  have hitem : ∀ s : semanticAnalyzer, s.midMap = se.midMap →
      AddsNames (itemKeys se) (itemKeys s) [] := by
    intro s hs
    have : itemKeys s = itemKeys se := by
      funext n
      simp [itemKeys, hs]
    rw [this]
    exact addsNames_refl _
  cases d with
  | varDecl node =>
    simp only [visitDecl, hfp, if_true] at h
    cases hv : visitVarDecl se node with
    | error e => rw [hv] at h; simp at h
    | ok s =>
      rw [hv] at h
      simp only [Except.ok.injEq, Prod.mk.injEq] at h
      rw [← h.1]
      obtain ⟨ha, hm⟩ := entered_adds se s node.name (visitVarDecl_entered se s node hv)
      exact ⟨ha, hitem s hm⟩
  | idGroupDef node =>
    simp only [visitDecl, hfp, if_true] at h
    cases hv : visitIdGroupDefine se node with
    | error e => rw [hv] at h; simp at h
    | ok r =>
      obtain ⟨s, node1⟩ := r
      rw [hv] at h
      simp only [Except.ok.injEq, Prod.mk.injEq] at h
      rw [← h.1]
      exact visitIdGroupDefine_adds se s node node1 hv
  | constDef node =>
    simp only [visitDecl, hfp, if_true] at h
    cases hv : visitConstDef se node with
    | error e => rw [hv] at h; simp at h
    | ok s =>
      rw [hv] at h
      simp only [Except.ok.injEq, Prod.mk.injEq] at h
      rw [← h.1]
      obtain ⟨ha, hm⟩ := entered_adds se s node.name (visitConstDef_entered se s node hv)
      exact ⟨ha, hitem s hm⟩
  | structType node =>
    simp only [visitDecl, hfp, if_true] at h
    cases hv : visitMsgDefine se node with
    | error e => rw [hv] at h; simp at h
    | ok s =>
      rw [hv] at h
      simp only [Except.ok.injEq, Prod.mk.injEq] at h
      rw [← h.1]
      obtain ⟨ha, hm⟩ := entered_adds se s node.name (visitMsgDefine_entered se s node hv)
      exact ⟨ha, hitem s hm⟩
  | externVar node =>
    simp only [visitDecl, hfp, if_true] at h
    cases hv : visitExternVar se node with
    | error e => rw [hv] at h; simp at h
    | ok s =>
      rw [hv] at h
      simp only [Except.ok.injEq, Prod.mk.injEq] at h
      rw [← h.1]
      obtain ⟨ha, hm⟩ := entered_adds se s node.name (visitExternVar_entered se s node hv)
      exact ⟨ha, hitem s hm⟩
  | bindDef node =>
    simp [visitDecl, hfp] at h
    rw [← h.1]
    exact ⟨addsNames_refl _, addsNames_refl _⟩
  | srcComment node =>
    simp [visitDecl] at h
    rw [← h.1]
    exact ⟨addsNames_refl _, addsNames_refl _⟩
  | typeDef node =>
    simp [visitDecl] at h
    rw [← h.1]
    exact ⟨addsNames_refl _, addsNames_refl _⟩

theorem visitDecls_adds (decls : List Decl) :
    ∀ (se se1 : semanticAnalyzer) (decls1 : List Decl),
      visitDecls se decls = .ok (se1, decls1) → se.firstPass = true →
      AddsNames (symKeys se) (symKeys se1) (decls.flatMap symbolNames)
        ∧ AddsNames (itemKeys se) (itemKeys se1) (decls.flatMap itemNames) := by
  induction decls with
  | nil =>
    intro se se1 decls1 h _
    simp only [visitDecls, Except.ok.injEq, Prod.mk.injEq] at h
    rw [← h.1]
    exact ⟨addsNames_refl _, addsNames_refl _⟩
  | cons d rest ih =>
    intro se se1 decls1 h hfp
    simp only [visitDecls] at h
    cases hd : visitDecl se d with
    | error e => rw [hd] at h; simp at h
    | ok r =>
      obtain ⟨se2, d1⟩ := r
      rw [hd] at h
      simp only [] at h
      cases hr : visitDecls se2 rest with
      | error e => rw [hr] at h; simp at h
      | ok r2 =>
        obtain ⟨se3, rest1⟩ := r2
        rw [hr] at h
        simp only [Except.ok.injEq, Prod.mk.injEq] at h
        rw [← h.1]
        obtain ⟨a1, b1⟩ := visitDecl_adds se se2 d d1 hd hfp
        obtain ⟨a2, b2⟩ := ih se2 se3 rest1 hr
          (by rw [visitDecl_firstPass se se2 d d1 hd]; exact hfp)
        simp only [List.flatMap_cons]
        exact ⟨addsNames_trans _ _ _ _ _ a1 a2, addsNames_trans _ _ _ _ _ b1 b2⟩

/-- C16 (amended). In every program that `DoAnalyze` (on an analyzer that has not run
yet) accepts, the names entered into the symbol table of the program (constants,
messages, externs and the id groups that have items) are pairwise distinct and none of
them was in the table before (for a new analyzer: none is the name of a built-in type);
the names of the id items are pairwise distinct among themselves. The two sets of names
are kept apart (`midMap` and the symbol table), and an id group without items enters
nothing. -/
theorem top_level_names_distinct (se : semanticAnalyzer) (program : AstProgram)
    (hfp : se.firstPass = true) (hok : (DoAnalyze se program).toBool = true) :
    (program.decl_list.flatMap symbolNames).Nodup
      ∧ (∀ n ∈ program.decl_list.flatMap symbolNames, lookup se.symbolStack n false = none)
      ∧ (program.decl_list.flatMap itemNames).Nodup
      ∧ (∀ n ∈ program.decl_list.flatMap itemNames, mapGet se.midMap n = none) := by
  cases hv : visitDecls se program.decl_list with
  | error e =>
    obtain ⟨e1, he1⟩ := doAnalyze_error_of_visitDecls se program ⟨e, hv⟩
    rw [he1] at hok
    simp [Except.toBool] at hok
  | ok r =>
    obtain ⟨se1, decls1⟩ := r
    obtain ⟨⟨a1, a2, _⟩, ⟨b1, b2, _⟩⟩ := visitDecls_adds program.decl_list se se1 decls1 hv hfp
    refine ⟨a2, ?_, b2, ?_⟩
    · intro n hn
      have := a1 n hn
      simpa [symKeys] using this
    · intro n hn
      have := b1 n hn
      simpa [itemKeys] using this

/-- Witness of C16 (amended): scenario S5. -/
theorem top_level_names_distinct_witness :
    (programS5.decl_list.flatMap symbolNames).Nodup
      ∧ (∀ n ∈ programS5.decl_list.flatMap symbolNames,
          lookup NewSemanticAnalyzer.symbolStack n false = none)
      ∧ (programS5.decl_list.flatMap itemNames).Nodup
      ∧ (∀ n ∈ programS5.decl_list.flatMap itemNames,
          mapGet NewSemanticAnalyzer.midMap n = none) :=
  top_level_names_distinct NewSemanticAnalyzer programS5 rfl (by rfl)

/-- Counterexample to C16: `const MAX 256` with `defid G { MAX }` is accepted, although
the id item has the name of the constant; `defid E { }` twice is accepted, although the
two groups have the same name; and a message with the name of a constant is rejected. -/
theorem id_item_may_share_name_with_constant :
    (compile 100 tokensItemConst).map
        (fun r => (r.2.decl_list.map symbolNames, r.2.decl_list.map itemNames)) =
        .ok ([["MAX"], ["G"]], [[], ["MAX"]])
      ∧ (compile 100 tokensEmptyGroups).map
          (fun r => r.2.decl_list.map fun d =>
            match d with
            | .idGroupDef node => node.name
            | _ => "") = .ok ["E", "E"]
      ∧ compile 100 tokensConstMsg = .error (.symbolDefined "K") :=
  ⟨by rfl, by rfl, by rfl⟩

/-! ## Field names (semantic.go, `visitVarDecl`) -/

theorem visitDecls_error_of_msg (decls : List Decl) :
    ∀ (se : semanticAnalyzer) (node : AstStructDecl),
      se.firstPass = true → Decl.structType node ∈ decls →
      (∀ s, ∃ e, visitMsgDefine s node = .error e) →
      ∃ e, visitDecls se decls = .error e := by
  induction decls with
  | nil => intro se node _ hm; cases hm
  | cons d rest ih =>
    intro se node hfp hm herr
    rcases List.mem_cons.mp hm with hd | hr
    · subst hd
      apply visitDecls_cons_error
      intro se1 d1 hv
      obtain ⟨e, he⟩ := herr se
      simp [visitDecl, hfp, he] at hv
    · apply visitDecls_cons_error
      intro se1 d1 hv
      exact ih se1 node (by rw [visitDecl_firstPass se se1 d d1 hv]; exact hfp) hr herr

theorem visitMsgDefine_error_of_fields (node : AstStructDecl)
    (h : ∀ s st, ∃ e, visitFields s st node.fields = .error e) :
    ∀ s, ∃ e, visitMsgDefine s node = .error e := by
  intro s
  unfold visitMsgDefine
  cases lookup s.symbolStack node.name false with
  | some x => exact ⟨_, rfl⟩
  | none =>
    simp only []
    cases s.insertSymbol (newVarSymbol node.name node.toType s.curLevel node.line) with
    | error e => exact ⟨e, rfl⟩
    | ok s1 =>
      simp only []
      obtain ⟨e, he⟩ := h s1.pushSymbolTable { inAggr := false, bits := 0 }
      rw [he]
      exact ⟨e, rfl⟩

theorem visitField_adds (se se1 : semanticAnalyzer) (st st1 : AggrState) (f : AstVarDecl)
    (h : visitField se st f = .ok (se1, st1)) :
    AddsNames (symKeys se) (symKeys se1) [f.name] := by
  unfold visitField at h
  cases hs : aggrStep st f.name f.type_ with
  | error e => rw [hs] at h; simp at h
  | ok r =>
    obtain ⟨st2, xorOk, ok⟩ := r
    rw [hs] at h
    simp only [] at h
    cases hv : visitVarDecl se f with
    | error e => rw [hv] at h; simp at h
    | ok se2 =>
      rw [hv] at h
      simp only [] at h
      cases hc : visitFieldChecks se2 f xorOk ok with
      | error e => rw [hc] at h; simp at h
      | ok u =>
        rw [hc] at h
        simp only [Except.ok.injEq, Prod.mk.injEq] at h
        rw [← h.1]
        exact (entered_adds se se2 f.name (visitVarDecl_entered se se2 f hv)).1

theorem visitFields_adds (fields : List AstVarDecl) :
    ∀ (se se1 : semanticAnalyzer) (st st1 : AggrState),
      visitFields se st fields = .ok (se1, st1) →
      AddsNames (symKeys se) (symKeys se1) (fields.map fun f => f.name) := by
  induction fields with
  | nil =>
    intro se se1 st st1 h
    simp only [visitFields, Except.ok.injEq, Prod.mk.injEq] at h
    rw [← h.1]
    exact addsNames_refl _
  | cons f rest ih =>
    intro se se1 st st1 h
    simp only [visitFields] at h
    cases hf : visitField se st f with
    | error e => rw [hf] at h; simp at h
    | ok r =>
      obtain ⟨se2, st2⟩ := r
      rw [hf] at h
      simp only [] at h
      exact addsNames_trans _ _ _ [f.name] _ (visitField_adds se se2 st st2 f hf)
        (ih se2 se1 st2 st1 h)

theorem visitField_error_of_key (se : semanticAnalyzer) (st : AggrState) (f : AstVarDecl)
    (h : symKeys se f.name = true) : ∃ e, visitField se st f = .error e := by
  unfold visitField
  cases aggrStep st f.name f.type_ with
  | error e => exact ⟨e, rfl⟩
  | ok r =>
    obtain ⟨st2, xorOk, ok⟩ := r
    simp only []
    have hv : visitVarDecl se f = .error (.symbolDefined f.name) := by
      unfold visitVarDecl
      cases hl : lookup se.symbolStack f.name false with
      | none => simp [symKeys, hl] at h
      | some s => rfl
    rw [hv]
    exact ⟨_, rfl⟩

theorem visitFields_error_of_key (fmid : List AstVarDecl) (f2 : AstVarDecl)
    (fpost : List AstVarDecl) :
    ∀ (se : semanticAnalyzer) (st : AggrState), symKeys se f2.name = true →
      ∃ e, visitFields se st (fmid ++ f2 :: fpost) = .error e := by
  induction fmid with
  | nil =>
    intro se st h
    simp only [List.nil_append, visitFields]
    obtain ⟨e, he⟩ := visitField_error_of_key se st f2 h
    rw [he]
    exact ⟨e, rfl⟩
  | cons g rest ih =>
    intro se st h
    simp only [List.cons_append, visitFields]
    cases hg : visitField se st g with
    | error e => exact ⟨e, rfl⟩
    | ok r =>
      obtain ⟨se1, st1⟩ := r
      simp only []
      apply ih se1 st1
      obtain ⟨_, _, h3⟩ := visitField_adds se se1 st st1 g hg
      cases hk : symKeys se1 f2.name with
      | true => rfl
      | false =>
        have := ((h3 f2.name).mp hk).1
        rw [h] at this
        cases this

theorem visitFields_error_of_duplicate (fpre : List AstVarDecl) (f1 : AstVarDecl)
    (fmid : List AstVarDecl) (f2 : AstVarDecl) (fpost : List AstVarDecl)
    (hname : f1.name = f2.name) :
    ∀ (se : semanticAnalyzer) (st : AggrState),
      ∃ e, visitFields se st (fpre ++ f1 :: (fmid ++ f2 :: fpost)) = .error e := by
  induction fpre with
  | nil =>
    intro se st
    simp only [List.nil_append, visitFields]
    cases h1 : visitField se st f1 with
    | error e => exact ⟨e, rfl⟩
    | ok r =>
      obtain ⟨se1, st1⟩ := r
      simp only []
      apply visitFields_error_of_key
      obtain ⟨_, _, h3⟩ := visitField_adds se se1 st st1 f1 h1
      cases hk : symKeys se1 f2.name with
      | true => rfl
      | false =>
        have := ((h3 f2.name).mp hk).2
        simp [hname] at this
  | cons g rest ih =>
    intro se st
    simp only [List.cons_append, visitFields]
    cases hg : visitField se st g with
    | error e => exact ⟨e, rfl⟩
    | ok r =>
      obtain ⟨se1, st1⟩ := r
      exact ih se1 st1

theorem mapGet_foldl_builtin_none (names : List String) (n : String) (hn : n ∉ names) :
    ∀ (m : List (String × symbolClass)), mapGet m n = none →
      mapGet (names.foldl (fun tb val => mapSet tb val (.builtinSymbol val)) m) n = none := by
  induction names with
  | nil => intro m hm; exact hm
  | cons a rest ih =>
    intro m hm
    simp only [List.foldl_cons]
    have ha : a ≠ n := fun h => hn (h ▸ List.mem_cons_self _ _)
    apply ih (fun h => hn (List.mem_cons_of_mem _ h))
    rw [mapGet_mapSet_ne _ _ _ _ ha]
    exact hm

theorem symKeys_push (se : semanticAnalyzer) (n : String) (hn : n ∉ builtinTypeArr) :
    symKeys se.pushSymbolTable n = false := by
  have : mapGet (newSymTable se.stackSize).table n = none :=
    mapGet_foldl_builtin_none builtinTypeArr n hn [] rfl
  simp [symKeys, semanticAnalyzer.pushSymbolTable, lookup, this]

theorem insertSymbol_error (se : semanticAnalyzer) (sym : symbolClass) (e : Panic)
    (h : se.insertSymbol sym = .error e) : e = .nilInterface ∨ e = .duplicateSymbol sym.symName := by
  unfold semanticAnalyzer.insertSymbol at h
  cases hs : se.symbolStack with
  | nil =>
    rw [hs] at h
    simp only [Except.error.injEq] at h
    exact Or.inl h.symm
  | cons tb up =>
    rw [hs] at h
    simp only [symbolTable.insertSymbol] at h
    cases hg : mapGet tb.table sym.symName with
    | some x =>
      rw [hg] at h
      simp only [Except.error.injEq] at h
      exact Or.inr h.symm
    | none => rw [hg] at h; simp at h

/-- C17 (amended). A message that declares two fields with the same name makes
`DoAnalyze` return an error. In the other direction the duplicate check of `visitVarDecl`
does not fire for a field whose name differs from the names of the other fields and is
not the name of a built-in type: when the loop of `visitMsgDefine` reaches the field, the
scope of the message has no symbol of that name. (The scope of a message starts with the
names of the built-in types, so a field named like one of them is reported as already
existing.) -/
theorem field_names_checked (se : semanticAnalyzer) (program : AstProgram)
    (node : AstStructDecl) (fpre fmid fpost : List AstVarDecl) (f1 f2 : AstVarDecl)
    (hfp : se.firstPass = true) (hm : Decl.structType node ∈ program.decl_list)
    (hfields : node.fields = fpre ++ f1 :: (fmid ++ f2 :: fpost)) (hname : f1.name = f2.name) :
    (∃ e, DoAnalyze se program = .error e)
      ∧ ∀ (s s1 : semanticAnalyzer) (st st1 : AggrState) (pre post : List AstVarDecl)
          (f : AstVarDecl),
          ((pre ++ f :: post).map fun g => g.name).Nodup → f.name ∉ builtinTypeArr →
          visitFields s.pushSymbolTable st pre = .ok (s1, st1) →
          lookup s1.symbolStack f.name false = none
            ∧ ∀ n, visitVarDecl s1 f ≠ .error (.symbolDefined n) := by
  constructor
  · apply doAnalyze_error_of_visitDecls
    apply visitDecls_error_of_msg program.decl_list se node hfp hm
    apply visitMsgDefine_error_of_fields
    intro s st
    rw [hfields]
    exact visitFields_error_of_duplicate fpre f1 fmid f2 fpost hname s st
  · intro s s1 st st1 pre post f hnd hnb hv
    obtain ⟨_, _, h3⟩ := visitFields_adds pre s.pushSymbolTable s1 st st1 hv
    have hfresh : f.name ∉ pre.map fun g => g.name := by
      rw [List.map_append, List.map_cons, List.nodup_append] at hnd
      intro hmem
      exact hnd.2.2 hmem (List.mem_cons_self _ _)
    have hk : symKeys s1 f.name = false :=
      (h3 f.name).mpr ⟨symKeys_push s f.name hnb, hfresh⟩
    have hl : lookup s1.symbolStack f.name false = none := by
      simpa [symKeys] using hk
    refine ⟨hl, ?_⟩
    intro n hv
    unfold visitVarDecl at hv
    rw [hl] at hv
    simp only [] at hv
    split at hv
    · simp at hv
    · rcases insertSymbol_error s1 _ _ hv with h | h <;> cases h

/-- Witness of C17 (amended): the message `defmsg A { a u8 b u16 a u32 }`. -/
theorem field_names_checked_witness :
    (∃ e, DoAnalyze NewSemanticAnalyzer
        { mspace := "test", decl_list := [.structType msgDupField] } = .error e)
      ∧ ∀ (s s1 : semanticAnalyzer) (st st1 : AggrState) (pre post : List AstVarDecl)
          (f : AstVarDecl),
          ((pre ++ f :: post).map fun g => g.name).Nodup → f.name ∉ builtinTypeArr →
          visitFields s.pushSymbolTable st pre = .ok (s1, st1) →
          lookup s1.symbolStack f.name false = none
            ∧ ∀ n, visitVarDecl s1 f ≠ .error (.symbolDefined n) :=
  field_names_checked NewSemanticAnalyzer
    { mspace := "test", decl_list := [.structType msgDupField] } msgDupField []
    [{ name := "b", type_ := .AstPrimType symTypeU16, line := 2 }] []
    { name := "a", type_ := .AstPrimType symTypeU8, line := 2 }
    { name := "a", type_ := .AstPrimType symTypeU32, line := 2 }
    rfl (List.mem_cons_self _ _) rfl rfl

/-- Counterexample to C17: the message `defmsg A { void u8 }` has one field, so its
field names are pairwise distinct, and `DoAnalyze` rejects it with the error of a field
that is declared twice (`error var symbol defined ... already exist: void`). -/
theorem field_named_like_builtin_type_rejected :
    compile 100 tokensFieldVoid = .error (.symbolDefined "void")
      ∧ (parse 100 tokensFieldVoid).map (fun r => r.decl_list.map fun d =>
          match d with
          | .structType node => node.fields.map fun f => f.name
          | _ => []) = .ok [["void"]] :=
  ⟨by rfl, by rfl⟩

/-! ## Modifiers of fields in a sub-byte run (semantic.go, `visitMsgDefine`) -/

theorem visitFields_append (xs ys : List AstVarDecl) :
    ∀ (se : semanticAnalyzer) (st : AggrState), visitFields se st (xs ++ ys) =
      match visitFields se st xs with
      | .error e => .error e
      | .ok r => visitFields r.1 r.2 ys := by
  induction xs with
  | nil => intro se st; rfl
  | cons x rest ih =>
    intro se st
    simp only [List.cons_append, visitFields]
    cases visitField se st x with
    | error e => rfl
    | ok r =>
      obtain ⟨se1, st1⟩ := r
      exact ih se1 st1

theorem aggrStep_in_run (st st1 : AggrState) (fname : String) (tp : AstType) (xorOk ok : Bool)
    (hin : st.inAggr = true) (h : aggrStep st fname tp = .ok (st1, xorOk, ok)) :
    xorOk = false ∧ ok = true := by
  unfold aggrStep at h
  rcases hi : isIntType tp with ⟨ok1, bn⟩
  rw [hi] at h
  simp only [hin, if_true] at h
  cases ok1 with
  | false => simp at h
  | true =>
    simp only [Bool.not_true, Bool.false_eq_true, if_false] at h
    split at h
    · simp only [Except.ok.injEq, Prod.mk.injEq] at h
      exact ⟨h.2.1.symm, h.2.2.symm⟩
    · split at h
      · simp only [Except.ok.injEq, Prod.mk.injEq] at h
        exact ⟨h.2.1.symm, h.2.2.symm⟩
      · simp at h

theorem visitXor_error_in_run (se : semanticAnalyzer) (f : AstVarDecl)
    (hx : f.xor.isSome = true) : ∃ e, visitXor se f false = .error e := by
  unfold visitXor
  cases hxor : f.xor with
  | none => rw [hxor] at hx; simp at hx
  | some ref =>
    simp only []
    split
    · exact ⟨_, rfl⟩
    · exact ⟨_, rfl⟩

theorem visitFieldChecks_error_in_run (se : semanticAnalyzer) (f : AstVarDecl)
    (hmod : f.xor.isSome = true ∨ f.existIf.isSome = true) :
    ∃ e, visitFieldChecks se f false true = .error e := by
  unfold visitFieldChecks
  cases f.type_.astType with
  | error e => exact ⟨e, rfl⟩
  | ok k =>
    simp only []
    split
    · exact ⟨_, rfl⟩
    · split
      · exact ⟨_, rfl⟩
      · rename_i hex
        have hx : f.xor.isSome = true := by
          rcases hmod with h | h
          · exact h
          · exfalso
            apply hex
            simp [h]
        cases visitModifier se f.equ "equal" with
        | error e => exact ⟨e, rfl⟩
        | ok _ =>
          simp only []
          cases visitModifier se f.limit "limit" with
          | error e => exact ⟨e, rfl⟩
          | ok _ =>
            simp only []
            cases visitModifier se f.max "max" with
            | error e => exact ⟨e, rfl⟩
            | ok _ =>
              simp only []
              cases visitModifier se f.min "min" with
              | error e => exact ⟨e, rfl⟩
              | ok _ => exact visitXor_error_in_run se f hx

theorem visitField_error_in_run (se : semanticAnalyzer) (st : AggrState) (f : AstVarDecl)
    (hin : st.inAggr = true) (hmod : f.xor.isSome = true ∨ f.existIf.isSome = true) :
    ∃ e, visitField se st f = .error e := by
  unfold visitField
  cases hs : aggrStep st f.name f.type_ with
  | error e => exact ⟨e, rfl⟩
  | ok r =>
    obtain ⟨st1, xorOk, ok⟩ := r
    obtain ⟨hxo, hok⟩ := aggrStep_in_run st st1 f.name f.type_ xorOk ok hin hs
    subst hxo hok
    simp only []
    cases visitVarDecl se f with
    | error e => exact ⟨e, rfl⟩
    | ok se1 =>
      simp only []
      obtain ⟨e, he⟩ := visitFieldChecks_error_in_run se1 f hmod
      rw [he]
      exact ⟨e, rfl⟩

/-- C18 (amended). When a field that continues a sub-byte aggregation run (the loop
variable `inAggr` is set when the loop reaches it, so it is the second or a later field of
its run) carries an `xor` or an `exist if` modifier, `DoAnalyze` returns an error. The
field that opens a run is checked before the run is noted and is not covered here. -/
theorem modifier_inside_bit_run_rejected (se : semanticAnalyzer) (program : AstProgram)
    (node : AstStructDecl) (fpre fpost : List AstVarDecl) (f : AstVarDecl) (st : AggrState)
    (hfp : se.firstPass = true) (hm : Decl.structType node ∈ program.decl_list)
    (hfields : node.fields = fpre ++ f :: fpost)
    (hrun : aggrRun { inAggr := false, bits := 0 } fpre = .ok st) (hin : st.inAggr = true)
    (hmod : f.xor.isSome = true ∨ f.existIf.isSome = true) :
    ∃ e, DoAnalyze se program = .error e := by
  apply doAnalyze_error_of_visitDecls
  apply visitDecls_error_of_msg program.decl_list se node hfp hm
  intro s
  unfold visitMsgDefine
  cases lookup s.symbolStack node.name false with
  | some x => exact ⟨_, rfl⟩
  | none =>
    simp only []
    cases s.insertSymbol (newVarSymbol node.name node.toType s.curLevel node.line) with
    | error e => exact ⟨e, rfl⟩
    | ok s1 =>
      simp only []
      have herr : ∃ e, visitFields s1.pushSymbolTable { inAggr := false, bits := 0 }
          node.fields = .error e := by
        rw [hfields, visitFields_append]
        cases hv : visitFields s1.pushSymbolTable { inAggr := false, bits := 0 } fpre with
        | error e => exact ⟨e, rfl⟩
        | ok r =>
          obtain ⟨s2, st2⟩ := r
          have hst := visitFields_aggrRun _ _ fpre s2 st2 hv
          rw [hrun] at hst
          simp only [Except.ok.injEq] at hst
          subst hst
          simp only [visitFields]
          obtain ⟨e, he⟩ := visitField_error_in_run s2 st f hin hmod
          rw [he]
          exact ⟨e, rfl⟩
      obtain ⟨e, he⟩ := herr
      rw [he]
      exact ⟨e, rfl⟩

/-- Witness of C18 (amended): `const K 5` and the message `defmsg A { hi u4 lo u4 -> xor K }`,
whose second field continues the run that `hi` opens. -/
theorem modifier_inside_bit_run_rejected_witness :
    aggrRun { inAggr := false, bits := 0 }
        [{ name := "hi", type_ := .AstPrimType symTypeU4, line := 3 }]
        = .ok { inAggr := true, bits := 4 }
      ∧ ∃ e, DoAnalyze NewSemanticAnalyzer programXorSecond = .error e :=
  ⟨by rfl,
    modifier_inside_bit_run_rejected NewSemanticAnalyzer programXorSecond msgXorSecond
      [{ name := "hi", type_ := .AstPrimType symTypeU4, line := 3 }] []
      { name := "lo", type_ := .AstPrimType symTypeU4, line := 3,
        xor := some { name := "K", line := 3 } }
      { inAggr := true, bits := 4 } rfl
      (List.mem_cons_of_mem _ (List.mem_cons_self _ _)) rfl (by rfl) rfl (Or.inl rfl)⟩

/-- In `defmsg A { hi u4 -> xor K exist if K == 5` / `lo u4 }` the field `hi` of width 4
opens a sub-byte run and carries both modifiers, and the program is accepted by the
analysis. -/
theorem modifiers_on_first_field_of_run_accepted :
    (parse 100 tokensXorFirst).map (fun r => r.decl_list.filterMap fun d =>
        match d with
        | .structType node =>
          some (node.fields.map fun f =>
            (f.name, (isIntType f.type_).2, f.xor.isSome, f.existIf.isSome))
        | _ => none) = .ok [[("hi", 4, true, true), ("lo", 4, false, false)]]
      ∧ (compile 100 tokensXorFirst).toBool = true :=
  ⟨by rfl, by rfl⟩

/-! ## The expression of `exist if` is not analyzed (semantic.go, `visitMsgDefine`) -/

theorem visitFieldChecks_mapExistIf (g : AstNode → AstNode) (se : semanticAnalyzer)
    (f : AstVarDecl) (xorOk ok : Bool) :
    visitFieldChecks se (f.mapExistIf g) xorOk ok = visitFieldChecks se f xorOk ok := by
  have h : (f.mapExistIf g).existIf.isSome = f.existIf.isSome := by
    simp only [AstVarDecl.mapExistIf]
    cases f.existIf <;> rfl
  unfold visitFieldChecks
  rw [h]
  rfl

theorem visitField_mapExistIf (g : AstNode → AstNode) (se : semanticAnalyzer) (st : AggrState)
    (f : AstVarDecl) : visitField se st (f.mapExistIf g) = visitField se st f := by
  unfold visitField
  have h1 : aggrStep st (f.mapExistIf g).name (f.mapExistIf g).type_ =
      aggrStep st f.name f.type_ := rfl
  have h2 : visitVarDecl se (f.mapExistIf g) = visitVarDecl se f := rfl
  rw [h1, h2]
  cases aggrStep st f.name f.type_ with
  | error e => rfl
  | ok r =>
    obtain ⟨st1, xorOk, ok⟩ := r
    simp only []
    cases visitVarDecl se f with
    | error e => rfl
    | ok se1 =>
      simp only []
      rw [visitFieldChecks_mapExistIf]

theorem visitFields_mapExistIf (g : AstNode → AstNode) (fields : List AstVarDecl) :
    ∀ (se : semanticAnalyzer) (st : AggrState),
      visitFields se st (fields.map (AstVarDecl.mapExistIf g)) = visitFields se st fields := by
  induction fields with
  | nil => intro se st; rfl
  | cons f rest ih =>
    intro se st
    simp only [List.map_cons, visitFields]
    rw [visitField_mapExistIf]
    cases visitField se st f with
    | error e => rfl
    | ok r =>
      obtain ⟨se1, st1⟩ := r
      exact ih se1 st1

theorem toType_mapExistIf (g : AstNode → AstNode) (node : AstStructDecl) :
    (node.mapExistIf g).toType = node.toType := by
  simp only [AstStructDecl.toType, AstStructDecl.mapExistIf, List.map_map]
  rfl

theorem visitMsgDefine_mapExistIf (g : AstNode → AstNode) (se : semanticAnalyzer)
    (node : AstStructDecl) : visitMsgDefine se (node.mapExistIf g) = visitMsgDefine se node := by
  unfold visitMsgDefine
  rw [toType_mapExistIf]
  have hf : (node.mapExistIf g).fields = node.fields.map (AstVarDecl.mapExistIf g) := rfl
  have hn : (node.mapExistIf g).name = node.name := rfl
  have hl : (node.mapExistIf g).line = node.line := rfl
  rw [hf, hn, hl]
  cases lookup se.symbolStack node.name false with
  | some s => rfl
  | none =>
    simp only []
    cases se.insertSymbol (newVarSymbol node.name node.toType se.curLevel node.line) with
    | error e => rfl
    | ok se1 =>
      simp only []
      rw [visitFields_mapExistIf]

theorem visitDecl_mapExistIf (g : AstNode → AstNode) (se : semanticAnalyzer) (d : Decl) :
    visitDecl se (d.mapExistIf g) =
      (visitDecl se d).map fun r => (r.1, r.2.mapExistIf g) := by
  cases d with
  | varDecl node =>
    simp only [Decl.mapExistIf, visitDecl]
    have h2 : visitVarDecl se (node.mapExistIf g) = visitVarDecl se node := rfl
    rw [h2]
    split
    · cases visitVarDecl se node <;> rfl
    · rfl
  | idGroupDef node =>
    simp only [Decl.mapExistIf, visitDecl]
    split
    · cases visitIdGroupDefine se node <;> rfl
    · rfl
  | constDef node =>
    simp only [Decl.mapExistIf, visitDecl]
    split
    · cases visitConstDef se node <;> rfl
    · rfl
  | structType node =>
    simp only [Decl.mapExistIf, visitDecl]
    rw [visitMsgDefine_mapExistIf]
    split
    · cases visitMsgDefine se node <;> rfl
    · rfl
  | externVar node =>
    simp only [Decl.mapExistIf, visitDecl]
    split
    · cases visitExternVar se node <;> rfl
    · rfl
  | bindDef node =>
    simp only [Decl.mapExistIf, visitDecl]
    split
    · cases visitBindDef se node <;> rfl
    · rfl
  | srcComment node => rfl
  | typeDef node => rfl

theorem visitDecls_mapExistIf (g : AstNode → AstNode) (decls : List Decl) :
    ∀ (se : semanticAnalyzer), visitDecls se (decls.map (Decl.mapExistIf g)) =
      (visitDecls se decls).map fun r => (r.1, r.2.map (Decl.mapExistIf g)) := by
  induction decls with
  | nil => intro se; rfl
  | cons d rest ih =>
    intro se
    simp only [List.map_cons, visitDecls]
    rw [visitDecl_mapExistIf]
    cases visitDecl se d with
    | error e => rfl
    | ok r =>
      obtain ⟨se1, d1⟩ := r
      simp only [Except.map]
      rw [ih se1]
      cases visitDecls se1 rest with
      | error e => rfl
      | ok r2 => rfl

theorem visitProgram_mapExistIf (g : AstNode → AstNode) (se : semanticAnalyzer)
    (program : AstProgram) :
    visitProgram se (program.mapExistIf g) =
      (visitProgram se program).map fun r => (r.1, r.2.mapExistIf g) := by
  unfold visitProgram
  have hm : (program.mapExistIf g).mspace = program.mspace := rfl
  have hd : (program.mapExistIf g).decl_list = program.decl_list.map (Decl.mapExistIf g) := rfl
  rw [hm, hd, visitDecls_mapExistIf]
  split
  · rfl
  · cases visitDecls se program.decl_list with
    | error e => rfl
    | ok r => rfl

/-- C19 (amended). The analysis does not look into the expression of an `exist if`
modifier: for every program and every replacement `g` of the expressions, `DoAnalyze`
returns for the program with each expression `e` replaced by `g e` what it returns for
the program itself (the same error, or the same analyzer and the program with the
replaced expressions). So no identifier of such an expression is resolved or type
checked; only the presence of the modifier is used, for the check of sub-byte runs. -/
theorem exist_if_expression_not_analyzed (g : AstNode → AstNode) (se : semanticAnalyzer)
    (program : AstProgram) :
    DoAnalyze se (program.mapExistIf g) =
      (DoAnalyze se program).map fun r => (r.1, r.2.mapExistIf g) := by
  unfold DoAnalyze
  rw [visitProgram_mapExistIf]
  cases visitProgram se program with
  | error e => rfl
  | ok r =>
    obtain ⟨se1, root1⟩ := r
    simp only [Except.map]
    rw [visitProgram_mapExistIf]
    rfl

/-- Counterexample to C19: the fields `a u8 -> exist if nosuch == 1` and
`b u8 -> exist if "x"` are accepted, although `nosuch` is not defined and `"x"` is no
integer: in the analyzer that accepted the program `visitAst` returns the error
`symbol not found` for the first expression and a type of signature `S`, not `I`, for the
second. -/
theorem exist_if_with_undefined_identifier_accepted :
    (parse 100 tokensExistUndefined).map (fun r => r.decl_list.filterMap fun d =>
        match d with
        | .structType node => some (node.fields.map fun f => f.existIf)
        | _ => none)
        = .ok [[some (.AstBinOP .EQU (.AstVarNameRef false "nosuch" 2) (.AstIntConst 1) 2),
                some (.AstStringConst "x")]]
      ∧ (compile 100 tokensExistUndefined).toBool = true
      ∧ (compile 100 tokensExistUndefined).map (fun r =>
          (visitAst r.1 (.AstBinOP .EQU (.AstVarNameRef false "nosuch" 2) (.AstIntConst 1) 2),
            (visitAst r.1 (.AstStringConst "x")).map fun t => t.signature))
        = .ok (.error (.symbolNotFound "nosuch"), .ok (.ok "S")) :=
  ⟨by rfl, by rfl, by rfl⟩

/-! ## The checks of the decoder for a whole-byte integer (interp_go.go) -/

theorem typeName4Go_of_int (tp : AstType) (bn : Nat) (h : isIntType tp = (true, bn)) :
    ∃ tn, typeName4Go tp = .ok tn := by
  obtain ⟨name, hname⟩ := isIntType_prim tp (by rw [h])
  subst hname
  simp only [typeName4Go]
  by_cases h1 : name = symTypeU1 ∨ name = symTypeU2 ∨ name = symTypeU3 ∨ name = symTypeU4
      ∨ name = symTypeU5 ∨ name = symTypeU6 ∨ name = symTypeU7 ∨ name = symTypeU8
      ∨ name = symTypeChar
  · rw [if_pos h1]
    exact ⟨_, rfl⟩
  · rw [if_neg h1]
    by_cases h2 : name = symTypeU16
    · rw [if_pos h2]
      exact ⟨_, rfl⟩
    · rw [if_neg h2]
      by_cases h3 : name = symTypeU32 ∨ name = symTypeV32
      · rw [if_pos h3]
        exact ⟨_, rfl⟩
      · rw [if_neg h3]
        by_cases h4 : name = symTypeU64 ∨ name = symTypeV64
        · rw [if_pos h4]
          exact ⟨_, rfl⟩
        · exfalso
          simp only [not_or] at h1
          obtain ⟨a1, a2, a3, a4, a5, a6, a7, a8, a9⟩ := h1
          have hp : primIntWidth name = (false, 0) := by
            unfold primIntWidth
            rw [if_neg a1, if_neg a2, if_neg a3, if_neg a4, if_neg a5, if_neg a6, if_neg a7,
              if_neg a8, if_neg a9, if_neg h2, if_neg h3, if_neg h4]
          simp only [isIntType] at h
          rw [hp] at h
          cases h

theorem decodeCheck_addLine (interp : interpreter) (format : String) (args : List Arg) :
    (interp.addLine format args).out.filterMap decodeCheck =
      interp.out.filterMap decodeCheck ++
        (decodeCheck { indent := (interp.depth - 1) * 4, format := format, args := args }).toList := by
  rw [out_addLine, List.filterMap_append]
  cases h : decodeCheck { indent := (interp.depth - 1) * 4, format := format, args := args } <;>
    simp [List.filterMap, h]

theorem decodeWholeInt_checks (f : AstVarDecl) (interp : interpreter) (bn : Nat)
    (hint : isIntType f.type_ = (true, bn)) (hvar : isVarInt f.type_ = false) :
    ∃ r, decodeWholeInt f interp = .ok r ∧ r.depth = interp.depth
      ∧ r.out.filterMap decodeCheck = interp.out.filterMap decodeCheck ++
          (match f.max with
            | some max => [(f.name, ">", max.name)]
            | none =>
              match f.equ with
              | some equ => [(f.name, "!=", equ.name)]
              | none => []) := by
  obtain ⟨tn, htn⟩ := typeName4Go_of_int f.type_ bn hint
  unfold decodeWholeInt
  simp only [hvar, Bool.false_eq_true, if_false, htn]
  cases hx : f.xor <;> cases hm : f.max <;> cases he : f.equ <;>
    simp [interpreter.addLine, List.filterMap_append, decodeCheck]

theorem wrapExist_checks (interp : interpreter) (f : AstVarDecl)
    (op : interpreter → Except Panic interpreter) (new : List (String × String × String))
    (hdepth : 1 ≤ interp.depth)
    (hop : ∀ i, ∃ r, op i = .ok r ∧ r.depth = i.depth
      ∧ r.out.filterMap decodeCheck = i.out.filterMap decodeCheck ++ new) :
    ∃ r, wrapExist_Go interp f op = .ok r ∧ r.depth = interp.depth
      ∧ r.out.filterMap decodeCheck = interp.out.filterMap decodeCheck ++ new := by
  unfold wrapExist_Go
  cases hex : f.existIf with
  | none => exact hop interp
  | some cond =>
    simp only []
    obtain ⟨r, hr, hrd, hro⟩ :=
      hop ((interp.addLine "if %s \x7b" [.str (traveseCond true cond)]).pushStackFrame)
    rw [hr]
    simp only []
    have hd : r.depth = interp.depth + 1 := by
      rw [hrd]
      rfl
    have hpop : r.popStackFrame = .ok { r with depth := r.depth - 1 } := by
      unfold interpreter.popStackFrame
      rw [if_neg (by omega)]
    rw [hpop]
    refine ⟨_, rfl, ?_, ?_⟩
    · simp only [interpreter.addLine]
      omega
    · rw [decodeCheck_addLine]
      simp only []
      rw [hro]
      have h1 : ((interp.addLine "if %s \x7b" [.str (traveseCond true cond)]).pushStackFrame).out
          = (interp.addLine "if %s \x7b" [.str (traveseCond true cond)]).out := rfl
      rw [h1, decodeCheck_addLine]
      simp [decodeCheck]

/-- C20 (amended). For every whole-byte integer field (width 8, 16, 32 or 64, not `v32`
or `v64`) outside a sub-byte run the decoder emits exactly one check, or none: with
`max M` the check `if m.F > M { return -1 }`, and only when the field has no `max` and
carries `equal E` the check `if m.F != E { return -1 }`. When both modifiers are set, the
`equal` check is not emitted. -/
theorem decoder_checks_max_else_equal (fields : List AstVarDecl) (interp : interpreter)
    (st : DecodeState) (f : AstVarDecl) (bn : Nat)
    (hint : isIntType f.type_ = (true, bn)) (h8 : bn % 8 = 0)
    (hvar : isVarInt f.type_ = false) (hst : st.bitAggr = false) (hdepth : 1 ≤ interp.depth) :
    ∃ r, decodeField fields interp st f = .ok (r, st)
      ∧ r.out.filterMap decodeCheck = interp.out.filterMap decodeCheck ++
          (match f.max with
            | some max => [(f.name, ">", max.name)]
            | none =>
              match f.equ with
              | some equ => [(f.name, "!=", equ.name)]
              | none => []) := by
  obtain ⟨name, hname⟩ := isIntType_prim f.type_ (by rw [hint])
  have hn : bn / 8 = 1 ∨ bn / 8 = 2 ∨ bn / 8 = 4 ∨ bn / 8 = 8 := by
    have hc := isIntType_cases f.type_
    rw [hint] at hc
    rcases hc with hc | ⟨b, hb, hv⟩
    · cases hc
    · simp only [Prod.mk.injEq, true_and] at hb
      subst hb
      rcases hv with h | h | h | h | h | h | h | h | h | h | h <;> subst h <;> simp at h8 ⊢
  obtain ⟨r, hr, _, hro⟩ := wrapExist_checks interp f (decodeWholeInt f) _ hdepth
    (fun i => decodeWholeInt_checks f i bn hint hvar)
  refine ⟨r, ?_, hro⟩
  unfold decodeField
  rw [hname]
  simp only []
  unfold decodePrim
  rw [hint]
  simp only [hst, Bool.false_eq_true, if_false, if_true, h8, hn, hr]

/-- Witness of C20 (amended): the field `len u8 -> max MAX equal E`. -/
theorem decoder_checks_max_else_equal_witness :
    ∃ r, decodeField [fieldMaxEqual] NewInterpreter {} fieldMaxEqual = .ok (r, {})
      ∧ r.out.filterMap decodeCheck = NewInterpreter.out.filterMap decodeCheck ++
          (match fieldMaxEqual.max with
            | some max => [(fieldMaxEqual.name, ">", max.name)]
            | none =>
              match fieldMaxEqual.equ with
              | some equ => [(fieldMaxEqual.name, "!=", equ.name)]
              | none => []) :=
  decoder_checks_max_else_equal [fieldMaxEqual] NewInterpreter {} fieldMaxEqual 8 rfl (by decide)
    rfl rfl (by decide)

/-- Counterexample to C20: `defmsg Buf { len u8 -> max MAX equal E }` is accepted, and the
decoder emitted for it has the check `if m.len > MAX { return -1 }` and no check against
`E`. -/
theorem equal_check_dropped_when_max_is_set :
    (compile 100 tokensMaxEqual).map (fun r => r.2.decl_list.filterMap fun d =>
        match d with
        | .structType node =>
          some ((visitMsgDecode_Go NewInterpreter node).map fun i =>
            i.out.filterMap decodeCheck)
        | _ => none) = .ok [.ok [("len", ">", "MAX")]]
      ∧ (parse 100 tokensMaxEqual).map (fun r => r.decl_list.filterMap fun d =>
          match d with
          | .structType node => some node.fields
          | _ => none) = .ok [[fieldMaxEqual]] :=
  ⟨by rfl, by rfl⟩

/-! ## The kinds of token that the lexer returns (lexer.go) -/

theorem mapGet_mem_values {α : Type} (m : List (String × α)) (k : String) (v : α)
    (h : mapGet m k = some v) : v ∈ m.map Prod.snd := by
  induction m with
  | nil => cases h
  | cons a rest ih =>
    obtain ⟨k1, v1⟩ := a
    unfold mapGet at h
    by_cases hk : k1 = k
    · rw [if_pos hk] at h
      cases h
      simp
    · rw [if_neg hk] at h
      simp only [List.map_cons, List.mem_cons]
      exact Or.inr (ih h)

theorem getId_type (lex : hskLexer) :
    lex.getId.1.type_ = .ID ∨ lex.getId.1.type_ ∈ keywords.map Prod.snd := by
  unfold hskLexer.getId
  simp only []
  split
  · rename_i type_ hk
    exact Or.inr (mapGet_mem_values _ _ _ hk)
  · exact Or.inl rfl

theorem token_type (lex : hskLexer) (t : TokenType) (v : String) : (lex.token t v).type_ = t := rfl
theorem switchToken_type (lex : hskLexer) (tok : Token) (h : (switchToken lex).1 = some tok) :
    tok.type_ ≠ .MINUS ∧ tok.type_ ≠ .RSHIFT ∧ tok.type_ ≠ .FOLLOW ∧ tok.type_ ≠ .ABOVE := by
  unfold switchToken at h
  by_cases h0 : lex.curChar = '+'
  · rw [if_pos h0] at h
    rw [← Option.some.inj h]
    exact ⟨nofun, nofun, nofun, nofun⟩
  rw [if_neg h0] at h
  by_cases h1 : lex.curChar = '-'
  · rw [if_pos h1] at h
    by_cases p0 : lex.peekChar 1 = '>'
    · rw [if_pos p0] at h
      rw [← Option.some.inj h]
      exact ⟨nofun, nofun, nofun, nofun⟩
    rw [if_neg p0] at h
    rw [← Option.some.inj h]
    exact ⟨nofun, nofun, nofun, nofun⟩
  rw [if_neg h1] at h
  by_cases h2 : lex.curChar = '*'
  · rw [if_pos h2] at h
    rw [← Option.some.inj h]
    exact ⟨nofun, nofun, nofun, nofun⟩
  rw [if_neg h2] at h
  by_cases h3 : lex.curChar = '/'
  · rw [if_pos h3] at h
    rw [← Option.some.inj h]
    exact ⟨nofun, nofun, nofun, nofun⟩
  rw [if_neg h3] at h
  by_cases h4 : lex.curChar = ':'
  · rw [if_pos h4] at h
    by_cases p0 : lex.peekChar 1 = '='
    · rw [if_pos p0] at h
      rw [← Option.some.inj h]
      exact ⟨nofun, nofun, nofun, nofun⟩
    rw [if_neg p0] at h
    rw [← Option.some.inj h]
    exact ⟨nofun, nofun, nofun, nofun⟩
  rw [if_neg h4] at h
  by_cases h5 : lex.curChar = '='
  · rw [if_pos h5] at h
    by_cases p0 : lex.peekChar 1 = '='
    · rw [if_pos p0] at h
      rw [← Option.some.inj h]
      exact ⟨nofun, nofun, nofun, nofun⟩
    rw [if_neg p0] at h
    rw [← Option.some.inj h]
    exact ⟨nofun, nofun, nofun, nofun⟩
  rw [if_neg h5] at h
  by_cases h6 : lex.curChar = '!'
  · rw [if_pos h6] at h
    by_cases p0 : lex.peekChar 1 = '='
    · rw [if_pos p0] at h
      rw [← Option.some.inj h]
      exact ⟨nofun, nofun, nofun, nofun⟩
    rw [if_neg p0] at h
    rw [← Option.some.inj h]
    exact ⟨nofun, nofun, nofun, nofun⟩
  rw [if_neg h6] at h
  by_cases h7 : lex.curChar = '&'
  · rw [if_pos h7] at h
    by_cases p0 : lex.peekChar 1 = '&'
    · rw [if_pos p0] at h
      rw [← Option.some.inj h]
      exact ⟨nofun, nofun, nofun, nofun⟩
    rw [if_neg p0] at h
    rw [← Option.some.inj h]
    exact ⟨nofun, nofun, nofun, nofun⟩
  rw [if_neg h7] at h
  by_cases h8 : lex.curChar = '|'
  · rw [if_pos h8] at h
    by_cases p0 : lex.peekChar 1 = '|'
    · rw [if_pos p0] at h
      rw [← Option.some.inj h]
      exact ⟨nofun, nofun, nofun, nofun⟩
    rw [if_neg p0] at h
    rw [← Option.some.inj h]
    exact ⟨nofun, nofun, nofun, nofun⟩
  rw [if_neg h8] at h
  by_cases h9 : lex.curChar = '<'
  · rw [if_pos h9] at h
    by_cases p0 : lex.peekChar 1 = '='
    · rw [if_pos p0] at h
      rw [← Option.some.inj h]
      exact ⟨nofun, nofun, nofun, nofun⟩
    rw [if_neg p0] at h
    by_cases p1 : lex.peekChar 1 = '<'
    · rw [if_pos p1] at h
      rw [← Option.some.inj h]
      exact ⟨nofun, nofun, nofun, nofun⟩
    rw [if_neg p1] at h
    rw [← Option.some.inj h]
    exact ⟨nofun, nofun, nofun, nofun⟩
  rw [if_neg h9] at h
  by_cases h10 : lex.curChar = '>'
  · rw [if_pos h10] at h
    by_cases p0 : lex.peekChar 1 = '='
    · rw [if_pos p0] at h
      rw [← Option.some.inj h]
      exact ⟨nofun, nofun, nofun, nofun⟩
    rw [if_neg p0] at h
    rw [← Option.some.inj h]
    exact ⟨nofun, nofun, nofun, nofun⟩
  rw [if_neg h10] at h
  by_cases h11 : lex.curChar = '('
  · rw [if_pos h11] at h
    rw [← Option.some.inj h]
    exact ⟨nofun, nofun, nofun, nofun⟩
  rw [if_neg h11] at h
  by_cases h12 : lex.curChar = ')'
  · rw [if_pos h12] at h
    rw [← Option.some.inj h]
    exact ⟨nofun, nofun, nofun, nofun⟩
  rw [if_neg h12] at h
  by_cases h13 : lex.curChar = Char.ofNat 123
  · rw [if_pos h13] at h
    rw [← Option.some.inj h]
    exact ⟨nofun, nofun, nofun, nofun⟩
  rw [if_neg h13] at h
  by_cases h14 : lex.curChar = Char.ofNat 125
  · rw [if_pos h14] at h
    rw [← Option.some.inj h]
    exact ⟨nofun, nofun, nofun, nofun⟩
  rw [if_neg h14] at h
  by_cases h15 : lex.curChar = ','
  · rw [if_pos h15] at h
    rw [← Option.some.inj h]
    exact ⟨nofun, nofun, nofun, nofun⟩
  rw [if_neg h15] at h
  by_cases h16 : lex.curChar = ';'
  · rw [if_pos h16] at h
    rw [← Option.some.inj h]
    exact ⟨nofun, nofun, nofun, nofun⟩
  rw [if_neg h16] at h
  by_cases h17 : lex.curChar = chLF
  · rw [if_pos h17] at h
    rw [← Option.some.inj h]
    exact ⟨nofun, nofun, nofun, nofun⟩
  rw [if_neg h17] at h
  by_cases h18 : lex.curChar = '['
  · rw [if_pos h18] at h
    rw [← Option.some.inj h]
    exact ⟨nofun, nofun, nofun, nofun⟩
  rw [if_neg h18] at h
  by_cases h19 : lex.curChar = ']'
  · rw [if_pos h19] at h
    rw [← Option.some.inj h]
    exact ⟨nofun, nofun, nofun, nofun⟩
  rw [if_neg h19] at h
  by_cases h20 : lex.curChar = '.'
  · rw [if_pos h20] at h
    rw [← Option.some.inj h]
    exact ⟨nofun, nofun, nofun, nofun⟩
  rw [if_neg h20] at h
  cases h

theorem getNextToken_type (fuel : Nat) (lex : hskLexer) (t : TokenType)
    (h : tokenTypeOf (getNextToken fuel lex) = some t) :
    t ≠ .MINUS ∧ t ≠ .RSHIFT ∧ t ≠ .FOLLOW ∧ t ≠ .ABOVE := by
  induction fuel generalizing lex with
  | zero => simp [getNextToken, tokenTypeOf] at h
  | succ n ih =>
    unfold getNextToken at h
    split_ifs at h
    · simp only [tokenTypeOf, hskLexer.token, Option.some.injEq] at h
      subst h
      decide
    · simp only [tokenTypeOf, Option.some.injEq] at h
      subst h
      decide
    · simp only [tokenTypeOf, Option.some.injEq] at h
      subst h
      rcases getId_type lex.skipSpaces with h1 | h1
      · rw [h1]
        decide
      · revert h1
        generalize (lex.skipSpaces.getId).1.type_ = ty
        intro h1
        simp only [keywords, List.map_cons, List.map_nil, List.mem_cons, List.mem_singleton,
          List.not_mem_nil, or_false] at h1
        rcases h1 with h1 | h1 | h1 | h1 | h1 | h1 | h1 | h1 | h1 | h1 | h1 | h1 | h1 | h1 | h1
          | h1 | h1 | h1 | h1 | h1 | h1 | h1 | h1 | h1 | h1 | h1 | h1 | h1 | h1 | h1 | h1 | h1
          | h1 | h1 | h1 | h1 | h1 | h1 | h1 | h1 | h1 | h1 | h1 | h1 <;> subst h1 <;> decide
    · cases hs : getString n lex.skipSpaces with
      | error e =>
        rw [hs] at h
        simp [tokenTypeOf] at h
      | ok r =>
        rw [hs] at h
        simp only [tokenTypeOf, Option.some.injEq] at h
        subst h
        decide
    · exact ih _ h
    · simp only [tokenTypeOf, commentToken, Option.some.injEq] at h
      subst h
      decide
    · exact ih _ h
    · cases hs : switchToken lex.skipSpaces with
      | mk o l =>
        rw [hs] at h
        cases o with
        | none => simp [tokenTypeOf] at h
        | some tok =>
          simp only [tokenTypeOf, Option.some.injEq] at h
          subst h
          exact switchToken_type lex.skipSpaces tok (by rw [hs])

/-- C22 (the code at the failing input). No call of `getNextToken` returns a `MINUS`
token: the character `-` that is not followed by `>` gives a token of kind `DIV`. So
`5 - 3` is lexed as `5`, `DIV`, `3`; the constant `const X 5 - 3` is parsed to a binary
node with the operator `DIV`, which the emitter folds to `5 / 3 = 1`; and `const X -3`
is a parse error, since `factor` finds no unary operator. -/
theorem minus_lexed_as_div :
    (∀ (fuel : Nat) (lex : hskLexer), tokenTypeOf (getNextToken fuel lex) ≠ some .MINUS)
    ∧ tokenKinds 10 "5 - 3"
        = .ok [(.INT_CONST, "5"), (.DIV, "-"), (.INT_CONST, "3"), (.EOF, "EOF")]
    ∧ parseText 30 "mspace t\nconst X 5 - 3"
        = .ok { mspace := "t", decl_list := [.constDef
            { name := "X", val := .AstBinOP .DIV (.AstIntConst 5) (.AstIntConst 3) 2,
              line := 2 }] }
    ∧ foldedInt (interpreter.visitAst [] (.AstBinOP .DIV (.AstIntConst 5) (.AstIntConst 3) 2))
        = some 1
    ∧ parseText 30 "mspace t\nconst X -3" = .error (.parseFactor 2) := by
  refine ⟨?_, rfl, rfl, rfl, rfl⟩
  intro fuel lex h
  exact (getNextToken_type fuel lex _ h).1 rfl

/-- C23 (the code at the failing input). Each of `:=`, `==`, `!=`, `<=`, `>=`, `<<`, `&&`,
`||`, `->` is lexed as one token of its kind followed by `EOF`; the text `>>` is lexed
as two tokens `GT`, and no call of `getNextToken` returns a `RSHIFT` token: the case of
`>` looks for `=` only. -/
theorem shift_right_lexed_as_two_gt :
    (∀ (fuel : Nat) (lex : hskLexer), tokenTypeOf (getNextToken fuel lex) ≠ some .RSHIFT)
    ∧ tokenKinds 10 ">>" = .ok [(.GT, ">"), (.GT, ">"), (.EOF, "EOF")]
    ∧ tokenKinds 10 ":=" = .ok [(.DEC_ASSIGN, ":="), (.EOF, "EOF")]
    ∧ tokenKinds 10 "==" = .ok [(.EQU, "=="), (.EOF, "EOF")]
    ∧ tokenKinds 10 "!=" = .ok [(.NEQ, "!="), (.EOF, "EOF")]
    ∧ tokenKinds 10 "<=" = .ok [(.LTE, "<="), (.EOF, "EOF")]
    ∧ tokenKinds 10 ">=" = .ok [(.GTE, ">="), (.EOF, "EOF")]
    ∧ tokenKinds 10 "<<" = .ok [(.LSHIFT, "<<"), (.EOF, "EOF")]
    ∧ tokenKinds 10 "&&" = .ok [(.AND, "&&"), (.EOF, "EOF")]
    ∧ tokenKinds 10 "||" = .ok [(.OR, "||"), (.EOF, "EOF")]
    ∧ tokenKinds 10 "->" = .ok [(.DESC, "->"), (.EOF, "EOF")] := by
  refine ⟨?_, rfl, rfl, rfl, rfl, rfl, rfl, rfl, rfl, rfl, rfl⟩
  intro fuel lex h
  exact (getNextToken_type fuel lex _ h).2.1 rfl

/-- C24 (the code at the failing input). No call of `getNextToken` returns a token of
kind `FOLLOW` or `ABOVE`: the two words are missing in the map `keywords` and are
lexed as identifiers. So the parser, which looks for the kind `FOLLOW` after `exist`,
asks for `if` and fails on `a u8 -> exist follow above`. On the token kinds `FOLLOW`,
`ABOVE` the parser does what the claim says: the flag is set and there is no
expression. -/
theorem follow_above_lexed_as_identifiers :
    (∀ (fuel : Nat) (lex : hskLexer), tokenTypeOf (getNextToken fuel lex) ≠ some .FOLLOW
      ∧ tokenTypeOf (getNextToken fuel lex) ≠ some .ABOVE)
    ∧ tokenKinds 10 "follow above" = .ok [(.ID, "follow"), (.ID, "above"), (.EOF, "EOF")]
    ∧ parseText 30 "mspace t\ndefmsg A \x7b\n a u8 -> exist follow above\n\x7d"
        = .error (.parseExpect .IF .ID 3)
    ∧ parse 30 tokensFollowAbove
        = .ok { mspace := "t", decl_list := [.structType
            { name := "A", line := 2, fields :=
                [{ name := "a", type_ := .AstPrimType symTypeU8, line := 3,
                   existCondFollow := true, existIf := none }] }] } := by
  refine ⟨?_, rfl, rfl, rfl⟩
  intro fuel lex
  exact ⟨fun h => (getNextToken_type fuel lex _ h).2.2.1 rfl,
    fun h => (getNextToken_type fuel lex _ h).2.2.2 rfl⟩

/-! ## The position of the lexer in the text -/

theorem newLexer_at (s : String) : (newLexer s).At s.toList := by
  unfold newLexer
  split
  · refine ⟨rfl, ?_⟩
    cases s.toList <;> rfl
  · rename_i h
    have : s.toList = [] := by
      cases hs : s.toList with
      | nil => rfl
      | cons a l => rw [hs] at h; simp at h
    rw [this]
    exact ⟨rfl, rfl⟩

theorem at_length (lex : hskLexer) (cs : List Char) (h : lex.At cs) :
    lex.posMax - lex.pos = cs.length := by
  unfold hskLexer.posMax
  rw [← h.1, List.length_drop]

theorem advance_at (lex : hskLexer) (c : Char) (cs : List Char) (h : lex.At (c :: cs)) :
    lex.advance.At cs ∧ lex.advance.text = lex.text ∧ lex.advance.pos = lex.pos + 1
      ∧ lex.advance.lineNo = (if cs ≠ [] ∧ c = chLF then lex.lineNo + 1 else lex.lineNo) := by
  have hlen := at_length lex _ h
  have hd : lex.text.drop (lex.pos + 1) = cs := by
    rw [← List.drop_drop, h.1]
    rfl
  have hc : lex.curChar = c := h.2
  unfold hskLexer.advance
  by_cases hcs : cs = []
  · subst hcs
    simp only [List.length_cons, List.length_nil] at hlen
    rw [if_neg (by omega)]
    refine ⟨⟨hd, rfl⟩, rfl, rfl, ?_⟩
    simp
  · have hpos : 0 < cs.length := List.length_pos.mpr hcs
    simp only [List.length_cons] at hlen
    rw [if_pos (by omega)]
    refine ⟨⟨hd, ?_⟩, rfl, rfl, ?_⟩
    · show lex.text.getD (lex.pos + 1) chNUL = cs.headD chNUL
      rw [← hd]
      cases hdd : List.drop (lex.pos + 1) lex.text with
      | nil => rw [hd] at hdd; exact absurd hdd hcs
      | cons a l =>
        have := List.getElem?_drop (L := lex.text) (i := lex.pos + 1) (j := 0)
        rw [hdd] at this
        simp only [List.getElem?_cons_zero, Nat.add_zero] at this
        rw [List.getD_eq_getElem?_getD, ← this]
        rfl
    · show (if lex.curChar = chLF then lex.lineNo + 1 else lex.lineNo) = _
      rw [hc]
      by_cases hl : c = chLF
      · rw [if_pos hl, if_pos ⟨hcs, hl⟩]
      · rw [if_neg hl, if_neg (fun hx => hl hx.2)]

theorem advance_at_nil (lex : hskLexer) (h : lex.At []) :
    lex.advance.At [] ∧ lex.advance.text = lex.text := by
  have hlen := at_length lex _ h
  simp only [List.length_nil] at hlen
  unfold hskLexer.advance
  rw [if_neg (by omega)]
  refine ⟨⟨?_, rfl⟩, rfl⟩
  show lex.text.drop (lex.pos + 1) = []
  rw [← List.drop_drop, h.1]
  rfl

theorem advance_at_tail (lex : hskLexer) (cs : List Char) (h : lex.At cs) :
    lex.advance.At cs.tail ∧ lex.advance.text = lex.text := by
  cases cs with
  | nil => exact advance_at_nil lex h
  | cons c cs => exact ⟨(advance_at lex c cs h).1, (advance_at lex c cs h).2.1⟩

theorem peekChar_at (lex : hskLexer) (cs : List Char) (k : Nat) (h : lex.At cs) :
    lex.peekChar k = cs.getD k chNUL := by
  have hlen := at_length lex _ h
  unfold hskLexer.peekChar
  have hk : cs[k]? = lex.text[lex.pos + k]? := by
    rw [← h.1, List.getElem?_drop]
  by_cases hlt : lex.pos + k < lex.posMax
  · rw [if_pos hlt, List.getD_eq_getElem?_getD, List.getD_eq_getElem?_getD, hk]
  · rw [if_neg hlt, List.getD_eq_getElem?_getD]
    have : cs.length ≤ k := by omega
    rw [List.getElem?_eq_none this]
    rfl

theorem advanceBy_two_at (lex : hskLexer) (c d : Char) (cs : List Char)
    (h : lex.At (c :: d :: cs)) :
    (lex.advanceBy 2).At cs ∧ (lex.advanceBy 2).text = lex.text := by
  have hlen := at_length lex _ h
  have h1 := advance_at lex c (d :: cs) h
  have hlen1 := at_length _ _ h1.1
  have h2 := advance_at lex.advance d cs h1.1
  simp only [List.length_cons] at hlen hlen1
  show (if lex.pos < lex.posMax then
      (if lex.advance.pos < lex.advance.posMax then lex.advance.advance else lex.advance)
    else lex).At cs ∧ (if lex.pos < lex.posMax then
      (if lex.advance.pos < lex.advance.posMax then lex.advance.advance else lex.advance)
    else lex).text = lex.text
  rw [if_pos (by omega), if_pos (by omega)]
  exact ⟨h2.1, h2.2.1.trans h1.2.1⟩

theorem skipSpaces_eq (lex : hskLexer) (h : isSpace lex.curChar = false) :
    lex.skipSpaces = lex := by
  unfold hskLexer.skipSpaces
  show (collect isSpace (lex.posMax - lex.pos + 1) [] lex).2 = lex
  unfold collect
  rw [h]
  rfl

theorem collect_at (P : Char → Bool) (ds : List Char) :
    ∀ (n : Nat) (acc : List Char) (lex : hskLexer) (rest : List Char),
      lex.At (ds ++ rest) → (∀ d ∈ ds, P d = true) → P (rest.headD chNUL) = false →
      ds.length < n →
      ∃ lex1, collect P n acc lex = (acc ++ ds, lex1) ∧ lex1.At rest ∧ lex1.text = lex.text := by
  induction ds with
  | nil =>
    intro n acc lex rest hat _ hrest hn
    obtain ⟨m, rfl⟩ : ∃ m, n = m + 1 := ⟨n - 1, by simp at hn; omega⟩
    refine ⟨lex, ?_, hat, rfl⟩
    unfold collect
    have : lex.curChar = rest.headD chNUL := hat.2
    rw [this, hrest]
    simp
  | cons d ds ih =>
    intro n acc lex rest hat hds hrest hn
    obtain ⟨m, rfl⟩ : ∃ m, n = m + 1 := ⟨n - 1, by simp at hn; omega⟩
    have hc : lex.curChar = d := hat.2
    have hadv := advance_at lex d (ds ++ rest) hat
    obtain ⟨lex1, h1, h2, h3⟩ := ih m (acc ++ [d]) lex.advance rest hadv.1
      (fun x hx => hds x (List.mem_cons_of_mem _ hx)) hrest (by simp at hn; omega)
    refine ⟨lex1, ?_, h2, h3.trans hadv.2.1⟩
    unfold collect
    rw [hc, hds d (List.mem_cons_self _ _)]
    simp only [if_true]
    rw [h1]
    simp

/-! ## A string literal without its closing quote (lexer.go) -/

theorem getStringLoop_diverges (n : Nat) :
    ∀ (val : List Char) (lex : hskLexer) (cs : List Char),
      lex.At cs → chQuote ∉ cs → getStringLoop n val lex = .error .outOfFuel := by
  induction n with
  | zero =>
    intro val lex cs _ _
    rfl
  | succ n ih =>
    intro val lex cs hat hq
    have hc : lex.curChar ≠ chQuote := by
      rw [hat.2]
      cases cs with
      | nil => decide
      | cons c cs =>
        intro h
        apply hq
        rw [← h]
        exact List.mem_cons_self _ _
    unfold getStringLoop
    rw [if_pos hc]
    have h1 := advance_at_tail lex cs hat
    have hq1 : chQuote ∉ cs.tail := fun h => hq (List.mem_of_mem_tail h)
    by_cases hb : lex.curChar = chBackslash
    · rw [if_pos hb]
      have h2 := advance_at_tail _ _ h1.1
      exact ih _ _ _ h2.1 (fun h => hq1 (List.mem_of_mem_tail h))
    · rw [if_neg hb]
      exact ih _ _ _ h1.1 hq1

/-- C27 (the code at the failing inputs). When the lexer stands before a double quote
and the rest of the text has no other double quote, `getNextToken` does not return:
the loop `for lex.curChar != '"'` of `getString` runs past the end of the text, where
`curChar` stays 0, so for no bound on the number of rounds is there a result. -/
theorem unterminated_string_never_returns (fuel : Nat) (lex : hskLexer) (body : List Char)
    (hat : lex.At (chQuote :: body)) (hq : chQuote ∉ body) :
    getNextToken fuel lex = .error .outOfFuel := by
  cases fuel with
  | zero => rfl
  | succ n =>
    have hc : lex.curChar = chQuote := hat.2
    have hs : lex.skipSpaces = lex := skipSpaces_eq lex (by rw [hc]; decide)
    unfold getNextToken
    rw [hs, hc]
    rw [if_neg (by decide), if_neg (by decide), if_neg (by decide), if_pos rfl]
    unfold getString
    rw [getStringLoop_diverges n [] lex.advance body (advance_at lex _ _ hat).1 hq]

/-- Witness of C27: the text `"abc`, a string literal that is not closed. -/
theorem unterminated_string_never_returns_witness :
    (newLexer (String.mk [chQuote, 'a', 'b', 'c'])).At (chQuote :: ['a', 'b', 'c'])
      ∧ chQuote ∉ ['a', 'b', 'c']
      ∧ getNextToken 1000 (newLexer (String.mk [chQuote, 'a', 'b', 'c'])) = .error .outOfFuel :=
  ⟨newLexer_at _, by decide,
    unterminated_string_never_returns 1000 _ ['a', 'b', 'c'] (newLexer_at _) (by decide)⟩

/-! ## Comments (lexer.go) -/

theorem skipCommentLoop_nil (mult : Bool) (line n : Nat) (lex : hskLexer) (h : lex.At []) :
    skipCommentLoop mult line n lex = lex := by
  have hlen := at_length lex _ h
  simp only [List.length_nil] at hlen
  cases n with
  | zero => rfl
  | succ n =>
    unfold skipCommentLoop
    rw [if_neg (by omega)]

theorem skipLine_loop (line : Nat) (cs : List Char) :
    ∀ (n : Nat) (lex : hskLexer) (tail : List Char),
      lex.At (cs ++ tail) → (∀ c ∈ cs, c ≠ chLF) → (tail = [] ∨ tail.head? = some chLF) →
      lex.lineNo = line → (cs ++ tail).length ≤ n →
      (skipCommentLoop false line n lex).At (tail.drop 1)
        ∧ (skipCommentLoop false line n lex).text = lex.text
        ∧ (skipCommentLoop false line n lex).pos = lex.pos + cs.length + min 1 tail.length := by
  induction cs with
  | nil =>
    intro n lex tail hat _ htail hline hn
    cases tail with
    | nil =>
      rw [skipCommentLoop_nil false line n lex hat]
      exact ⟨hat, rfl, rfl⟩
    | cons t r =>
      have ht : t = chLF := by
        rcases htail with h | h
        · cases h
        · simpa using h
      subst ht
      obtain ⟨m, rfl⟩ : ∃ m, n = m + 1 := ⟨n - 1, by simp at hn; omega⟩
      have hlen := at_length lex _ hat
      have hadv := advance_at lex chLF r hat
      simp only [List.nil_append, List.length_cons] at hlen
      unfold skipCommentLoop
      rw [if_pos (by omega)]
      simp only [Bool.false_eq_true, false_and, if_false, not_false_eq_true, true_and]
      by_cases hr : r = []
      · subst hr
        have hl : lex.advance.lineNo = line := by
          rw [hadv.2.2.2, hline]
          simp
        rw [if_neg (by rw [hl]; simp)]
        rw [skipCommentLoop_nil false line m lex.advance hadv.1]
        refine ⟨hadv.1, hadv.2.1, ?_⟩
        rw [hadv.2.2.1]
        simp
      · have hl : lex.advance.lineNo = line + 1 := by
          rw [hadv.2.2.2, hline, if_pos ⟨hr, rfl⟩]
        rw [if_pos (by rw [hl]; omega)]
        refine ⟨hadv.1, hadv.2.1, ?_⟩
        rw [hadv.2.2.1]
        simp
  | cons c cs ih =>
    intro n lex tail hat hcs htail hline hn
    obtain ⟨m, rfl⟩ : ∃ m, n = m + 1 := ⟨n - 1, by simp at hn; omega⟩
    have hlen := at_length lex _ hat
    have hadv := advance_at lex c (cs ++ tail) hat
    simp only [List.cons_append, List.length_cons] at hlen hn
    have hc : c ≠ chLF := hcs c (List.mem_cons_self _ _)
    have hl : lex.advance.lineNo = line := by
      rw [hadv.2.2.2, hline, if_neg (fun h => hc h.2)]
    unfold skipCommentLoop
    rw [if_pos (by omega)]
    simp only [Bool.false_eq_true, false_and, if_false, not_false_eq_true, true_and]
    rw [if_neg (by rw [hl]; simp)]
    obtain ⟨h1, h2, h3⟩ := ih m lex.advance tail hadv.1
      (fun x hx => hcs x (List.mem_cons_of_mem _ hx)) htail hl (by omega)
    refine ⟨h1, h2.trans hadv.2.1, ?_⟩
    rw [h3, hadv.2.2.1]
    simp only [List.length_cons]
    omega

theorem dropWhile_head_lf (cs : List Char) :
    cs.dropWhile (fun ch => ch != chLF) = []
      ∨ (cs.dropWhile (fun ch => ch != chLF)).head? = some chLF := by
  induction cs with
  | nil => exact Or.inl rfl
  | cons c cs ih =>
    by_cases hc : c = chLF
    · right
      subst hc
      simp [List.dropWhile]
    · have : (c != chLF) = true := by simpa using hc
      rw [List.dropWhile_cons, this]
      exact ih

theorem takeWhile_ne_lf (cs : List Char) (c : Char)
    (hc : c ∈ cs.takeWhile (fun ch => ch != chLF)) : (c != chLF) = true := by
  induction cs with
  | nil => cases hc
  | cons a cs ih =>
    rw [List.takeWhile_cons] at hc
    by_cases ha : (a != chLF) = true
    · rw [if_pos ha] at hc
      rcases List.mem_cons.mp hc with h | h
      · rw [h]
        exact ha
      · exact ih h
    · rw [if_neg ha] at hc
      cases hc

theorem skipComment_line (lex : hskLexer) (cs : List Char) (h : lex.At cs) :
    (lex.skipComment false).1 = cs.takeWhile (fun ch => ch != chLF)
      ∧ (lex.skipComment false).2.At (dropLine cs)
      ∧ (lex.skipComment false).2.text = lex.text := by
  have hdec : cs.takeWhile (fun ch => ch != chLF) ++ cs.dropWhile (fun ch => ch != chLF) = cs :=
    List.takeWhile_append_dropWhile _ _
  have hlen := at_length lex _ h
  have hat : lex.At (cs.takeWhile (fun ch => ch != chLF) ++ cs.dropWhile (fun ch => ch != chLF)) := by
    rw [hdec]
    exact h
  obtain ⟨h1, h2, h3⟩ := skipLine_loop lex.lineNo (cs.takeWhile (fun ch => ch != chLF))
    (lex.posMax - lex.pos) lex (cs.dropWhile (fun ch => ch != chLF)) hat
    (fun c hc => by
      have hx : (c != chLF) = true := takeWhile_ne_lf cs c hc
      simpa using hx) (dropWhile_head_lf cs) rfl
    (by rw [hdec, hlen])
  unfold hskLexer.skipComment
  simp only [Bool.false_eq_true, if_false]
  refine ⟨?_, h1, h2⟩
  rw [h3, h.1]
  have hsub : lex.pos + (cs.takeWhile (fun ch => ch != chLF)).length
      + min 1 (cs.dropWhile (fun ch => ch != chLF)).length - lex.pos
      = (cs.takeWhile (fun ch => ch != chLF)).length
        + min 1 (cs.dropWhile (fun ch => ch != chLF)).length := by omega
  rw [hsub]
  generalize htw : cs.takeWhile (fun ch => ch != chLF) = tw at *
  generalize hdw : cs.dropWhile (fun ch => ch != chLF) = dw at *
  rw [← hdec, List.take_append]
  have hall : ∀ c ∈ tw, (c != chLF) = true := by
    intro c hc
    rw [← htw] at hc
    exact takeWhile_ne_lf cs c hc
  rcases dropWhile_head_lf cs with hd | hd
  · rw [hdw] at hd
    subst hd
    simp only [List.length_nil, Nat.min_zero, List.take_zero, List.append_nil]
    exact List.takeWhile_eq_self_iff.mpr hall
  · rw [hdw] at hd
    cases dw with
    | nil => cases hd
    | cons d r =>
      have hd' : d = chLF := by simpa using hd
      subst hd'
      simp only [List.length_cons, List.take_succ_cons, List.take_zero]
      have : min 1 (r.length + 1) = 1 := by omega
      rw [this]
      simp only [List.take_succ_cons, List.take_zero]
      rw [List.takeWhile_append_of_pos hall]
      simp [List.takeWhile]

theorem skipMult_loop (line : Nat) (n : Nat) :
    ∀ (lex : hskLexer) (cs : List Char), lex.At cs → cs.length ≤ n →
      (skipCommentLoop true line n lex).At (dropComment cs)
        ∧ (skipCommentLoop true line n lex).text = lex.text := by
  induction n with
  | zero =>
    intro lex cs hat hn
    have : cs = [] := List.length_eq_zero.mp (by omega)
    subst this
    exact ⟨hat, rfl⟩
  | succ n ih =>
    intro lex cs hat hn
    have hlen := at_length lex _ hat
    cases cs with
    | nil =>
      rw [skipCommentLoop_nil true line (n + 1) lex hat]
      exact ⟨hat, rfl⟩
    | cons c cs =>
      simp only [List.length_cons] at hlen hn
      have hc : lex.curChar = c := hat.2
      have hp := peekChar_at lex _ 1 hat
      unfold skipCommentLoop
      rw [if_pos (by omega)]
      simp only [true_and, not_true_eq_false, false_and, if_false]
      cases cs with
      | nil =>
        have hp1 : lex.peekChar 1 = chNUL := hp
        rw [hp1, if_neg (by rintro ⟨_, h⟩; revert h; decide)]
        have hadv := advance_at lex c [] hat
        rw [skipCommentLoop_nil true line n lex.advance hadv.1]
        exact ⟨hadv.1, hadv.2.1⟩
      | cons d rest =>
        have hp1 : lex.peekChar 1 = d := hp
        rw [hc, hp1]
        by_cases hcd : c = '*' ∧ d = '/'
        · rw [if_pos hcd]
          have h2 := advanceBy_two_at lex c d rest hat
          refine ⟨?_, h2.2⟩
          show (lex.advanceBy 2).At (if c = '*' ∧ d = '/' then rest else dropComment (d :: rest))
          rw [if_pos hcd]
          exact h2.1
        · rw [if_neg hcd]
          have hadv := advance_at lex c (d :: rest) hat
          obtain ⟨h1, h2⟩ := ih lex.advance (d :: rest) hadv.1 (by simp at hn ⊢; omega)
          refine ⟨?_, h2.trans hadv.2.1⟩
          show (skipCommentLoop true line n lex.advance).At
            (if c = '*' ∧ d = '/' then rest else dropComment (d :: rest))
          rw [if_neg hcd]
          exact h1

theorem skipComment_mult (lex : hskLexer) (cs : List Char) (h : lex.At cs) :
    (lex.skipComment true).2.At (dropComment cs)
      ∧ (lex.skipComment true).2.text = lex.text := by
  have hlen := at_length lex _ h
  have := skipMult_loop lex.lineNo (lex.posMax - lex.pos) lex cs h (by omega)
  unfold hskLexer.skipComment
  simp only [if_true]
  exact this

theorem dropLine_cons (c : Char) (cs : List Char) (h : c ≠ chLF) :
    dropLine (c :: cs) = dropLine cs := by
  unfold dropLine
  have : (c != chLF) = true := by simpa using h
  rw [List.dropWhile_cons, this]
  rfl

theorem takeWhile_cons_ne (c : Char) (cs : List Char) (h : c ≠ chLF) :
    (c :: cs).takeWhile (fun ch => ch != chLF) = c :: cs.takeWhile (fun ch => ch != chLF) := by
  have : (c != chLF) = true := by simpa using h
  rw [List.takeWhile_cons, this]
  rfl

theorem getNextToken_line_note (fuel : Nat) (lex : hskLexer) (rest : List Char)
    (hat : lex.At ('/' :: '/' :: '*' :: rest)) :
    getNextToken (fuel + 1) lex = .ok (commentToken lex) := by
  have hc : lex.curChar = '/' := hat.2
  have hs : lex.skipSpaces = lex := skipSpaces_eq lex (by rw [hc]; decide)
  have hp1 : lex.peekChar 1 = '/' := peekChar_at lex _ 1 hat
  have hp2 : lex.peekChar 2 = '*' := peekChar_at lex _ 2 hat
  rw [getNextToken]
  rw [hs, hc, hp1, hp2]
  rw [if_neg (by decide), if_neg (by decide), if_neg (by decide), if_neg (by decide),
    if_neg (by decide), if_pos (by decide), if_pos rfl]

theorem getNextToken_line_comment (fuel : Nat) (lex : hskLexer) (rest : List Char)
    (hat : lex.At ('/' :: '/' :: rest)) (hrest : rest.head? ≠ some '*') :
    getNextToken (fuel + 1) lex = getNextToken fuel (lex.skipComment false).2 := by
  have hc : lex.curChar = '/' := hat.2
  have hs : lex.skipSpaces = lex := skipSpaces_eq lex (by rw [hc]; decide)
  have hp1 : lex.peekChar 1 = '/' := peekChar_at lex _ 1 hat
  have hp2 : lex.peekChar 2 ≠ '*' := by
    rw [peekChar_at lex _ 2 hat]
    cases rest with
    | nil => decide
    | cons r rs =>
      intro h
      apply hrest
      simp only [List.getD_cons_succ, List.getD_cons_zero] at h
      rw [← h]
      rfl
  rw [getNextToken]
  rw [hs, hc, hp1]
  rw [if_neg (by decide), if_neg (by decide), if_neg (by decide), if_neg (by decide),
    if_neg (by decide), if_pos (by decide), if_neg hp2]

theorem getNextToken_block_comment (fuel : Nat) (lex : hskLexer) (rest : List Char)
    (hat : lex.At ('/' :: '*' :: rest)) :
    getNextToken (fuel + 1) lex = getNextToken fuel (lex.skipComment true).2 := by
  have hc : lex.curChar = '/' := hat.2
  have hs : lex.skipSpaces = lex := skipSpaces_eq lex (by rw [hc]; decide)
  have hp1 : lex.peekChar 1 = '*' := peekChar_at lex _ 1 hat
  rw [getNextToken]
  rw [hs, hc, hp1]
  rw [if_neg (by decide), if_neg (by decide), if_neg (by decide), if_neg (by decide),
    if_pos (by decide)]

/-- C25 (amended). When the lexer stands before `//*`, `getNextToken` returns a
`SCOMMENT` token whose value is the text after the three characters `//*` up to the
end of the line, without the line feed and without the `*`, and whose line is the line
of the comment; the lexer then stands after the line feed. When it stands before a
`//` that is not followed by `*`, or before `/*`, the call returns what `getNextToken`
returns after the comment (the rest after the line, or after the first `*/` counted
from the opening `/`): no token is made for the comment. -/
theorem comment_token_value (fuel : Nat) (lex : hskLexer) (rest : List Char) :
    (lex.At ('/' :: '/' :: '*' :: rest) →
      ∃ lex1, getNextToken (fuel + 1) lex =
          .ok (some { type_ := .SCOMMENT, value := String.mk (rest.takeWhile fun ch => ch != chLF),
                      line := lex.lineNo, column := lex1.colNo }, lex1)
        ∧ lex1.At (dropLine rest))
    ∧ (lex.At ('/' :: '/' :: rest) → rest.head? ≠ some '*' →
      ∃ lex1, lex1.At (dropLine rest) ∧ getNextToken (fuel + 1) lex = getNextToken fuel lex1)
    ∧ (lex.At ('/' :: '*' :: rest) →
      ∃ lex1, lex1.At (dropComment ('/' :: '*' :: rest))
        ∧ getNextToken (fuel + 1) lex = getNextToken fuel lex1) := by
  refine ⟨?_, ?_, ?_⟩
  · intro hat
    obtain ⟨h1, h2, _⟩ := skipComment_line lex _ hat
    refine ⟨(lex.skipComment false).2, ?_, ?_⟩
    · rw [getNextToken_line_note fuel lex rest hat]
      unfold commentToken
      rw [h1, takeWhile_cons_ne _ _ (by decide), takeWhile_cons_ne _ _ (by decide),
        takeWhile_cons_ne _ _ (by decide)]
      rfl
    · rw [dropLine_cons _ _ (by decide), dropLine_cons _ _ (by decide),
        dropLine_cons _ _ (by decide)] at h2
      exact h2
  · intro hat hrest
    obtain ⟨_, h2, _⟩ := skipComment_line lex _ hat
    rw [dropLine_cons _ _ (by decide), dropLine_cons _ _ (by decide)] at h2
    exact ⟨_, h2, getNextToken_line_comment fuel lex rest hat hrest⟩
  · intro hat
    exact ⟨_, (skipComment_mult lex _ hat).1, getNextToken_block_comment fuel lex rest hat⟩

/-- Witness of C25 (amended): the texts `//*note` + line feed + `x`, `//x` + line feed
+ `y`, and `/* x */ y`. -/
theorem comment_token_value_witness :
    (∃ lex1, getNextToken 3 (newLexer "//*note\nx") =
          .ok (some { type_ := .SCOMMENT,
                      value := String.mk ("note\nx".toList.takeWhile fun ch => ch != chLF),
                      line := (newLexer "//*note\nx").lineNo, column := lex1.colNo }, lex1)
        ∧ lex1.At (dropLine "note\nx".toList))
    ∧ (∃ lex1, lex1.At (dropLine "x\ny".toList)
        ∧ getNextToken 3 (newLexer "//x\ny") = getNextToken 2 lex1)
    ∧ (∃ lex1, lex1.At (dropComment ('/' :: '*' :: " x */ y".toList))
        ∧ getNextToken 3 (newLexer "/* x */ y") = getNextToken 2 lex1) :=
  ⟨(comment_token_value 2 (newLexer "//*note\nx") "note\nx".toList).1 (newLexer_at _),
   (comment_token_value 2 (newLexer "//x\ny") "x\ny".toList).2.1 (newLexer_at _) (by decide),
   (comment_token_value 2 (newLexer "/* x */ y") " x */ y".toList).2.2 (newLexer_at _)⟩

/-- Counterexample to C25: the value of the token of the comment `//*note` is `note`,
without the `*`. -/
theorem comment_token_drops_star :
    tokenKinds 10 "//*note" = .ok [(.SCOMMENT, "note"), (.EOF, "EOF")] := rfl

/-! ## Integer literals (lexer.go, ast.go) -/

theorem digitVal_dec (c : Char) (h : isDecDigit c = true) :
    ∃ d, digitVal c = some d ∧ d < 10 := by
  unfold isDecDigit at h
  have h1 := of_decide_eq_true h
  refine ⟨c.toNat - 48, ?_, by omega⟩
  unfold digitVal
  rw [if_pos ⟨h1.1, h1.2⟩]
  rfl

theorem digitVal_hex (c : Char) (h : isHexDigit c = true) :
    ∃ d, digitVal c = some d ∧ d < 16 := by
  unfold isHexDigit at h
  have h1 := of_decide_eq_true h
  unfold digitVal
  rcases h1 with h1 | h1 | h1
  · refine ⟨c.toNat - 48, ?_, by omega⟩
    rw [if_pos ⟨h1.1, h1.2⟩]
    rfl
  · refine ⟨c.toNat - 97 + 10, ?_, by omega⟩
    have n1 : ¬ ('0' ≤ c ∧ c ≤ '9') := by
      intro hx
      have : c.toNat ≤ 57 := hx.2
      omega
    have p2 : 'a' ≤ c ∧ c ≤ 'z' := by
      constructor
      · show (97 : Nat) ≤ c.toNat
        exact h1.1
      · show c.toNat ≤ (122 : Nat)
        omega
    rw [if_neg n1, if_pos p2]
    rfl
  · refine ⟨c.toNat - 65 + 10, ?_, by omega⟩
    have n1 : ¬ ('0' ≤ c ∧ c ≤ '9') := by
      intro hx
      have : (48 : Nat) ≤ c.toNat := hx.1
      have : c.toNat ≤ 57 := hx.2
      omega
    have n2 : ¬ ('a' ≤ c ∧ c ≤ 'z') := by
      intro hx
      have : (97 : Nat) ≤ c.toNat := hx.1
      omega
    have p3 : 'A' ≤ c ∧ c ≤ 'Z' := by
      constructor
      · show (65 : Nat) ≤ c.toNat
        exact h1.1
      · show c.toNat ≤ (90 : Nat)
        omega
    rw [if_neg n1, if_neg n2, if_pos p3]
    rfl

theorem foldl_digits_ge (base : Nat) (hb : 1 ≤ base) (ds : List Char) :
    ∀ n, n ≤ ds.foldl (fun n c => n * base + (digitVal c).getD 0) n := by
  induction ds with
  | nil =>
    intro n
    exact Nat.le_refl _
  | cons d ds ih =>
    intro n
    simp only [List.foldl_cons]
    refine Nat.le_trans ?_ (ih _)
    calc n = n * 1 := (Nat.mul_one n).symm
      _ ≤ n * base := Nat.mul_le_mul_left n hb
      _ ≤ n * base + (digitVal d).getD 0 := Nat.le_add_right _ _

theorem parseUintLoop_eq (base : Nat) (hb : 1 ≤ base) (ds : List Char) :
    ∀ n, (∀ c ∈ ds, ∃ d, digitVal c = some d ∧ d < base) →
      ds.foldl (fun n c => n * base + (digitVal c).getD 0) n < 18446744073709551616 →
      parseUintLoop base n ds = ds.foldl (fun n c => n * base + (digitVal c).getD 0) n := by
  induction ds with
  | nil =>
    intro n _ _
    rfl
  | cons c ds ih =>
    intro n hds hv
    obtain ⟨d, hd, hlt⟩ := hds c (List.mem_cons_self _ _)
    simp only [List.foldl_cons, hd, Option.getD_some] at hv ⊢
    have hge := foldl_digits_ge base hb ds (n * base + d)
    unfold parseUintLoop
    rw [hd]
    simp only []
    rw [if_neg (by omega), if_neg (by omega)]
    exact ih _ (fun x hx => hds x (List.mem_cons_of_mem _ hx)) hv

theorem parseUint_eq (base : Nat) (hb : 1 ≤ base) (ds : List Char) (hne : ds ≠ [])
    (hds : ∀ c ∈ ds, ∃ d, digitVal c = some d ∧ d < base)
    (hv : digitsValue base ds < 18446744073709551616) :
    parseUint base ds = digitsValue base ds := by
  unfold parseUint
  cases ds with
  | nil => exact absurd rfl hne
  | cons c cs => exact parseUintLoop_eq base hb (c :: cs) 0 hds hv

theorem asUint64_wrap (v : Nat) (h : v < 18446744073709551616) :
    asUint64 (if v ≥ 9223372036854775808 then (v : Int) - 18446744073709551616 else (v : Int))
      = v := by
  unfold asUint64
  split <;> omega

theorem asUint64_of_eq (v : Nat) (h : v < 18446744073709551616) (m : Nat) (hm : m = v) :
    asUint64 (if m ≥ 9223372036854775808 then (m : Int) - 18446744073709551616 else (m : Int))
      = v := by
  subst hm
  exact asUint64_wrap _ h

theorem intConstVal_dec (ds : List Char) (hne : ds ≠ [])
    (hds : ∀ d ∈ ds, isDecDigit d = true)
    (hv : digitsValue 10 ds < 18446744073709551616) :
    asUint64 (intConstVal (String.mk ds)) = digitsValue 10 ds := by
  have hp := parseUint_eq 10 (by decide) ds hne (fun c hc => digitVal_dec c (hds c hc)) hv
  unfold intConstVal
  simp only []
  apply asUint64_of_eq _ hv
  have : (String.mk ds).toList = ds := rfl
  rw [this]
  split
  · rename_i rest
    have hxd : isDecDigit 'x' = true := hds 'x' (by simp)
    exact absurd hxd (by decide)
  · exact hp

theorem intConstVal_hex (ds : List Char) (hne : ds ≠ [])
    (hds : ∀ d ∈ ds, isHexDigit d = true)
    (hv : digitsValue 16 ds < 18446744073709551616) :
    asUint64 (intConstVal (String.mk ('0' :: 'x' :: ds))) = digitsValue 16 ds := by
  have hp := parseUint_eq 16 (by decide) ds hne (fun c hc => digitVal_hex c (hds c hc)) hv
  unfold intConstVal
  simp only []
  apply asUint64_of_eq _ hv
  exact hp

theorem isSpace_of_dec (c : Char) (h : isDecDigit c = true) : isSpace c = false := by
  unfold isDecDigit at h
  have h1 := of_decide_eq_true h
  unfold isSpace
  apply decide_eq_false
  omega

theorem ne_nul_of_dec (c : Char) (h : isDecDigit c = true) : (c != chNUL) = true := by
  unfold isDecDigit at h
  have h1 := of_decide_eq_true h
  simp only [bne_iff_ne, ne_eq]
  intro hc
  rw [hc] at h1
  revert h1
  decide

theorem ne_nul_of_hex (c : Char) (h : isHexDigit c = true) : (c != chNUL) = true := by
  unfold isHexDigit at h
  have h1 := of_decide_eq_true h
  simp only [bne_iff_ne, ne_eq]
  intro hc
  rw [hc] at h1
  revert h1
  decide

theorem getInteger_dec (lex : hskLexer) (ds rest : List Char)
    (hat : lex.At (ds ++ rest)) (hne : ds ≠ [])
    (hds : ∀ d ∈ ds, isDecDigit d = true)
    (hrest : isDecDigit (rest.headD chNUL) = false)
    (hx : ¬ (ds = ['0'] ∧ (rest.head? = some 'x' ∨ rest.head? = some 'X'))) :
    ∃ lex1, lex.getInteger = (String.mk ds, lex1) ∧ lex1.At rest := by
  have hlen := at_length lex _ hat
  obtain ⟨lex1, h1, h2, _⟩ := collect_at (fun c => c != chNUL && isDecDigit c) ds
    (lex.posMax - lex.pos + 1) [] lex rest hat
    (fun d hd => by
      show (d != chNUL && isDecDigit d) = true
      rw [ne_nul_of_dec d (hds d hd), hds d hd]
      rfl)
    (by
      show (rest.headD chNUL != chNUL && isDecDigit (rest.headD chNUL)) = false
      rw [hrest]
      simp)
    (by rw [hlen, List.length_append]; omega)
  refine ⟨lex1, ?_, h2⟩
  have hcond : ¬ (lex.curChar = '0' ∧ (lex.peekChar 1 = 'x' ∨ lex.peekChar 1 = 'X')) := by
    rw [peekChar_at lex _ 1 hat, hat.2]
    cases ds with
    | nil => exact absurd rfl hne
    | cons d ds' =>
      cases ds' with
      | nil =>
        simp only [List.singleton_append, List.headD_cons, List.getD_cons_succ]
        rintro ⟨h0, hxx⟩
        apply hx
        refine ⟨by rw [h0], ?_⟩
        cases rest with
        | nil => revert hxx; decide
        | cons r rs =>
          simp only [List.getD_cons_zero] at hxx
          simpa using hxx
      | cons d2 ds'' =>
        simp only [List.cons_append, List.headD_cons, List.getD_cons_succ, List.getD_cons_zero]
        rintro ⟨_, hxx⟩
        have hd2 := hds d2 (by simp)
        rcases hxx with h | h <;> rw [h] at hd2 <;> revert hd2 <;> decide
  unfold hskLexer.getInteger
  rw [if_neg hcond]
  simp only []
  rw [h1]
  rfl

theorem getInteger_hex (lex : hskLexer) (x : Char) (ds rest : List Char)
    (hat : lex.At ('0' :: x :: ds ++ rest)) (hxx : x = 'x' ∨ x = 'X')
    (hds : ∀ d ∈ ds, isHexDigit d = true)
    (hrest : isHexDigit (rest.headD chNUL) = false) :
    ∃ lex1, lex.getInteger = (String.mk ('0' :: 'x' :: ds), lex1) ∧ lex1.At rest := by
  have h2 := advanceBy_two_at lex '0' x (ds ++ rest) hat
  have hlen := at_length _ _ h2.1
  obtain ⟨lex1, h1, h3, _⟩ := collect_at (fun c => c != chNUL && isHexDigit c) ds
    ((lex.advanceBy 2).posMax - (lex.advanceBy 2).pos + 1) ['0', 'x'] (lex.advanceBy 2) rest h2.1
    (fun d hd => by
      show (d != chNUL && isHexDigit d) = true
      rw [ne_nul_of_hex d (hds d hd), hds d hd]
      rfl)
    (by
      show (rest.headD chNUL != chNUL && isHexDigit (rest.headD chNUL)) = false
      rw [hrest]
      simp)
    (by rw [hlen, List.length_append]; omega)
  refine ⟨lex1, ?_, h3⟩
  have hcond : lex.curChar = '0' ∧ (lex.peekChar 1 = 'x' ∨ lex.peekChar 1 = 'X') := by
    rw [peekChar_at lex _ 1 hat, hat.2]
    exact ⟨rfl, hxx⟩
  unfold hskLexer.getInteger
  rw [if_pos hcond]
  simp only []
  rw [h1]
  rfl

theorem getNextToken_digit (fuel : Nat) (lex : hskLexer) (h : isDecDigit lex.curChar = true) :
    getNextToken (fuel + 1) lex =
      .ok (some { type_ := .INT_CONST, value := lex.getInteger.1, line := lex.lineNo,
                  column := lex.colNo }, lex.getInteger.2) := by
  have hs : lex.skipSpaces = lex := skipSpaces_eq lex (isSpace_of_dec _ h)
  have hn : lex.curChar ≠ chNUL := by
    have := ne_nul_of_dec _ h
    simpa using this
  rw [getNextToken, hs, if_neg hn, if_pos (show isDigit lex.curChar = true from h)]

/-- C26. When the lexer stands before a decimal literal (a run of decimal digits `ds`
that the text does not continue with a digit, and that is not the `0` of a prefix `0x`
or `0X`) whose value is below `2^64`, `getNextToken` returns an `INT_CONST` token whose
text is the literal, and `intConstVal` of that text, read as an unsigned number of 64
bits, is the value of the literal. When it stands before `0x` or `0X` and hexadecimal
digits `ds` (not continued by a hexadecimal digit) of a value below `2^64`, the text of
the token is `0x` and the digits, and `intConstVal` of it, read as an unsigned number of
64 bits, is the value of the digits in base 16. -/
theorem integer_literal_value (fuel : Nat) (lex : hskLexer) (ds rest : List Char) (x : Char) :
    (lex.At (ds ++ rest) → ds ≠ [] → (∀ d ∈ ds, isDecDigit d = true) →
      isDecDigit (rest.headD chNUL) = false →
      ¬ (ds = ['0'] ∧ (rest.head? = some 'x' ∨ rest.head? = some 'X')) →
      digitsValue 10 ds < 18446744073709551616 →
      ∃ lex1, getNextToken (fuel + 1) lex =
          .ok (some { type_ := .INT_CONST, value := String.mk ds, line := lex.lineNo,
                      column := lex.colNo }, lex1)
        ∧ lex.getInteger = (String.mk ds, lex1) ∧ lex1.At rest
        ∧ asUint64 (intConstVal (String.mk ds)) = digitsValue 10 ds)
    ∧ (lex.At ('0' :: x :: ds ++ rest) → (x = 'x' ∨ x = 'X') → ds ≠ [] →
      (∀ d ∈ ds, isHexDigit d = true) → isHexDigit (rest.headD chNUL) = false →
      digitsValue 16 ds < 18446744073709551616 →
      ∃ lex1, getNextToken (fuel + 1) lex =
          .ok (some { type_ := .INT_CONST, value := String.mk ('0' :: 'x' :: ds),
                      line := lex.lineNo, column := lex.colNo }, lex1)
        ∧ lex.getInteger = (String.mk ('0' :: 'x' :: ds), lex1) ∧ lex1.At rest
        ∧ asUint64 (intConstVal (String.mk ('0' :: 'x' :: ds))) = digitsValue 16 ds) := by
  constructor
  · intro hat hne hds hrest hx hv
    obtain ⟨lex1, h1, h2⟩ := getInteger_dec lex ds rest hat hne hds hrest hx
    have hcur : isDecDigit lex.curChar = true := by
      rw [hat.2]
      cases ds with
      | nil => exact absurd rfl hne
      | cons d ds' => exact hds d (List.mem_cons_self _ _)
    refine ⟨lex1, ?_, h1, h2, intConstVal_dec ds hne hds hv⟩
    rw [getNextToken_digit fuel lex hcur, h1]
  · intro hat hxx hne hds hrest hv
    obtain ⟨lex1, h1, h2⟩ := getInteger_hex lex x ds rest hat hxx hds hrest
    have hcur : isDecDigit lex.curChar = true := by
      rw [hat.2]
      rfl
    refine ⟨lex1, ?_, h1, h2, intConstVal_hex ds hne hds hv⟩
    rw [getNextToken_digit fuel lex hcur, h1]

/-- Witness of C26: the literals `18446744073709551615` (before `;`) and `0XfF` (before
a space). -/
theorem integer_literal_value_witness :
    (∃ lex1, getNextToken 1 (newLexer "18446744073709551615;") =
          .ok (some { type_ := .INT_CONST, value := String.mk "18446744073709551615".toList,
                      line := (newLexer "18446744073709551615;").lineNo,
                      column := (newLexer "18446744073709551615;").colNo }, lex1)
        ∧ (newLexer "18446744073709551615;").getInteger
            = (String.mk "18446744073709551615".toList, lex1)
        ∧ lex1.At [';']
        ∧ asUint64 (intConstVal (String.mk "18446744073709551615".toList))
            = digitsValue 10 "18446744073709551615".toList)
    ∧ (∃ lex1, getNextToken 1 (newLexer "0XfF ") =
          .ok (some { type_ := .INT_CONST, value := String.mk ('0' :: 'x' :: ['f', 'F']),
                      line := (newLexer "0XfF ").lineNo, column := (newLexer "0XfF ").colNo },
               lex1)
        ∧ (newLexer "0XfF ").getInteger = (String.mk ('0' :: 'x' :: ['f', 'F']), lex1)
        ∧ lex1.At [' ']
        ∧ asUint64 (intConstVal (String.mk ('0' :: 'x' :: ['f', 'F'])))
            = digitsValue 16 ['f', 'F']) :=
  ⟨(integer_literal_value 0 (newLexer "18446744073709551615;") "18446744073709551615".toList
      [';'] 'x').1 (newLexer_at _) (by decide) (by decide) (by decide) (by decide) (by decide),
   (integer_literal_value 0 (newLexer "0XfF ") ['f', 'F'] [' '] 'X').2 (newLexer_at _)
      (by decide) (by decide) (by decide) (by decide) (by decide)⟩

/-! ## Separators between declarations (parser.go) -/

/-- C28 (the code at the failing inputs). After a `type` declaration `declarations`
does not call `eatSeperator`: `type T u8 const X 1` on one line is accepted, and
`type T u8; const X 1` is rejected, because the `;` is taken for the start of a message
(`eat(DEFMSG)`). After each of the other kinds (`mspace`, `const`, `defid`, `defmid`,
`bind`, `extern`, `defmsg`) a declaration on the same line without `;` is the error
`missing seperator`, and the declarations are accepted when `;` or line feeds stand
between them. -/
theorem type_declaration_skips_separator_check :
    parseText 30 "mspace t\ntype T u8 const X 1"
        = .ok { mspace := "t", decl_list :=
            [.typeDef { name := "T", impl := .AstPrimType "u8" },
             .constDef { name := "X", val := .AstIntConst 1, line := 2 }] }
    ∧ parseText 30 "mspace t\ntype T u8; const X 1" = .error (.parseExpect .DEFMSG .SEMI 2)
    ∧ parseText 30 "mspace a const X 1" = .error (.missingSeperator 1)
    ∧ parseText 30 "mspace t\nconst X 1 const Y 2" = .error (.missingSeperator 2)
    ∧ parseText 30 "mspace t\ndefid G \x7b A \x7d const Y 2" = .error (.missingSeperator 2)
    ∧ parseText 30 "mspace t\ndefmid M \x7b A \x7d const Y 2" = .error (.missingSeperator 2)
    ∧ parseText 30 "mspace t\ndefmid M \x7b A \x7d\nbind A nil const Y 2"
        = .error (.missingSeperator 3)
    ∧ parseText 30 "mspace t\nextern v u8 const Y 2" = .error (.missingSeperator 2)
    ∧ parseText 30 "mspace t\ndefmsg A \x7b a u8 \x7d const Y 2" = .error (.missingSeperator 2)
    ∧ (parseText 100 ("mspace t; const X 1; defid G \x7b A \x7d; defmid M \x7b B \x7d; bind B nil; "
        ++ "extern v u8; defmsg A \x7b a u8 \x7d; const Y 2")).toBool = true
    ∧ (parseText 100 ("mspace t\n const X 1\n defid G \x7b A \x7d\n defmid M \x7b B \x7d\n bind B nil\n "
        ++ "extern v u8\n defmsg A \x7b a u8 \x7d\n type T u8\n const Y 2")).toBool = true := by
  refine ⟨rfl, rfl, rfl, rfl, rfl, rfl, rfl, rfl, rfl, rfl, rfl⟩

/-! ## The precedence ladder of `expr` (parser.go) -/

theorem expr_eq_ladder (n : Nat) :
    expr (n + 1) = ladder (factor (expr n) (n + 1)) (n + 1) ladderOps := rfl

theorem binLoop_stop (ops : List TokenType) (lower : ExprParser) (n : Nat) (node : AstNode)
    (p : hskParser) (h : p.curToken.type_ ∉ ops) :
    binLoop ops lower (n + 1) node p = .ok (node, p) := by
  rw [binLoop, if_neg h]

theorem binLoop_step (ops : List TokenType) (lower : ExprParser) (n : Nat) (node r : AstNode)
    (p q p1 : hskParser) (h : p.curToken.type_ ∈ ops) (he : eat p p.curToken.type_ = .ok q)
    (hl : lower q = .ok (r, p1)) :
    binLoop ops lower (n + 1) node p
      = binLoop ops lower n (.AstBinOP p.curToken.type_ node r p.curToken.line) p1 := by
  rw [binLoop, if_pos h]
  simp only [he, hl]

theorem lvl_none_cons (ops : List TokenType) (rest : List (List TokenType)) (t : TokenType)
    (h : lvl (ops :: rest) t = none) : t ∉ ops ∧ lvl rest t = none := by
  unfold lvl at h
  by_cases ht : t ∈ ops
  · rw [if_pos ht] at h
    cases h
  · rw [if_neg ht] at h
    refine ⟨ht, ?_⟩
    cases hr : lvl rest t with
    | none => rfl
    | some k => rw [hr] at h; cases h

theorem ladder_pass (F : ExprParser) (f : Nat) (Ls : List (List TokenType)) :
    ∀ (p q : hskParser) (x : AstNode), F p = .ok (x, q) → lvl Ls q.curToken.type_ = none →
      ladder F (f + 1) Ls p = .ok (x, q) := by
  induction Ls with
  | nil =>
    intro p q x hF _
    exact hF
  | cons ops rest ih =>
    intro p q x hF hfree
    obtain ⟨h1, h2⟩ := lvl_none_cons ops rest _ hfree
    show binLevel ops (ladder F (f + 1) rest) (f + 1) p = _
    unfold binLevel
    simp only [ih p q x hF h2]
    exact binLoop_stop ops _ f x q h1

theorem ladder_one (F : ExprParser) (f : Nat) (Ls : List (List TokenType)) :
    ∀ (p p1 q1 p2 : hskParser) (a b : AstNode) (op : TokenType) (l : Nat),
      DisjointLevels Ls →
      F p = .ok (a, p1) → p1.curToken.type_ = op → eat p1 op = .ok q1 →
      F q1 = .ok (b, p2) → lvl Ls op = some l → lvl Ls p2.curToken.type_ = none →
      ladder F (f + 2) Ls p = .ok (.AstBinOP op a b p1.curToken.line, p2) := by
  induction Ls with
  | nil =>
    intro p p1 q1 p2 a b op l _ _ _ _ _ hl _
    cases hl
  | cons ops rest ih =>
    intro p p1 q1 p2 a b op l hdis ha h1 e1 hb hl hend
    obtain ⟨hend1, hend2⟩ := lvl_none_cons ops rest _ hend
    show binLevel ops (ladder F (f + 2) rest) (f + 2) p = _
    unfold binLevel
    by_cases hop : op ∈ ops
    · have hfree : lvl rest op = none := hdis.1 op hop
      have hlow := ladder_pass F (f + 1) rest p p1 a ha (by rw [h1]; exact hfree)
      simp only [hlow]
      have hlow2 := ladder_pass F (f + 1) rest q1 p2 b hb hend2
      rw [binLoop_step ops _ (f + 1) a b p1 q1 p2 (by rw [h1]; exact hop) (by rw [h1]; exact e1)
        hlow2]
      rw [binLoop_stop ops _ f _ p2 hend1, h1]
    · have hl' : ∃ l', lvl rest op = some l' := by
        unfold lvl at hl
        rw [if_neg hop] at hl
        cases hr : lvl rest op with
        | none => rw [hr] at hl; cases hl
        | some k => exact ⟨k, rfl⟩
      obtain ⟨l', hl'⟩ := hl'
      have := ih p p1 q1 p2 a b op l' hdis.2 ha h1 e1 hb hl' hend2
      simp only [this]
      exact binLoop_stop ops _ (f + 1) _ p2 hend1

theorem ladder_two (F : ExprParser) (f : Nat) (Ls : List (List TokenType)) :
    ∀ (p p1 q1 p2 q2 p3 : hskParser) (a b c : AstNode) (op1 op2 : TokenType) (l1 l2 : Nat),
      DisjointLevels Ls →
      F p = .ok (a, p1) → p1.curToken.type_ = op1 → eat p1 op1 = .ok q1 →
      F q1 = .ok (b, p2) → p2.curToken.type_ = op2 → eat p2 op2 = .ok q2 →
      F q2 = .ok (c, p3) → lvl Ls op1 = some l1 → lvl Ls op2 = some l2 →
      lvl Ls p3.curToken.type_ = none →
      ladder F (f + 3) Ls p =
        .ok (if l1 < l2 then
               .AstBinOP op1 a (.AstBinOP op2 b c p2.curToken.line) p1.curToken.line
             else .AstBinOP op2 (.AstBinOP op1 a b p1.curToken.line) c p2.curToken.line,
             p3) := by
  induction Ls with
  | nil =>
    intro p p1 q1 p2 q2 p3 a b c op1 op2 l1 l2 _ _ _ _ _ _ _ _ hl1 _ _
    cases hl1
  | cons ops rest ih =>
    intro p p1 q1 p2 q2 p3 a b c op1 op2 l1 l2 hdis ha h1 e1 hb h2 e2 hc hl1 hl2 hend
    obtain ⟨hend1, hend2⟩ := lvl_none_cons ops rest _ hend
    show binLevel ops (ladder F (f + 3) rest) (f + 3) p = _
    unfold binLevel
    by_cases hop1 : op1 ∈ ops
    · have hz1 : l1 = 0 := by
        unfold lvl at hl1
        rw [if_pos hop1] at hl1
        cases hl1
        rfl
      subst hz1
      have hfree1 : lvl rest op1 = none := hdis.1 op1 hop1
      have hlow := ladder_pass F (f + 2) rest p p1 a ha (by rw [h1]; exact hfree1)
      simp only [hlow]
      by_cases hop2 : op2 ∈ ops
      · have hz2 : l2 = 0 := by
          unfold lvl at hl2
          rw [if_pos hop2] at hl2
          cases hl2
          rfl
        subst hz2
        have hfree2 : lvl rest op2 = none := hdis.1 op2 hop2
        have hlowb := ladder_pass F (f + 2) rest q1 p2 b hb (by rw [h2]; exact hfree2)
        have hlowc := ladder_pass F (f + 2) rest q2 p3 c hc hend2
        rw [binLoop_step ops _ (f + 2) a b p1 q1 p2 (by rw [h1]; exact hop1)
          (by rw [h1]; exact e1) hlowb]
        rw [binLoop_step ops _ (f + 1) _ c p2 q2 p3 (by rw [h2]; exact hop2)
          (by rw [h2]; exact e2) hlowc]
        rw [binLoop_stop ops _ f _ p3 hend1, h1, h2]
        rfl
      · have hl2' : ∃ l', lvl rest op2 = some l' ∧ l2 = l' + 1 := by
          unfold lvl at hl2
          rw [if_neg hop2] at hl2
          cases hr : lvl rest op2 with
          | none => rw [hr] at hl2; cases hl2
          | some k =>
            rw [hr] at hl2
            simp only [Option.map_some', Option.some.injEq] at hl2
            exact ⟨k, rfl, hl2.symm⟩
        obtain ⟨l', hl', hl2e⟩ := hl2'
        subst hl2e
        have hlow2 := ladder_one F (f + 1) rest q1 p2 q2 p3 b c op2 l' hdis.2 hb h2 e2 hc hl'
          hend2
        rw [binLoop_step ops _ (f + 2) a _ p1 q1 p3 (by rw [h1]; exact hop1)
          (by rw [h1]; exact e1) hlow2]
        rw [binLoop_stop ops _ (f + 1) _ p3 hend1, h1, if_pos (Nat.succ_pos _)]
    · have hl1' : ∃ l', lvl rest op1 = some l' ∧ l1 = l' + 1 := by
        unfold lvl at hl1
        rw [if_neg hop1] at hl1
        cases hr : lvl rest op1 with
        | none => rw [hr] at hl1; cases hl1
        | some k =>
          rw [hr] at hl1
          simp only [Option.map_some', Option.some.injEq] at hl1
          exact ⟨k, rfl, hl1.symm⟩
      obtain ⟨l1', hl1', hl1e⟩ := hl1'
      subst hl1e
      by_cases hop2 : op2 ∈ ops
      · have hz2 : l2 = 0 := by
          unfold lvl at hl2
          rw [if_pos hop2] at hl2
          cases hl2
          rfl
        subst hz2
        have hfree2 : lvl rest op2 = none := hdis.1 op2 hop2
        have hlow1 := ladder_one F (f + 1) rest p p1 q1 p2 a b op1 l1' hdis.2 ha h1 e1 hb hl1'
          (by rw [h2]; exact hfree2)
        simp only [hlow1]
        have hlowc := ladder_pass F (f + 2) rest q2 p3 c hc hend2
        rw [binLoop_step ops _ (f + 2) _ c p2 q2 p3 (by rw [h2]; exact hop2)
          (by rw [h2]; exact e2) hlowc]
        rw [binLoop_stop ops _ (f + 1) _ p3 hend1, h2, if_neg (Nat.not_lt_zero _)]
      · have hl2' : ∃ l', lvl rest op2 = some l' ∧ l2 = l' + 1 := by
          unfold lvl at hl2
          rw [if_neg hop2] at hl2
          cases hr : lvl rest op2 with
          | none => rw [hr] at hl2; cases hl2
          | some k =>
            rw [hr] at hl2
            simp only [Option.map_some', Option.some.injEq] at hl2
            exact ⟨k, rfl, hl2.symm⟩
        obtain ⟨l2', hl2', hl2e⟩ := hl2'
        subst hl2e
        have := ih p p1 q1 p2 q2 p3 a b c op1 op2 l1' l2' hdis.2 ha h1 e1 hb h2 e2 hc hl1' hl2'
          hend2
        simp only [this]
        rw [binLoop_stop ops _ (f + 2) _ p3 hend1]
        simp only [Nat.add_lt_add_iff_right]

theorem ladderOps_disjoint : DisjointLevels ladderOps := by
  unfold ladderOps
  simp only [DisjointLevels, and_true]
  decide

/-- C29. Let `factor` parse the operand `a`, then let the operator `op1` follow, then an
operand `b` parsed by `factor`, the operator `op2`, an operand `c` parsed by `factor`,
and then a token that is no binary operator. Then `expr` builds `op1(a, op2(b, c))`
when `op2` stands later than `op1` in the ladder logical or, logical and, bitwise or,
bitwise and, equality, relational, shift, additive, multiplicative, and
`op2(op1(a, b), c)` otherwise, in particular when both are on the same level. An
operand is whatever `factor` parses; for `(`, an expression, `)` it is that
expression. -/
theorem expr_precedence (fuel : Nat) (p p1 q1 p2 q2 p3 : hskParser) (a b c : AstNode)
    (op1 op2 : TokenType) (l1 l2 : Nat)
    (ha : factor (expr (fuel + 2)) (fuel + 3) p = .ok (a, p1))
    (h1 : p1.curToken.type_ = op1) (e1 : eat p1 op1 = .ok q1)
    (hb : factor (expr (fuel + 2)) (fuel + 3) q1 = .ok (b, p2))
    (h2 : p2.curToken.type_ = op2) (e2 : eat p2 op2 = .ok q2)
    (hc : factor (expr (fuel + 2)) (fuel + 3) q2 = .ok (c, p3))
    (hl1 : opLevel op1 = some l1) (hl2 : opLevel op2 = some l2)
    (hend : opLevel p3.curToken.type_ = none) :
    expr (fuel + 3) p =
        .ok (if l1 < l2 then
               .AstBinOP op1 a (.AstBinOP op2 b c p2.curToken.line) p1.curToken.line
             else .AstBinOP op2 (.AstBinOP op1 a b p1.curToken.line) c p2.curToken.line,
             p3)
    ∧ ∀ (q r s : hskParser) (e : AstNode), p.curToken.type_ = .LPAREN →
        eat p .LPAREN = .ok q → expr (fuel + 2) q = .ok (e, r) → eat r .RPAREN = .ok s →
        factor (expr (fuel + 2)) (fuel + 3) p = .ok (e, s) := by
  constructor
  · rw [expr_eq_ladder]
    exact ladder_two _ fuel ladderOps p p1 q1 p2 q2 p3 a b c op1 op2 l1 l2 ladderOps_disjoint
      ha h1 e1 hb h2 e2 hc hl1 hl2 hend
  · intro q r s e hp hq he hr
    rw [factor]
    simp only [hp]
    rw [if_neg (by decide), if_neg (by decide), if_neg (by decide), if_neg (by decide),
      if_pos trivial]
    simp only [hq, he, hr]

/-- Witness of C29: the tokens of `( 1 + 2 ) * 3 + 4`, with `*` on level 8 and `+` on
level 7. -/
theorem expr_precedence_witness :
    expr 3 parserParenMulAdd =
        .ok (if 8 < 7 then
               .AstBinOP .MUL (.AstBinOP .PLUS (.AstIntConst 1) (.AstIntConst 2) 1)
                 (.AstBinOP .PLUS (.AstIntConst 3) (.AstIntConst 4) 1) 1
             else .AstBinOP .PLUS
                 (.AstBinOP .MUL (.AstBinOP .PLUS (.AstIntConst 1) (.AstIntConst 2) 1)
                   (.AstIntConst 3) 1) (.AstIntConst 4) 1,
             { lex := [], prevToken := some (tk .INT_CONST "4" 1),
               curToken := tk .EOF "EOF" 1, tpMap := [] })
    ∧ factor (expr 2) 3 parserParenMulAdd =
        .ok (.AstBinOP .PLUS (.AstIntConst 1) (.AstIntConst 2) 1,
             { lex := [tk .INT_CONST "3" 1, tk .PLUS "+" 1, tk .INT_CONST "4" 1,
                       tk .EOF "EOF" 1],
               prevToken := some (tk .RPAREN ")" 1), curToken := tk .MUL "*" 1,
               tpMap := [] }) :=
  ⟨(expr_precedence 0 parserParenMulAdd
      { lex := [tk .INT_CONST "3" 1, tk .PLUS "+" 1, tk .INT_CONST "4" 1, tk .EOF "EOF" 1],
        prevToken := some (tk .RPAREN ")" 1), curToken := tk .MUL "*" 1, tpMap := [] }
      { lex := [tk .PLUS "+" 1, tk .INT_CONST "4" 1, tk .EOF "EOF" 1],
        prevToken := some (tk .MUL "*" 1), curToken := tk .INT_CONST "3" 1, tpMap := [] }
      { lex := [tk .INT_CONST "4" 1, tk .EOF "EOF" 1],
        prevToken := some (tk .INT_CONST "3" 1), curToken := tk .PLUS "+" 1, tpMap := [] }
      { lex := [tk .EOF "EOF" 1],
        prevToken := some (tk .PLUS "+" 1), curToken := tk .INT_CONST "4" 1, tpMap := [] }
      { lex := [], prevToken := some (tk .INT_CONST "4" 1), curToken := tk .EOF "EOF" 1,
        tpMap := [] }
      (.AstBinOP .PLUS (.AstIntConst 1) (.AstIntConst 2) 1) (.AstIntConst 3) (.AstIntConst 4)
      .MUL .PLUS 8 7 rfl rfl rfl rfl rfl rfl rfl rfl rfl rfl).1,
   (expr_precedence 0 parserParenMulAdd
      { lex := [tk .INT_CONST "3" 1, tk .PLUS "+" 1, tk .INT_CONST "4" 1, tk .EOF "EOF" 1],
        prevToken := some (tk .RPAREN ")" 1), curToken := tk .MUL "*" 1, tpMap := [] }
      { lex := [tk .PLUS "+" 1, tk .INT_CONST "4" 1, tk .EOF "EOF" 1],
        prevToken := some (tk .MUL "*" 1), curToken := tk .INT_CONST "3" 1, tpMap := [] }
      { lex := [tk .INT_CONST "4" 1, tk .EOF "EOF" 1],
        prevToken := some (tk .INT_CONST "3" 1), curToken := tk .PLUS "+" 1, tpMap := [] }
      { lex := [tk .EOF "EOF" 1],
        prevToken := some (tk .PLUS "+" 1), curToken := tk .INT_CONST "4" 1, tpMap := [] }
      { lex := [], prevToken := some (tk .INT_CONST "4" 1), curToken := tk .EOF "EOF" 1,
        tpMap := [] }
      (.AstBinOP .PLUS (.AstIntConst 1) (.AstIntConst 2) 1) (.AstIntConst 3) (.AstIntConst 4)
      .MUL .PLUS 8 7 rfl rfl rfl rfl rfl rfl rfl rfl rfl rfl).2
      { lex := [tk .PLUS "+" 1, tk .INT_CONST "2" 1, tk .RPAREN ")" 1, tk .MUL "*" 1,
                tk .INT_CONST "3" 1, tk .PLUS "+" 1, tk .INT_CONST "4" 1, tk .EOF "EOF" 1],
        prevToken := some (tk .LPAREN "(" 1), curToken := tk .INT_CONST "1" 1, tpMap := [] }
      { lex := [tk .MUL "*" 1, tk .INT_CONST "3" 1, tk .PLUS "+" 1, tk .INT_CONST "4" 1,
                tk .EOF "EOF" 1],
        prevToken := some (tk .INT_CONST "2" 1), curToken := tk .RPAREN ")" 1, tpMap := [] }
      _ _ rfl rfl rfl rfl⟩

/-! ## Binary expressions in the analyzer (semantic.go) -/

theorem signature_ok_ne_nil (t : AstType) (s : String) (h : t.signature = .ok s) :
    assertAstType t = .ok t := by
  cases t with
  | nil => cases h
  | AstPrimType _ => rfl
  | AstArrayType _ => rfl
  | AstStructType _ _ => rfl
  | AstUndefType _ _ => rfl

theorem visitBinOP_eq (se : semanticAnalyzer) (op : TokenType) (left right : AstNode)
    (line : Nat) (lt rt : AstType) (s1 s2 : String)
    (hl : visitAst se left = .ok lt) (hr : visitAst se right = .ok rt)
    (h1 : lt.signature = .ok s1) (h2 : rt.signature = .ok s2) :
    visitAst se (.AstBinOP op left right line)
      = if s1 ≠ s2 then .error .incompatibleType else checkBinOP op lt := by
  rw [visitAst]
  simp only [hl, hr, signature_ok_ne_nil lt s1 h1, signature_ok_ne_nil rt s2 h2, h1, h2]

/-- C30 (amended). Let the analyzer give the operands of a binary expression the types
`lt` and `rt`. When the two signatures are equal and start with the integer element,
`visitBinOP` accepts the expression for every operator, the comparisons included, and
returns `lt`, the integer type of the left operand. When the signatures differ it
reports the error `assign with incompatiable type`, for every operator. On two strings
it accepts `+` and returns the string type, and reports the error
`string type only allow add` for every other operator, the comparisons included. -/
theorem visitBinOP_typing (se : semanticAnalyzer) (op : TokenType) (left right : AstNode)
    (line : Nat) (lt rt : AstType) (s1 s2 : String)
    (hl : visitAst se left = .ok lt) (hr : visitAst se right = .ok rt)
    (h1 : lt.signature = .ok s1) (h2 : rt.signature = .ok s2) :
    (s1 = s2 → sigFirstElemTp s1 = .ok (some symTypeInt) →
      visitAst se (.AstBinOP op left right line) = .ok lt)
    ∧ (s1 ≠ s2 → visitAst se (.AstBinOP op left right line) = .error .incompatibleType)
    ∧ (s1 = s2 → sigFirstElemTp s1 = .ok (some symTypeString) →
      visitAst se (.AstBinOP op left right line)
        = if op = .PLUS then .ok lt else .error .stringOnlyAdd) := by
  have heq := visitBinOP_eq se op left right line lt rt s1 s2 hl hr h1 h2
  refine ⟨?_, ?_, ?_⟩
  · intro hs hint
    rw [heq, if_neg (by simpa using hs)]
    unfold checkBinOP
    rw [h1]
    dsimp only
    rw [hint]
    dsimp only
    rw [if_pos rfl]
  · intro hs
    rw [heq, if_pos hs]
  · intro hs hstr
    rw [heq, if_neg (by simpa using hs)]
    unfold checkBinOP
    rw [h1]
    dsimp only
    rw [hstr]
    dsimp only
    rw [if_neg (by decide), if_neg (by decide), if_pos rfl]
    by_cases hop : op = .PLUS
    · rw [if_neg (by simpa using hop), if_pos hop]
    · rw [if_pos hop, if_neg hop]

/-- Witness of C30 (amended): `1 < 2`, `1 + "a"` and `"a" + "b"`. -/
theorem visitBinOP_typing_witness :
    visitAst NewSemanticAnalyzer (.AstBinOP .LT (.AstIntConst 1) (.AstIntConst 2) 1)
        = .ok (.AstPrimType symTypeInt)
    ∧ visitAst NewSemanticAnalyzer (.AstBinOP .PLUS (.AstIntConst 1) (.AstStringConst "a") 1)
        = .error .incompatibleType
    ∧ visitAst NewSemanticAnalyzer
          (.AstBinOP .PLUS (.AstStringConst "a") (.AstStringConst "b") 1)
        = (if TokenType.PLUS = .PLUS then .ok (.AstPrimType symTypeString)
           else .error .stringOnlyAdd) :=
  ⟨(visitBinOP_typing NewSemanticAnalyzer .LT (.AstIntConst 1) (.AstIntConst 2) 1
      (.AstPrimType symTypeInt) (.AstPrimType symTypeInt) "I" "I" rfl rfl rfl rfl).1 rfl rfl,
   (visitBinOP_typing NewSemanticAnalyzer .PLUS (.AstIntConst 1) (.AstStringConst "a") 1
      (.AstPrimType symTypeInt) (.AstPrimType symTypeString) "I" "S" rfl rfl rfl rfl).2.1
      (by decide),
   (visitBinOP_typing NewSemanticAnalyzer .PLUS (.AstStringConst "a") (.AstStringConst "b") 1
      (.AstPrimType symTypeString) (.AstPrimType symTypeString) "S" "S" rfl rfl rfl rfl).2.2
      rfl rfl⟩

/-- Counterexample to C30: the comparison `"a" == "b"` of two strings, whose signatures
are equal, is rejected with `string type only allow add`, by `visitBinOP` and so by the
analysis of `const X "a" == "b"`. -/
theorem string_comparison_rejected :
    visitAst NewSemanticAnalyzer (.AstBinOP .EQU (.AstStringConst "a") (.AstStringConst "b") 2)
        = .error .stringOnlyAdd
    ∧ parse 30 tokensStringCompare = .ok programStringCompare
    ∧ (DoAnalyze NewSemanticAnalyzer programStringCompare).toBool = false
    ∧ (compile 30 tokensStringCompare).map (fun _ => ()) = .error .stringOnlyAdd := by
  refine ⟨rfl, rfl, rfl, rfl⟩

/-! ## The xor of a whole-byte integer (interp_go.go) -/

theorem filterMap_addLine {α : Type} (g : Line → Option α) (interp : interpreter)
    (format : String) (args : List Arg) :
    (interp.addLine format args).out.filterMap g =
      interp.out.filterMap g ++
        (g { indent := (interp.depth - 1) * 4, format := format, args := args }).toList := by
  rw [out_addLine, List.filterMap_append]
  cases h : g { indent := (interp.depth - 1) * 4, format := format, args := args } <;>
    simp [List.filterMap, h]

theorem filterMap_addNewLine {α : Type} (g : Line → Option α)
    (hg : ∀ indent, g { indent := indent, format := "", args := [] } = none)
    (interp : interpreter) :
    interp.addNewLine.out.filterMap g = interp.out.filterMap g
      ∧ interp.addNewLine.depth = interp.depth := by
  unfold interpreter.addNewLine
  split
  · exact ⟨rfl, rfl⟩
  · refine ⟨?_, rfl⟩
    show (interp.addLine "" []).out.filterMap g = _
    rw [filterMap_addLine, hg]
    simp

theorem emitNotes_filterMap {α : Type} (g : Line → Option α)
    (hg : ∀ indent v, g { indent := indent, format := "//" ++ v, args := [] } = none)
    (notes : List AstSrcComment) (interp : interpreter) (line : Nat) :
    (emitNotes interp line notes).1.out.filterMap g = interp.out.filterMap g
      ∧ (emitNotes interp line notes).1.depth = interp.depth := by
  induction notes generalizing interp with
  | nil => exact ⟨rfl, rfl⟩
  | cons note rest ih =>
    unfold emitNotes
    split
    · obtain ⟨h1, h2⟩ := ih (interp.addLine ("//" ++ note.value) [])
      rw [h1, h2, filterMap_addLine, hg]
      exact ⟨by simp, rfl⟩
    · exact ⟨rfl, rfl⟩

theorem wrapExist_filterMap {α : Type} (g : Line → Option α)
    (hopen : ∀ indent args, g { indent := indent, format := "if %s \x7b", args := args } = none)
    (hclose : ∀ indent, g { indent := indent, format := "\x7d", args := [] } = none)
    (interp : interpreter) (f : AstVarDecl) (op : interpreter → Except Panic interpreter)
    (new : List α) (hdepth : 1 ≤ interp.depth)
    (hop : ∀ i, ∃ r, op i = .ok r ∧ r.depth = i.depth
      ∧ r.out.filterMap g = i.out.filterMap g ++ new) :
    ∃ r, wrapExist_Go interp f op = .ok r ∧ r.depth = interp.depth
      ∧ r.out.filterMap g = interp.out.filterMap g ++ new := by
  unfold wrapExist_Go
  cases hex : f.existIf with
  | none => exact hop interp
  | some cond =>
    simp only []
    obtain ⟨r, hr, hrd, hro⟩ :=
      hop ((interp.addLine "if %s \x7b" [.str (traveseCond true cond)]).pushStackFrame)
    rw [hr]
    simp only []
    have hd : r.depth = interp.depth + 1 := by
      rw [hrd]
      rfl
    have hpop : r.popStackFrame = .ok { r with depth := r.depth - 1 } := by
      unfold interpreter.popStackFrame
      rw [if_neg (by omega)]
    rw [hpop]
    refine ⟨_, rfl, ?_, ?_⟩
    · simp only [interpreter.addLine]
      omega
    · rw [filterMap_addLine, hclose]
      simp only []
      rw [hro]
      have h1 : ((interp.addLine "if %s \x7b" [.str (traveseCond true cond)]).pushStackFrame).out
          = (interp.addLine "if %s \x7b" [.str (traveseCond true cond)]).out := rfl
      rw [h1, filterMap_addLine, hopen]
      simp

theorem typeName4Go_bits (name : String) (bn : Nat)
    (h : primIntWidth name = (true, bn)) (h8 : bn % 8 = 0) :
    ∃ tn, typeName4Go (.AstPrimType name) = .ok tn ∧ goTypeBits tn = bn := by
  unfold primIntWidth at h
  simp only [typeName4Go]
  by_cases a1 : name = symTypeU1
  · rw [if_pos a1] at h; cases h; cases h8
  rw [if_neg a1] at h
  by_cases a2 : name = symTypeU2
  · rw [if_pos a2] at h; cases h; cases h8
  rw [if_neg a2] at h
  by_cases a3 : name = symTypeU3
  · rw [if_pos a3] at h; cases h; cases h8
  rw [if_neg a3] at h
  by_cases a4 : name = symTypeU4
  · rw [if_pos a4] at h; cases h; cases h8
  rw [if_neg a4] at h
  by_cases a5 : name = symTypeU5
  · rw [if_pos a5] at h; cases h; cases h8
  rw [if_neg a5] at h
  by_cases a6 : name = symTypeU6
  · rw [if_pos a6] at h; cases h; cases h8
  rw [if_neg a6] at h
  by_cases a7 : name = symTypeU7
  · rw [if_pos a7] at h; cases h; cases h8
  rw [if_neg a7] at h
  by_cases a8 : name = symTypeU8
  · rw [if_pos a8] at h
    cases h
    rw [if_pos (by simp [a8])]
    exact ⟨_, rfl, rfl⟩
  rw [if_neg a8] at h
  by_cases a9 : name = symTypeChar
  · rw [if_pos a9] at h
    cases h
    rw [if_pos (by simp [a9])]
    exact ⟨_, rfl, rfl⟩
  rw [if_neg a9] at h
  rw [if_neg (by simp [a1, a2, a3, a4, a5, a6, a7, a8, a9])]
  by_cases a10 : name = symTypeU16
  · rw [if_pos a10] at h
    cases h
    rw [if_pos a10]
    exact ⟨_, rfl, rfl⟩
  rw [if_neg a10] at h
  rw [if_neg a10]
  by_cases a11 : name = symTypeU32 ∨ name = symTypeV32
  · rw [if_pos a11] at h
    cases h
    rw [if_pos a11]
    exact ⟨_, rfl, rfl⟩
  rw [if_neg a11] at h
  rw [if_neg a11]
  by_cases a12 : name = symTypeU64 ∨ name = symTypeV64
  · rw [if_pos a12] at h
    cases h
    rw [if_pos a12]
    exact ⟨_, rfl, rfl⟩
  rw [if_neg a12] at h
  cases h

theorem getBigEndian_put (n : Nat) (v : Nat) :
    ∀ acc, (putBigEndian n v).foldl (fun acc b => acc * 256 + b) acc
      = acc * 256 ^ n + v % 256 ^ n := by
  induction n with
  | zero =>
    intro acc
    simp [putBigEndian, Nat.mod_one]
  | succ n ih =>
    intro acc
    simp only [putBigEndian, List.foldl_cons]
    rw [ih, Nat.mod_pow_succ]
    ring

theorem pow256 (k : Nat) : 256 ^ k = 2 ^ (8 * k) := by
  rw [Nat.pow_mul]

theorem convertTo_lt (bits : Nat) (x : Int) : convertTo bits x < 2 ^ bits := by
  unfold convertTo
  have hpos : (0 : Int) < 2 ^ bits := by positivity
  have h1 := Int.emod_lt_of_pos x hpos
  have h2 := Int.emod_nonneg x (ne_of_gt hpos)
  have h3 : ((x % 2 ^ bits).toNat : Int) = x % 2 ^ bits := Int.toNat_of_nonneg h2
  have h4 : ((x % 2 ^ bits).toNat : Int) < ((2 ^ bits : Nat) : Int) := by
    rw [h3]
    push_cast
    exact h1
  exact_mod_cast h4

theorem xor_round_trip (op : String × String × String) (bn : Nat) (hb : goTypeBits op.2.1 = bn)
    (h8 : bn % 8 = 0) (v : Nat) (x : Int) (hv : v < 2 ^ bn) :
    xorRead op (xorWrite op v x) x = v := by
  unfold xorRead xorWrite getBigEndian
  rw [hb, getBigEndian_put, pow256]
  have hk : 8 * (bn / 8) = bn := by omega
  rw [hk]
  have hlt : v ^^^ convertTo bn x < 2 ^ bn := Nat.xor_lt_two_pow hv (convertTo_lt bn x)
  rw [Nat.mod_eq_of_lt hlt]
  simp [Nat.xor_assoc]

theorem encodeWholeInt_xor (f : AstVarDecl) (interp : interpreter) (xor : VarNameRef)
    (tn : String) (hx : f.xor = some xor) (htn : typeName4Go f.type_ = .ok tn)
    (hvar : isVarInt f.type_ = false) :
    ∃ r, encodeWholeInt f interp = .ok r ∧ r.depth = interp.depth
      ∧ r.out.filterMap encodeXor
          = interp.out.filterMap encodeXor ++ [(f.name, tn, xor.name)] := by
  unfold encodeWholeInt
  simp only [hvar, Bool.false_eq_true, if_false, hx, htn]
  cases hm : f.max with
  | none =>
    refine ⟨_, rfl, rfl, ?_⟩
    rw [filterMap_addLine]
    rfl
  | some max =>
    refine ⟨_, rfl, ?_, ?_⟩
    · exact (filterMap_addNewLine encodeXor (fun _ => rfl) interp).2
    · simp only []
      rw [filterMap_addLine, filterMap_addLine,
        (filterMap_addNewLine encodeXor (fun _ => rfl) interp).1]
      simp [encodeXor]

theorem decodeWholeInt_xor (f : AstVarDecl) (interp : interpreter) (xor : VarNameRef)
    (tn : String) (hx : f.xor = some xor) (htn : typeName4Go f.type_ = .ok tn)
    (hvar : isVarInt f.type_ = false) :
    ∃ r, decodeWholeInt f interp = .ok r ∧ r.depth = interp.depth
      ∧ r.out.filterMap decodeXor
          = interp.out.filterMap decodeXor ++ [(f.name, tn, xor.name)] := by
  unfold decodeWholeInt
  simp only [hvar, Bool.false_eq_true, if_false, hx, htn]
  cases hm : f.max <;> cases he : f.equ <;>
    simp [interpreter.addLine, List.filterMap_append, decodeXor]

/-- C21. For every whole-byte integer field (width 8, 16, 32 or 64, not `v32` or `v64`)
with `xor X`, outside a sub-byte run: the encoder emits the statement that writes
`m.F^T(X)`, the decoder emits the statement `m.F ^= T(X)` after the one that reads
`m.F`, with the same Go type `T` of the width of the field and the same `X`; and for
every value `v` that the field has when the write statement runs and every value `x` of
`X`, reading the bytes written and applying the xor gives `v` again. -/
theorem xor_decode_inverts_encode (fields : List AstVarDecl) (ei di : interpreter)
    (es : EncodeState) (ds : DecodeState) (f : AstVarDecl) (xor : VarNameRef) (bn : Nat)
    (hint : isIntType f.type_ = (true, bn)) (h8 : bn % 8 = 0)
    (hvar : isVarInt f.type_ = false) (hx : f.xor = some xor)
    (hes : es.bitAggr = false) (hds : ds.bitAggr = false)
    (hed : 1 ≤ ei.depth) (hdd : 1 ≤ di.depth) :
    ∃ er es1 dr tn, encodeField fields ei es f = .ok (er, es1)
      ∧ decodeField fields di ds f = .ok (dr, ds)
      ∧ er.out.filterMap encodeXor = ei.out.filterMap encodeXor ++ [(f.name, tn, xor.name)]
      ∧ dr.out.filterMap decodeXor = di.out.filterMap decodeXor ++ [(f.name, tn, xor.name)]
      ∧ goTypeBits tn = bn
      ∧ ∀ (v : Nat) (x : Int), v < 2 ^ bn →
          xorRead (f.name, tn, xor.name) (xorWrite (f.name, tn, xor.name) v x) x = v := by
  obtain ⟨name, hname⟩ := isIntType_prim f.type_ (by rw [hint])
  have hp : primIntWidth name = (true, bn) := by
    rw [hname] at hint
    exact hint
  obtain ⟨tn, htn, hbits⟩ := typeName4Go_bits name bn hp h8
  rw [← hname] at htn
  have hn : bn / 8 = 1 ∨ bn / 8 = 2 ∨ bn / 8 = 4 ∨ bn / 8 = 8 := by
    have hc := isIntType_cases f.type_
    rw [hint] at hc
    rcases hc with hc | ⟨b, hb, hv⟩
    · cases hc
    · simp only [Prod.mk.injEq, true_and] at hb
      subst hb
      rcases hv with h | h | h | h | h | h | h | h | h | h | h <;> subst h <;> simp at h8 ⊢
  have hnotes := emitNotes_filterMap encodeXor (fun _ _ => by
    unfold encodeXor
    rw [if_neg (comment_ne _ _ (by decide))]) es.notes ei f.line
  obtain ⟨er, her, _, hero⟩ := wrapExist_filterMap encodeXor (fun _ _ => rfl) (fun _ => rfl)
    (emitNotes ei f.line es.notes).1 f (encodeWholeInt f) [(f.name, tn, xor.name)]
    (by rw [hnotes.2]; exact hed)
    (fun i => encodeWholeInt_xor f i xor tn hx htn hvar)
  obtain ⟨dr, hdr, _, hdro⟩ := wrapExist_filterMap decodeXor (fun _ _ => rfl) (fun _ => rfl)
    di f (decodeWholeInt f) [(f.name, tn, xor.name)] hdd
    (fun i => decodeWholeInt_xor f i xor tn hx htn hvar)
  refine ⟨er, { es with notes := (emitNotes ei f.line es.notes).2 }, dr, tn, ?_, ?_, ?_, hdro,
    hbits, ?_⟩
  · rw [encodeField_prim fields ei es f (by rw [hint])]
    unfold encodePrim
    rw [hint]
    simp only [hes, Bool.false_eq_true, if_false, if_true, h8, hn, her]
  · rw [decodeField_prim fields di ds f (by rw [hint])]
    unfold decodePrim
    rw [hint]
    simp only [hds, Bool.false_eq_true, if_false, if_true, h8, hn, hdr]
  · rw [hero, hnotes.1]
  · intro v x hv
    exact xor_round_trip (f.name, tn, xor.name) bn hbits h8 v x hv

/-- Witness of C21: the field `key u16 -> xor K max M`. -/
theorem xor_decode_inverts_encode_witness :
    ∃ er es1 dr tn, encodeField [fieldXorMax] NewInterpreter {} fieldXorMax = .ok (er, es1)
      ∧ decodeField [fieldXorMax] NewInterpreter {} fieldXorMax = .ok (dr, {})
      ∧ er.out.filterMap encodeXor
          = NewInterpreter.out.filterMap encodeXor ++ [(fieldXorMax.name, tn, "K")]
      ∧ dr.out.filterMap decodeXor
          = NewInterpreter.out.filterMap decodeXor ++ [(fieldXorMax.name, tn, "K")]
      ∧ goTypeBits tn = 16
      ∧ ∀ (v : Nat) (x : Int), v < 2 ^ 16 →
          xorRead (fieldXorMax.name, tn, "K") (xorWrite (fieldXorMax.name, tn, "K") v x) x = v :=
  xor_decode_inverts_encode [fieldXorMax] NewInterpreter NewInterpreter {} {} fieldXorMax
    { name := "K", line := 3 } 16 rfl (by decide) rfl rfl rfl rfl (by decide) (by decide)

/-! ## The bound of the loops of the lexer -/

theorem collect_bound (P : Char → Bool) (hP : P chNUL = false) (cs : List Char) :
    ∀ (n m : Nat) (acc : List Char) (lex : hskLexer), lex.At cs → cs.length < n →
      cs.length < m → collect P n acc lex = collect P m acc lex := by
  induction cs with
  | nil =>
    intro n m acc lex hat hn hm
    obtain ⟨n1, rfl⟩ : ∃ k, n = k + 1 := ⟨n - 1, by simp at hn; omega⟩
    obtain ⟨m1, rfl⟩ : ∃ k, m = k + 1 := ⟨m - 1, by simp at hm; omega⟩
    have hc : lex.curChar = chNUL := hat.2
    rw [collect, collect, hc, hP]
    rfl
  | cons c cs ih =>
    intro n m acc lex hat hn hm
    obtain ⟨n1, rfl⟩ : ∃ k, n = k + 1 := ⟨n - 1, by simp at hn; omega⟩
    obtain ⟨m1, rfl⟩ : ∃ k, m = k + 1 := ⟨m - 1, by simp at hm; omega⟩
    rw [collect, collect]
    by_cases hp : P lex.curChar = true
    · rw [if_pos hp, if_pos hp]
      exact ih n1 m1 _ _ (advance_at lex c cs hat).1 (by simp at hn; omega)
        (by simp at hm; omega)
    · rw [if_neg hp, if_neg hp]

/-! ## The signature of the integer types (ast.go) -/

/-- C31 (the code at the failing inputs). `AstPrimType.signature` returns `I` for `int`,
`u1`, `u2`, `u4`, `u8`, `u16`, `u32`, `u64`, `v32` and `v64`, but its `switch` has no
case for `u3`, `u5`, `u6`, `u7` and `char`, which `isIntType` and `typeName4Go` treat as
integers of at most 8 bits: for these five the method panics (`unknown primitive type`).
So a `max`, `equal`, `xor` or `limit` modifier that names an earlier sibling field of
type `char` (or of one of the four other types) makes the analysis fail, while the same
message with a sibling of type `u8` is accepted. -/
theorem signature_misses_five_integer_types :
    (∀ name ∈ [symTypeInt, symTypeU1, symTypeU2, symTypeU4, symTypeU8, symTypeU16,
        symTypeU32, symTypeU64, symTypeV32, symTypeV64],
      (AstType.AstPrimType name).signature = .ok "I")
    ∧ (∀ name ∈ [symTypeU3, symTypeU5, symTypeU6, symTypeU7, symTypeChar],
      (isIntType (.AstPrimType name)).1 = true
      ∧ typeName4Go (.AstPrimType name) = .ok "uint8"
      ∧ (AstType.AstPrimType name).signature = .error (.unknownPrimType name))
    ∧ compileText 100 "mspace t\ndefmsg A \x7b\n n char\n d u8 -> max n\n\x7d"
        = .error (.unknownPrimType "char")
    ∧ compileText 100 "mspace t\ndefmsg A \x7b\n n char\n d u8 -> equal n\n\x7d"
        = .error (.unknownPrimType "char")
    ∧ compileText 100 "mspace t\ndefmsg A \x7b\n n char\n d u8 -> xor n\n\x7d"
        = .error (.unknownPrimType "char")
    ∧ compileText 100 "mspace t\ndefmsg A \x7b\n n char\n d []u8 -> limit by n\n\x7d"
        = .error (.unknownPrimType "char")
    ∧ compileText 100 "mspace t\ndefmsg A \x7b\n a u3\n b u5\n d u8 -> max a\n\x7d"
        = .error (.unknownPrimType "u3")
    ∧ compileText 100 "mspace t\ndefmsg A \x7b\n a u3\n b u5\n d u8 -> max b\n\x7d"
        = .error (.unknownPrimType "u5")
    ∧ compileText 100 "mspace t\ndefmsg A \x7b\n a u6\n b u2\n d u8 -> max a\n\x7d"
        = .error (.unknownPrimType "u6")
    ∧ compileText 100 "mspace t\ndefmsg A \x7b\n a u7\n b u1\n d u8 -> max a\n\x7d"
        = .error (.unknownPrimType "u7")
    ∧ (compileText 100 "mspace t\ndefmsg A \x7b\n n u8\n d u8 -> max n\n\x7d").toBool = true
    ∧ (compileText 100 "mspace t\ndefmsg A \x7b\n a u4\n b u4\n d u8 -> max a\n\x7d").toBool
        = true := by
  refine ⟨?_, ?_, rfl, rfl, rfl, rfl, rfl, rfl, rfl, rfl, rfl, rfl⟩
  · intro name h
    simp only [List.mem_cons, List.mem_singleton, List.not_mem_nil, or_false] at h
    rcases h with rfl | rfl | rfl | rfl | rfl | rfl | rfl | rfl | rfl | rfl <;> rfl
  · intro name h
    simp only [List.mem_cons, List.mem_singleton, List.not_mem_nil, or_false] at h
    rcases h with rfl | rfl | rfl | rfl | rfl <;> exact ⟨rfl, rfl, rfl⟩

set_option maxRecDepth 20000

/-! ## The lowering of the operators of `exist if` (interp_go.go, interpreter.go) -/

/-- C32 (the code at the failing inputs). `visitBinOP_Go` renders the ten operators
`&`, `|`, `&&`, `||`, `==`, `!=`, `<`, `<=`, `>`, `>=` as themselves, but it has no case
for `+`, `-`, `*`, `/`, `<<` and `>>`: for these six it returns `??`, so `traveseCond`
writes a binary node of one of them as `LEFT ?? RIGHT`. The fields
`b u8 -> exist if this.a + 1 > 2` (and the same with `*`, `/`, `<<`) are accepted by
the analysis and lowered to the conditions `(m.a ?? 1) > 2`, `(m.a ?? 2) > 2`, ...,
which are no Go expressions, in the encoder and in the decoder. -/
theorem arithmetic_operators_lowered_as_question_marks :
    (visitBinOP_Go .BIT_AND = "&" ∧ visitBinOP_Go .BIT_OR = "|" ∧ visitBinOP_Go .AND = "&&"
      ∧ visitBinOP_Go .OR = "||" ∧ visitBinOP_Go .EQU = "==" ∧ visitBinOP_Go .NEQ = "!="
      ∧ visitBinOP_Go .LT = "<" ∧ visitBinOP_Go .LTE = "<=" ∧ visitBinOP_Go .GT = ">"
      ∧ visitBinOP_Go .GTE = ">=")
    ∧ (∀ op ∈ [TokenType.PLUS, .MINUS, .MUL, .DIV, .LSHIFT, .RSHIFT], visitBinOP_Go op = "??")
    ∧ (∀ op ∈ [TokenType.PLUS, .MINUS, .MUL, .DIV, .LSHIFT, .RSHIFT],
        ∀ (left right : AstNode) (line : Nat),
          traveseCond true (.AstBinOP op left right line)
            = traveseCond false left ++ " ?? " ++ traveseCond false right
          ∧ traveseCond false (.AstBinOP op left right line)
            = "(" ++ traveseCond false left ++ " ?? " ++ traveseCond false right ++ ")")
    ∧ existConds (emitText 100 ("mspace t\ndefmsg A \x7b\n a u8\n b u8 -> exist if this.a + 1 > 2\n"
          ++ " c u8 -> exist if this.a * 2 > 3\n d u8 -> exist if this.a / 4 > 5\n"
          ++ " e u8 -> exist if this.a << 6 > 7\n\x7d"))
        = ["(m.a ?? 1) > 2", "(m.a ?? 2) > 3", "(m.a ?? 4) > 5", "(m.a ?? 6) > 7",
           "(m.a ?? 1) > 2", "(m.a ?? 2) > 3", "(m.a ?? 4) > 5", "(m.a ?? 6) > 7"]
    ∧ existConds (emitText 100
          "mspace t\ndefmsg A \x7b\n a u8\n b u8 -> exist if this.a & 1 == 1 || a > 2 && this.a != 7\n\x7d")
        = ["(m.a & (1 == 1)) || ((a > 2) && (m.a != 7))",
           "(m.a & (1 == 1)) || ((a > 2) && (m.a != 7))"] := by
  refine ⟨⟨rfl, rfl, rfl, rfl, rfl, rfl, rfl, rfl, rfl, rfl⟩, ?_, ?_, rfl, rfl⟩
  · intro op h
    simp only [List.mem_cons, List.mem_singleton, List.not_mem_nil, or_false] at h
    rcases h with rfl | rfl | rfl | rfl | rfl | rfl <;> rfl
  · intro op h left right line
    simp only [List.mem_cons, List.mem_singleton, List.not_mem_nil, or_false] at h
    rcases h with rfl | rfl | rfl | rfl | rfl | rfl <;>
      simp [traveseCond, visitBinOP_Go, String.append_assoc]

/-! ## The constant folding of binary operations (interpreter.go) -/

/-- C33 (the code at the failing inputs). The `switch node.op` of
`interpreter.visitBinOP` has no case for `&`, `|` and `>>`: on two integers it returns 0
for them, whatever the operands are, so `const X 6 & 3` is emitted as `const X = 0` and
`const Y 6 | 3` as `const Y = 0`. The other operators are folded as the claim says, in
the 64 bits of a Go `int`: sum, difference, product, quotient (truncated) for a divisor
other than 0, left shift, 1 or 0 for the comparisons; a division by 0 is an error and
no value. -/
theorem bitwise_constants_fold_to_zero :
    (∀ a b : Int, foldedInt (binOPValue .BIT_AND (.int a) (.int b)) = some 0)
    ∧ (∀ a b : Int, foldedInt (binOPValue .BIT_OR (.int a) (.int b)) = some 0)
    ∧ (∀ a b : Int, foldedInt (binOPValue .RSHIFT (.int a) (.int b)) = some 0)
    ∧ (∀ a b : Int, foldedInt (binOPValue .PLUS (.int a) (.int b)) = some (wrap64 (a + b)))
    ∧ (∀ a b : Int, foldedInt (binOPValue .MINUS (.int a) (.int b)) = some (wrap64 (a - b)))
    ∧ (∀ a b : Int, foldedInt (binOPValue .MUL (.int a) (.int b)) = some (wrap64 (a * b)))
    ∧ (∀ a b : Int, b ≠ 0 →
        foldedInt (binOPValue .DIV (.int a) (.int b)) = some (wrap64 (Int.tdiv a b)))
    ∧ (∀ a : Int, (binOPValue .DIV (.int a) (.int 0)).toBool = false)
    ∧ (∀ (a : Int) (b : Nat),
        foldedInt (binOPValue .LSHIFT (.int a) (.int b)) = some (wrap64 (a * 2 ^ b)))
    ∧ (∀ a b : Int, foldedInt (binOPValue .EQU (.int a) (.int b)) = some (if a = b then 1 else 0))
    ∧ (∀ a b : Int, foldedInt (binOPValue .NEQ (.int a) (.int b)) = some (if a ≠ b then 1 else 0))
    ∧ (∀ a b : Int, foldedInt (binOPValue .LT (.int a) (.int b)) = some (if a < b then 1 else 0))
    ∧ (∀ a b : Int, foldedInt (binOPValue .LTE (.int a) (.int b)) = some (if a ≤ b then 1 else 0))
    ∧ (∀ a b : Int, foldedInt (binOPValue .GT (.int a) (.int b)) = some (if a > b then 1 else 0))
    ∧ (∀ a b : Int, foldedInt (binOPValue .GTE (.int a) (.int b)) = some (if a ≥ b then 1 else 0))
    ∧ constLines (emitText 100 ("mspace t\nconst X 6 & 3\nconst Y 6 | 3\nconst Z 6 + 3\n"
          ++ "const W 6 * 3\nconst V 6 / 3\nconst U 6 << 3\nconst T 6 < 3"))
        = [("X", 0), ("Y", 0), ("Z", 9), ("W", 18), ("V", 2), ("U", 48), ("T", 0)]
    ∧ emitText 100 "mspace t\nconst X 6 / 0" = .error (.emit "div by zero") := by
  refine ⟨fun _ _ => rfl, fun _ _ => rfl, fun _ _ => rfl, fun _ _ => rfl, fun _ _ => rfl,
    fun _ _ => rfl, ?_, fun _ => rfl, ?_, fun _ _ => rfl, fun _ _ => rfl, fun _ _ => rfl,
    fun _ _ => rfl, fun _ _ => rfl, fun _ _ => rfl, rfl, rfl⟩
  · intro a b hb
    simp [binOPValue, foldedInt, hb]
  · intro a b
    have hb : ¬ ((b : Int) < 0) := by omega
    simp [binOPValue, foldedInt, hb]

/-! ## `peekToken` and the field `lastError` (lexer.go) -/

theorem advance_withError (lex : hskLexer) (e : Option (Char × Nat × Nat)) :
    (lex.withError e).advance = lex.advance.withError e := by
  unfold hskLexer.advance hskLexer.withError hskLexer.posMax
  by_cases h : lex.pos + 1 < lex.text.length
  · rw [if_pos h, if_pos h]
  · rw [if_neg h, if_neg h]

theorem advanceBy_withError (lex : hskLexer) (e : Option (Char × Nat × Nat)) (n : Nat) :
    (lex.withError e).advanceBy n = (lex.advanceBy n).withError e := by
  induction n generalizing lex with
  | zero => rfl
  | succ n ih =>
    rw [hskLexer.advanceBy, hskLexer.advanceBy]
    by_cases h : lex.pos < lex.posMax
    · rw [if_pos h, if_pos (show (lex.withError e).pos < (lex.withError e).posMax from h),
        advance_withError, ih]
    · rw [if_neg h, if_neg (show ¬ (lex.withError e).pos < (lex.withError e).posMax from h)]

theorem advance_text (lex : hskLexer) : lex.advance.text = lex.text := by
  unfold hskLexer.advance
  by_cases h : lex.pos + 1 < lex.posMax
  · rw [if_pos h]
  · rw [if_neg h]

theorem advanceBy_text (lex : hskLexer) (n : Nat) : (lex.advanceBy n).text = lex.text := by
  induction n generalizing lex with
  | zero => rfl
  | succ n ih =>
    rw [hskLexer.advanceBy]
    by_cases h : lex.pos < lex.posMax
    · rw [if_pos h, ih, advance_text]
    · rw [if_neg h]

theorem skipCommentLoop_withError (mult : Bool) (line : Nat) (e : Option (Char × Nat × Nat)) :
    ∀ (n : Nat) (lex : hskLexer),
      skipCommentLoop mult line n (lex.withError e)
        = (skipCommentLoop mult line n lex).withError e := by
  intro n
  induction n with
  | zero => intro lex; rfl
  | succ n ih =>
    intro lex
    rw [skipCommentLoop, skipCommentLoop]
    by_cases h : lex.pos < lex.posMax
    · rw [if_pos h, if_pos (show (lex.withError e).pos < (lex.withError e).posMax from h)]
      by_cases h1 : mult = true ∧ lex.curChar = '*' ∧ lex.peekChar 1 = '/'
      · rw [if_pos h1, if_pos (show mult = true ∧ (lex.withError e).curChar = '*'
            ∧ (lex.withError e).peekChar 1 = '/' from h1), advanceBy_withError]
      · rw [if_neg h1, if_neg (show ¬ (mult = true ∧ (lex.withError e).curChar = '*'
            ∧ (lex.withError e).peekChar 1 = '/') from h1)]
        simp only [advance_withError]
        by_cases h2 : ¬ mult = true ∧ lex.advance.lineNo ≠ line
        · rw [if_pos h2, if_pos (show ¬ mult = true ∧ (lex.advance.withError e).lineNo ≠ line
            from h2)]
        · rw [if_neg h2, if_neg (show ¬ (¬ mult = true ∧ (lex.advance.withError e).lineNo ≠ line)
            from h2), ih]
    · rw [if_neg h, if_neg (show ¬ (lex.withError e).pos < (lex.withError e).posMax from h)]

theorem skipCommentLoop_text (mult : Bool) (line : Nat) :
    ∀ (n : Nat) (lex : hskLexer), (skipCommentLoop mult line n lex).text = lex.text := by
  intro n
  induction n with
  | zero => intro lex; rfl
  | succ n ih =>
    intro lex
    rw [skipCommentLoop]
    by_cases h : lex.pos < lex.posMax
    · rw [if_pos h]
      by_cases h1 : mult = true ∧ lex.curChar = '*' ∧ lex.peekChar 1 = '/'
      · rw [if_pos h1, advanceBy_text]
      · rw [if_neg h1]
        simp only []
        by_cases h2 : ¬ mult = true ∧ lex.advance.lineNo ≠ line
        · rw [if_pos h2, advance_text]
        · rw [if_neg h2, ih, advance_text]
    · rw [if_neg h]

theorem skipComment_withError (lex : hskLexer) (mult : Bool) (e : Option (Char × Nat × Nat)) :
    (lex.withError e).skipComment mult
      = ((lex.skipComment mult).1, (lex.skipComment mult).2.withError e) := by
  unfold hskLexer.skipComment
  simp only [show (lex.withError e).lineNo = lex.lineNo from rfl,
    show (lex.withError e).posMax = lex.posMax from rfl,
    show (lex.withError e).pos = lex.pos from rfl,
    show (lex.withError e).text = lex.text from rfl, skipCommentLoop_withError]
  cases mult <;> rfl

theorem skipComment_text (lex : hskLexer) (mult : Bool) :
    (lex.skipComment mult).2.text = lex.text := by
  unfold hskLexer.skipComment
  cases mult <;> exact skipCommentLoop_text _ _ _ _

theorem collect_withError (P : Char → Bool) (e : Option (Char × Nat × Nat)) :
    ∀ (n : Nat) (acc : List Char) (lex : hskLexer),
      collect P n acc (lex.withError e)
        = ((collect P n acc lex).1, (collect P n acc lex).2.withError e) := by
  intro n
  induction n with
  | zero => intro acc lex; rfl
  | succ n ih =>
    intro acc lex
    rw [collect, collect]
    by_cases h : P lex.curChar = true
    · rw [if_pos h, if_pos (show P (lex.withError e).curChar = true from h), advance_withError,
        ih]
      rfl
    · rw [if_neg h, if_neg (show ¬ P (lex.withError e).curChar = true from h)]

theorem collect_text (P : Char → Bool) :
    ∀ (n : Nat) (acc : List Char) (lex : hskLexer), (collect P n acc lex).2.text = lex.text := by
  intro n
  induction n with
  | zero => intro acc lex; rfl
  | succ n ih =>
    intro acc lex
    rw [collect]
    by_cases h : P lex.curChar = true
    · rw [if_pos h, ih, advance_text]
    · rw [if_neg h]

theorem skipSpaces_withError (lex : hskLexer) (e : Option (Char × Nat × Nat)) :
    (lex.withError e).skipSpaces = lex.skipSpaces.withError e := by
  unfold hskLexer.skipSpaces
  rw [show (lex.withError e).posMax = lex.posMax from rfl,
    show (lex.withError e).pos = lex.pos from rfl, collect_withError]

theorem skipSpaces_text (lex : hskLexer) : lex.skipSpaces.text = lex.text :=
  collect_text _ _ _ _

theorem getInteger_withError (lex : hskLexer) (e : Option (Char × Nat × Nat)) :
    (lex.withError e).getInteger = (lex.getInteger.1, lex.getInteger.2.withError e) := by
  unfold hskLexer.getInteger
  by_cases h : lex.curChar = '0' ∧ (lex.peekChar 1 = 'x' ∨ lex.peekChar 1 = 'X')
  · rw [if_pos h, if_pos (show (lex.withError e).curChar = '0'
        ∧ ((lex.withError e).peekChar 1 = 'x' ∨ (lex.withError e).peekChar 1 = 'X') from h)]
    simp only [advanceBy_withError]
    rw [show ((lex.advanceBy 2).withError e).posMax = (lex.advanceBy 2).posMax from rfl,
      show ((lex.advanceBy 2).withError e).pos = (lex.advanceBy 2).pos from rfl,
      collect_withError]
  · rw [if_neg h, if_neg (show ¬ ((lex.withError e).curChar = '0'
        ∧ ((lex.withError e).peekChar 1 = 'x' ∨ (lex.withError e).peekChar 1 = 'X')) from h)]
    simp only []
    rw [show (lex.withError e).posMax = lex.posMax from rfl,
      show (lex.withError e).pos = lex.pos from rfl, collect_withError]

theorem getInteger_text (lex : hskLexer) : lex.getInteger.2.text = lex.text := by
  unfold hskLexer.getInteger
  by_cases h : lex.curChar = '0' ∧ (lex.peekChar 1 = 'x' ∨ lex.peekChar 1 = 'X')
  · rw [if_pos h]
    simp only []
    rw [collect_text, advanceBy_text]
  · rw [if_neg h]
    exact collect_text _ _ _ _

theorem getId_withError (lex : hskLexer) (e : Option (Char × Nat × Nat)) :
    (lex.withError e).getId = (lex.getId.1, lex.getId.2.withError e) := by
  unfold hskLexer.getId
  simp only [show (lex.withError e).posMax = lex.posMax from rfl,
    show (lex.withError e).pos = lex.pos from rfl,
    show (lex.withError e).colNo = lex.colNo from rfl, collect_withError]
  cases mapGet keywords (String.mk (collect (fun c => isLetter c || isDigit c || c == '_')
      (lex.posMax - lex.pos + 1) [] lex).1) <;> rfl

theorem getId_text (lex : hskLexer) : lex.getId.2.text = lex.text := by
  unfold hskLexer.getId
  simp only []
  cases mapGet keywords (String.mk (collect (fun c => isLetter c || isDigit c || c == '_')
      (lex.posMax - lex.pos + 1) [] lex).1) <;> exact collect_text _ _ _ _

theorem getStringLoop_withError (e : Option (Char × Nat × Nat)) :
    ∀ (n : Nat) (val : List Char) (lex : hskLexer),
      getStringLoop n val (lex.withError e)
        = (getStringLoop n val lex).map fun r => (r.1, r.2.withError e) := by
  intro n
  induction n with
  | zero => intro val lex; rfl
  | succ n ih =>
    intro val lex
    rw [getStringLoop, getStringLoop]
    by_cases h : lex.curChar ≠ chQuote
    · rw [if_pos h, if_pos (show (lex.withError e).curChar ≠ chQuote from h)]
      by_cases h1 : lex.curChar = chBackslash
      · rw [if_pos h1, if_pos (show (lex.withError e).curChar = chBackslash from h1)]
        simp only [advance_withError]
        rw [ih]
        rfl
      · rw [if_neg h1, if_neg (show ¬ (lex.withError e).curChar = chBackslash from h1),
          advance_withError, ih]
        rfl
    · rw [if_neg h, if_neg (show ¬ (lex.withError e).curChar ≠ chQuote from h)]
      rfl

theorem getStringLoop_text :
    ∀ (n : Nat) (val val1 : List Char) (lex lex1 : hskLexer),
      getStringLoop n val lex = .ok (val1, lex1) → lex1.text = lex.text := by
  intro n
  induction n with
  | zero => intro val val1 lex lex1 h; exact absurd h nofun
  | succ n ih =>
    intro val val1 lex lex1 h
    rw [getStringLoop] at h
    by_cases h0 : lex.curChar ≠ chQuote
    · rw [if_pos h0] at h
      by_cases h1 : lex.curChar = chBackslash
      · rw [if_pos h1] at h
        rw [ih _ _ _ _ h, advance_text, advance_text]
      · rw [if_neg h1] at h
        rw [ih _ _ _ _ h, advance_text]
    · rw [if_neg h0] at h
      cases h
      rfl

theorem getString_withError (fuel : Nat) (lex : hskLexer) (e : Option (Char × Nat × Nat)) :
    getString fuel (lex.withError e)
      = (getString fuel lex).map fun r => (r.1, r.2.withError e) := by
  unfold getString
  rw [advance_withError, getStringLoop_withError]
  cases getStringLoop fuel [] lex.advance with
  | error x => rfl
  | ok r =>
    show Except.ok (String.mk r.1, (r.2.withError e).advance) = _
    rw [advance_withError]
    rfl

theorem getString_text (fuel : Nat) (lex lex1 : hskLexer) (val : String)
    (h : getString fuel lex = .ok (val, lex1)) : lex1.text = lex.text := by
  unfold getString at h
  cases hl : getStringLoop fuel [] lex.advance with
  | error x => rw [hl] at h; exact absurd h nofun
  | ok r =>
    rw [hl] at h
    cases h
    rw [advance_text, getStringLoop_text _ _ _ _ _ hl, advance_text]

theorem switchToken_withError (lex : hskLexer) (e : Option (Char × Nat × Nat)) :
    switchToken (lex.withError e) = keepError e (switchToken lex) := by
  unfold switchToken
  rw [show (lex.withError e).curChar = lex.curChar from rfl,
    show (lex.withError e).peekChar 1 = lex.peekChar 1 from rfl]
  by_cases h0 : lex.curChar = '+'
  · rw [if_pos h0, if_pos h0]
    rw [advance_withError]; rfl
  rw [if_neg h0, if_neg h0]
  by_cases h1 : lex.curChar = '-'
  · rw [if_pos h1, if_pos h1]
    by_cases p0 : lex.peekChar 1 = '>'
    · rw [if_pos p0, if_pos p0]
      rw [advanceBy_withError]; rfl
    rw [if_neg p0, if_neg p0]
    rw [advance_withError]; rfl
  rw [if_neg h1, if_neg h1]
  by_cases h2 : lex.curChar = '*'
  · rw [if_pos h2, if_pos h2]
    rw [advance_withError]; rfl
  rw [if_neg h2, if_neg h2]
  by_cases h3 : lex.curChar = '/'
  · rw [if_pos h3, if_pos h3]
    rw [advance_withError]; rfl
  rw [if_neg h3, if_neg h3]
  by_cases h4 : lex.curChar = ':'
  · rw [if_pos h4, if_pos h4]
    by_cases p0 : lex.peekChar 1 = '='
    · rw [if_pos p0, if_pos p0]
      rw [advanceBy_withError]; rfl
    rw [if_neg p0, if_neg p0]
    rw [advanceBy_withError]; rfl
  rw [if_neg h4, if_neg h4]
  by_cases h5 : lex.curChar = '='
  · rw [if_pos h5, if_pos h5]
    by_cases p0 : lex.peekChar 1 = '='
    · rw [if_pos p0, if_pos p0]
      rw [advanceBy_withError]; rfl
    rw [if_neg p0, if_neg p0]
    rw [advanceBy_withError]; rfl
  rw [if_neg h5, if_neg h5]
  by_cases h6 : lex.curChar = '!'
  · rw [if_pos h6, if_pos h6]
    by_cases p0 : lex.peekChar 1 = '='
    · rw [if_pos p0, if_pos p0]
      rw [advanceBy_withError]; rfl
    rw [if_neg p0, if_neg p0]
    rw [advanceBy_withError]; rfl
  rw [if_neg h6, if_neg h6]
  by_cases h7 : lex.curChar = '&'
  · rw [if_pos h7, if_pos h7]
    by_cases p0 : lex.peekChar 1 = '&'
    · rw [if_pos p0, if_pos p0]
      rw [advanceBy_withError]; rfl
    rw [if_neg p0, if_neg p0]
    rw [advance_withError]; rfl
  rw [if_neg h7, if_neg h7]
  by_cases h8 : lex.curChar = '|'
  · rw [if_pos h8, if_pos h8]
    by_cases p0 : lex.peekChar 1 = '|'
    · rw [if_pos p0, if_pos p0]
      rw [advanceBy_withError]; rfl
    rw [if_neg p0, if_neg p0]
    rw [advance_withError]; rfl
  rw [if_neg h8, if_neg h8]
  by_cases h9 : lex.curChar = '<'
  · rw [if_pos h9, if_pos h9]
    by_cases p0 : lex.peekChar 1 = '='
    · rw [if_pos p0, if_pos p0]
      rw [advanceBy_withError]; rfl
    rw [if_neg p0, if_neg p0]
    by_cases p1 : lex.peekChar 1 = '<'
    · rw [if_pos p1, if_pos p1]
      rw [advanceBy_withError]; rfl
    rw [if_neg p1, if_neg p1]
    rw [advanceBy_withError]; rfl
  rw [if_neg h9, if_neg h9]
  by_cases h10 : lex.curChar = '>'
  · rw [if_pos h10, if_pos h10]
    by_cases p0 : lex.peekChar 1 = '='
    · rw [if_pos p0, if_pos p0]
      rw [advanceBy_withError]; rfl
    rw [if_neg p0, if_neg p0]
    rw [advanceBy_withError]; rfl
  rw [if_neg h10, if_neg h10]
  by_cases h11 : lex.curChar = '('
  · rw [if_pos h11, if_pos h11]
    rw [advance_withError]; rfl
  rw [if_neg h11, if_neg h11]
  by_cases h12 : lex.curChar = ')'
  · rw [if_pos h12, if_pos h12]
    rw [advance_withError]; rfl
  rw [if_neg h12, if_neg h12]
  by_cases h13 : lex.curChar = Char.ofNat 123
  · rw [if_pos h13, if_pos h13]
    rw [advance_withError]; rfl
  rw [if_neg h13, if_neg h13]
  by_cases h14 : lex.curChar = Char.ofNat 125
  · rw [if_pos h14, if_pos h14]
    rw [advance_withError]; rfl
  rw [if_neg h14, if_neg h14]
  by_cases h15 : lex.curChar = ','
  · rw [if_pos h15, if_pos h15]
    rw [advance_withError]; rfl
  rw [if_neg h15, if_neg h15]
  by_cases h16 : lex.curChar = ';'
  · rw [if_pos h16, if_pos h16]
    rw [advance_withError]; rfl
  rw [if_neg h16, if_neg h16]
  by_cases h17 : lex.curChar = chLF
  · rw [if_pos h17, if_pos h17]
    rw [advance_withError]; rfl
  rw [if_neg h17, if_neg h17]
  by_cases h18 : lex.curChar = '['
  · rw [if_pos h18, if_pos h18]
    rw [advance_withError]; rfl
  rw [if_neg h18, if_neg h18]
  by_cases h19 : lex.curChar = ']'
  · rw [if_pos h19, if_pos h19]
    rw [advance_withError]; rfl
  rw [if_neg h19, if_neg h19]
  by_cases h20 : lex.curChar = '.'
  · rw [if_pos h20, if_pos h20]
    rw [advance_withError]; rfl
  rw [if_neg h20, if_neg h20]
  rfl

theorem switchToken_text (lex : hskLexer) : (switchToken lex).2.text = lex.text := by
  unfold switchToken
  by_cases h0 : lex.curChar = '+'
  · rw [if_pos h0]
    exact advance_text _
  rw [if_neg h0]
  by_cases h1 : lex.curChar = '-'
  · rw [if_pos h1]
    by_cases p0 : lex.peekChar 1 = '>'
    · rw [if_pos p0]
      exact advanceBy_text _ _
    rw [if_neg p0]
    exact advance_text _
  rw [if_neg h1]
  by_cases h2 : lex.curChar = '*'
  · rw [if_pos h2]
    exact advance_text _
  rw [if_neg h2]
  by_cases h3 : lex.curChar = '/'
  · rw [if_pos h3]
    exact advance_text _
  rw [if_neg h3]
  by_cases h4 : lex.curChar = ':'
  · rw [if_pos h4]
    by_cases p0 : lex.peekChar 1 = '='
    · rw [if_pos p0]
      exact advanceBy_text _ _
    rw [if_neg p0]
    exact advanceBy_text _ _
  rw [if_neg h4]
  by_cases h5 : lex.curChar = '='
  · rw [if_pos h5]
    by_cases p0 : lex.peekChar 1 = '='
    · rw [if_pos p0]
      exact advanceBy_text _ _
    rw [if_neg p0]
    exact advanceBy_text _ _
  rw [if_neg h5]
  by_cases h6 : lex.curChar = '!'
  · rw [if_pos h6]
    by_cases p0 : lex.peekChar 1 = '='
    · rw [if_pos p0]
      exact advanceBy_text _ _
    rw [if_neg p0]
    exact advanceBy_text _ _
  rw [if_neg h6]
  by_cases h7 : lex.curChar = '&'
  · rw [if_pos h7]
    by_cases p0 : lex.peekChar 1 = '&'
    · rw [if_pos p0]
      exact advanceBy_text _ _
    rw [if_neg p0]
    exact advance_text _
  rw [if_neg h7]
  by_cases h8 : lex.curChar = '|'
  · rw [if_pos h8]
    by_cases p0 : lex.peekChar 1 = '|'
    · rw [if_pos p0]
      exact advanceBy_text _ _
    rw [if_neg p0]
    exact advance_text _
  rw [if_neg h8]
  by_cases h9 : lex.curChar = '<'
  · rw [if_pos h9]
    by_cases p0 : lex.peekChar 1 = '='
    · rw [if_pos p0]
      exact advanceBy_text _ _
    rw [if_neg p0]
    by_cases p1 : lex.peekChar 1 = '<'
    · rw [if_pos p1]
      exact advanceBy_text _ _
    rw [if_neg p1]
    exact advanceBy_text _ _
  rw [if_neg h9]
  by_cases h10 : lex.curChar = '>'
  · rw [if_pos h10]
    by_cases p0 : lex.peekChar 1 = '='
    · rw [if_pos p0]
      exact advanceBy_text _ _
    rw [if_neg p0]
    exact advanceBy_text _ _
  rw [if_neg h10]
  by_cases h11 : lex.curChar = '('
  · rw [if_pos h11]
    exact advance_text _
  rw [if_neg h11]
  by_cases h12 : lex.curChar = ')'
  · rw [if_pos h12]
    exact advance_text _
  rw [if_neg h12]
  by_cases h13 : lex.curChar = Char.ofNat 123
  · rw [if_pos h13]
    exact advance_text _
  rw [if_neg h13]
  by_cases h14 : lex.curChar = Char.ofNat 125
  · rw [if_pos h14]
    exact advance_text _
  rw [if_neg h14]
  by_cases h15 : lex.curChar = ','
  · rw [if_pos h15]
    exact advance_text _
  rw [if_neg h15]
  by_cases h16 : lex.curChar = ';'
  · rw [if_pos h16]
    exact advance_text _
  rw [if_neg h16]
  by_cases h17 : lex.curChar = chLF
  · rw [if_pos h17]
    exact advance_text _
  rw [if_neg h17]
  by_cases h18 : lex.curChar = '['
  · rw [if_pos h18]
    exact advance_text _
  rw [if_neg h18]
  by_cases h19 : lex.curChar = ']'
  · rw [if_pos h19]
    exact advance_text _
  rw [if_neg h19]
  by_cases h20 : lex.curChar = '.'
  · rw [if_pos h20]
    exact advance_text _
  rw [if_neg h20]

theorem commentToken_withError (lex : hskLexer) (e : Option (Char × Nat × Nat)) :
    commentToken (lex.withError e) = keepError e (commentToken lex) := by
  unfold commentToken
  rw [skipComment_withError]
  rfl

theorem keepError_ok (e : Option (Char × Nat × Nat)) (t : Token) (l : hskLexer) :
    keepError e (some t, l) = (some t, l.withError e) := rfl

/-- The result of `getNextToken` on a lexer does not depend on the field `lastError`,
which stays as it was when a token is returned. -/
theorem getNextToken_withError (e : Option (Char × Nat × Nat)) :
    ∀ (fuel : Nat) (lex : hskLexer),
      getNextToken fuel (lex.withError e) = (getNextToken fuel lex).map (keepError e) := by
  intro fuel
  induction fuel with
  | zero => intro lex; rfl
  | succ n ih =>
    intro lex
    rw [getNextToken, getNextToken, skipSpaces_withError]
    rw [show (lex.skipSpaces.withError e).curChar = lex.skipSpaces.curChar from rfl]
    by_cases h0 : lex.skipSpaces.curChar = chNUL
    · rw [if_pos h0, if_pos h0]
      rfl
    rw [if_neg h0, if_neg h0]
    by_cases h1 : isDigit lex.skipSpaces.curChar = true
    · rw [if_pos h1, if_pos h1, getInteger_withError]
      rfl
    rw [if_neg h1, if_neg h1]
    by_cases h2 : isLetter lex.skipSpaces.curChar = true
    · rw [if_pos h2, if_pos h2, getId_withError]
      rfl
    rw [if_neg h2, if_neg h2]
    by_cases h3 : lex.skipSpaces.curChar = chQuote
    · rw [if_pos h3, if_pos h3, getString_withError]
      cases getString n lex.skipSpaces with
      | error x => rfl
      | ok r => rfl
    rw [if_neg h3, if_neg h3]
    rw [show (lex.skipSpaces.withError e).peekChar 1 = lex.skipSpaces.peekChar 1 from rfl,
      show (lex.skipSpaces.withError e).peekChar 2 = lex.skipSpaces.peekChar 2 from rfl]
    by_cases h4 : lex.skipSpaces.curChar = '/' ∧ lex.skipSpaces.peekChar 1 = '*'
    · rw [if_pos h4, if_pos h4, skipComment_withError, ih]
    rw [if_neg h4, if_neg h4]
    by_cases h5 : lex.skipSpaces.curChar = '/' ∧ lex.skipSpaces.peekChar 1 = '/'
    · rw [if_pos h5, if_pos h5]
      by_cases h6 : lex.skipSpaces.peekChar 2 = '*'
      · rw [if_pos h6, if_pos h6, commentToken_withError]
        rfl
      · rw [if_neg h6, if_neg h6, skipComment_withError, ih]
    rw [if_neg h5, if_neg h5, switchToken_withError]
    rfl

/-- The call `getNextToken` does not write the field `text`. -/
theorem getNextToken_text :
    ∀ (fuel : Nat) (lex lex1 : hskLexer) (tok : Option Token),
      getNextToken fuel lex = .ok (tok, lex1) → lex1.text = lex.text := by
  intro fuel
  induction fuel with
  | zero => intro lex lex1 tok h; exact absurd h nofun
  | succ n ih =>
    intro lex lex1 tok h
    rw [getNextToken] at h
    by_cases h0 : lex.skipSpaces.curChar = chNUL
    · rw [if_pos h0] at h
      cases h
      exact skipSpaces_text lex
    rw [if_neg h0] at h
    by_cases h1 : isDigit lex.skipSpaces.curChar = true
    · rw [if_pos h1] at h
      cases h
      rw [getInteger_text, skipSpaces_text]
    rw [if_neg h1] at h
    by_cases h2 : isLetter lex.skipSpaces.curChar = true
    · rw [if_pos h2] at h
      cases h
      rw [getId_text, skipSpaces_text]
    rw [if_neg h2] at h
    by_cases h3 : lex.skipSpaces.curChar = chQuote
    · rw [if_pos h3] at h
      cases hs : getString n lex.skipSpaces with
      | error x => rw [hs] at h; exact absurd h nofun
      | ok r =>
        rw [hs] at h
        cases h
        rw [getString_text n lex.skipSpaces r.2 r.1 hs, skipSpaces_text]
    rw [if_neg h3] at h
    by_cases h4 : lex.skipSpaces.curChar = '/' ∧ lex.skipSpaces.peekChar 1 = '*'
    · rw [if_pos h4] at h
      rw [ih _ _ _ h, skipComment_text, skipSpaces_text]
    rw [if_neg h4] at h
    by_cases h5 : lex.skipSpaces.curChar = '/' ∧ lex.skipSpaces.peekChar 1 = '/'
    · rw [if_pos h5] at h
      by_cases h6 : lex.skipSpaces.peekChar 2 = '*'
      · rw [if_pos h6] at h
        cases h
        show (lex.skipSpaces.skipComment false).2.text = lex.text
        rw [skipComment_text, skipSpaces_text]
      · rw [if_neg h6] at h
        rw [ih _ _ _ h, skipComment_text, skipSpaces_text]
    rw [if_neg h5] at h
    have h7 : lex1 = (switchToken lex.skipSpaces).2 := by rw [Except.ok.inj h]
    rw [h7, switchToken_text, skipSpaces_text]

/-- C34. Whenever `getNextToken` returns on a lexer (a token or nil), `peekToken`
returns the same on that lexer and leaves the position, the line number, the column
number and the current character (and the text) as they were; the call of
`getNextToken` that follows `peekToken` returns that same token again (kind, lexeme, line
and column are fields of the token) and leaves the lexer as the first call would have
left it. -/
theorem peekToken_same_token (fuel : Nat) (lex lex1 : hskLexer) (tok : Option Token)
    (h : getNextToken fuel lex = .ok (tok, lex1)) :
    ∃ lexP : hskLexer, peekToken fuel lex = .ok (tok, lexP)
      ∧ lexP.pos = lex.pos ∧ lexP.lineNo = lex.lineNo ∧ lexP.colNo = lex.colNo
      ∧ lexP.curChar = lex.curChar ∧ lexP.text = lex.text
      ∧ getNextToken fuel lexP = .ok (tok, lex1) := by
  have ht := getNextToken_text fuel lex lex1 tok h
  have hp : ∃ lexP : hskLexer, peekToken fuel lex = .ok (tok, lexP)
      ∧ lexP = lex.withError lex1.lastError := by
    unfold peekToken
    rw [h]
    refine ⟨_, rfl, ?_⟩
    unfold hskLexer.withError
    rw [ht]
  obtain ⟨lexP, hp1, hp2⟩ := hp
  refine ⟨lexP, hp1, ?_, ?_, ?_, ?_, ?_, ?_⟩
  · rw [hp2]; rfl
  · rw [hp2]; rfl
  · rw [hp2]; rfl
  · rw [hp2]; rfl
  · rw [hp2]; rfl
  · rw [hp2, getNextToken_withError, h]
    cases tok with
    | none => rfl
    | some t => rfl

theorem peekToken_same_token_witness :
    getNextToken 5 (newLexer "ab 12") = .ok (some { type_ := .ID, value := "ab", line := 1, column := 0 },
        { text := "ab 12".toList, pos := 2, curChar := Char.ofNat 32, lineNo := 1, colNo := 2 })
    ∧ ∃ lexP : hskLexer, peekToken 5 (newLexer "ab 12")
          = .ok (some { type_ := .ID, value := "ab", line := 1, column := 0 }, lexP)
      ∧ lexP.pos = (newLexer "ab 12").pos ∧ lexP.lineNo = (newLexer "ab 12").lineNo
      ∧ lexP.colNo = (newLexer "ab 12").colNo
      ∧ lexP.curChar = (newLexer "ab 12").curChar ∧ lexP.text = (newLexer "ab 12").text
      ∧ getNextToken 5 lexP
          = .ok (some { type_ := .ID, value := "ab", line := 1, column := 0 },
              { text := "ab 12".toList, pos := 2, curChar := Char.ofNat 32, lineNo := 1, colNo := 2 }) :=
  ⟨rfl, peekToken_same_token 5 (newLexer "ab 12") _ _ rfl⟩

/-! ## The parentheses of a lowered condition (interpreter.go, `traveseCond`) -/

theorem traveseCond_false_eq_specCond (node : AstNode) :
    ∀ depth : Nat, traveseCond false node = specCond (depth + 1) node := by
  induction node with
  | AstBinOP op left right line ihl ihr =>
    intro depth
    simp only [traveseCond, specCond, Bool.false_eq_true, if_false, Nat.add_one_ne_zero]
    rw [← ihl (depth + 1), ← ihr (depth + 1)]
  | AstUnaryOP op dst line _ => intro depth; rfl
  | AstIntConst value => intro depth; rfl
  | AstStringConst value => intro depth; rfl
  | AstVarNameRef this name line => intro depth; rfl
  | AstIndexedRef host index line _ _ => intro depth; rfl
  | AstDotRef host name line _ => intro depth; rfl

/-- C35 (amended). For every expression tree `traveseCond` with the visitors of the Go
emitter writes the text that section 4.6 of the specification describes (`specCond`):
a binary node at the root without parentheses, a binary node below the root inside one
pair of parentheses, a name reference as `m.NAME` exactly when it has the `this.` prefix,
an integer literal as its digits; and it writes `??` for a node of another kind (unary
operator, string literal, index or dot reference), whatever stands below that node. -/
theorem traveseCond_eq_specCond (node : AstNode) :
    traveseCond true node = specCond 0 node
    ∧ (∀ depth : Nat, traveseCond false node = specCond (depth + 1) node)
    ∧ (∀ (op : TokenType) (left right : AstNode) (line : Nat),
        traveseCond true (.AstBinOP op left right line)
          = traveseCond false left ++ " " ++ visitBinOP_Go op ++ " " ++ traveseCond false right
        ∧ traveseCond false (.AstBinOP op left right line)
          = "(" ++ traveseCond false left ++ " " ++ visitBinOP_Go op ++ " "
              ++ traveseCond false right ++ ")")
    ∧ (∀ (top this : Bool) (name : String) (line : Nat),
        (traveseCond top (.AstVarNameRef this name line) = "m." ++ name ↔ this = true)
        ∧ (traveseCond top (.AstVarNameRef this name line) = name ↔ this = false))
    ∧ (∀ (top : Bool) (op : TokenType) (dst : AstNode) (line : Nat),
        traveseCond top (.AstUnaryOP op dst line) = "??") := by
  refine ⟨?_, traveseCond_false_eq_specCond node, ?_, ?_, ?_⟩
  · cases node with
    | AstBinOP op left right line =>
      simp only [traveseCond, specCond, if_true]
      rw [← traveseCond_false_eq_specCond left 0, ← traveseCond_false_eq_specCond right 0]
    | _ => rfl
  · intro op left right line
    exact ⟨by simp [traveseCond], by simp [traveseCond]⟩
  · intro top this name line
    have hne : "m." ++ name ≠ name := by
      intro h
      have h1 : ("m." ++ name).length = name.length := congrArg String.length h
      rw [String.length_append] at h1
      have h2 : "m.".length = 2 := rfl
      omega
    cases this with
    | true => simp [traveseCond, visitVarRef_Go, hne]
    | false => simp [traveseCond, visitVarRef_Go, hne.symm]
  · intro top op dst line
    simp [traveseCond]

/-- Counterexample to C35: in `a u8` / `b u8 -> exist if this.a == 1 && !(this.a == 2)`
the binary node `this.a == 2` stands below the root, under the unary `!`; the condition
is lowered to `(m.a == 1) && ??`, without a text for that node, and the condition
`!(this.a == 2)` is lowered to `??`. -/
theorem binary_node_under_unary_not_rendered :
    existConds (emitText 100
        "mspace t\ndefmsg A \x7b\n a u8\n b u8 -> exist if this.a == 1 && !(this.a == 2)\n\x7d")
      = ["(m.a == 1) && ??", "(m.a == 1) && ??"]
    ∧ existConds (emitText 100
        "mspace t\ndefmsg A \x7b\n a u8\n b u8 -> exist if !(this.a == 2)\n\x7d")
      = ["??", "??"] := ⟨rfl, rfl⟩

/-! ## The stack of symbol tables after `DoAnalyze` (semantic.go) -/

theorem stackShape_of_entered (se se1 : semanticAnalyzer) (name : String)
    (h : Entered se se1 name) : stackShape se1 = stackShape se := by
  obtain ⟨tb, up, sym, hs, _, h1⟩ := h
  rw [h1]
  simp [stackShape, semanticAnalyzer.curLevel, hs]

theorem ok_pair_fst {α β : Type} (a c : α) (b d : β)
    (h : (Except.ok (a, b) : Except Panic (α × β)) = .ok (c, d)) : a = c := by
  injection h with h
  exact (Prod.mk.inj h).1

theorem visitIdGroupDefine_shape (se se1 : semanticAnalyzer) (node node1 : AstIdGroupDef)
    (h : visitIdGroupDefine se node = .ok (se1, node1)) : stackShape se1 = stackShape se := by
  unfold visitIdGroupDefine at h
  by_cases h0 : node.items.length = 0
  · rw [if_pos h0] at h
    rw [← ok_pair_fst _ _ _ _ h]
  rw [if_neg h0] at h
  cases hl : lookup se.symbolStack node.name false with
  | some s => rw [hl] at h; exact absurd h nofun
  | none =>
    rw [hl] at h
    simp only [] at h
    cases hi : se.insertSymbol
        (newVarSymbol node.name (.AstPrimType symTypeInt) se.curLevel node.line) with
    | error e => rw [hi] at h; exact absurd h nofun
    | ok se2 =>
      rw [hi] at h
      simp only [] at h
      cases hv : visitIdItems node.isMsgId se2.midMap 0 0 node.items with
      | error e => rw [hv] at h; exact absurd h nofun
      | ok r =>
        obtain ⟨m, items⟩ := r
        rw [hv] at h
        simp only [] at h
        rw [← ok_pair_fst _ _ _ _ h]
        exact stackShape_of_entered se se2 _ (insertSymbol_entered se se2 _ hi)

theorem visitBindDef_shape (se se1 : semanticAnalyzer) (node : AstBindDef)
    (h : visitBindDef se node = .ok se1) : stackShape se1 = stackShape se := by
  unfold visitBindDef at h
  by_cases h0 : node.msgName.length = 0
  · rw [if_pos h0] at h
    rw [← Except.ok.inj h]
  rw [if_neg h0] at h
  cases hl : lookup se.symbolStack node.msgName false with
  | none => rw [hl] at h; exact absurd h nofun
  | some s =>
    rw [hl] at h
    simp only [] at h
    cases hm : mapGet se.midMap node.msgId with
    | none => rw [hm] at h; exact absurd h nofun
    | some id =>
      rw [hm] at h
      simp only [] at h
      by_cases h1 : (!id.isMsgId) = true
      · rw [if_pos h1] at h; exact absurd h nofun
      rw [if_neg h1] at h
      by_cases h2 : id.bindMsg.length ≠ 0
      · rw [if_pos h2] at h; exact absurd h nofun
      rw [if_neg h2] at h
      rw [← Except.ok.inj h]
      rfl

theorem visitDecl_shape_aux (se se1 : semanticAnalyzer) (d d1 : Decl)
    (r : Except Panic semanticAnalyzer)
    (h : (match r with
      | .error e => (Except.error e : Except Panic (semanticAnalyzer × Decl))
      | .ok s1 => .ok (s1, d)) = .ok (se1, d1))
    (hs : ∀ s1, r = .ok s1 → stackShape s1 = stackShape se) : stackShape se1 = stackShape se := by
  cases r with
  | error e => exact absurd h nofun
  | ok s1 =>
    simp only [] at h
    rw [← ok_pair_fst _ _ _ _ h]
    exact hs s1 rfl

theorem visitDecl_shape (se se1 : semanticAnalyzer) (d d1 : Decl)
    (h : visitDecl se d = .ok (se1, d1)) : stackShape se1 = stackShape se := by
  cases d with
  | varDecl node =>
    unfold visitDecl at h
    simp only [] at h
    by_cases hf : se.firstPass = true
    · rw [if_pos hf] at h
      exact visitDecl_shape_aux se se1 _ d1 _ h fun s1 hv =>
        stackShape_of_entered _ _ _ (visitVarDecl_entered se s1 node hv)
    · rw [if_neg hf] at h
      rw [← ok_pair_fst _ _ _ _ h]
  | idGroupDef node =>
    unfold visitDecl at h
    simp only [] at h
    by_cases hf : se.firstPass = true
    · rw [if_pos hf] at h
      cases hv : visitIdGroupDefine se node with
      | error e => rw [hv] at h; exact absurd h nofun
      | ok r =>
        obtain ⟨s, n1⟩ := r
        rw [hv] at h
        simp only [] at h
        rw [← ok_pair_fst _ _ _ _ h]
        exact visitIdGroupDefine_shape se s node n1 hv
    · rw [if_neg hf] at h
      rw [← ok_pair_fst _ _ _ _ h]
  | constDef node =>
    unfold visitDecl at h
    simp only [] at h
    by_cases hf : se.firstPass = true
    · rw [if_pos hf] at h
      exact visitDecl_shape_aux se se1 _ d1 _ h fun s1 hv =>
        stackShape_of_entered _ _ _ (visitConstDef_entered se s1 node hv)
    · rw [if_neg hf] at h
      rw [← ok_pair_fst _ _ _ _ h]
  | structType node =>
    unfold visitDecl at h
    simp only [] at h
    by_cases hf : se.firstPass = true
    · rw [if_pos hf] at h
      exact visitDecl_shape_aux se se1 _ d1 _ h fun s1 hv =>
        stackShape_of_entered _ _ _ (visitMsgDefine_entered se s1 node hv)
    · rw [if_neg hf] at h
      rw [← ok_pair_fst _ _ _ _ h]
  | externVar node =>
    unfold visitDecl at h
    simp only [] at h
    by_cases hf : se.firstPass = true
    · rw [if_pos hf] at h
      exact visitDecl_shape_aux se se1 _ d1 _ h fun s1 hv =>
        stackShape_of_entered _ _ _ (visitExternVar_entered se s1 node hv)
    · rw [if_neg hf] at h
      rw [← ok_pair_fst _ _ _ _ h]
  | bindDef node =>
    unfold visitDecl at h
    simp only [] at h
    by_cases hf : (!se.firstPass) = true
    · rw [if_pos hf] at h
      exact visitDecl_shape_aux se se1 _ d1 _ h fun s1 hv =>
        visitBindDef_shape se s1 node hv
    · rw [if_neg hf] at h
      rw [← ok_pair_fst _ _ _ _ h]
  | srcComment node =>
    unfold visitDecl at h
    rw [← ok_pair_fst _ _ _ _ h]
  | typeDef node =>
    unfold visitDecl at h
    rw [← ok_pair_fst _ _ _ _ h]

theorem visitDecls_shape (decls : List Decl) :
    ∀ (se se1 : semanticAnalyzer) (decls1 : List Decl),
      visitDecls se decls = .ok (se1, decls1) → stackShape se1 = stackShape se := by
  induction decls with
  | nil =>
    intro se se1 decls1 h
    unfold visitDecls at h
    rw [← ok_pair_fst _ _ _ _ h]
  | cons d rest ih =>
    intro se se1 decls1 h
    rw [visitDecls] at h
    cases hd : visitDecl se d with
    | error e => rw [hd] at h; exact absurd h nofun
    | ok r =>
      obtain ⟨s, d2⟩ := r
      rw [hd] at h
      simp only [] at h
      cases hr : visitDecls s rest with
      | error e => rw [hr] at h; exact absurd h nofun
      | ok r2 =>
        obtain ⟨s2, rest2⟩ := r2
        rw [hr] at h
        simp only [] at h
        rw [← ok_pair_fst _ _ _ _ h, ih s s2 rest2 hr]
        exact visitDecl_shape se s d d2 hd

theorem visitProgram_shape (se se1 : semanticAnalyzer) (program program1 : AstProgram)
    (h : visitProgram se program = .ok (se1, program1)) :
    stackShape se1 = stackShape se ∧ visitProgramLeft se program = se1 := by
  unfold visitProgram at h
  unfold visitProgramLeft
  by_cases h0 : program.mspace = ""
  · rw [if_pos h0] at h; exact absurd h nofun
  rw [if_neg h0] at h
  rw [if_neg h0]
  cases hd : visitDecls se program.decl_list with
  | error e => rw [hd] at h; exact absurd h nofun
  | ok r =>
    obtain ⟨s, ds⟩ := r
    rw [hd] at h
    simp only [] at h
    have h1 := ok_pair_fst _ _ _ _ h
    simp only []
    rw [← h1]
    exact ⟨visitDecls_shape _ se s ds hd, rfl⟩

theorem doAnalyze_shape (se se1 : semanticAnalyzer) (program program1 : AstProgram)
    (h : DoAnalyze se program = .ok (se1, program1)) :
    DoAnalyzeLeft se program = se1 ∧ stackShape se1 = stackShape se := by
  unfold DoAnalyze at h
  unfold DoAnalyzeLeft
  cases h1 : visitProgram se program with
  | error e => rw [h1] at h; exact absurd h nofun
  | ok r =>
    obtain ⟨s, p⟩ := r
    rw [h1] at h
    simp only [] at h
    obtain ⟨hs2, hl2⟩ := visitProgram_shape s se1 p program1 h
    obtain ⟨hs1, _⟩ := visitProgram_shape se s program p h1
    simp only []
    exact ⟨hl2, by rw [hs2, hs1]⟩

theorem visitFieldsLeft_shape (fields : List AstVarDecl) :
    ∀ (se : semanticAnalyzer) (st : AggrState),
      stackShape (visitFieldsLeft se st fields) = stackShape se := by
  induction fields with
  | nil => intro se st; rfl
  | cons f rest ih =>
    intro se st
    rw [visitFieldsLeft]
    cases ha : aggrStep st f.name f.type_ with
    | error e => rfl
    | ok r =>
      obtain ⟨st1, xorOk, ok⟩ := r
      simp only []
      cases hv : visitVarDecl se f with
      | error e => rfl
      | ok se1 =>
        simp only []
        have hs := stackShape_of_entered _ _ _ (visitVarDecl_entered se se1 f hv)
        cases hc : visitFieldChecks se1 f xorOk ok with
        | error e => exact hs
        | ok u =>
          simp only []
          rw [ih se1 st1, hs]

theorem stackShape_push (se : semanticAnalyzer) :
    stackShape se.pushSymbolTable = (se.symbolStack.length + 1, se.stackSize + 1, se.stackSize) := rfl

theorem visitMsgDefineLeft_pushed (se se0 : semanticAnalyzer) (node : AstStructDecl) (e : Panic)
    (hl : lookup se.symbolStack node.name false = none)
    (hi : se.insertSymbol (newVarSymbol node.name node.toType se.curLevel node.line) = .ok se0)
    (hf : visitFields se0.pushSymbolTable { inAggr := false, bits := 0 } node.fields = .error e) :
    stackShape (visitMsgDefineLeft se node)
      = (se.symbolStack.length + 1, se.stackSize + 1, se.stackSize) := by
  unfold visitMsgDefineLeft
  rw [hl]
  simp only []
  rw [hi]
  simp only []
  rw [hf]
  simp only []
  rw [visitFieldsLeft_shape, stackShape_push]
  have hs := stackShape_of_entered _ _ _ (insertSymbol_entered se se0 _ hi)
  simp only [stackShape, Prod.mk.injEq] at hs
  rw [hs.1, hs.2.1]

/-- C36 (the code at the failing input). When `DoAnalyze` returns nil, the stack of
symbol tables has the depth, and the current table the level, from before the call. But
`visitMsgDefine` calls `popSymbolTable` as its last statement, without `defer`: when the
analysis of a field panics (after the message's name was entered), the panic is
recovered by `DoAnalyze` with the table of the message still on the stack, one deeper
than before and the current table. For `defmsg A` with the field `d []u8` (an array
without `limit by`) `DoAnalyze` returns the error and leaves a new analyzer with two
tables, `stackSize` 2 and the current level 1, instead of one table of level 0. -/
theorem symbol_table_not_popped_on_error :
    (∀ (se se1 : semanticAnalyzer) (program program1 : AstProgram),
      DoAnalyze se program = .ok (se1, program1) →
        DoAnalyzeLeft se program = se1 ∧ stackShape se1 = stackShape se)
    ∧ (∀ (se se0 : semanticAnalyzer) (node : AstStructDecl) (e : Panic),
      lookup se.symbolStack node.name false = none →
      se.insertSymbol (newVarSymbol node.name node.toType se.curLevel node.line) = .ok se0 →
      visitFields se0.pushSymbolTable { inAggr := false, bits := 0 } node.fields = .error e →
        stackShape (visitMsgDefineLeft se node)
          = (se.symbolStack.length + 1, se.stackSize + 1, se.stackSize))
    ∧ stackShape NewSemanticAnalyzer = (1, 1, 0)
    ∧ compileText 100 "mspace t\ndefmsg A \x7b\n d []u8\n\x7d" = .error (.arrayNoLimit "d")
    ∧ (analyzerLeft 100 "mspace t\ndefmsg A \x7b\n d []u8\n\x7d").map stackShape
        = some (2, 2, 1)
    ∧ (compileText 100 "mspace t\ndefmsg A \x7b\n d u8\n d u8\n\x7d").toBool = false
    ∧ (analyzerLeft 100 "mspace t\ndefmsg A \x7b\n d u8\n d u8\n\x7d").map stackShape
        = some (2, 2, 1)
    ∧ (compileText 100 "mspace t\ndefmsg A \x7b\n d u8\n\x7d").toBool = true
    ∧ (analyzerLeft 100 "mspace t\ndefmsg A \x7b\n d u8\n\x7d").map stackShape
        = some (1, 1, 0) :=
  ⟨doAnalyze_shape, visitMsgDefineLeft_pushed, rfl, rfl, rfl, rfl, rfl, rfl, rfl⟩

/-! ## The emitter writes into the AST (interp_go.go, `visitTypeDef_Go`) -/

theorem visitTraverseDecl_program (s s1 : EmitState) (i : Nat) (d : Decl)
    (hd : typeDefOfMsg d = false) (h : visitTraverseDecl s i d = .ok s1) :
    s1.program = s.program := by
  cases d with
  | varDecl node =>
    unfold visitTraverseDecl at h
    simp only [] at h
    cases hv : interpreter.visitVarDecl s.vars node with
    | error e => rw [hv] at h; exact absurd h nofun
    | ok v => rw [hv] at h; rw [← Except.ok.inj h]
  | idGroupDef node =>
    unfold visitTraverseDecl at h
    simp only [] at h
    cases hv : visitIdGroupDefine_Go s.interp node with
    | error e => rw [hv] at h; exact absurd h nofun
    | ok v => rw [hv] at h; rw [← Except.ok.inj h]
  | constDef node =>
    unfold visitTraverseDecl at h
    simp only [] at h
    cases hv : visitConstDef_Go s.interp s.vars node with
    | error e => rw [hv] at h; exact absurd h nofun
    | ok v => rw [hv] at h; rw [← Except.ok.inj h]
  | structType node =>
    unfold visitTraverseDecl at h
    simp only [] at h
    cases hv : visitMsgDefine_Go s.interp node with
    | error e => rw [hv] at h; exact absurd h nofun
    | ok v => rw [hv] at h; rw [← Except.ok.inj h]
  | externVar node =>
    unfold visitTraverseDecl at h
    rw [← Except.ok.inj h]
  | bindDef node =>
    unfold visitTraverseDecl at h
    rw [← Except.ok.inj h]
  | srcComment node =>
    unfold visitTraverseDecl at h
    rw [← Except.ok.inj h]
  | typeDef node =>
    unfold visitTraverseDecl at h
    simp only [] at h
    unfold visitTypeDef_Go at h
    cases ht : typeName4Go node.impl with
    | error e => rw [ht] at h; exact absurd h nofun
    | ok tn =>
      rw [ht] at h
      simp only [] at h
      cases hi : node.impl with
      | AstStructType oname fields =>
        rw [typeDefOfMsg, hi] at hd
        exact absurd hd nofun
      | nil => rw [hi] at h; rw [← Except.ok.inj h]
      | AstPrimType n => rw [hi] at h; rw [← Except.ok.inj h]
      | AstArrayType t => rw [hi] at h; rw [← Except.ok.inj h]
      | AstUndefType n t => rw [hi] at h; rw [← Except.ok.inj h]

theorem visitTraverseLoop_program (n : Nat) :
    ∀ (i : Nat) (s s1 : EmitState),
      (∀ d ∈ s.program.decl_list, typeDefOfMsg d = false) →
      visitTraverseLoop n i s = .ok s1 → s1.program = s.program := by
  induction n with
  | zero =>
    intro i s s1 _ h
    rw [visitTraverseLoop] at h
    rw [← Except.ok.inj h]
  | succ n ih =>
    intro i s s1 hall h
    rw [visitTraverseLoop] at h
    cases hg : s.program.decl_list.get? i with
    | none =>
      rw [hg] at h
      rw [← Except.ok.inj h]
    | some d =>
      rw [hg] at h
      simp only [] at h
      cases hv : visitTraverseDecl s i d with
      | error e => rw [hv] at h; exact absurd h nofun
      | ok s2 =>
        rw [hv] at h
        simp only [] at h
        have hp := visitTraverseDecl_program s s2 i d (hall d (List.get?_mem hg)) hv
        rw [ih (i + 1) s2 s1 (by rw [hp]; exact hall) h, hp]

theorem doInterpret_program (interp interp1 : interpreter) (srcFile now : String)
    (program program1 : AstProgram)
    (hall : ∀ d ∈ program.decl_list, typeDefOfMsg d = false)
    (h : DoInterpret interp srcFile now program = .ok (interp1, program1)) :
    program1 = program := by
  unfold DoInterpret interpreter.visitProgram interpreter.visitTraverse at h
  simp only [] at h
  split at h
  · exact absurd h nofun
  · rename_i s hl
    have hp := visitTraverseLoop_program _ 0 _ s hall hl
    split at h
    · exact absurd h nofun
    · injection h with h
      rw [← (Prod.mk.inj h).2, hp]

/-- C37 (the code at the failing input). The emitter leaves a program untouched unless
it has a type definition of a message: for `type X Y`, where `Y` is a message declared
before, `visitTypeDef_Go` sets the name of the message to `X` (`impl.name = node.name`)
for the emission of its encoder and decoder and then writes the saved name into the
type definition (`node.name = oname`) instead of back into the message. After
`DoInterpret` on `defmsg Y` / `type X Y` the message is named `X` and the type definition
`Y`: the two names are exchanged in the AST. -/
theorem typedef_of_message_exchanges_names :
    (∀ (interp interp1 : interpreter) (srcFile now : String) (program program1 : AstProgram),
      (∀ d ∈ program.decl_list, typeDefOfMsg d = false) →
      DoInterpret interp srcFile now program = .ok (interp1, program1) → program1 = program)
    ∧ (∀ (s s1 : EmitState) (i : Nat) (name oname : String) (fields : List (String × AstType)),
      visitTypeDef_Go s i { name := name, impl := .AstStructType oname fields } = .ok s1 →
        s1.program.decl_list
          = List.set (s.program.decl_list.map (renameDecl oname name)) i
              (.typeDef { name := oname,
                          impl := renameType oname name (.AstStructType oname fields) }))
    ∧ namesAfter (compileText 100 "mspace t\ndefmsg Y \x7b\n a u8\n\x7d\ntype X Y")
        = [("defmsg", "Y"), ("type", "X")]
    ∧ namesAfter (emitText 100 "mspace t\ndefmsg Y \x7b\n a u8\n\x7d\ntype X Y")
        = [("defmsg", "X"), ("type", "Y")]
    ∧ namesAfter (compileText 100 "mspace t\ndefmsg Y \x7b\n a u8\n\x7d\ntype X u8")
        = [("defmsg", "Y"), ("type", "X")]
    ∧ namesAfter (emitText 100 "mspace t\ndefmsg Y \x7b\n a u8\n\x7d\ntype X u8")
        = [("defmsg", "Y"), ("type", "X")] := by
  refine ⟨doInterpret_program, ?_, rfl, rfl, rfl, rfl⟩
  intro s s1 i name oname fields h
  unfold visitTypeDef_Go at h
  simp only [typeName4Go] at h
  cases hc : visitMsgCodec_Go (s.interp.addLine "type %s %s;" [.str name, .str oname])
      (structDeclOf (s.program.decl_list.map (renameDecl oname name)) name
        (renameFieldTypes oname name fields)) with
  | error e => rw [hc] at h; exact absurd h nofun
  | ok i2 =>
    rw [hc] at h
    simp only [] at h
    rw [← Except.ok.inj h]

/-! ## Notes and field comments (parser.go `msg_decl`, `field_decl`; interp_go.go) -/

theorem encodeField_eq_body (fields : List AstVarDecl) (interp : interpreter) (st : EncodeState)
    (f : AstVarDecl) :
    encodeField fields interp st f
      = encodeFieldBody fields (emitNotes interp f.line st.notes).1
          { st with notes := (emitNotes interp f.line st.notes).2 } f := by
  unfold encodeField encodeFieldBody
  cases f.type_ <;> rfl

theorem emitNotes_spec (line : Nat) (notes : List AstSrcComment) :
    ∀ interp : interpreter,
      (emitNotes interp line notes).1.out
          = interp.out ++ (notes.takeWhile fun n => decide (line > n.line)).map (noteLine interp)
        ∧ (emitNotes interp line notes).1.depth = interp.depth
        ∧ (emitNotes interp line notes).2 = notes.dropWhile fun n => decide (line > n.line) := by
  induction notes with
  | nil => intro interp; exact ⟨by simp [emitNotes], rfl, rfl⟩
  | cons note rest ih =>
    intro interp
    rw [emitNotes]
    by_cases h : line > note.line
    · rw [if_pos h]
      obtain ⟨h1, h2, h3⟩ := ih (interp.addLine ("//" ++ note.value) [])
      refine ⟨?_, ?_, ?_⟩
      · rw [h1, out_addLine, List.takeWhile_cons_of_pos (by simpa using h), List.map_cons,
          List.append_assoc]
        rfl
      · rw [h2]; rfl
      · rw [h3, List.dropWhile_cons_of_pos (by simpa using h)]
    · rw [if_neg h]
      refine ⟨?_, rfl, ?_⟩
      · rw [List.takeWhile_cons_of_neg (by simpa using h)]
        simp
      · rw [List.dropWhile_cons_of_neg (by simpa using h)]

theorem field_decl_comment (fuel : Nat) (p p1 : hskParser) (f : AstVarDecl)
    (h : field_decl fuel p = .ok (f, p1)) (hc : f.comment = none) :
    p1.curToken.type_ ≠ .SCOMMENT := by
  unfold field_decl at h
  simp only [] at h
  split at h
  · exact absurd h nofun
  · split at h
    · exact absurd h nofun
    · split at h
      · exact absurd h nofun
      · rename_i ast1 p5 _
        by_cases h5 : p5.curToken.type_ = .SCOMMENT
        · rw [if_pos h5] at h
          split at h
          · exact absurd h nofun
          · injection h with h
            rw [← (Prod.mk.inj h).1] at hc
            exact absurd hc nofun
        · rw [if_neg h5] at h
          injection h with h
          rw [← (Prod.mk.inj h).2]
          exact h5

theorem msgBody_note (fuel : Nat) (ast : AstStructDecl) (p p1 : hskParser)
    (hc : p.curToken.type_ = .SCOMMENT) (he : eat p .SCOMMENT = .ok p1) :
    msgBody (fuel + 1) ast p
      = msgBody fuel
          { ast with notes := ast.notes ++ [{ line := p.curToken.line, value := p.curToken.value }] }
          p1 := by
  rw [msgBody, if_pos (by rw [hc]; decide), if_pos hc]
  simp only []
  rw [he]

theorem msgBody_field (fuel : Nat) (ast : AstStructDecl) (p p1 : hskParser) (f : AstVarDecl)
    (h1 : p.curToken.type_ ≠ .RBRACE) (h2 : p.curToken.type_ ≠ .SCOMMENT)
    (hf : field_decl fuel p = .ok (f, p1)) :
    msgBody (fuel + 1) ast p = msgBody fuel { ast with fields := ast.fields ++ [f] } p1 := by
  rw [msgBody, if_pos h1, if_neg h2, hf]

/-- C38 (amended). A `//*` comment is recorded in the notes of a message only where the
loop of `msg_decl` meets it: before the first field, or after a field that has a comment
of its own already. The first `//*` comment that follows a field (its type and its
modifiers), on the same line or on a later one, is taken by `field_decl` as the comment
of that field: after `field_decl` a field without a comment is never followed by a
comment. In the encoder every field is preceded by the notes that are still pending and
have a smaller line number than the field, in the order of the notes, and then come the
statements of the field; a comment of a field is not written into the encoder (it is
written at the end of the field's line in the Go `struct` type). -/
theorem notes_and_field_comments :
    (∀ (fuel : Nat) (p p1 : hskParser) (f : AstVarDecl),
      field_decl fuel p = .ok (f, p1) → f.comment = none → p1.curToken.type_ ≠ .SCOMMENT)
    ∧ (∀ (fuel : Nat) (ast : AstStructDecl) (p p1 : hskParser),
      p.curToken.type_ = .SCOMMENT → eat p .SCOMMENT = .ok p1 →
      msgBody (fuel + 1) ast p
        = msgBody fuel
            { ast with notes := ast.notes ++ [{ line := p.curToken.line, value := p.curToken.value }] }
            p1)
    ∧ (∀ (fuel : Nat) (ast : AstStructDecl) (p p1 : hskParser) (f : AstVarDecl),
      p.curToken.type_ ≠ .RBRACE → p.curToken.type_ ≠ .SCOMMENT →
      field_decl fuel p = .ok (f, p1) →
      msgBody (fuel + 1) ast p = msgBody fuel { ast with fields := ast.fields ++ [f] } p1)
    ∧ (∀ (fields : List AstVarDecl) (interp : interpreter) (st : EncodeState) (f : AstVarDecl),
      encodeField fields interp st f
          = encodeFieldBody fields (emitNotes interp f.line st.notes).1
              { st with notes := (emitNotes interp f.line st.notes).2 } f
        ∧ (emitNotes interp f.line st.notes).1.out
          = interp.out
            ++ (st.notes.takeWhile fun n => decide (f.line > n.line)).map (noteLine interp)
        ∧ (emitNotes interp f.line st.notes).2
          = st.notes.dropWhile fun n => decide (f.line > n.line))
    ∧ notesAndComments (parseText 100
          "mspace t\ndefmsg A \x7b\n//*n0\n//*n00\n a u8 //*c\n//*n1\n//*n2\n b u8\n//*n3\n\x7d")
        = [([{ value := "n0", line := 3 }, { value := "n00", line := 4 },
             { value := "n1", line := 6 }, { value := "n2", line := 7 }],
            [("a", 5, some { value := "c", line := 5 }),
             ("b", 8, some { value := "n3", line := 9 })])]
    ∧ encoderBody (emitText 100
          "mspace t\ndefmsg A \x7b\n//*n0\n//*n00\n a u8 //*c\n//*n1\n//*n2\n b u8\n//*n3\n\x7d")
        = [("//n0", []), ("//n00", []),
           ("if binary.Write(buf, binary.BigEndian, m.%s) != nil \x7b return -1 \x7d", [.str "a"]),
           ("//n1", []), ("//n2", []),
           ("if binary.Write(buf, binary.BigEndian, m.%s) != nil \x7b return -1 \x7d", [.str "b"])] := by
  refine ⟨field_decl_comment, msgBody_note, msgBody_field, ?_, rfl, rfl⟩
  intro fields interp st f
  obtain ⟨h1, _, h3⟩ := emitNotes_spec f.line st.notes interp
  exact ⟨encodeField_eq_body fields interp st f, h1, h3⟩

/-- Counterexample to C38: in `defmsg A` with the lines `//*n0`, `a u8`, `//*n1`, `b u8`
the comment `n1` stands on its own line between the two fields, before `b`. The parser
records `n0` as the only note and `n1` as the comment of the field `a`; the encoder
writes `//n0` before the statement of `a` and nothing before the statement of `b`. -/
theorem comment_between_fields_taken_by_previous_field :
    notesAndComments (parseText 100 "mspace t\ndefmsg A \x7b\n//*n0\n a u8\n//*n1\n b u8\n\x7d")
      = [([{ value := "n0", line := 3 }],
          [("a", 4, some { value := "n1", line := 5 }), ("b", 6, none)])]
    ∧ encoderBody (emitText 100 "mspace t\ndefmsg A \x7b\n//*n0\n a u8\n//*n1\n b u8\n\x7d")
      = [("//n0", []),
         ("if binary.Write(buf, binary.BigEndian, m.%s) != nil \x7b return -1 \x7d", [.str "a"]),
         ("if binary.Write(buf, binary.BigEndian, m.%s) != nil \x7b return -1 \x7d", [.str "b"])] :=
  ⟨rfl, rfl⟩

/-! ## The emitter rejects what the analysis accepts (interp_go.go) -/

theorem isVarInt_prim (tp : AstType) (h : isVarInt tp = true) :
    tp = .AstPrimType symTypeV32 ∨ tp = .AstPrimType symTypeV64 := by
  cases tp with
  | AstPrimType name =>
    simp only [isVarInt, decide_eq_true_eq] at h
    rcases h with h | h
    · exact Or.inl (by rw [h])
    · exact Or.inr (by rw [h])
  | nil => exact absurd h nofun
  | AstArrayType t => exact absurd h nofun
  | AstStructType n fs => exact absurd h nofun
  | AstUndefType n t => exact absurd h nofun

theorem wrapExist_error (interp : interpreter) (f : AstVarDecl)
    (op : interpreter → Except Panic interpreter)
    (h : ∀ i, ∃ e, op i = .error e) : ∃ e, wrapExist_Go interp f op = .error e := by
  unfold wrapExist_Go
  cases f.existIf with
  | none => exact h interp
  | some cond =>
    obtain ⟨e, he⟩ := h ((interp.addLine "if %s \x7b" [.str (traveseCond true cond)]).pushStackFrame)
    simp only []
    rw [he]
    exact ⟨e, rfl⟩

theorem encodeWholeInt_varInt (f : AstVarDecl) (h : isVarInt f.type_ = true)
    (interp : interpreter) : ∃ e, encodeWholeInt f interp = .error e := by
  unfold encodeWholeInt
  rw [if_pos h]
  exact ⟨_, rfl⟩

theorem isIntType_varInt (tp : AstType) (h : isVarInt tp = true) :
    isIntType tp = (true, 32) ∨ isIntType tp = (true, 64) := by
  rcases isVarInt_prim tp h with ht | ht
  · exact Or.inl (by rw [ht]; rfl)
  · exact Or.inr (by rw [ht]; rfl)

theorem encodePrim_varInt (interp : interpreter) (st : EncodeState) (f : AstVarDecl)
    (h : isVarInt f.type_ = true) : ∃ e, encodePrim interp st f = .error e := by
  obtain ⟨e, he⟩ := wrapExist_error interp f (encodeWholeInt f) (encodeWholeInt_varInt f h)
  unfold encodePrim
  rcases isIntType_varInt f.type_ h with hI | hI
  · rw [hI]
    simp only []
    by_cases hb : st.bitAggr = true
    · rw [if_pos hb, if_neg (by decide), if_neg (by omega)]
      exact ⟨_, rfl⟩
    · rw [if_neg hb, if_pos trivial, if_pos trivial, if_pos (by simp), he]
      exact ⟨e, rfl⟩
  · rw [hI]
    simp only []
    by_cases hb : st.bitAggr = true
    · rw [if_pos hb, if_neg (by decide), if_neg (by omega)]
      exact ⟨_, rfl⟩
    · rw [if_neg hb, if_pos trivial, if_pos trivial, if_pos (by simp), he]
      exact ⟨e, rfl⟩

theorem encodeField_varInt (fields : List AstVarDecl) (interp : interpreter) (st : EncodeState)
    (f : AstVarDecl) (h : isVarInt f.type_ = true) :
    ∃ e, encodeField fields interp st f = .error e := by
  have hi : (isIntType f.type_).1 = true := by
    rcases isIntType_varInt f.type_ h with hI | hI <;> rw [hI]
  rw [encodeField_prim fields interp st f hi]
  exact encodePrim_varInt _ _ f h

theorem encodeFields_varInt (fields : List AstVarDecl) (rest : List AstVarDecl) :
    ∀ (interp : interpreter) (st : EncodeState),
      (rest.any fun f => isVarInt f.type_) = true →
      ∃ e, encodeFields fields interp st rest = .error e := by
  induction rest with
  | nil => intro interp st h; exact absurd h nofun
  | cons f rest ih =>
    intro interp st h
    rw [encodeFields]
    cases hf : encodeField fields interp st f with
    | error e => exact ⟨e, rfl⟩
    | ok r =>
      obtain ⟨i1, st1⟩ := r
      simp only []
      rw [List.any_cons, Bool.or_eq_true] at h
      rcases h with h | h
      · obtain ⟨e, he⟩ := encodeField_varInt fields interp st f h
        rw [he] at hf
        exact absurd hf nofun
      · exact ih i1 st1 h

theorem visitMsgEncode_Go_varInt (interp : interpreter) (node : AstStructDecl)
    (h : (node.fields.any fun f => isVarInt f.type_) = true) :
    ∃ e, visitMsgEncode_Go interp node = .error e := by
  unfold visitMsgEncode_Go
  obtain ⟨e, he⟩ := encodeFields_varInt node.fields node.fields
    ((interp.addLine "func encode_%s(buf io.Writer, m *%s) int \x7b"
      [.str node.name, .str node.name]).pushStackFrame) { notes := node.notes } h
  simp only []
  rw [he]
  exact ⟨e, rfl⟩

theorem visitMsgDefine_Go_varInt (interp : interpreter) (node : AstStructDecl)
    (h : (node.fields.any fun f => isVarInt f.type_) = true) :
    ∃ e, visitMsgDefine_Go interp node = .error e := by
  unfold visitMsgDefine_Go
  simp only []
  split
  · exact ⟨_, rfl⟩
  · split
    · exact ⟨_, rfl⟩
    · rename_i i3 _
      unfold visitMsgCodec_Go
      obtain ⟨e, he⟩ := visitMsgEncode_Go_varInt ((i3.addLine "\x7d" []).addLine "" []) node h
      rw [he]
      exact ⟨e, rfl⟩

theorem renameDecl_varInt (old new : String) (d : Decl) (h : hasVarIntField d = true) :
    hasVarIntField (renameDecl old new d) = true := by
  cases d with
  | structType node =>
    simp only [hasVarIntField, renameDecl, List.any_map] at h ⊢
    rw [List.any_eq_true] at h ⊢
    obtain ⟨f, hf, hv⟩ := h
    refine ⟨f, hf, ?_⟩
    rcases isVarInt_prim f.type_ hv with ht | ht
    · simp only [Function.comp, ht]
      rfl
    · simp only [Function.comp, ht]
      rfl
  | varDecl node => exact absurd h nofun
  | idGroupDef node => exact absurd h nofun
  | constDef node => exact absurd h nofun
  | externVar node => exact absurd h nofun
  | bindDef node => exact absurd h nofun
  | srcComment node => exact absurd h nofun
  | typeDef node => exact absurd h nofun

theorem typeDefOfMsg_of_varInt (d : Decl) (h : hasVarIntField d = true) :
    typeDefOfMsg d = false := by
  cases d with
  | structType node => rfl
  | varDecl node => exact absurd h nofun
  | idGroupDef node => exact absurd h nofun
  | constDef node => exact absurd h nofun
  | externVar node => exact absurd h nofun
  | bindDef node => exact absurd h nofun
  | srcComment node => exact absurd h nofun
  | typeDef node => exact absurd h nofun

theorem visitTraverseDecl_varInt_kept (s s1 : EmitState) (i j : Nat) (d dj : Decl)
    (hi : s.program.decl_list.get? i = some d) (hj : s.program.decl_list.get? j = some dj)
    (hne : i ≠ j) (hv : hasVarIntField dj = true) (h : visitTraverseDecl s i d = .ok s1) :
    ∃ dj1, s1.program.decl_list.get? j = some dj1 ∧ hasVarIntField dj1 = true := by
  by_cases ht : typeDefOfMsg d = false
  · rw [visitTraverseDecl_program s s1 i d ht h]
    exact ⟨dj, hj, hv⟩
  · cases d with
    | typeDef node =>
      cases hn : node.impl with
      | AstStructType oname fields =>
        unfold visitTraverseDecl at h
        simp only [] at h
        unfold visitTypeDef_Go at h
        rw [hn] at h
        simp only [typeName4Go] at h
        split at h
        · exact absurd h nofun
        · rw [← Except.ok.inj h]
          simp only []
          rw [List.get?_eq_getElem?, List.getElem?_set_ne hne, List.getElem?_map,
            ← List.get?_eq_getElem?, hj]
          exact ⟨_, rfl, renameDecl_varInt _ _ dj hv⟩
      | nil => rw [typeDefOfMsg, hn] at ht; exact absurd rfl ht
      | AstPrimType n => rw [typeDefOfMsg, hn] at ht; exact absurd rfl ht
      | AstArrayType t => rw [typeDefOfMsg, hn] at ht; exact absurd rfl ht
      | AstUndefType n t => rw [typeDefOfMsg, hn] at ht; exact absurd rfl ht
    | structType node => exact absurd rfl ht
    | varDecl node => exact absurd rfl ht
    | idGroupDef node => exact absurd rfl ht
    | constDef node => exact absurd rfl ht
    | externVar node => exact absurd rfl ht
    | bindDef node => exact absurd rfl ht
    | srcComment node => exact absurd rfl ht

theorem visitTraverseLoop_varInt (n : Nat) :
    ∀ (i j : Nat) (s : EmitState) (dj : Decl),
      i ≤ j → j < i + n → s.program.decl_list.get? j = some dj → hasVarIntField dj = true →
      ∃ e, visitTraverseLoop n i s = .error e := by
  induction n with
  | zero => intro i j s dj h1 h2; omega
  | succ n ih =>
    intro i j s dj h1 h2 hj hv
    rw [visitTraverseLoop]
    have hlen : j < s.program.decl_list.length := by
      rw [List.get?_eq_some] at hj
      exact hj.1
    have hi : i < s.program.decl_list.length := by omega
    rw [List.get?_eq_get hi]
    simp only []
    cases hd : visitTraverseDecl s i (s.program.decl_list.get ⟨i, hi⟩) with
    | error e => exact ⟨e, rfl⟩
    | ok s1 =>
      simp only []
      by_cases hij : i = j
      · subst hij
        rw [List.get?_eq_get hi] at hj
        rw [Option.some.inj hj] at hd
        cases dj with
        | structType node =>
          unfold visitTraverseDecl at hd
          simp only [] at hd
          obtain ⟨e, he⟩ := visitMsgDefine_Go_varInt s.interp node hv
          rw [he] at hd
          exact absurd hd nofun
        | varDecl node => exact absurd hv nofun
        | idGroupDef node => exact absurd hv nofun
        | constDef node => exact absurd hv nofun
        | externVar node => exact absurd hv nofun
        | bindDef node => exact absurd hv nofun
        | srcComment node => exact absurd hv nofun
        | typeDef node => exact absurd hv nofun
      · obtain ⟨dj1, hj1, hv1⟩ := visitTraverseDecl_varInt_kept s s1 i j _ dj
          (List.get?_eq_get hi) hj hij hv hd
        exact ih (i + 1) j s1 dj1 (by omega) (by omega) hj1 hv1

/-- C39 (amended). That `DoAnalyze` accepts a program does not mean that the emitter
accepts it: the emitter has checks of its own. Every program with a message that has a
field of type `v32` or `v64` makes `DoInterpret` (Go mode) return an error: at the
latest when it comes to the encoder of that message (`var int encode is not
supported`, or the error of the bit assemble mode inside a run of bit fields). -/
theorem varint_field_rejected_by_emitter (interp : interpreter) (srcFile now : String)
    (program : AstProgram) (d : Decl) (hd : d ∈ program.decl_list)
    (hv : hasVarIntField d = true) :
    ∃ e, DoInterpret interp srcFile now program = .error e := by
  obtain ⟨j, hj⟩ := List.get?_of_mem hd
  have hlen : j < program.decl_list.length := by
    rw [List.get?_eq_some] at hj
    exact hj.1
  unfold DoInterpret interpreter.visitProgram interpreter.visitTraverse
  simp only []
  obtain ⟨e, he⟩ := visitTraverseLoop_varInt program.decl_list.length 0 j
    { interp := (((interp.addLine "/*" []).addLine
        " * code auto generated from: %s @%s, Do NOT touch by hand!!!"
        [.str srcFile, .str now]).addLine " * generator %s; mode: %s"
        [.str INTERP_VERSION, .str "golang"]).addLine "*/" [], vars := [], program := program }
    d (Nat.zero_le _) (by omega) hj hv
  rw [he]
  exact ⟨e, rfl⟩

theorem varint_field_rejected_by_emitter_witness :
    ∃ e, DoInterpret NewInterpreter "a.proto" "2024-01-01 00:00:00"
      { mspace := "t", decl_list :=
          [.structType { name := "A", line := 2, fields :=
            [{ name := "a", type_ := .AstPrimType symTypeV32, line := 3 }] }] } = .error e :=
  varint_field_rejected_by_emitter NewInterpreter "a.proto" "2024-01-01 00:00:00" _
    (.structType { name := "A", line := 2, fields :=
      [{ name := "a", type_ := .AstPrimType symTypeV32, line := 3 }] })
    (List.mem_singleton.mpr rfl) rfl

/-- Counterexample to C39: each of these texts is accepted by `DoAnalyze`, and
`DoInterpret` returns an error on the program: a field of type `v32` or `v64` (`var int
encode is not supported`), a field of type `string`, `int` or `any` and an array of
strings or of arrays (`unsupported type`), an array of `u4` (`array elem not int or not
div by 8`), and a constant whose expression names another constant (`symbol not
found`, the emitter does not enter constants into its frames). -/
theorem accepted_programs_rejected_by_emitter :
    (compileText 100 "mspace t\ndefmsg A \x7b\n a v32\n\x7d").toBool = true
    ∧ emitText 100 "mspace t\ndefmsg A \x7b\n a v32\n\x7d"
        = .error (.emit "var int encode is not supported")
    ∧ (compileText 100 "mspace t\ndefmsg A \x7b\n a v64\n\x7d").toBool = true
    ∧ emitText 100 "mspace t\ndefmsg A \x7b\n a v64\n\x7d"
        = .error (.emit "var int encode is not supported")
    ∧ (compileText 100 "mspace t\ndefmsg A \x7b\n s string\n\x7d").toBool = true
    ∧ emitText 100 "mspace t\ndefmsg A \x7b\n s string\n\x7d" = .error (.emit "unsupported type")
    ∧ (compileText 100 "mspace t\ndefmsg A \x7b\n s int\n\x7d").toBool = true
    ∧ emitText 100 "mspace t\ndefmsg A \x7b\n s int\n\x7d" = .error (.emit "unsupported type")
    ∧ (compileText 100 "mspace t\ndefmsg A \x7b\n n u8\n d []u4 -> limit by n\n\x7d").toBool = true
    ∧ emitText 100 "mspace t\ndefmsg A \x7b\n n u8\n d []u4 -> limit by n\n\x7d"
        = .error (.emit "array elem not int or not div by 8")
    ∧ (compileText 100 "mspace t\ndefmsg A \x7b\n n u8\n d []string -> limit by n\n\x7d").toBool
        = true
    ∧ emitText 100 "mspace t\ndefmsg A \x7b\n n u8\n d []string -> limit by n\n\x7d"
        = .error (.emit "unsupported type")
    ∧ (compileText 100 "mspace t\nconst A 1\nconst B A").toBool = true
    ∧ emitText 100 "mspace t\nconst A 1\nconst B A" = .error (.symbolNotFound "A") :=
  ⟨rfl, rfl, rfl, rfl, rfl, rfl, rfl, rfl, rfl, rfl, rfl, rfl, rfl, rfl⟩

/-! ## The range of the id values (semantic.go, interp_go.go) -/

/-- C40 (the code at the failing inputs). `visitIdGroupDefine` does not look at the
range of the values: the group `defid G { A = v }` is accepted for every integer `v`.
For `A = 70000` the emitter writes the constant `A = 70000` and the function
`G_name(id uint16)` with `case A:`; for `defmid M { ON = 65535, OFF }` the value after
65535 is 65536, and the bound id `OFF` is a `case` of the `switch mid` of the dispatch
functions, whose parameter `mid` is a `uint16`. -/
theorem id_value_beyond_uint16_accepted :
    (∀ v : Int, ∃ se1 p1,
      DoAnalyze NewSemanticAnalyzer (programOneId v) = .ok (se1, p1) ∧ idValues p1 = [[v]])
    ∧ parseText 100 "mspace t\ndefid G \x7b A = 70000 \x7d" = .ok (programOneId 70000)
    ∧ (compileText 100 "mspace t\ndefid G \x7b A = 70000 \x7d").toBool = true
    ∧ idConstLines (emitText 100 "mspace t\ndefid G \x7b A = 70000 \x7d") = [("A", 70000)]
    ∧ uint16Lines (emitText 100 "mspace t\ndefid G \x7b A = 70000 \x7d")
        = [("func %s_name(id uint16)(string, bool) \x7b", [.str "G"]), ("case %s:", [.str "A"])]
    ∧ idConstLines (emitText 100
          "mspace t\ndefmid M \x7b ON = 65535, OFF \x7d\ndefmsg Light \x7b\n state u8\n\x7d\nbind OFF Light")
        = [("ON", 65535), ("OFF", 65536)]
    ∧ uint16Lines (emitText 100
          "mspace t\ndefmid M \x7b ON = 65535, OFF \x7d\ndefmsg Light \x7b\n state u8\n\x7d\nbind OFF Light")
        = [("func %s_name(id uint16)(string, bool) \x7b", [.str "M"]),
           ("case %s:", [.str "ON"]), ("case %s:", [.str "OFF"]),
           ("func encodeTMsgById(buf io.Writer, mid uint16, msg interface\x7b\x7d) int \x7b", []),
           ("case %s:", [.str "OFF"]),
           ("func decodeTMsgById(buf io.Reader, mid uint16, msg interface\x7b\x7d) int \x7b", []),
           ("case %s:", [.str "OFF"])] :=
  ⟨fun _ => ⟨_, _, rfl, rfl⟩, rfl, rfl, rfl, rfl, rfl, rfl⟩

/-! ## `msg_decl` reads the field declarations one after the other (parser.go) -/

theorem field_decl_starts_with_id (fuel : Nat) (p p1 : hskParser) (f : AstVarDecl)
    (h : field_decl fuel p = .ok (f, p1)) : p.curToken.type_ = .ID := by
  by_cases hid : p.curToken.type_ = .ID
  · exact hid
  · unfold field_decl at h
    simp only [] at h
    have he : eat p .ID = .error (.parseExpect .ID p.curToken.type_ p.curToken.line) := by
      unfold eat
      rw [if_neg hid]
    rw [he] at h
    exact absurd h nofun

theorem msgBody_fieldDecls (n : Nat) :
    ∀ (fuel : Nat) (ast : AstStructDecl) (p pe : hskParser) (fs : List AstVarDecl),
      fieldDecls fuel n p = .ok (fs, pe) →
      msgBody fuel ast p = msgBody (fuel - n) { ast with fields := ast.fields ++ fs } pe := by
  induction n with
  | zero =>
    intro fuel ast p pe fs h
    rw [fieldDecls] at h
    injection h with h
    rw [← (Prod.mk.inj h).1, ← (Prod.mk.inj h).2, List.append_nil]
    rfl
  | succ n ih =>
    intro fuel ast p pe fs h
    cases fuel with
    | zero => rw [fieldDecls] at h; exact absurd h nofun
    | succ k =>
      rw [fieldDecls] at h
      cases hf : field_decl k p with
      | error e => rw [hf] at h; exact absurd h nofun
      | ok r =>
        obtain ⟨f, p1⟩ := r
        rw [hf] at h
        simp only [] at h
        cases hr : fieldDecls k n p1 with
        | error e => rw [hr] at h; exact absurd h nofun
        | ok r2 =>
          obtain ⟨fs1, pe1⟩ := r2
          rw [hr] at h
          simp only [] at h
          injection h with h
          have hid := field_decl_starts_with_id k p p1 f hf
          rw [msgBody_field k ast p p1 f (by rw [hid]; decide) (by rw [hid]; decide) hf,
            ih k _ p1 pe1 fs1 hr, ← (Prod.mk.inj h).1, ← (Prod.mk.inj h).2,
            Nat.add_sub_add_right]
          simp only [List.append_assoc, List.singleton_append]

/-- C4 (amended). `msg_decl` has no separator between field declarations: its loop calls
`field_decl` again at the token at which the call before stopped. For every message
declaration `defmsg NAME {`, `n` field declarations of any form (with modifiers, array or
named types, a trailing comment) that `field_decl` reads one after the other, and `}`,
the parser succeeds and builds the message with those fields in source order. In
particular this holds for every list of fields `F1 T1 F2 T2 ...` whose types are
keywords of primitive types; scenario S1 written that way,
`mspace test; defmsg Hello { a u8 b u8 }`, is parsed and accepted by the analysis, and so
is, after `const MAX 256;`, the message
`defmsg Buf { len u8 -> max MAX data []u8 -> limit by len //*payload` / `}`, whose fields
have modifiers, an array type and a comment. -/
theorem msg_decl_reads_fields_one_after_the_other (fuel n : Nat) (p pe : hskParser)
    (nameTok lb b next : Token) (tail rest : List Token) (fs : List AstVarDecl)
    (hcur : p.curToken.type_ = .DEFMSG) (hlex : p.lex = nameTok :: lb :: b :: tail)
    (hname : nameTok.type_ = .ID) (hlb : lb.type_ = .LBRACE)
    (hrun : fieldDecls fuel n { p with lex := tail, prevToken := some lb, curToken := b }
      = .ok (fs, pe))
    (hrb : pe.curToken.type_ = .RBRACE) (hnext : pe.lex = next :: rest) (hfuel : n < fuel) :
    msg_decl fuel p
        = .ok ({ name := nameTok.value, line := nameTok.line, fields := fs },
               { pe with lex := rest, prevToken := some pe.curToken, curToken := next })
    ∧ (∀ (fuel1 : Nat) (q : hskParser) (nameTok1 lb1 rb1 next1 : Token) (rest1 : List Token)
        (ts : List (Token × Token)),
        q.curToken.type_ = .DEFMSG →
        q.lex = nameTok1 :: lb1 :: (fieldTokens ts ++ rb1 :: next1 :: rest1) →
        nameTok1.type_ = .ID → lb1.type_ = .LBRACE → rb1.type_ = .RBRACE →
        (∀ t ∈ ts, t.1.type_ = .ID ∧ (typeKeyword t.2.type_).isSome) →
        BuiltinTypes q → ts.length + 1 ≤ fuel1 →
        ∃ q1, msg_decl fuel1 q =
            .ok ({ name := nameTok1.value, line := nameTok1.line,
                   fields := expectedFields ts }, q1)
          ∧ q1.curToken = next1 ∧ q1.lex = rest1)
    ∧ msgFields (parseText 100 "mspace test; defmsg Hello \x7b a u8 b u8 \x7d")
        = [[("a", .AstPrimType "u8", none, none), ("b", .AstPrimType "u8", none, none)]]
    ∧ (compileText 100 "mspace test; defmsg Hello \x7b a u8 b u8 \x7d").toBool = true
    ∧ msgFields (parseText 100 ("mspace test; const MAX 256; "
          ++ "defmsg Buf \x7b len u8 -> max MAX data []u8 -> limit by len //*payload\n\x7d"))
        = [[("len", .AstPrimType "u8", none, none),
            ("data", .AstArrayType (.AstPrimType "u8"), some "len", some "payload")]]
    ∧ (compileText 100 ("mspace test; const MAX 256; "
          ++ "defmsg Buf \x7b len u8 -> max MAX data []u8 -> limit by len //*payload\n\x7d")).toBool
        = true := by
  refine ⟨?_, ?_, rfl, rfl, rfl, rfl⟩
  · have hbody := msgBody_fieldDecls n fuel
      { name := nameTok.value, line := nameTok.line, fields := [] }
      { p with lex := tail, prevToken := some lb, curToken := b } pe fs hrun
    obtain ⟨k, hk⟩ : ∃ k, fuel - n = k + 1 := ⟨fuel - n - 1, by omega⟩
    rw [hk, msgBody, if_neg (by rw [hrb]; decide)] at hbody
    simp only [msg_decl, eat, hcur, hlex, hname, hlb, if_true, hskParser.prevValue,
      hskParser.prevLine]
    rw [hbody]
    simp only [List.nil_append, hrb, hnext, if_true]
  · intro fuel1 q nameTok1 lb1 rb1 next1 rest1 ts h1 h2 h3 h4 h5 h6 h7 h8
    exact (msg_decl_fields_without_separator fuel1 q nameTok1 lb1 rb1 next1 rest1 ts
      h1 h2 h3 h4 h5 h6 h7 h8).1

/-- Witness of C4 (amended): `defmsg Buf { len u8 -> max MAX data []u8 -> limit by len`
with the comment `payload` and `}`: two field declarations with modifiers, an array type
and a comment, read one after the other. -/
theorem msg_decl_reads_fields_one_after_the_other_witness :
    fieldDecls 10 2
        { parserAtBuf with lex := parserAtBuf.lex.drop 3,
                           prevToken := some (tk .LBRACE "\x7b" 2),
                           curToken := tk .ID "len" 2 }
      = .ok ([{ name := "len", type_ := .AstPrimType "u8", line := 2,
                max := some { name := "MAX", line := 2 } },
              { name := "data", type_ := .AstArrayType (.AstPrimType "u8"), line := 2,
                limit := some { name := "len", line := 2 },
                comment := some { value := "payload", line := 2 } }],
             { parserAtBuf with lex := [tk .EOF "EOF" 3],
                                prevToken := some (tk .SCOMMENT "payload" 2),
                                curToken := tk .RBRACE "\x7d" 3 })
    ∧ ∃ p1, msg_decl 10 parserAtBuf
      = .ok ({ name := "Buf", line := 2, fields :=
                [{ name := "len", type_ := .AstPrimType "u8", line := 2,
                   max := some { name := "MAX", line := 2 } },
                 { name := "data", type_ := .AstArrayType (.AstPrimType "u8"), line := 2,
                   limit := some { name := "len", line := 2 },
                   comment := some { value := "payload", line := 2 } }] }, p1) :=
  ⟨rfl, _, (msg_decl_reads_fields_one_after_the_other 10 2 parserAtBuf _
    (tk .ID "Buf" 2) (tk .LBRACE "\x7b" 2) (tk .ID "len" 2) (tk .EOF "EOF" 3) _ []
    _ rfl rfl rfl rfl rfl rfl rfl (by decide)).1⟩

/-! ## Arrays behind a type name that is defined later (semantic.go, `visitMsgDefine`) -/

theorem visitFieldChecks_placeholder (se : semanticAnalyzer) (f : AstVarDecl)
    (name : String) (resolved : AstType) (xorOk ok : Bool)
    (ht : f.type_ = .AstUndefType name resolved) (h1 : f.equ = none) (h2 : f.limit = none)
    (h3 : f.max = none) (h4 : f.min = none) (h5 : f.xor = none) (h6 : f.existIf = none) :
    visitFieldChecks se f xorOk ok = .ok () := by
  unfold visitFieldChecks
  rw [ht]
  simp only [AstType.astType, visitModifier, visitXor, h1, h2, h3, h4, h5, h6]
  rw [if_neg (by decide), if_neg (by simp)]

/-- C8 (the code at the failing input). `visitMsgDefine` asks for `limit by` where
`f.type_.astType() == AST_TP_Array`: every message with a field whose type node is an
array and that has no `limit by` makes `DoAnalyze` return an error. But the test does not
look through a placeholder (`realType` is not applied): when the field names a type
that is defined after the message, `d T` before `type T []u8`, the parser has given the
field an `AstUndefType`, which `type_def` resolves to the array later, and such a field
passes the checks of `visitMsgDefine` without `limit by`. The program is accepted,
while the same message after `type T []u8`, and the field `d []u8`, are rejected. -/
theorem array_behind_forward_type_not_checked :
    (∀ (se : semanticAnalyzer) (program : AstProgram) (node : AstStructDecl) (f : AstVarDecl)
        (elemType : AstType),
      se.firstPass = true → Decl.structType node ∈ program.decl_list → f ∈ node.fields →
      f.type_ = .AstArrayType elemType → f.limit = none →
      ∃ e, DoAnalyze se program = .error e)
    ∧ (∀ (se : semanticAnalyzer) (f : AstVarDecl) (name : String) (resolved : AstType)
        (xorOk ok : Bool),
      f.type_ = .AstUndefType name resolved → f.equ = none → f.limit = none →
      f.max = none → f.min = none → f.xor = none → f.existIf = none →
      visitFieldChecks se f xorOk ok = .ok ())
    ∧ msgFields (parseText 100 "mspace t\ndefmsg A \x7b\n d T\n\x7d\ntype T []u8")
        = [[("d", .AstUndefType "T" (.AstArrayType (.AstPrimType "u8")), none, none)]]
    ∧ (compileText 100 "mspace t\ndefmsg A \x7b\n d T\n\x7d\ntype T []u8").toBool = true
    ∧ msgFields (parseText 100 "mspace t\ntype T []u8\ndefmsg A \x7b\n d T\n\x7d")
        = [[("d", .AstArrayType (.AstPrimType "u8"), none, none)]]
    ∧ compileText 100 "mspace t\ntype T []u8\ndefmsg A \x7b\n d T\n\x7d"
        = .error (.arrayNoLimit "d")
    ∧ compileText 100 "mspace t\ndefmsg A \x7b\n d []u8\n\x7d" = .error (.arrayNoLimit "d") := by
  refine ⟨?_, ?_, rfl, rfl, rfl, rfl, rfl⟩
  · intro se program node f elemType h1 h2 h3 h4 h5
    exact array_without_limit_rejected se program node f elemType h1 h2 h3 h4 h5
  · intro se f name resolved xorOk ok ht h1 h2 h3 h4 h5 h6
    exact visitFieldChecks_placeholder se f name resolved xorOk ok ht h1 h2 h3 h4 h5 h6

/-! ## Modifiers on the first field of a run of bit fields -/

/-- Counterexample to C18: in `const K 5` / `defmsg A` with the fields `hi u4 -> xor K`,
`lo u4` the field `hi` of width 4 opens a run of bit fields and carries `xor`; the
program is accepted, and the emitter applies the `xor` to the assembled byte
(`tmp ^= uint8(K)`) in the encoder and in the decoder. The same `xor` on the field `lo`,
which continues the run, is rejected. -/
theorem xor_on_first_field_of_run_accepted :
    (compileText 100 "mspace t\nconst K 5\ndefmsg A \x7b\n hi u4 -> xor K\n lo u4\n\x7d").toBool
      = true
    ∧ tmpXorLines (emitText 100
        "mspace t\nconst K 5\ndefmsg A \x7b\n hi u4 -> xor K\n lo u4\n\x7d")
      = [[.str "uint8", .str "K"], [.str "uint8", .str "K"]]
    ∧ compileText 100 "mspace t\nconst K 5\ndefmsg A \x7b\n hi u4\n lo u4 -> xor K\n\x7d"
      = .error (.xorNotOnBoundary "lo") := ⟨rfl, rfl, rfl⟩

/-- The analysis accepts `exist if` on the field that opens a run of bit fields
(`hi u4 -> exist if K == 5`, `lo u4`), against its own message `not allow exist if in bit
field`, which it gives for the field that continues the run; the branches of the emitter
for bit fields do not call `wrapExist_Go`, so the condition is in neither the encoder
nor the decoder, where it is for a whole-byte field. -/
theorem exist_if_on_first_field_of_run_dropped :
    (compileText 100
        "mspace t\nconst K 5\ndefmsg A \x7b\n hi u4 -> exist if K == 5\n lo u4\n\x7d").toBool = true
    ∧ existConds (emitText 100
        "mspace t\nconst K 5\ndefmsg A \x7b\n hi u4 -> exist if K == 5\n lo u4\n\x7d") = []
    ∧ compileText 100
        "mspace t\nconst K 5\ndefmsg A \x7b\n hi u4\n lo u4 -> exist if K == 5\n\x7d"
      = .error (.existIfInBitField "lo")
    ∧ existConds (emitText 100
        "mspace t\nconst K 5\ndefmsg A \x7b\n hi u8 -> exist if K == 5\n lo u8\n\x7d")
      = ["K == 5", "K == 5"] := ⟨rfl, rfl, rfl, rfl⟩

end Protoc
